import Mathlib

/-!
# The ARM interpreter of the dual-CPU core: embedding and verified properties

The definitions below embed `src/dual/src/arm/arm.cpp` and
`src/dual/src/arm/handlers/handler32.inl`.  Machine words are natural numbers
reduced modulo `2^32` wherever the C++ arithmetic wraps.  A handler that ends in
`ATOM_PANIC` returns `none`.
-/

namespace dual.arm

/-! ## Data model -/

/-- Truncation of a natural number to an unsigned 32-bit machine word. -/
def u32 (x : Nat) : Nat := x % 4294967296

/-- CPU model tag carried by every core. -/
inductive Model where
  | ARM7
  | ARM9
  | ARM11
  deriving DecidableEq, Repr

/-- Register bank selector (`enum class Bank`), in the order used to index
`state.bank` and `state.spsr`. -/
inductive Bank where
  | None
  | FIQ
  | Supervisor
  | Abort
  | IRQ
  | Undefined
  deriving DecidableEq, Repr

/-! A CPU mode (`enum class Mode`) is kept as the raw five-bit value of the CPSR
mode field, so that a cast `(Mode)state.cpsr.mode` of an invalid field value stays
representable. -/

/-- Mode::User -/
def Mode.User : Nat := 0x10
/-- Mode::FIQ -/
def Mode.FIQ : Nat := 0x11
/-- Mode::IRQ -/
def Mode.IRQ : Nat := 0x12
/-- Mode::Supervisor -/
def Mode.Supervisor : Nat := 0x13
/-- Mode::Abort -/
def Mode.Abort : Nat := 0x17
/-- Mode::Undefined -/
def Mode.Undefined : Nat := 0x1B
/-- Mode::System -/
def Mode.System : Nat := 0x1F

/-- Condition codes (`enum class Condition`), bits 31..28 of an ARM opcode. -/
def Condition.EQ : Nat := 0
def Condition.NE : Nat := 1
def Condition.CS : Nat := 2
def Condition.CC : Nat := 3
def Condition.MI : Nat := 4
def Condition.PL : Nat := 5
def Condition.VS : Nat := 6
def Condition.VC : Nat := 7
def Condition.HI : Nat := 8
def Condition.LS : Nat := 9
def Condition.GE : Nat := 10
def Condition.LT : Nat := 11
def Condition.GT : Nat := 12
def Condition.LE : Nat := 13
def Condition.AL : Nat := 14
def Condition.NV : Nat := 15

/-! ### Status register bit fields

`StatusRegister` is a union of a 32-bit word with the bit fields
`mode:5, thumb:1, mask_fiq:1, mask_irq:1, reserved:19, q:1, v:1, c:1, z:1, n:1`.
A status register is kept as its word; the accessors read and write the fields. -/

/-- Field `mode` (bits 4..0). -/
def sr_mode (w : Nat) : Nat := w % 32
/-- Field `thumb` (bit 5). -/
def sr_thumb (w : Nat) : Nat := w / 32 % 2
/-- Field `mask_fiq` (bit 6). -/
def sr_mask_fiq (w : Nat) : Nat := w / 64 % 2
/-- Field `mask_irq` (bit 7). -/
def sr_mask_irq (w : Nat) : Nat := w / 128 % 2
/-- Field `q` (bit 27). -/
def sr_q (w : Nat) : Nat := w / 134217728 % 2
/-- Field `v` (bit 28). -/
def sr_v (w : Nat) : Nat := w / 268435456 % 2
/-- Field `c` (bit 29). -/
def sr_c (w : Nat) : Nat := w / 536870912 % 2
/-- Field `z` (bit 30). -/
def sr_z (w : Nat) : Nat := w / 1073741824 % 2
/-- Field `n` (bit 31). -/
def sr_n (w : Nat) : Nat := w / 2147483648 % 2

/-- Assignment to field `mode`; the value is truncated to five bits. -/
def sr_set_mode (w m : Nat) : Nat := w - w % 32 + m % 32
/-- Assignment to field `thumb`. -/
def sr_set_thumb (w b : Nat) : Nat := w - (w / 32 % 2) * 32 + (b % 2) * 32
/-- Assignment to field `mask_irq`. -/
def sr_set_mask_irq (w b : Nat) : Nat := w - (w / 128 % 2) * 128 + (b % 2) * 128
/-- Assignment to field `q`. -/
def sr_set_q (w b : Nat) : Nat := w - (w / 134217728 % 2) * 134217728 + (b % 2) * 134217728
/-- Assignment to field `v`. -/
def sr_set_v (w b : Nat) : Nat := w - (w / 268435456 % 2) * 268435456 + (b % 2) * 268435456
/-- Assignment to field `c`. -/
def sr_set_c (w b : Nat) : Nat := w - (w / 536870912 % 2) * 536870912 + (b % 2) * 536870912
/-- Assignment to field `z`. -/
def sr_set_z (w b : Nat) : Nat := w - (w / 1073741824 % 2) * 1073741824 + (b % 2) * 1073741824
/-- Assignment to field `n`. -/
def sr_set_n (w b : Nat) : Nat := w - (w / 2147483648 % 2) * 2147483648 + (b % 2) * 2147483648

/-! ### Memory -/

/-- Modelled from the spec: the memory bus (`Memory`, `ReadWord`, `WriteWord`,
`ReadWordCode`, `ReadHalfCode`) is not part of the available sources.  Memory is a
flat little-endian RAM of bytes indexed by 32-bit address; a just-written word
reads back as written. -/
structure Memory where
  byte : Nat → Nat

/-- Byte of memory at an address (addresses wrap at `2^32`). -/
def Memory.get (m : Memory) (address : Nat) : Nat := m.byte (u32 address) % 256

/-- Store of one byte. -/
def Memory.set (m : Memory) (address value : Nat) : Memory :=
  { byte := fun x => if x = u32 address then value % 256 else m.byte x }

/-- Modelled from the spec: 32-bit little-endian read of the RAM. -/
def ReadWord (m : Memory) (address : Nat) : Nat :=
  m.get address + 256 * m.get (address + 1) + 65536 * m.get (address + 2)
    + 16777216 * m.get (address + 3)

/-- Modelled from the spec: 16-bit little-endian read of the RAM. -/
def ReadHalf (m : Memory) (address : Nat) : Nat :=
  m.get address + 256 * m.get (address + 1)

/-- Modelled from the spec: 32-bit little-endian write to the RAM. -/
def WriteWord (m : Memory) (address value : Nat) : Memory :=
  (((m.set address value).set (address + 1) (value / 256)).set (address + 2)
    (value / 65536)).set (address + 3) (value / 16777216)

/-! ### CPU object -/

/-- The `ARM` object: the register file `state` (`reg[16]` with `r13 = reg[13]`,
`r14 = reg[14]`, `r15 = reg[15]`, `bank[6][7]`, `cpsr`, `spsr[6]`), the selected
SPSR slot `p_spsr` (kept as the index of the slot it points to), the two pipeline
slots `opcode[0]`/`opcode[1]`, the model tag, the exception base, the
waiting-for-IRQ and IRQ-line flags, the attached memory, the cycle counter and the
scheduler horizon read by `Run`. -/
structure ARM where
  reg : Nat → Nat
  bank : Bank → Nat → Nat
  cpsr : Nat
  spsr : Bank → Nat
  p_spsr : Bank
  opcode0 : Nat
  opcode1 : Nat
  model : Model
  exception_base : Nat
  wait_for_irq : Bool
  irq_flag : Bool
  memory : Memory
  cycle_counter : Nat
  timestamp_target : Nat

/-- Assignment `state.reg[i] = v`. -/
def ARM.setReg (a : ARM) (i v : Nat) : ARM :=
  { a with reg := fun j => if j = i then v else a.reg j }

/-- Assignment `state.bank[b][i] = v`. -/
def ARM.setBank (a : ARM) (b : Bank) (i v : Nat) : ARM :=
  { a with bank := fun b' j => if b' = b ∧ j = i then v else a.bank b' j }

/-- Assignment `state.spsr[b] = v`. -/
def ARM.setSpsr (a : ARM) (b : Bank) (v : Nat) : ARM :=
  { a with spsr := fun b' => if b' = b then v else a.spsr b' }

/-! ## arm.cpp -/

/-- One iteration of the body of the loop in `ARM::BuildConditionTable`: the
sixteen assignments made for one value of `flags`. -/
def BuildConditionTable.body (table : Nat → Nat → Bool) (flags : Nat) : Nat → Nat → Bool :=
  let n : Bool := flags &&& 8 != 0
  let z : Bool := flags &&& 4 != 0
  let c : Bool := flags &&& 2 != 0
  let v : Bool := flags &&& 1 != 0
  let set (t : Nat → Nat → Bool) (cond : Nat) (b : Bool) : Nat → Nat → Bool :=
    fun i j => if i = cond ∧ j = flags then b else t i j
  let t := set table Condition.EQ z
  let t := set t Condition.NE (!z)
  let t := set t Condition.CS c
  let t := set t Condition.CC (!c)
  let t := set t Condition.MI n
  let t := set t Condition.PL (!n)
  let t := set t Condition.VS v
  let t := set t Condition.VC (!v)
  let t := set t Condition.HI (c && !z)
  let t := set t Condition.LS (!c || z)
  let t := set t Condition.GE (n == v)
  let t := set t Condition.LT (n != v)
  let t := set t Condition.GT (!(z || (n != v)))
  let t := set t Condition.LE (z || (n != v))
  let t := set t Condition.AL true
  let t := set t Condition.NV true
  t

/-- The function `ARM::BuildConditionTable`: `for(int flags = 0; flags < 16; flags++)`. -/
def BuildConditionTable (table : Nat → Nat → Bool) : Nat → Nat → Bool :=
  (List.range 16).foldl BuildConditionTable.body table

/-- The member `condition_table` as left by the constructor, which calls
`BuildConditionTable` once; nothing else writes the table. -/
def condition_table : Nat → Nat → Bool := BuildConditionTable (fun _ _ => false)

/-- Modelled from the spec: `EvaluateCondition` is declared in `arm.hpp`, which is
not part of the available sources.  It looks the condition up in the precomputed
table at the flag state N,Z,C,V held in bits 31..28 of the CPSR. -/
def EvaluateCondition (a : ARM) (condition : Nat) : Bool :=
  condition_table condition (a.cpsr / 268435456 % 16)

/-- The function `ARM::GetRegisterBankByMode`; `none` is the panic on an invalid mode. -/
def GetRegisterBankByMode (mode : Nat) : Option Bank :=
  if mode = Mode.User then some Bank.None
  else if mode = Mode.System then some Bank.None
  else if mode = Mode.FIQ then some Bank.FIQ
  else if mode = Mode.IRQ then some Bank.IRQ
  else if mode = Mode.Supervisor then some Bank.Supervisor
  else if mode = Mode.Abort then some Bank.Abort
  else if mode = Mode.Undefined then some Bank.Undefined
  else none

/-- The two five-iteration copy loops `dst[i] = state.reg[8 + i]` into a bank. -/
def saveHigh (a : ARM) (b : Bank) : ARM :=
  (List.range 5).foldl (fun s i => s.setBank b i (s.reg (8 + i))) a

/-- The five-iteration copy loop `state.reg[8 + i] = state.bank[b][i]`. -/
def loadHigh (a : ARM) (b : Bank) : ARM :=
  (List.range 5).foldl (fun s i => s.setReg (8 + i) (s.bank b i)) a

/-- The function `ARM::SwitchMode`. -/
def SwitchMode (a : ARM) (new_mode : Nat) : Option ARM :=
  match GetRegisterBankByMode (sr_mode a.cpsr), GetRegisterBankByMode new_mode with
  | some old_bank, some new_bank =>
    let a := { a with cpsr := sr_set_mode a.cpsr new_mode, p_spsr := new_bank }
    if old_bank = new_bank then
      some a
    else
      let a :=
        if old_bank = Bank.FIQ then
          loadHigh (saveHigh a Bank.FIQ) Bank.None
        else if new_bank = Bank.FIQ then
          loadHigh (saveHigh a Bank.None) Bank.FIQ
        else a
      let a := a.setBank old_bank 5 (a.reg 13)
      let a := a.setBank old_bank 6 (a.reg 14)
      let a := a.setReg 13 (a.bank new_bank 5)
      let a := a.setReg 14 (a.bank new_bank 6)
      some a
  | _, _ => none

/-- Modelled from the spec: `ReadWordCode` (declared in `arm.hpp`) fetches a 32-bit
opcode from the memory bus. -/
def ReadWordCode (a : ARM) (address : Nat) : Nat := ReadWord a.memory address

/-- Modelled from the spec: `ReadHalfCode` (declared in `arm.hpp`) fetches a 16-bit
opcode from the memory bus. -/
def ReadHalfCode (a : ARM) (address : Nat) : Nat := ReadHalf a.memory address

/-- The function `ARM::ReloadPipeline32`. -/
def ReloadPipeline32 (a : ARM) : ARM :=
  let a := { a with opcode0 := ReadWordCode a (a.reg 15) }
  let a := { a with opcode1 := ReadWordCode a (a.reg 15 + 4) }
  a.setReg 15 (u32 (a.reg 15 + 8))

/-- The function `ARM::ReloadPipeline16`. -/
def ReloadPipeline16 (a : ARM) : ARM :=
  let a := { a with opcode0 := ReadHalfCode a (a.reg 15) }
  let a := { a with opcode1 := ReadHalfCode a (a.reg 15 + 2) }
  a.setReg 15 (u32 (a.reg 15 + 4))

/-- The function `ARM::SignalIRQ`. -/
def SignalIRQ (a : ARM) : Option ARM :=
  if sr_mask_irq a.cpsr ≠ 0 then
    some a
  else
    let a := a.setSpsr Bank.IRQ a.cpsr
    match SwitchMode a Mode.IRQ with
    | none => none
    | some a =>
      let a := { a with cpsr := sr_set_mask_irq a.cpsr 1 }
      let a :=
        if sr_thumb a.cpsr ≠ 0 then
          let a := { a with cpsr := sr_set_thumb a.cpsr 0 }
          a.setReg 14 (a.reg 15)
        else
          a.setReg 14 (u32 (a.reg 15 + 4294967296 - 4))
      let a := a.setReg 15 (u32 (a.exception_base + 0x18))
      some (ReloadPipeline32 a)

/-! ## handlers/handler32.inl: helpers declared outside the available sources -/

/-- Modelled from the spec: `SetZeroAndSignFlag` (declared outside the available
sources) sets Z when the value is zero and N to bit 31 of the value. -/
def SetZeroAndSignFlag (a : ARM) (value : Nat) : ARM :=
  let cpsr := sr_set_n a.cpsr (u32 value / 2147483648)
  { a with cpsr := sr_set_z cpsr (if u32 value = 0 then 1 else 0) }

/-- Modelled from the spec: `ADD` (declared outside the available sources),
"arithmetic ops write NZCV from the adder". -/
def ADD (a : ARM) (op1 op2 : Nat) (set_flags : Bool) : Nat × ARM :=
  let result := u32 (op1 + op2)
  if set_flags then
    let a := SetZeroAndSignFlag a result
    let cpsr := sr_set_c a.cpsr ((op1 + op2) / 4294967296)
    let overflow := ((0xFFFFFFFF ^^^ (op1 ^^^ op2)) &&& (op2 ^^^ result)) >>> 31
    (result, { a with cpsr := sr_set_v cpsr overflow })
  else
    (result, a)

/-- Modelled from the spec: `ADC` (declared outside the available sources), the
addition with the carry flag as carry-in. -/
def ADC (a : ARM) (op1 op2 : Nat) (set_flags : Bool) : Nat × ARM :=
  let op3 := sr_c a.cpsr
  let result := u32 (op1 + op2 + op3)
  if set_flags then
    let a := SetZeroAndSignFlag a result
    let cpsr := sr_set_c a.cpsr ((op1 + op2 + op3) / 4294967296)
    let overflow := ((0xFFFFFFFF ^^^ (op1 ^^^ op2)) &&& (op2 ^^^ result)) >>> 31
    (result, { a with cpsr := sr_set_v cpsr overflow })
  else
    (result, a)

/-- Modelled from the spec: `SUB` (declared outside the available sources); the
carry flag is the inverted borrow. -/
def SUB (a : ARM) (op1 op2 : Nat) (set_flags : Bool) : Nat × ARM :=
  let result := u32 (op1 + 4294967296 - u32 op2)
  if set_flags then
    let a := SetZeroAndSignFlag a result
    let cpsr := sr_set_c a.cpsr (if op2 ≤ op1 then 1 else 0)
    let overflow := ((op1 ^^^ op2) &&& (op1 ^^^ result)) >>> 31
    (result, { a with cpsr := sr_set_v cpsr overflow })
  else
    (result, a)

/-- Modelled from the spec: `SBC` (declared outside the available sources), the
subtraction with the inverted carry flag as borrow-in. -/
def SBC (a : ARM) (op1 op2 : Nat) (set_flags : Bool) : Nat × ARM :=
  let op3 := 1 - sr_c a.cpsr
  let result := u32 (op1 + 8589934592 - u32 op2 - op3)
  if set_flags then
    let a := SetZeroAndSignFlag a result
    let cpsr := sr_set_c a.cpsr (if op2 + op3 ≤ op1 then 1 else 0)
    let overflow := ((op1 ^^^ op2) &&& (op1 ^^^ result)) >>> 31
    (result, { a with cpsr := sr_set_v cpsr overflow })
  else
    (result, a)

/-- Modelled from the spec: `DoShift` (declared outside the available sources), the
barrel shifter: LSL/LSR/ASR/ROR of the operand by the low byte of the amount; an
immediate amount of zero encodes LSR #32, ASR #32 and RRX.  Returns the shifted
operand and the shifter carry-out. -/
def DoShift (opcode operand amount carry : Nat) (immediate : Bool) : Nat × Nat :=
  let amount := amount % 256
  match opcode with
  | 0 =>
    if amount = 0 then (operand, carry)
    else if amount ≥ 32 then (0, if amount > 32 then 0 else operand % 2)
    else (u32 (operand <<< amount), (operand >>> (32 - amount)) % 2)
  | 1 =>
    if amount = 0 ∧ !immediate then (operand, carry)
    else
      let amount := if amount = 0 then 32 else amount
      if amount ≥ 32 then (0, if amount > 32 then 0 else operand / 2147483648 % 2)
      else (operand >>> amount, (operand >>> (amount - 1)) % 2)
  | 2 =>
    if amount = 0 ∧ !immediate then (operand, carry)
    else
      let amount := if amount = 0 then 32 else amount
      let msb := operand / 2147483648 % 2
      if amount ≥ 32 then (0xFFFFFFFF * msb, msb)
      else ((operand >>> amount) ||| u32 ((0xFFFFFFFF * msb) <<< (32 - amount)),
            (operand >>> (amount - 1)) % 2)
  | _ =>
    if amount ≠ 0 ∨ !immediate then
      if amount = 0 then (operand, carry)
      else
        let amount := amount % 32
        let operand := u32 ((operand >>> amount) ||| (operand <<< (32 - amount)))
        (operand, operand / 2147483648 % 2)
    else
      ((operand >>> 1) ||| u32 (carry <<< 31), operand % 2)

/-- Builtin `__builtin_popcount`: the number of one bits of a 32-bit value. -/
def popcount (x : Nat) : Nat := ((List.range 32).filter (fun i => x.testBit i)).length

/-- Count of trailing zero bits, `fuel` positions deep. -/
def ctzAux : Nat → Nat → Nat
  | 0, _ => 0
  | fuel + 1, x => if x % 2 = 1 then 0 else 1 + ctzAux fuel (x / 2)

/-- Builtin `__builtin_ctz`: the index of the lowest one bit of a non-zero 32-bit
value. -/
def ctz (x : Nat) : Nat := ctzAux 32 x

/-- Count of leading zero bits below bit position `n`. -/
def clzAux : Nat → Nat → Nat
  | 0, _ => 0
  | n + 1, x => if x.testBit n then 0 else 1 + clzAux n x

/-- Builtin `__builtin_clz`: the number of leading zero bits of a non-zero 32-bit
value. -/
def clz (x : Nat) : Nat := clzAux 32 x

/-! ## handlers/handler32.inl -/

/-- The operand stage of `ARM_DataProcessing` (lines 27 to 60): the values of
`op1`, `op2` and `carry` that reach the `switch`. -/
def ARM_DataProcessing.operands (immediate : Bool) (field4 instruction : Nat) (a : ARM) :
    Nat × Nat × Nat :=
  let reg_op1 := (instruction >>> 16) &&& 0xF
  let reg_op2 := (instruction >>> 0) &&& 0xF
  let op1 := a.reg reg_op1
  let carry := sr_c a.cpsr
  if immediate then
    let value := instruction &&& 0xFF
    let shift := ((instruction >>> 8) &&& 0xF) * 2
    if shift ≠ 0 then
      (op1, u32 ((value >>> shift) ||| (value <<< (32 - shift))), (value >>> (shift - 1)) &&& 1)
    else
      (op1, value, carry)
  else
    let shift_type := (field4 >>> 1) &&& 3
    let shift_imm : Bool := field4 % 2 = 0
    let op2 := a.reg reg_op2
    if shift_imm then
      let shift := (instruction >>> 7) &&& 0x1F
      let r := DoShift shift_type op2 shift carry shift_imm
      (op1, r.1, r.2)
    else
      let shift := a.reg ((instruction >>> 8) &&& 0xF)
      let op1 := if reg_op1 = 15 then u32 (op1 + 4) else op1
      let op2 := if reg_op2 = 15 then u32 (op2 + 4) else op2
      let r := DoShift shift_type op2 shift carry shift_imm
      (op1, r.1, r.2)

/-- The pair of statements `SetZeroAndSignFlag(value); cpsr.c = carry;`. -/
def logicalFlags (a : ARM) (value carry : Nat) : ARM :=
  let a := SetZeroAndSignFlag a value
  { a with cpsr := sr_set_c a.cpsr carry }

/-- The `switch(opcode)` of `ARM_DataProcessing` (lines 65 to 140); `result` is
the reference `m_state.reg[reg_dst]`. -/
def ARM_DataProcessing.execute (opcode : Nat) (set_flags : Bool) (reg_dst op1 op2 carry : Nat)
    (a : ARM) : ARM :=
  match opcode with
  | 0 =>
    let a := a.setReg reg_dst (op1 &&& op2)
    if set_flags then logicalFlags a (a.reg reg_dst) carry else a
  | 1 =>
    let a := a.setReg reg_dst (op1 ^^^ op2)
    if set_flags then logicalFlags a (a.reg reg_dst) carry else a
  | 2 => let r := SUB a op1 op2 set_flags; r.2.setReg reg_dst r.1
  | 3 => let r := SUB a op2 op1 set_flags; r.2.setReg reg_dst r.1
  | 4 => let r := ADD a op1 op2 set_flags; r.2.setReg reg_dst r.1
  | 5 => let r := ADC a op1 op2 set_flags; r.2.setReg reg_dst r.1
  | 6 => let r := SBC a op1 op2 set_flags; r.2.setReg reg_dst r.1
  | 7 => let r := SBC a op2 op1 set_flags; r.2.setReg reg_dst r.1
  | 8 => logicalFlags a (op1 &&& op2) carry
  | 9 => logicalFlags a (op1 ^^^ op2) carry
  | 10 => (SUB a op1 op2 true).2
  | 11 => (ADD a op1 op2 true).2
  | 12 =>
    let a := a.setReg reg_dst (op1 ||| op2)
    if set_flags then logicalFlags a (a.reg reg_dst) carry else a
  | 13 =>
    let a := a.setReg reg_dst op2
    if set_flags then logicalFlags a (a.reg reg_dst) carry else a
  | 14 =>
    let a := a.setReg reg_dst (op1 &&& (0xFFFFFFFF ^^^ op2))
    if set_flags then logicalFlags a (a.reg reg_dst) carry else a
  | _ =>
    let a := a.setReg reg_dst (0xFFFFFFFF ^^^ op2)
    if set_flags then logicalFlags a (a.reg reg_dst) carry else a

/-- The statements `auto spsr = *m_spsr; SwitchMode((Mode)spsr.mode);
m_state.cpsr = spsr;`. -/
def restoreSpsr (a : ARM) : Option ARM :=
  let spsr := a.spsr a.p_spsr
  match SwitchMode a (sr_mode spsr) with
  | none => none
  | some a => some { a with cpsr := spsr }

/-- The handler `ARM_DataProcessing<immediate, opcode, set_flags, field4>`. -/
def ARM_DataProcessing (immediate : Bool) (opcode : Nat) (set_flags : Bool) (field4 : Nat)
    (instruction : Nat) (a : ARM) : Option ARM :=
  let reg_dst := (instruction >>> 12) &&& 0xF
  let ops := ARM_DataProcessing.operands immediate field4 instruction a
  let a := ARM_DataProcessing.execute opcode set_flags reg_dst ops.1 ops.2.1 ops.2.2 a
  if reg_dst = 15 then
    match (if set_flags then restoreSpsr a else some a) with
    | none => none
    | some a =>
      if opcode ≠ 8 ∧ opcode ≠ 9 ∧ opcode ≠ 10 ∧ opcode ≠ 11 then
        if sr_thumb a.cpsr ≠ 0 then
          some (ReloadPipeline16 a)
        else
          some (ReloadPipeline32 a)
      else
        some a
  else
    some (a.setReg 15 (u32 (a.reg 15 + 4)))

/-- The handler `ARM_Hint`; `none` is the panic on an unhandled hint. -/
def ARM_Hint (instruction : Nat) (a : ARM) : Option ARM :=
  let type := instruction &&& 0xFF
  if type = 0 then
    some (a.setReg 15 (u32 (a.reg 15 + 4)))
  else if type = 3 then
    let a := { a with wait_for_irq := true }
    some (a.setReg 15 (u32 (a.reg 15 + 4)))
  else
    none

/-- The byte-lane mask that `ARM_StatusTransfer` builds from the field `fsxc`. -/
def fsxcMask (fsxc : Nat) : Nat :=
  let mask := 0
  let mask := if fsxc &&& 1 ≠ 0 then mask ||| 0x000000FF else mask
  let mask := if fsxc &&& 2 ≠ 0 then mask ||| 0x0000FF00 else mask
  let mask := if fsxc &&& 4 ≠ 0 then mask ||| 0x00FF0000 else mask
  let mask := if fsxc &&& 8 ≠ 0 then mask ||| 0xFF000000 else mask
  mask

/-- The operand `op` of an MSR: the rotated 8-bit immediate or the register `Rm`.
For a rotation of zero the C++ expression shifts left by the full width; both the
truncating and the count-masking reading of that shift give the unrotated value. -/
def ARM_StatusTransfer.operand (immediate : Bool) (instruction : Nat) (a : ARM) : Nat :=
  if immediate then
    let value := instruction &&& 0xFF
    let shift := ((instruction >>> 8) &&& 0xF) * 2
    u32 ((value >>> shift) ||| (value <<< (32 - shift)))
  else
    a.reg (instruction &&& 0xF)

/-- The handler `ARM_StatusTransfer<immediate, use_spsr, to_status>`. -/
def ARM_StatusTransfer (immediate use_spsr to_status : Bool) (instruction : Nat) (a : ARM) :
    Option ARM :=
  if to_status then
    let fsxc := (instruction >>> 16) &&& 0xF
    if immediate ∧ fsxc = 0 then
      ARM_Hint instruction a
    else
      let op := ARM_StatusTransfer.operand immediate instruction a
      let mask := fsxcMask fsxc
      let value := op &&& mask
      if !use_spsr then
        match (if mask &&& 0xFF ≠ 0 then SwitchMode a (value &&& 0x1F) else some a) with
        | none => none
        | some a =>
          let a := { a with cpsr := (a.cpsr &&& (0xFFFFFFFF ^^^ mask)) ||| value }
          some (a.setReg 15 (u32 (a.reg 15 + 4)))
      else
        let a := a.setSpsr a.p_spsr ((a.spsr a.p_spsr &&& (0xFFFFFFFF ^^^ mask)) ||| value)
        some (a.setReg 15 (u32 (a.reg 15 + 4)))
  else
    let dst := (instruction >>> 12) &&& 0xF
    let a := if use_spsr then a.setReg dst (a.spsr a.p_spsr) else a.setReg dst a.cpsr
    some (a.setReg 15 (u32 (a.reg 15 + 4)))

/-- The handler `ARM_SWI`. -/
def ARM_SWI (_instruction : Nat) (a : ARM) : Option ARM :=
  let a := a.setSpsr Bank.Supervisor a.cpsr
  match SwitchMode a Mode.Supervisor with
  | none => none
  | some a =>
    let a := { a with cpsr := sr_set_mask_irq a.cpsr 1 }
    let a := a.setReg 14 (u32 (a.reg 15 + 4294967296 - 4))
    let a := a.setReg 15 (u32 (a.exception_base + 0x08))
    some (ReloadPipeline32 a)

/-- The body of the transfer loop of `ARM_BlockDataTransfer` (lines 725 to 737)
for register `i`: the address is advanced before the access when `pre == add` and
after it otherwise.  Returns the new `address` and the CPU. -/
def ARM_BlockDataTransfer.transfer (pre add load : Bool) (i address : Nat) (a : ARM) :
    Nat × ARM :=
  let address := if pre = add then u32 (address + 4) else address
  let a :=
    if load then
      a.setReg i (ReadWord a.memory address)
    else
      { a with memory := WriteWord a.memory address (a.reg i) }
  let address := if pre ≠ add then u32 (address + 4) else address
  (address, a)

/-- The transfer loop of `ARM_BlockDataTransfer` (lines 715 to 740):
`while(remaining != 0)` picks the lowest register left in `remaining`, transfers
it and clears its bit.  The first argument bounds the number of iterations; the
loop returns `none` only if the bound is reached with registers left. -/
def ARM_BlockDataTransfer.loop (pre add load : Bool) : Nat → Nat → Nat → ARM → Option ARM
  | 0, remaining, _, a => if remaining = 0 then some a else none
  | fuel + 1, remaining, address, a =>
    if remaining = 0 then
      some a
    else
      let i := ctz remaining
      let r := ARM_BlockDataTransfer.transfer pre add load i address a
      ARM_BlockDataTransfer.loop pre add load fuel
        (remaining &&& (0xFFFFFFFF ^^^ (1 <<< i))) r.1 r.2

/-- The final base-register writeback of `ARM_BlockDataTransfer` (lines 753 to 771). -/
def ARM_BlockDataTransfer.writeback (load : Bool) (list base base_new : Nat)
    (base_is_last : Bool) (a : ARM) : ARM :=
  if load then
    match a.model with
    | Model.ARM7 =>
      if list &&& (1 <<< base) = 0 then a.setReg base base_new else a
    | _ =>
      if !base_is_last ∨ list = 1 <<< base then a.setReg base base_new else a
  else
    a.setReg base base_new

/-- The handler `ARM_BlockDataTransfer<pre, add, user_mode, writeback, load>`, built
with the compiler builtins; `none` is a panic. -/
def ARM_BlockDataTransfer (pre add user_mode writeback load : Bool) (instruction : Nat)
    (a : ARM) : Option ARM :=
  let list0 := instruction &&& 0xFFFF
  let base := (instruction >>> 16) &&& 0xF
  let address := a.reg base
  if a.model = Model.ARM11 ∧ (list0 = 0 ∨ (writeback = true ∧ list0 &&& (1 <<< base) ≠ 0)) then
    none
  else
    let bytes := if list0 ≠ 0 then popcount list0 * 4 else 16 * 4
    let base_is_first : Bool := list0 ≠ 0 ∧ ctz list0 = base
    let base_is_last : Bool := list0 ≠ 0 ∧ 31 - clz list0 = base
    let list := if list0 = 0 ∧ a.model = Model.ARM7 then 1 <<< 15 else list0
    let transfer_pc : Bool := list &&& (1 <<< 15) ≠ 0
    let address := if add then address else u32 (address + 4294967296 - bytes)
    let base_new := if add then u32 (address + bytes) else address
    let a := a.setReg 15 (u32 (a.reg 15 + 4))
    let a :=
      if writeback ∧ !load ∧ a.model = Model.ARM7 ∧ !base_is_first then
        a.setReg base base_new
      else a
    let mode := sr_mode a.cpsr
    match (if user_mode ∧ (!load ∨ !transfer_pc) then SwitchMode a Mode.User else some a) with
    | none => none
    | some a =>
      match ARM_BlockDataTransfer.loop pre add load 16 list address a with
      | none => none
      | some a =>
        match (if user_mode then
                 (if load ∧ transfer_pc then restoreSpsr a else SwitchMode a mode)
               else some a) with
        | none => none
        | some a =>
          let a :=
            if writeback then
              ARM_BlockDataTransfer.writeback load list base base_new base_is_last a
            else a
          if load ∧ transfer_pc then
            let a :=
              if a.reg 15 % 2 = 1 ∧ !user_mode ∧ a.model ≠ Model.ARM7 then
                let a := { a with cpsr := sr_set_thumb a.cpsr 1 }
                a.setReg 15 (a.reg 15 &&& 0xFFFFFFFE)
              else a
            if sr_thumb a.cpsr ≠ 0 then
              some (ReloadPipeline16 a)
            else
              some (ReloadPipeline32 a)
          else
            some a

/-- The dispatch tables `s_opcode_lut_16` and `s_opcode_lut_32` are generated at
compile time outside the available sources; they are parameters of `Run`.  An
entry takes the opcode and the CPU and returns the CPU after the handler, or
`none` when the handler panics. -/
structure Handlers where
  lut16 : Nat → Nat → ARM → Option ARM
  lut32 : Nat → Nat → ARM → Option ARM

/-- Modelled from the spec: `cycle_counter.AddDeviceCycles` (the cycle counter is
not part of the available sources) advances the device clock of this CPU. -/
def AddDeviceCycles (a : ARM) (n : Nat) : ARM :=
  { a with cycle_counter := a.cycle_counter + n }

/-- The body of the loop of `ARM::Run` from `const u32 instruction = opcode[0]`
to the end of the Thumb/ARM dispatch. -/
def Run.dispatch (h : Handlers) (a : ARM) : Option ARM :=
  let instruction := a.opcode0
  if sr_thumb a.cpsr ≠ 0 then
    let a := a.setReg 15 (a.reg 15 &&& 0xFFFFFFFE)
    let a := { a with opcode0 := a.opcode1 }
    let a := { a with opcode1 := ReadHalfCode a (a.reg 15) }
    h.lut16 (instruction >>> 5) instruction a
  else
    let a := a.setReg 15 (a.reg 15 &&& 0xFFFFFFFC)
    let a := { a with opcode0 := a.opcode1 }
    let a := { a with opcode1 := ReadWordCode a (a.reg 15) }
    let condition := instruction >>> 28
    if EvaluateCondition a condition then
      let hash := ((instruction >>> 16) &&& 0xFF0) ||| ((instruction >>> 4) &&& 0x00F)
      let hash := if condition = Condition.NV then hash ||| 4096 else hash
      h.lut32 hash instruction a
    else
      some (a.setReg 15 (u32 (a.reg 15 + 4)))

/-- The loop of `ARM::Run`.  The first argument is the value of `cycles` before
the test `cycles-- > 0`; inside the body the variable holds one less. -/
def Run.loop (h : Handlers) : Nat → ARM → Option ARM
  | 0, a => some a
  | cycles + 1, a =>
    if a.cycle_counter < a.timestamp_target then
      match (if a.irq_flag then SignalIRQ a else some a) with
      | none => none
      | some a =>
        match Run.dispatch h a with
        | none => none
        | some a =>
          let a := AddDeviceCycles a 1
          if a.wait_for_irq then
            some (AddDeviceCycles a cycles)
          else
            Run.loop h cycles a
    else
      some a

/-- The function `ARM::Run`. -/
def Run (h : Handlers) (cycles : Nat) (a : ARM) : Option ARM :=
  if a.wait_for_irq then
    some (AddDeviceCycles a cycles)
  else
    Run.loop h cycles a

/-- Modelled from the spec: `ReadByte` of the memory bus (not part of the available
sources), one byte of the flat RAM. -/
def ReadByte (m : Memory) (address : Nat) : Nat := m.get address

/-- Modelled from the spec: `WriteByte` of the memory bus, one byte of the flat
RAM. -/
def WriteByte (m : Memory) (address value : Nat) : Memory := m.set address value

/-- Modelled from the spec: `ReadWordRotate` (declared in `arm.hpp`): a misaligned
word read returns the aligned word rotated right by `(address & 3) * 8` bits. -/
def ReadWordRotate (m : Memory) (address : Nat) : Nat :=
  let word := ReadWord m (u32 address &&& 0xFFFFFFFC)
  let shift := (address &&& 3) * 8
  u32 ((word >>> shift) ||| (word <<< (32 - shift)))

/-- The handler `ARM_Undefined`: in this revision `ATOM_PANIC` alone (the exception
entry below it is commented out); a panic is `none`. -/
def ARM_Undefined (_instruction : Nat) (_a : ARM) : Option ARM := none

/-- The handler `ARM_Unimplemented`: `ATOM_PANIC` alone. -/
def ARM_Unimplemented (_instruction : Nat) (_a : ARM) : Option ARM := none

/-- The offset of `ARM_SingleDataTransfer`: the 12-bit immediate, or the register
`instruction & 0xF` shifted by an immediate amount. -/
def ARM_SingleDataTransfer.offset (immediate : Bool) (instruction : Nat) (a : ARM) : Nat :=
  if immediate then
    instruction &&& 0xFFF
  else
    let carry := sr_c a.cpsr
    let opcode := (instruction >>> 5) &&& 3
    let amount := (instruction >>> 7) &&& 0x1F
    (DoShift opcode (a.reg (instruction &&& 0xF)) amount carry true).1

/-- The address of the access of `ARM_SingleDataTransfer`: the base register, with
the offset added or subtracted first when `pre` is set. -/
def ARM_SingleDataTransfer.address (immediate pre add : Bool) (instruction : Nat) (a : ARM) :
    Nat :=
  let base := (instruction >>> 16) &&& 0xF
  let offset := ARM_SingleDataTransfer.offset immediate instruction a
  if pre then
    if add then u32 (a.reg base + offset) else u32 (a.reg base + (4294967296 - u32 offset))
  else a.reg base

/-- The handler `ARM_SingleDataTransfer<immediate, pre, add, byte, writeback, load>`;
`none` is a panic. -/
def ARM_SingleDataTransfer (immediate pre add byte writeback load : Bool) (instruction : Nat)
    (a : ARM) : Option ARM :=
  let dst := (instruction >>> 12) &&& 0xF
  let base := (instruction >>> 16) &&& 0xF
  let translation : Bool := !pre && writeback
  if translation then
    ARM_Unimplemented instruction a
  else
    let offset := ARM_SingleDataTransfer.offset immediate instruction a
    let address := ARM_SingleDataTransfer.address immediate pre add instruction a
    let a := a.setReg 15 (u32 (a.reg 15 + 4))
    let a :=
      if load then
        if byte then a.setReg dst (ReadByte a.memory address)
        else a.setReg dst (ReadWordRotate a.memory address)
      else
        if byte then { a with memory := WriteByte a.memory address (a.reg dst % 256) }
        else { a with memory := WriteWord a.memory address (a.reg dst) }
    let a :=
      if !load ∨ base ≠ dst then
        if !pre then
          a.setReg base
            (if add then u32 (a.reg base + offset)
              else u32 (a.reg base + (4294967296 - u32 offset)))
        else if writeback then a.setReg base address
        else a
      else a
    if load ∧ dst = 15 then
      if a.reg 15 % 2 = 1 ∧ a.model ≠ Model.ARM7 then
        if byte ∨ translation then
          none
        else
          let a := { a with cpsr := sr_set_thumb a.cpsr 1 }
          let a := a.setReg 15 (a.reg 15 &&& 0xFFFFFFFE)
          some (ReloadPipeline16 a)
      else
        some (ReloadPipeline32 a)
    else
      some a

/-- The cast `s16(x)`: the low 16 bits of `x` read as a signed integer. -/
def s16 (x : Nat) : Int :=
  if x % 65536 < 32768 then ((x % 65536 : Nat) : Int) else ((x % 65536 : Nat) : Int) - 65536

/-- The cast `s32(x)`: the low 32 bits of `x` read as a signed integer. -/
def s32 (x : Nat) : Int :=
  if x % 4294967296 < 2147483648 then ((x % 4294967296 : Nat) : Int)
  else ((x % 4294967296 : Nat) : Int) - 4294967296

/-- The cast `u32(i)` of a signed integer: `i` modulo `2^32`. -/
def u32OfInt (i : Int) : Nat := (i % 4294967296).toNat

/-- The conversion of a signed integer to `u64`: `i` modulo `2^64`. -/
def u64OfInt (i : Int) : Nat := (i % 18446744073709551616).toNat

/-- Modelled from the spec: `QADD` (declared in `arm.hpp`), the signed 32-bit sum;
when it leaves the signed range the sticky flag Q is set and, with `saturate`, the
result is clamped.  Returns the result and the CPU. -/
def QADD (op1 op2 : Nat) (saturate : Bool) (a : ARM) : Nat × ARM :=
  let sum : Int := s32 op1 + s32 op2
  if sum < -2147483648 ∨ 2147483647 < sum then
    let a := { a with cpsr := sr_set_q a.cpsr 1 }
    if saturate then
      (if sum < 0 then 0x80000000 else 0x7FFFFFFF, a)
    else
      (u32OfInt sum, a)
  else
    (u32OfInt sum, a)

/-- Modelled from the spec: `QSUB` (declared in `arm.hpp`), the signed 32-bit
difference, clamped to the signed range with the sticky flag Q set when it leaves
it.  Returns the result and the CPU. -/
def QSUB (op1 op2 : Nat) (a : ARM) : Nat × ARM :=
  let diff : Int := s32 op1 - s32 op2
  if diff < -2147483648 ∨ 2147483647 < diff then
    let a := { a with cpsr := sr_set_q a.cpsr 1 }
    (if diff < 0 then 0x80000000 else 0x7FFFFFFF, a)
  else
    (u32OfInt diff, a)

/-- Modelled from the spec: `ReadHalfMaybeRotate` (declared in `arm.hpp`): the
aligned halfword; on the ARM7 a misaligned address rotates it right by 8 bits
within 32 bits. -/
def ReadHalfMaybeRotate (model : Model) (m : Memory) (address : Nat) : Nat :=
  let value := ReadHalf m (u32 address &&& 0xFFFFFFFE)
  if address % 2 = 1 ∧ model = Model.ARM7 then
    u32 ((value >>> 8) ||| (value <<< 24))
  else value

/-- Modelled from the spec: `ReadHalfSigned` (declared in `arm.hpp`): the aligned
halfword sign-extended to 32 bits. -/
def ReadHalfSigned (m : Memory) (address : Nat) : Nat :=
  u32OfInt (s16 (ReadHalf m (u32 address &&& 0xFFFFFFFE)))

/-- Modelled from the spec: `ReadByteSigned` (declared in `arm.hpp`): the byte
sign-extended to 32 bits. -/
def ReadByteSigned (m : Memory) (address : Nat) : Nat :=
  let value := ReadByte m address
  if value < 128 then value else value + 0xFFFFFF00

/-- Modelled from the spec: `WriteHalf` of the memory bus, two bytes of the flat
RAM, little-endian. -/
def WriteHalf (m : Memory) (address value : Nat) : Memory :=
  (m.set address value).set (address + 1) (value / 256)

/-- The handler `ARM_SignedHalfwordMultiply<accumulate, x, y>`. -/
def ARM_SignedHalfwordMultiply (accumulate x y : Bool) (instruction : Nat) (a : ARM) :
    Option ARM :=
  if a.model = Model.ARM7 then
    ARM_Undefined instruction a
  else
    let op1 := (instruction >>> 0) &&& 0xF
    let op2 := (instruction >>> 8) &&& 0xF
    let op3 := (instruction >>> 12) &&& 0xF
    let dst := (instruction >>> 16) &&& 0xF
    let value1 := if x then s16 (u32 (a.reg op1) >>> 16) else s16 (a.reg op1 &&& 0xFFFF)
    let value2 := if y then s16 (u32 (a.reg op2) >>> 16) else s16 (a.reg op2 &&& 0xFFFF)
    let result := u32OfInt (value1 * value2)
    let a :=
      if accumulate then
        let r := QADD result (a.reg op3) false a
        r.2.setReg dst r.1
      else
        a.setReg dst result
    some (a.setReg 15 (u32 (a.reg 15 + 4)))

/-- The handler `ARM_SignedWordHalfwordMultiply<accumulate, y>`.  The product
`value1 * value2` is a product of two `int`s: it is kept to 32 bits, wrapping as
the two's-complement targets do. -/
def ARM_SignedWordHalfwordMultiply (accumulate y : Bool) (instruction : Nat) (a : ARM) :
    Option ARM :=
  if a.model = Model.ARM7 then
    ARM_Undefined instruction a
  else
    let op1 := (instruction >>> 0) &&& 0xF
    let op2 := (instruction >>> 8) &&& 0xF
    let op3 := (instruction >>> 12) &&& 0xF
    let dst := (instruction >>> 16) &&& 0xF
    let value1 := s32 (a.reg op1)
    let value2 := if y then s16 (u32 (a.reg op2) >>> 16) else s16 (a.reg op2 &&& 0xFFFF)
    let product : Int := s32 (u32OfInt (value1 * value2))
    let result := u32OfInt (product / 65536)
    let a :=
      if accumulate then
        let r := QADD result (a.reg op3) false a
        r.2.setReg dst r.1
      else
        a.setReg dst result
    some (a.setReg 15 (u32 (a.reg 15 + 4)))

/-- The handler `ARM_SignedHalfwordMultiplyLongAccumulate<x, y>`. -/
def ARM_SignedHalfwordMultiplyLongAccumulate (x y : Bool) (instruction : Nat) (a : ARM) :
    Option ARM :=
  if a.model = Model.ARM7 then
    ARM_Undefined instruction a
  else
    let op1 := (instruction >>> 0) &&& 0xF
    let op2 := (instruction >>> 8) &&& 0xF
    let dst_lo := (instruction >>> 12) &&& 0xF
    let dst_hi := (instruction >>> 16) &&& 0xF
    let value1 := if x then s16 (u32 (a.reg op1) >>> 16) else s16 (a.reg op1 &&& 0xFFFF)
    let value2 := if y then s16 (u32 (a.reg op2) >>> 16) else s16 (a.reg op2 &&& 0xFFFF)
    let result := u64OfInt (value1 * value2)
    let result := (result + u32 (a.reg dst_lo)) % 18446744073709551616
    let result := (result + (u32 (a.reg dst_hi) <<< 32)) % 18446744073709551616
    let a := a.setReg dst_lo (result &&& 0xFFFFFFFF)
    let a := a.setReg dst_hi (result >>> 32)
    some (a.setReg 15 (u32 (a.reg 15 + 4)))

/-- The handler `ARM_BranchAndExchangeMaybeLink<link>`. -/
def ARM_BranchAndExchangeMaybeLink (link : Bool) (instruction : Nat) (a : ARM) : Option ARM :=
  let address := a.reg (instruction &&& 0xF)
  if link ∧ a.model = Model.ARM7 then
    ARM_Undefined instruction a
  else
    let a := if link then a.setReg 14 (u32 (a.reg 15 + 4294967296 - 4)) else a
    if address % 2 = 1 then
      let a := a.setReg 15 (address &&& 0xFFFFFFFE)
      let a := { a with cpsr := sr_set_thumb a.cpsr 1 }
      some (ReloadPipeline16 a)
    else
      let a := a.setReg 15 (address &&& 0xFFFFFFFC)
      some (ReloadPipeline32 a)

/-- The end of `ARM_HalfDoubleAndSignedTransfer` (lines 519 to 529): the base
writeback and the pipeline reload after a load of r15. -/
def ARM_HalfDoubleAndSignedTransfer.finish (pre add writeback load : Bool)
    (dst base offset address : Nat) (allow_writeback : Bool) (a : ARM) : Option ARM :=
  let a :=
    if allow_writeback then
      if !pre then
        a.setReg base
          (if add then u32 (a.reg base + offset)
            else u32 (a.reg base + (4294967296 - u32 offset)))
      else if writeback then a.setReg base address
      else a
    else a
  if load ∧ dst = 15 then some (ReloadPipeline32 a) else some a

/-- The handler
`ARM_HalfDoubleAndSignedTransfer<pre, add, immediate, writeback, load, opcode>`;
`none` is a panic. -/
def ARM_HalfDoubleAndSignedTransfer (pre add immediate writeback load : Bool) (opcode : Nat)
    (instruction : Nat) (a : ARM) : Option ARM :=
  let dst := (instruction >>> 12) &&& 0xF
  let base := (instruction >>> 16) &&& 0xF
  let address := a.reg base
  let allow_writeback : Bool := !load || base != dst
  let offset :=
    if immediate then (instruction &&& 0xF) ||| ((instruction >>> 4) &&& 0xF0)
    else a.reg (instruction &&& 0xF)
  let a := a.setReg 15 (u32 (a.reg 15 + 4))
  let address :=
    if pre then
      if add then u32 (address + offset) else u32 (address + (4294967296 - u32 offset))
    else address
  let finish := ARM_HalfDoubleAndSignedTransfer.finish pre add writeback load dst base offset
    address
  match opcode with
  | 1 =>
    if load then
      finish allow_writeback (a.setReg dst (ReadHalfMaybeRotate a.model a.memory address))
    else
      finish allow_writeback { a with memory := WriteHalf a.memory address (a.reg dst) }
  | 2 =>
    if load then
      finish allow_writeback (a.setReg dst (ReadByteSigned a.memory address))
    else if a.model ≠ Model.ARM7 then
      if dst % 2 = 1 then
        ARM_Undefined instruction (a.setReg 15 (u32 (a.reg 15 + 4294967296 - 4)))
      else
        let allow_writeback : Bool := base != dst + 1
        let a := a.setReg (dst + 0) (ReadWord a.memory (address + 0))
        let a := a.setReg (dst + 1) (ReadWord a.memory (address + 4))
        let a := if dst = 14 then ReloadPipeline32 a else a
        finish allow_writeback a
    else
      finish allow_writeback a
  | 3 =>
    if load then
      finish allow_writeback (a.setReg dst (ReadHalfSigned a.memory address))
    else if a.model ≠ Model.ARM7 then
      if dst % 2 = 1 then
        ARM_Undefined instruction (a.setReg 15 (u32 (a.reg 15 + 4294967296 - 4)))
      else
        let a := { a with memory := WriteWord a.memory (address + 0) (a.reg (dst + 0)) }
        let a := { a with memory := WriteWord a.memory (address + 4) (a.reg (dst + 1)) }
        finish allow_writeback a
    else
      finish allow_writeback a
  | _ => none

/-- One round of the portable loop of `ARM_CountLeadingZeros` on the pair
`(result, value)` with the pair `(mask[i], shift[i])`. -/
def ARM_CountLeadingZeros.step (p : Nat × Nat) (ms : Nat × Nat) : Nat × Nat :=
  if p.2 &&& ms.1 = 0 then (p.1 ||| ms.2, u32 (p.2 <<< ms.2)) else p

/-- The portable branch of `ARM_CountLeadingZeros` (taken when the compiler has no
`__builtin_clz`): five rounds of mask and shift. -/
def ARM_CountLeadingZeros.portable (value : Nat) : Nat :=
  ([(0xFFFF0000, 16), (0xFF000000, 8), (0xF0000000, 4), (0xC0000000, 2), (0x80000000, 1)].foldl
    ARM_CountLeadingZeros.step (0, value)).1

/-- The handler `ARM_CountLeadingZeros`; `has_builtin` selects the branch of the
preprocessor conditional. -/
def ARM_CountLeadingZeros (has_builtin : Bool) (instruction : Nat) (a : ARM) : Option ARM :=
  if a.model = Model.ARM7 then
    ARM_Undefined instruction a
  else
    let dst := (instruction >>> 12) &&& 0xF
    let src := instruction &&& 0xF
    let value := u32 (a.reg src)
    if value = 0 then
      let a := a.setReg dst 32
      some (a.setReg 15 (u32 (a.reg 15 + 4)))
    else
      let a :=
        if has_builtin then a.setReg dst (clz value)
        else a.setReg dst (ARM_CountLeadingZeros.portable value)
      some (a.setReg 15 (u32 (a.reg 15 + 4)))

/-- The doubling step of `ARM_SaturatingAddSubtract` (the body of
`if(double_op2)`): the new value of the 32-bit `op2` and the CPU. -/
def ARM_SaturatingAddSubtract.double (op2 : Nat) (a : ARM) : Nat × ARM :=
  let result := u32 (op2 + op2)
  if (op2 ^^^ result) >>> 31 ≠ 0 then
    (0x80000000 - (result >>> 31), { a with cpsr := sr_set_q a.cpsr 1 })
  else (result, a)

/-- The handler `ARM_SaturatingAddSubtract<opcode>`. -/
def ARM_SaturatingAddSubtract (opcode : Nat) (instruction : Nat) (a : ARM) : Option ARM :=
  if a.model = Model.ARM7 then
    ARM_Undefined instruction a
  else
    let src1 := instruction &&& 0xF
    let src2 := (instruction >>> 16) &&& 0xF
    let dst := (instruction >>> 12) &&& 0xF
    let op2 := u32 (a.reg src2)
    if opcode &&& 0b1001 ≠ 0 then
      ARM_Undefined instruction a
    else
      let subtract : Bool := opcode &&& 2 ≠ 0
      let double_op2 : Bool := opcode &&& 4 ≠ 0
      let r : Nat × ARM :=
        if double_op2 then ARM_SaturatingAddSubtract.double op2 a else (op2, a)
      let op2 := r.1
      let a := r.2
      let q := if subtract then QSUB (a.reg src1) op2 a else QADD (a.reg src1) op2 true a
      let a := q.2.setReg dst q.1
      some (a.setReg 15 (u32 (a.reg 15 + 4)))

/-- The value of the `s64` accumulator `result` of `ARM_MultiplyLong` before the
registers are written (lines 243 to 264), kept as its 64-bit two's-complement
pattern; the arguments are the values of `reg[op1]`, `reg[op2]`, `reg[dst_hi]` and
`reg[dst_lo]`. -/
def ARM_MultiplyLong.result (sign_extend accumulate : Bool) (rm rs hi lo : Nat) : Nat :=
  let result : Nat :=
    if sign_extend then
      let x := u32 rm
      let y := u32 rs
      let x := if x &&& 0x80000000 ≠ 0 then x ||| 0xFFFFFFFF00000000 else x
      let y := if y &&& 0x80000000 ≠ 0 then y ||| 0xFFFFFFFF00000000 else y
      (x * y) % 18446744073709551616
    else
      (u32 rm * u32 rs) % 18446744073709551616
  if accumulate then
    let value := u32 hi
    let value := (value <<< 16) % 18446744073709551616
    let value := (value <<< 16) % 18446744073709551616
    let value := value ||| u32 lo
    (result + value) % 18446744073709551616
  else result

/-- The handler `ARM_MultiplyLong<sign_extend, accumulate, set_flags>`. -/
def ARM_MultiplyLong (sign_extend accumulate set_flags : Bool) (instruction : Nat) (a : ARM) :
    Option ARM :=
  let op1 := (instruction >>> 0) &&& 0xF
  let op2 := (instruction >>> 8) &&& 0xF
  let dst_lo := (instruction >>> 12) &&& 0xF
  let dst_hi := (instruction >>> 16) &&& 0xF
  let result := ARM_MultiplyLong.result sign_extend accumulate (a.reg op1) (a.reg op2)
    (a.reg dst_hi) (a.reg dst_lo)
  let result_hi := u32 (result >>> 32)
  let a := a.setReg dst_lo (result &&& 0xFFFFFFFF)
  let a := a.setReg dst_hi result_hi
  let a :=
    if set_flags then
      let a := { a with cpsr := sr_set_n a.cpsr (result_hi >>> 31) }
      { a with cpsr := sr_set_z a.cpsr (if result = 0 then 1 else 0) }
    else a
  some (a.setReg 15 (u32 (a.reg 15 + 4)))

/-- The portable branch of the byte count of `ARM_BlockDataTransfer` (the `#else`
of `__builtin_popcount`): the loop over the bits 0 to 15 of the list. -/
def ARM_BlockDataTransfer.bytes_portable (list : Nat) : Nat :=
  (List.range 16).foldl (fun bytes i => if list &&& (1 <<< i) ≠ 0 then bytes + 4 else bytes) 0

/-- The portable branch of `base_is_first` (the `#else` of `__builtin_ctz`). -/
def ARM_BlockDataTransfer.base_is_first_portable (list base : Nat) : Bool :=
  decide (list &&& ((1 <<< base) - 1) = 0)

/-- The portable branch of `base_is_last` (the `#else` of `__builtin_clz`). -/
def ARM_BlockDataTransfer.base_is_last_portable (list base : Nat) : Bool :=
  decide (list >>> base = 1)

/-! ## Specification-side definitions -/

/-- The ARM condition predicate as the specification words it: the truth value of
condition code `c` at the flags N, Z, C, V. -/
def ConditionHolds (c : Nat) (n z cf v : Bool) : Bool :=
  match c with
  | 0 => z
  | 1 => !z
  | 2 => cf
  | 3 => !cf
  | 4 => n
  | 5 => !n
  | 6 => v
  | 7 => !v
  | 8 => cf && !z
  | 9 => !cf || z
  | 10 => n == v
  | 11 => n != v
  | 12 => !z && (n == v)
  | 13 => z || (n != v)
  | 14 => true
  | _ => true

/-- The CPU as `Run` leaves it after the pipeline has advanced in ARM state:
`r15` word-aligned, slot 1 moved to slot 0, slot 1 refetched. -/
def fetched32 (a : ARM) : ARM :=
  let a := a.setReg 15 (a.reg 15 &&& 0xFFFFFFFC)
  let a := { a with opcode0 := a.opcode1 }
  { a with opcode1 := ReadWordCode a (a.reg 15) }

/-- Index of an ARM opcode in the 32-bit handler table. -/
def hash32 (instruction : Nat) : Nat :=
  let hash := ((instruction >>> 16) &&& 0xFF0) ||| ((instruction >>> 4) &&& 0x00F)
  if instruction >>> 28 = 15 then hash ||| 4096 else hash

/-- The byte-lane mask in the specification's words: lane `i` is `0xFF` iff bit `i`
of the field is set. -/
def laneMask (fsxc : Nat) : Nat :=
  (if fsxc.testBit 0 then 0x000000FF else 0) + (if fsxc.testBit 1 then 0x0000FF00 else 0)
    + (if fsxc.testBit 2 then 0x00FF0000 else 0) + (if fsxc.testBit 3 then 0xFF000000 else 0)

/-- A valid CPU mode: User, FIQ, IRQ, Supervisor, Abort, Undefined or System. -/
def IsValidMode (m : Nat) : Prop :=
  m = 0x10 ∨ m = 0x11 ∨ m = 0x12 ∨ m = 0x13 ∨ m = 0x17 ∨ m = 0x1B ∨ m = 0x1F

instance (m : Nat) : Decidable (IsValidMode m) := by
  unfold IsValidMode; infer_instance

/-- The state `SwitchMode` produces once the banks of the old and of the new mode
are known (the body of `SwitchMode` after the two calls of
`GetRegisterBankByMode`). -/
def SwitchMode.banked (a : ARM) (new_mode : Nat) (old_bank new_bank : Bank) : ARM :=
  let a := { a with cpsr := sr_set_mode a.cpsr new_mode, p_spsr := new_bank }
  if old_bank = new_bank then
    a
  else
    let a :=
      if old_bank = Bank.FIQ then
        loadHigh (saveHigh a Bank.FIQ) Bank.None
      else if new_bank = Bank.FIQ then
        loadHigh (saveHigh a Bank.None) Bank.FIQ
      else a
    let a := a.setBank old_bank 5 (a.reg 13)
    let a := a.setBank old_bank 6 (a.reg 14)
    let a := a.setReg 13 (a.bank new_bank 5)
    let a := a.setReg 14 (a.bank new_bank 6)
    a

/-- The number of registers of `list` among the `n` registers from `j` upwards. -/
def countBits (list : Nat) : Nat → Nat → Nat
  | _, 0 => 0
  | j, n + 1 => (if list.testBit j then 1 else 0) + countBits list (j + 1) n

/-- The position of register `i` in the ascending order of the registers of
`list`: the number of listed registers below `i`. -/
def rank (list i : Nat) : Nat := countBits list 0 i

/-- The address of the first transfer of a block transfer of `n` registers with
base value `b`: `b` for increment-after, `b + 4` for increment-before, `b - 4n`
for decrement-before and `b - 4n + 4` for decrement-after. -/
def transferStart (pre add : Bool) (b n : Nat) : Nat :=
  match add, pre with
  | true, false => b
  | true, true => b + 4
  | false, true => b + 4294967296 - 4 * n
  | false, false => b + 4294967296 - 4 * n + 4

/-- The address at which register `i` of `list` is transferred: the start address
plus four bytes for every listed register below `i`, modulo `2^32`. -/
def transferAddress (pre add : Bool) (list b i : Nat) : Nat :=
  u32 (transferStart pre add b (popcount list) + 4 * rank list i)

/-- The base value written back by a block transfer of `n` registers. -/
def writebackValue (add : Bool) (b n : Nat) : Nat :=
  if add then u32 (b + 4 * n) else u32 (b + 4294967296 - 4 * n)

/-- The transfers of the registers `j .. j + k - 1` of `list` in ascending register
order, each by the loop body of `ARM_BlockDataTransfer`. -/
def transferFrom (pre add load : Bool) (list : Nat) : Nat → Nat → Nat → ARM → ARM
  | 0, _, _, a => a
  | k + 1, j, address, a =>
    if list.testBit j then
      let r := ARM_BlockDataTransfer.transfer pre add load j address a
      transferFrom pre add load list k (j + 1) r.1 r.2
    else
      transferFrom pre add load list k (j + 1) address a

/-- The body of `ARM_BlockDataTransfer` once the register list to walk, the address
of the lowest transfer, the new base value and the two base-position flags are
known (everything below the declaration of `base_new`). -/
def ARM_BlockDataTransfer.body (pre add user_mode writeback load : Bool)
    (list base address base_new : Nat) (base_is_first base_is_last : Bool) (a : ARM) :
    Option ARM :=
  let transfer_pc : Bool := list &&& (1 <<< 15) ≠ 0
  let a := a.setReg 15 (u32 (a.reg 15 + 4))
  let a :=
    if writeback ∧ !load ∧ a.model = Model.ARM7 ∧ !base_is_first then
      a.setReg base base_new
    else a
  let mode := sr_mode a.cpsr
  match (if user_mode ∧ (!load ∨ !transfer_pc) then SwitchMode a Mode.User else some a) with
  | none => none
  | some a =>
    match ARM_BlockDataTransfer.loop pre add load 16 list address a with
    | none => none
    | some a =>
      match (if user_mode then
               (if load ∧ transfer_pc then restoreSpsr a else SwitchMode a mode)
             else some a) with
      | none => none
      | some a =>
        let a :=
          if writeback then
            ARM_BlockDataTransfer.writeback load list base base_new base_is_last a
          else a
        if load ∧ transfer_pc then
          let a :=
            if a.reg 15 % 2 = 1 ∧ !user_mode ∧ a.model ≠ Model.ARM7 then
              let a := { a with cpsr := sr_set_thumb a.cpsr 1 }
              a.setReg 15 (a.reg 15 &&& 0xFFFFFFFE)
            else a
          if sr_thumb a.cpsr ≠ 0 then
            some (ReloadPipeline16 a)
          else
            some (ReloadPipeline32 a)
        else
          some a

/-- The registers named by a 16-bit register list, in ascending order. -/
def registersOf (list : Nat) : List Nat := (List.range 16).filter (fun i => list.testBit i)

/-- One register transferred at one address: a load of `reg[i]` from the word at
`address`, or a store of `reg[i]` to it. -/
def transferAt (load : Bool) (i address : Nat) (a : ARM) : ARM :=
  if load then a.setReg i (ReadWord a.memory address)
  else { a with memory := WriteWord a.memory address (a.reg i) }

/-- The registers `regs`, one after the other in the order of the list, the
register at position `k` of the whole sequence at address `start + 4k` modulo
`2^32`; `k` counts from the position of the head of `regs`. -/
def transferSeq (load : Bool) (start : Nat) : List Nat → Nat → ARM → ARM
  | [], _, a => a
  | r :: rs, k, a => transferSeq load start rs (k + 1) (transferAt load r (u32 (start + 4 * k)) a)

/-- The number of leading zero bits of a 32-bit value: the largest `n` up to 32
such that the value is below `2^(32 - n)`, that is, its `n` top bits are zero. -/
def leadingZeroBits (x : Nat) : Nat := Nat.findGreatest (fun n => x < 2 ^ (32 - n)) 32

/-- One pass of the loop in `Run`: the IRQ check, the dispatch step and one device
cycle. -/
def Run.pass (h : Handlers) (a : ARM) : Option ARM :=
  match (if a.irq_flag then SignalIRQ a else some a) with
  | none => none
  | some a =>
    match Run.dispatch h a with
    | none => none
    | some a => some (AddDeviceCycles a 1)

/-- The state after `k` passes of the loop in `Run`, each entered before the
scheduler horizon and none of them leaving the CPU waiting for an IRQ; `none` when
a pass panics or the run is not of this shape. -/
def Run.passes (h : Handlers) : Nat → ARM → Option ARM
  | 0, a => some a
  | k + 1, a =>
    if a.cycle_counter < a.timestamp_target then
      match Run.pass h a with
      | none => none
      | some a => if a.wait_for_irq then none else Run.passes h k a
    else none

/-- Every entry of the handler tables leaves the cycle counter alone, as every
handler of `handler32.inl` does: the counter is advanced in `Run` only. -/
def KeepsCycleCounter (h : Handlers) : Prop :=
  (∀ i op x y, h.lut16 i op x = some y → y.cycle_counter = x.cycle_counter) ∧
  (∀ i op x y, h.lut32 i op x = some y → y.cycle_counter = x.cycle_counter)


/-- The CPU as `Run` leaves it after the pipeline has advanced in Thumb state:
`r15` halfword-aligned, slot 1 moved to slot 0, slot 1 refetched. -/
def fetched16 (a : ARM) : ARM :=
  let a := a.setReg 15 (a.reg 15 &&& 0xFFFFFFFE)
  let a := { a with opcode0 := a.opcode1 }
  { a with opcode1 := ReadHalfCode a (a.reg 15) }

/-- The value a data-processing opcode other than TST, TEQ, CMP and CMN leaves in
its destination register, in the specification's words: AND, EOR, SUB, RSB, ADD,
ADC, SBC, RSC, ORR, MOV, BIC and MVN of the two operands and the carry flag. -/
def aluResult (opcode op1 op2 carry : Nat) : Nat :=
  match opcode with
  | 0 => op1 &&& op2
  | 1 => op1 ^^^ op2
  | 2 => u32 (op1 + 4294967296 - u32 op2)
  | 3 => u32 (op2 + 4294967296 - u32 op1)
  | 4 => u32 (op1 + op2)
  | 5 => u32 (op1 + op2 + carry)
  | 6 => u32 (op1 + 8589934592 - u32 op2 - (1 - carry))
  | 7 => u32 (op2 + 8589934592 - u32 op1 - (1 - carry))
  | 12 => op1 ||| op2
  | 13 => op2
  | 14 => op1 &&& (0xFFFFFFFF ^^^ op2)
  | _ => 0xFFFFFFFF ^^^ op2

/-- The state in which a pipeline refill in the width selected by the T bit of
`w` from the address `result` leaves the pipeline slots and r15. -/
def Refilled (w result : Nat) (m : Memory) (a' : ARM) : Prop :=
  if sr_thumb w ≠ 0 then
    a'.opcode0 = ReadHalf m result ∧ a'.opcode1 = ReadHalf m (result + 2) ∧
      a'.reg 15 = u32 (result + 4)
  else
    a'.opcode0 = ReadWord m result ∧ a'.opcode1 = ReadWord m (result + 4) ∧
      a'.reg 15 = u32 (result + 8)

/-- Rotation of the low 32 bits of `x` right by `n` places, `n ≤ 32`: the bits above
position `n` move down and the `n` low bits move to the top. -/
def ror32 (x n : Nat) : Nat := (u32 x / 2 ^ n + u32 x % 2 ^ n * 2 ^ (32 - n)) % 4294967296

/-- The 64-bit value the long multiplies leave in `RdHi:RdLo`, in the
specification's words: the unsigned or signed product of the two operands, plus the
previous `RdHi:RdLo` for the accumulating forms, modulo `2^64`. -/
def longProduct (sign_extend accumulate : Bool) (rm rs hi lo : Nat) : Nat :=
  u64OfInt
    ((if sign_extend then s32 rm * s32 rs else ((u32 rm * u32 rs : Nat) : Int)) +
      (if accumulate then ((u32 hi * 4294967296 + u32 lo : Nat) : Int) else 0))

/-- Bits 47..16 of the exact signed product of a signed 32-bit word and a signed
16-bit half: `floor(rm * half / 2^16)` modulo `2^32`. -/
def smulwExact (rm half : Nat) : Nat := u32OfInt ((s32 rm * s16 half) / 65536)

/-- Clamping of a signed integer to the signed 32-bit range `[-2^31, 2^31 - 1]`. -/
def saturate32 (i : Int) : Int :=
  if i < -2147483648 then -2147483648 else if 2147483647 < i then 2147483647 else i

/-- The signed integer `i` lies in the signed 32-bit range. -/
def InSigned32 (i : Int) : Prop := -2147483648 ≤ i ∧ i ≤ 2147483647

instance (i : Int) : Decidable (InSigned32 i) := by
  unfold InSigned32; infer_instance

/-- The register writes of LDRD in the order of the specification: `Rd` is loaded
from `address`, the base receives the write-back address computed from its value
before the instruction, and `Rd + 1` is loaded from `address + 4`. -/
def ldrdSequence (pre add : Bool) (dst base offset : Nat) (a : ARM) : ARM :=
  let indexed := if add then u32 (a.reg base + offset)
    else u32 (a.reg base + (4294967296 - u32 offset))
  let address := if pre then indexed else a.reg base
  let s := a.setReg dst (ReadWord a.memory address)
  let s := s.setReg base indexed
  s.setReg (dst + 1) (ReadWord a.memory (address + 4))

/-- The offset operand of a halfword, doubleword or signed transfer: the split
8-bit immediate or the value of Rm. -/
def transferOffset (immediate : Bool) (instruction : Nat) (a : ARM) : Nat :=
  if immediate then (instruction &&& 0xF) ||| ((instruction >>> 4) &&& 0xF0)
  else a.reg (instruction &&& 0xF)

/-- The address reached from the base value `b` by an offset: `b + offset` for an
upward and `b - offset` for a downward transfer, modulo `2^32`. -/
def indexedAddress (add : Bool) (b offset : Nat) : Nat :=
  if add then (b + offset) % 4294967296
  else (b + 4294967296 - offset % 4294967296) % 4294967296

/-! ### Concrete inputs -/

/-- A memory whose byte at address `x` is `x mod 251`. -/
def sampleMemory : Memory := { byte := fun x => x % 251 }

/-- A CPU in System mode with distinct register and bank contents. -/
def sampleARM (model : Model) : ARM :=
  { reg := fun i => 0x02000000 + 0x100 * i
    bank := fun b j => 0x03000000 + 0x1000 * (Bank.casesOn b 0 1 2 3 4 5 : Nat) + 0x10 * j
    cpsr := 0x6000001F
    spsr := fun b => 0x10 + (Bank.casesOn b 0 1 2 3 7 11 : Nat)
    p_spsr := Bank.None
    opcode0 := 0xE1A00000
    opcode1 := 0xE1A00000
    model := model
    exception_base := 0xFFFF0000
    wait_for_irq := false
    irq_flag := false
    memory := sampleMemory
    cycle_counter := 0
    timestamp_target := 1000 }

/-- A CPU in User mode. -/
def sampleUser : ARM := { sampleARM Model.ARM9 with cpsr := 0x60000010 }

/-- A CPU in IRQ mode. -/
def sampleIRQ : ARM := { sampleARM Model.ARM9 with cpsr := 0x60000012, p_spsr := Bank.IRQ }

/-- A state holding the word 0x02000001 at the address in r0. -/
def sampleInterwork (model : Model) : ARM :=
  { sampleARM model with memory := WriteWord sampleMemory 0x02000000 0x02000001 }

/-- Handler tables whose ARM entries all run `ARM_Hint` and whose Thumb entries
record the table index in r0. -/
def hintHandlers : Handlers :=
  { lut16 := fun i _ a => some (a.setReg 0 i)
    lut32 := fun _ instruction a => ARM_Hint instruction a }

/-- A CPU about to execute `MOV r0, r0` followed by the WFI hint `0xE320F003`. -/
def sampleWFI : ARM := { sampleARM Model.ARM9 with opcode1 := 0xE320F003 }

/-- A CPU in Thumb state holding the opcode 0xFFFF in pipeline slot 0. -/
def sampleThumb : ARM := { sampleARM Model.ARM9 with cpsr := 0x6000003F, opcode0 := 0xFFFF }

/-- The state `sampleWFI` after its first instruction and one device cycle. -/
def sampleWFI1 : ARM :=
  AddDeviceCycles ((fetched32 sampleWFI).setReg 15 (u32 ((fetched32 sampleWFI).reg 15 + 4))) 1

/-- The state `sampleWFI1` after the WFI hint and one device cycle. -/
def sampleWFI2 : ARM :=
  AddDeviceCycles
    (({ fetched32 sampleWFI1 with wait_for_irq := true } : ARM).setReg 15
      (u32 ((fetched32 sampleWFI1).reg 15 + 4))) 1

/-- A CPU with r0 = -1, r1 = 2 and the 64-bit value 2 in r3:r2. -/
def sampleMultiply : ARM :=
  (((sampleUser.setReg 0 0xFFFFFFFF).setReg 1 2).setReg 2 2).setReg 3 0

/-- An ARM9 with r0 = 0x00020000 and r1 = 0x00004000, whose product is `2^31`. -/
def sampleWordHalf : ARM := (sampleUser.setReg 0 0x00020000).setReg 1 0x00004000

/-- Handler tables whose every entry returns the CPU unchanged. -/
def sampleHandlers : Handlers :=
  { lut16 := fun _ _ a => some a
    lut32 := fun _ _ a => some a }

end dual.arm

/-! ## nds/video_unit/gpu/command_processor.hpp -/

namespace dual.nds.gpu

/-! ### Objects declared outside the available sources -/

/-- Modelled from the spec: `FIFO<T, capacity>` of `dual/common/fifo.hpp` (not part
of the available sources), a bounded first-in-first-out queue.  `data` holds the
entries, the oldest first. -/
structure FIFO (capacity : Nat) where
  data : List Nat

/-- Modelled from the spec: `FIFO::Reset` empties the queue. -/
def FIFO.Reset {capacity : Nat} (_q : FIFO capacity) : FIFO capacity := { data := [] }

/-- Modelled from the spec: `FIFO::Count`, the number of entries held. -/
def FIFO.Count {capacity : Nat} (q : FIFO capacity) : Nat := q.data.length

/-- Modelled from the spec: `FIFO::IsEmpty`. -/
def FIFO.IsEmpty {capacity : Nat} (q : FIFO capacity) : Bool := decide (q.Count = 0)

/-- Modelled from the spec: `FIFO::IsFull`, the queue holds `capacity` entries. -/
def FIFO.IsFull {capacity : Nat} (q : FIFO capacity) : Bool := decide (q.Count = capacity)

/-- Modelled from the spec: `FIFO::Peek`, the oldest entry (0 when there is
none). -/
def FIFO.Peek {capacity : Nat} (q : FIFO capacity) : Nat := q.data.headD 0

/-- Modelled from the spec: `FIFO::Read` removes and returns the oldest entry. -/
def FIFO.Read {capacity : Nat} (q : FIFO capacity) : Nat × FIFO capacity :=
  (q.data.headD 0, { data := q.data.tail })

/-- Modelled from the spec: `FIFO::Write` appends an entry.  What the class does on
a write to a full queue is not given by the available sources; the model appends
all the same, so that such a write would show as a count above the capacity. -/
def FIFO.Write {capacity : Nat} (q : FIFO capacity) (value : Nat) : FIFO capacity :=
  { data := q.data ++ [value] }

/-- Modelled from the spec: the values of the IRQ-mode field of GXSTAT
(`gpu/registers.hpp` is not part of the available sources): the command processor
names `Empty` and `LessThanHalfFull`; the two other values of the two-bit field
never raise the interrupt. -/
inductive GXSTAT.IRQ where
  | Never
  | LessThanHalfFull
  | Empty
  | Reserved
  deriving DecidableEq

/-- Modelled from the spec: the fields of the register GXSTAT that the command
processor reads and writes. -/
structure GXSTAT where
  busy : Bool
  cmd_fifo_size : Nat
  cmd_fifo_empty : Bool
  cmd_fifo_less_than_half_full : Bool
  cmd_fifo_irq : GXSTAT.IRQ

/-- Modelled from the spec: the ARM9 interrupt controller `IRQ` (`dual/nds/irq.hpp`
is not part of the available sources).  Only the source GXFIFO is kept: `gxfifo`
counts the calls of `Raise(IRQ::Source::GXFIFO)`. -/
structure IRQ where
  gxfifo : Nat

/-- Modelled from the spec: `IRQ::Raise(IRQ::Source::GXFIFO)`. -/
def IRQ.Raise (i : IRQ) : IRQ := { gxfifo := i.gxfifo + 1 }

/-- Modelled from the spec: the `Scheduler` (`dual/common/scheduler.hpp` is not
part of the available sources): the device clock and the pending events, the
earliest first.  An event of the command processor is its firing time and the
command byte captured by the callback. -/
structure Scheduler where
  timestamp_now : Nat
  events : List (Nat × Nat)

/-- Insertion of an event behind the pending events that fire no later. -/
def Scheduler.insert (e : Nat × Nat) : List (Nat × Nat) → List (Nat × Nat)
  | [] => [e]
  | x :: xs => if x.1 ≤ e.1 then x :: Scheduler.insert e xs else e :: x :: xs

/-- Modelled from the spec: `Scheduler::Add(delay, callback)` schedules the callback
`delay` device cycles ahead of the clock. -/
def Scheduler.Add (s : Scheduler) (delay command : Nat) : Scheduler :=
  { s with events := Scheduler.insert (s.timestamp_now + delay, command) s.events }

/-! ### The command processor -/

/-- The member `m_unpack`. -/
structure Unpack where
  word : Nat
  cmds_left : Int
  params_left : Int

/-- The class `CommandProcessor`: the three objects it holds by reference and its
own members. -/
structure CommandProcessor where
  scheduler : Scheduler
  arm9_irq : IRQ
  gxstat : GXSTAT
  unpack : Unpack
  cmd_pipe : FIFO 4
  cmd_fifo : FIFO 256

/-- The function `CommandProcessor::Reset`. -/
def Reset (s : CommandProcessor) : CommandProcessor :=
  { s with
    unpack := { word := 0, cmds_left := 0, params_left := 0 }
    cmd_pipe := s.cmd_pipe.Reset
    cmd_fifo := s.cmd_fifo.Reset }

/-- The initialisers of `k_cmd_num_params`, commands 0x00 to 0x72. -/
def k_cmd_num_params_table : List Nat :=
  [0, 0, 0, 0, 0, 0, 0, 0, 0, 0, 0, 0, 0, 0, 0, 0,
   1, 0, 1, 1, 1, 0, 16, 12, 16, 12, 9, 3, 3, 0, 0, 0,
   1, 1, 1, 2, 1, 1, 1, 1, 1, 1, 1, 1, 0, 0, 0, 0,
   1, 1, 1, 1, 32, 0, 0, 0, 0, 0, 0, 0, 0, 0, 0, 0,
   1, 0, 0, 0, 0, 0, 0, 0, 0, 0, 0, 0, 0, 0, 0, 0,
   1, 0, 0, 0, 0, 0, 0, 0, 0, 0, 0, 0, 0, 0, 0, 0,
   1, 0, 0, 0, 0, 0, 0, 0, 0, 0, 0, 0, 0, 0, 0, 0,
   3, 2, 1]

/-- The table `k_cmd_num_params[256]`: the entries without an initialiser are
zero. -/
def k_cmd_num_params (command : Nat) : Nat := k_cmd_num_params_table.getD command 0

/-- The function `CommandProcessor::EvaluateFIFOIRQCondition`. -/
def EvaluateFIFOIRQCondition (s : CommandProcessor) : Bool :=
  match s.gxstat.cmd_fifo_irq with
  | GXSTAT.IRQ.Empty => s.cmd_fifo.IsEmpty
  | GXSTAT.IRQ.LessThanHalfFull => decide (s.cmd_fifo.Count < 128)
  | _ => false

/-- The function `CommandProcessor::UpdateFifoState`. -/
def UpdateFifoState (s : CommandProcessor) : CommandProcessor :=
  let s := { s with gxstat := { s.gxstat with cmd_fifo_size := s.cmd_fifo.Count } }
  let s := { s with gxstat := { s.gxstat with cmd_fifo_empty := s.cmd_fifo.IsEmpty } }
  let s := { s with gxstat :=
    { s.gxstat with cmd_fifo_less_than_half_full := decide (s.cmd_fifo.Count < 128) } }
  if EvaluateFIFOIRQCondition s then
    { s with arm9_irq := s.arm9_irq.Raise }
  else s

/-- The function `CommandProcessor::ProcessCommands`; the scheduled callback is
recorded as an event of the scheduler holding the captured command. -/
def ProcessCommands (s : CommandProcessor) : CommandProcessor :=
  if s.cmd_pipe.IsEmpty then
    { s with gxstat := { s.gxstat with busy := false } }
  else
    let command := (s.cmd_pipe.Peek >>> 32) % 256
    let number_of_entries := s.cmd_pipe.Count + s.cmd_fifo.Count
    if number_of_entries < k_cmd_num_params command then
      { s with gxstat := { s.gxstat with busy := false } }
    else
      let s := { s with gxstat := { s.gxstat with busy := true } }
      { s with scheduler := s.scheduler.Add 1 command }

/-- The function `CommandProcessor::EnqueueFIFO(u8 command, u32 param)`; `none` is
the panic on a full fifo. -/
def EnqueueFIFO (s : CommandProcessor) (command param : Nat) : Option CommandProcessor :=
  let entry := ((command % 256) <<< 32) ||| (param % 4294967296)
  let r : Option CommandProcessor :=
    if s.cmd_fifo.IsEmpty ∧ !s.cmd_pipe.IsFull then
      some { s with cmd_pipe := s.cmd_pipe.Write entry }
    else
      if s.cmd_fifo.IsFull then
        none
      else
        some (UpdateFifoState { s with cmd_fifo := s.cmd_fifo.Write entry })
  match r with
  | none => none
  | some s => if !s.gxstat.busy then some (ProcessCommands s) else some s

/-- The loop of `DequeueFIFO` (lines 110 to 114): up to `n` entries move from the
fifo to the pipe. -/
def DequeueFIFO.refill : Nat → CommandProcessor → CommandProcessor
  | 0, s => s
  | n + 1, s =>
    if s.cmd_fifo.IsEmpty then s
    else
      let r := s.cmd_fifo.Read
      DequeueFIFO.refill n { s with cmd_pipe := s.cmd_pipe.Write r.1, cmd_fifo := r.2 }

/-- The function `CommandProcessor::DequeueFIFO`: the entry read and the processor
after it; `none` is the panic on an empty pipe. -/
def DequeueFIFO (s : CommandProcessor) : Option (Nat × CommandProcessor) :=
  if s.cmd_pipe.IsEmpty then
    none
  else
    let r := s.cmd_pipe.Read
    let entry := r.1
    let s := { s with cmd_pipe := r.2 }
    if s.cmd_pipe.Count ≤ 2 then
      let s := DequeueFIFO.refill 2 s
      some (entry, UpdateFifoState s)
    else
      some (entry, s)

/-- The loop of `ExecuteCommand` (lines 168 to 170): `n` calls of `DequeueFIFO`. -/
def ExecuteCommand.loop : Nat → CommandProcessor → Option CommandProcessor
  | 0, s => some s
  | n + 1, s =>
    match DequeueFIFO s with
    | none => none
    | some r => ExecuteCommand.loop n r.2

/-- The function `CommandProcessor::ExecuteCommand`. -/
def ExecuteCommand (s : CommandProcessor) (command : Nat) : Option CommandProcessor :=
  let r : Option CommandProcessor :=
    if k_cmd_num_params command = 0 then
      match DequeueFIFO s with
      | none => none
      | some r => some r.2
    else some s
  match r with
  | none => none
  | some s => ExecuteCommand.loop (k_cmd_num_params command) s

/-- The loop of `Write_GXFIFO` (lines 47 to 64) with `n` rounds left. -/
def Write_GXFIFO.loop : Nat → CommandProcessor → Option CommandProcessor
  | 0, s => some s
  | n + 1, s =>
    let command := s.unpack.word % 256
    let s := { s with unpack := { s.unpack with params_left := k_cmd_num_params command } }
    if s.unpack.params_left ≠ 0 then
      some s
    else
      match EnqueueFIFO s command 0 with
      | none => none
      | some s =>
        let s := { s with unpack := { s.unpack with word := s.unpack.word >>> 8 } }
        let s := { s with unpack := { s.unpack with cmds_left := s.unpack.cmds_left - 1 } }
        if s.unpack.cmds_left = 0 ∨ s.unpack.word = 0 then
          some { s with unpack := { s.unpack with cmds_left := 0 } }
        else
          Write_GXFIFO.loop n s

/-- The function `CommandProcessor::Write_GXFIFO(u32 word)`. -/
def Write_GXFIFO (s : CommandProcessor) (word : Nat) : Option CommandProcessor :=
  let word := word % 4294967296
  if s.unpack.params_left > 0 then
    match EnqueueFIFO s (s.unpack.word % 256) word with
    | none => none
    | some s =>
      let s := { s with unpack := { s.unpack with params_left := s.unpack.params_left - 1 } }
      if s.unpack.params_left = 0 then
        let s := { s with unpack := { s.unpack with word := s.unpack.word >>> 8 } }
        some { s with unpack := { s.unpack with cmds_left := s.unpack.cmds_left - 1 } }
      else some s
  else
    let s :=
      if s.unpack.cmds_left = 0 then
        { s with unpack := { s.unpack with cmds_left := 4, word := word } }
      else s
    Write_GXFIFO.loop 4 s

/-- The function `CommandProcessor::Write_GXCMDPORT(u32 address, u32 param)`. -/
def Write_GXCMDPORT (s : CommandProcessor) (address param : Nat) : Option CommandProcessor :=
  EnqueueFIFO s ((address &&& 0x1FF) >>> 2) param

/-- Modelled from the spec: the scheduler firing its earliest pending event: the
clock moves to the time of the event and the callback scheduled by
`ProcessCommands` runs, `ExecuteCommand(command)` followed by `ProcessCommands()`.
Without a pending event nothing happens. -/
def FireEvent (s : CommandProcessor) : Option CommandProcessor :=
  match s.scheduler.events with
  | [] => some s
  | e :: rest =>
    let s := { s with scheduler := { timestamp_now := e.1, events := rest } }
    match ExecuteCommand s e.2 with
    | none => none
    | some s => some (ProcessCommands s)

/-! ### Specification-side definitions -/

/-- One step of the command processor as its environment drives it: a write to
GXFIFO, a write to a command port, or the firing of a scheduled event. -/
inductive Step : CommandProcessor → CommandProcessor → Prop where
  | gxfifo (s s' : CommandProcessor) (word : Nat) :
      Write_GXFIFO s word = some s' → Step s s'
  | cmdport (s s' : CommandProcessor) (address param : Nat) :
      Write_GXCMDPORT s address param = some s' → Step s s'
  | fire (s s' : CommandProcessor) : FireEvent s = some s' → Step s s'

/-- The states reachable from `Reset` by steps that do not panic. -/
inductive Reachable : CommandProcessor → Prop where
  | reset (s : CommandProcessor) : Reachable (Reset s)
  | step (s s' : CommandProcessor) : Reachable s → Step s s' → Reachable s'

/-- The condition selected by the IRQ-mode field, in the words of the
specification: mode `Empty` and no entry, or mode `LessThanHalfFull` and fewer than
128 entries. -/
def IrqCondition (mode : GXSTAT.IRQ) (count : Nat) : Prop :=
  (mode = GXSTAT.IRQ.Empty ∧ count = 0) ∨ (mode = GXSTAT.IRQ.LessThanHalfFull ∧ count < 128)

instance (mode : GXSTAT.IRQ) (count : Nat) : Decidable (IrqCondition mode count) := by
  unfold IrqCondition; infer_instance

/-- Both queues hold no more entries than their capacity. -/
def WithinCapacity (s : CommandProcessor) : Prop :=
  s.cmd_pipe.Count ≤ 4 ∧ s.cmd_fifo.Count ≤ 256

/-- The state of GXSTAT and of the GXFIFO interrupt that `UpdateFifoState` leaves
on the transition from `before` to `after`: the size, empty and less-than-half-full
fields describe the fifo of `after`, and the interrupt has been raised once more
exactly when the condition of the IRQ mode holds for that fifo. -/
def FifoStateUpdated (before after : CommandProcessor) : Prop :=
  after.gxstat.cmd_fifo_size = after.cmd_fifo.Count ∧
  after.gxstat.cmd_fifo_empty = decide (after.cmd_fifo.Count = 0) ∧
  after.gxstat.cmd_fifo_less_than_half_full = decide (after.cmd_fifo.Count < 128) ∧
  after.arm9_irq.gxfifo = before.arm9_irq.gxfifo +
    (if IrqCondition before.gxstat.cmd_fifo_irq after.cmd_fifo.Count then 1 else 0)

/-- The bounds on the unpack state in the words of the specification:
`0 ≤ cmds_left ≤ 4`, `0 ≤ params_left ≤ 32`, and a pending parameter belongs to
a pending command. -/
def UnpackBounds (u : Unpack) : Prop :=
  0 ≤ u.cmds_left ∧ u.cmds_left ≤ 4 ∧ 0 ≤ u.params_left ∧ u.params_left ≤ 32 ∧
  (0 < u.params_left → 1 ≤ u.cmds_left)

/-- The states reachable from `Reset` through calls of `Write_GXFIFO` that do not
panic. -/
inductive ReachableByWrites : CommandProcessor → Prop where
  | reset (s : CommandProcessor) : ReachableByWrites (Reset s)
  | write (s s' : CommandProcessor) (word : Nat) :
      ReachableByWrites s → Write_GXFIFO s word = some s' → ReachableByWrites s'

/-- One operation on the two queues: a call of `EnqueueFIFO(command, param)` or a
call of `DequeueFIFO()`. -/
inductive QueueOp where
  | enqueue (command param : Nat)
  | dequeue

/-- A sequence of queue operations run in order: the entries returned by the calls
of `DequeueFIFO`, in the order they were returned, and the processor afterwards;
`none` when one of the calls panics. -/
def runQueueOps : List QueueOp → CommandProcessor → Option (List Nat × CommandProcessor)
  | [], s => some ([], s)
  | QueueOp.enqueue command param :: ops, s =>
    match EnqueueFIFO s command param with
    | none => none
    | some s => runQueueOps ops s
  | QueueOp.dequeue :: ops, s =>
    match DequeueFIFO s with
    | none => none
    | some r =>
      match runQueueOps ops r.2 with
      | none => none
      | some q => some (r.1 :: q.1, q.2)

/-- The entry of a command byte and a 32-bit parameter: the command in bits 39..32
above the parameter in bits 31..0. -/
def queueEntry (command param : Nat) : Nat := 4294967296 * (command % 256) + param % 4294967296

/-- The entries a sequence of operations enqueues, in the order of the calls. -/
def enqueuedEntries : List QueueOp → List Nat
  | [] => []
  | QueueOp.enqueue command param :: ops => queueEntry command param :: enqueuedEntries ops
  | QueueOp.dequeue :: ops => enqueuedEntries ops

/-- The entries held by the processor, oldest first: the pipe followed by the
fifo. -/
def queued (s : CommandProcessor) : List Nat := s.cmd_pipe.data ++ s.cmd_fifo.data

/-- The states reachable from a `Reset` performed while no event of the processor
is pending, by writes to GXFIFO, writes to a command port and the firing of the
scheduled events, none of which panics. -/
inductive ReachableFromIdle : CommandProcessor → Prop where
  | reset (s : CommandProcessor) : s.scheduler.events = [] → ReachableFromIdle (Reset s)
  | step (s s' : CommandProcessor) : ReachableFromIdle s → Step s s' → ReachableFromIdle s'

/-- The number of entries the execution of a command takes from the queues: one
for a command without parameters, otherwise one per parameter. -/
def entriesNeeded (command : Nat) : Nat := max 1 (k_cmd_num_params command)

/-- The invariant behind the safety of `DequeueFIFO`: the queues are within their
capacity, a non-empty fifo goes with a pipe of at least three entries, and at most
one event is pending, scheduled with the busy flag set for a command whose entries
are all in the queues. -/
def PipeInvariant (s : CommandProcessor) : Prop :=
  WithinCapacity s ∧
  (s.cmd_fifo.Count ≠ 0 → 3 ≤ s.cmd_pipe.Count) ∧
  (s.scheduler.events = [] ∨
    ∃ t c, s.scheduler.events = [(t, c)] ∧ s.gxstat.busy = true ∧
      entriesNeeded c ≤ s.cmd_pipe.Count + s.cmd_fifo.Count)

/-- A command processor after `Reset`, idle, at device time 100, with the IRQ mode
`LessThanHalfFull`. -/
def sampleProcessor : CommandProcessor :=
  { scheduler := { timestamp_now := 100, events := [] }
    arm9_irq := { gxfifo := 0 }
    gxstat := { busy := false, cmd_fifo_size := 0, cmd_fifo_empty := true,
                cmd_fifo_less_than_half_full := true,
                cmd_fifo_irq := GXSTAT.IRQ.LessThanHalfFull }
    unpack := { word := 0, cmds_left := 0, params_left := 0 }
    cmd_pipe := { data := [] }
    cmd_fifo := { data := [] } }

/-- A processor whose pipe holds three entries and whose fifo holds three. -/
def sampleQueued : CommandProcessor :=
  { sampleProcessor with
    cmd_pipe := { data := [0x1000000001, 0x1000000002, 0x1000000003] }
    cmd_fifo := { data := [0x1000000004, 0x1000000005, 0x1000000006] } }

end dual.nds.gpu

namespace dual.arm

/-! ## Verified properties -/

/-! ### Projections of the register-file updates -/

section projections
variable (a : ARM) (i v j : Nat) (b b' : Bank)

@[simp]
theorem setReg_reg : (a.setReg i v).reg j = if j = i then v else a.reg j := rfl
@[simp]
theorem setReg_bank : (a.setReg i v).bank = a.bank := rfl
@[simp]
theorem setReg_cpsr : (a.setReg i v).cpsr = a.cpsr := rfl
@[simp]
theorem setReg_spsr : (a.setReg i v).spsr = a.spsr := rfl
@[simp]
theorem setReg_p_spsr : (a.setReg i v).p_spsr = a.p_spsr := rfl
@[simp]
theorem setReg_memory : (a.setReg i v).memory = a.memory := rfl
@[simp]
theorem setReg_model : (a.setReg i v).model = a.model := rfl
@[simp]
theorem setReg_exception_base : (a.setReg i v).exception_base = a.exception_base := rfl
@[simp]
theorem setBank_reg : (a.setBank b i v).reg = a.reg := rfl
@[simp]
theorem setBank_bank :
    (a.setBank b i v).bank b' j = if b' = b ∧ j = i then v else a.bank b' j := rfl
@[simp]
theorem setBank_cpsr : (a.setBank b i v).cpsr = a.cpsr := rfl
@[simp]
theorem setBank_spsr : (a.setBank b i v).spsr = a.spsr := rfl
@[simp]
theorem setBank_p_spsr : (a.setBank b i v).p_spsr = a.p_spsr := rfl
@[simp]
theorem setBank_memory : (a.setBank b i v).memory = a.memory := rfl
@[simp]
theorem setBank_model : (a.setBank b i v).model = a.model := rfl
@[simp]
theorem setBank_exception_base :
    (a.setBank b i v).exception_base = a.exception_base := rfl
@[simp]
theorem setSpsr_reg : (a.setSpsr b v).reg = a.reg := rfl
@[simp]
theorem setSpsr_bank : (a.setSpsr b v).bank = a.bank := rfl
@[simp]
theorem setSpsr_cpsr : (a.setSpsr b v).cpsr = a.cpsr := rfl
@[simp]
theorem setSpsr_spsr :
    (a.setSpsr b v).spsr b' = if b' = b then v else a.spsr b' := rfl
@[simp]
theorem setSpsr_p_spsr : (a.setSpsr b v).p_spsr = a.p_spsr := rfl
@[simp]
theorem setSpsr_memory : (a.setSpsr b v).memory = a.memory := rfl
@[simp]
theorem setSpsr_model : (a.setSpsr b v).model = a.model := rfl
@[simp]
theorem setSpsr_exception_base :
    (a.setSpsr b v).exception_base = a.exception_base := rfl

@[simp]
theorem saveHigh_reg : (saveHigh a b).reg = a.reg := rfl
@[simp]
theorem saveHigh_cpsr : (saveHigh a b).cpsr = a.cpsr := rfl
@[simp]
theorem saveHigh_spsr : (saveHigh a b).spsr = a.spsr := rfl
@[simp]
theorem saveHigh_p_spsr : (saveHigh a b).p_spsr = a.p_spsr := rfl
@[simp]
theorem saveHigh_memory : (saveHigh a b).memory = a.memory := rfl
@[simp]
theorem saveHigh_model : (saveHigh a b).model = a.model := rfl
@[simp]
theorem saveHigh_exception_base :
    (saveHigh a b).exception_base = a.exception_base := rfl
@[simp]
theorem loadHigh_bank : (loadHigh a b).bank = a.bank := rfl
@[simp]
theorem loadHigh_cpsr : (loadHigh a b).cpsr = a.cpsr := rfl
@[simp]
theorem loadHigh_spsr : (loadHigh a b).spsr = a.spsr := rfl
@[simp]
theorem loadHigh_p_spsr : (loadHigh a b).p_spsr = a.p_spsr := rfl
@[simp]
theorem loadHigh_memory : (loadHigh a b).memory = a.memory := rfl
@[simp]
theorem loadHigh_model : (loadHigh a b).model = a.model := rfl
@[simp]
theorem loadHigh_exception_base :
    (loadHigh a b).exception_base = a.exception_base := rfl

end projections

/-- The first five entries of a bank after the copy loop that saves r8..r12. -/
theorem saveHigh_bank (a : ARM) (b b' : Bank) (j : Nat) :
    (saveHigh a b).bank b' j = if b' = b ∧ j < 5 then a.reg (8 + j) else a.bank b' j := by
  simp only [saveHigh, List.range, List.range.loop, List.foldl, setBank_bank, setBank_reg]
  by_cases hb : b' = b
  · by_cases h0 : j = 0; · simp [hb, h0]
    by_cases h1 : j = 1; · simp [hb, h1]
    by_cases h2 : j = 2; · simp [hb, h2]
    by_cases h3 : j = 3; · simp [hb, h3]
    by_cases h4 : j = 4; · simp [hb, h4]
    have : ¬ j < 5 := by omega
    simp [hb, h0, h1, h2, h3, h4, this]
  · simp [hb]

/-- The registers r8..r12 after the copy loop that loads them from a bank. -/
theorem loadHigh_reg (a : ARM) (b : Bank) (i : Nat) :
    (loadHigh a b).reg i = if 8 ≤ i ∧ i < 13 then a.bank b (i - 8) else a.reg i := by
  simp only [loadHigh, List.range, List.range.loop, List.foldl, setReg_reg, setReg_bank]
  by_cases h0 : i = 8; · simp [h0]
  by_cases h1 : i = 9; · simp [h1]
  by_cases h2 : i = 10; · simp [h2]
  by_cases h3 : i = 11; · simp [h3]
  by_cases h4 : i = 12; · simp [h4]
  have : ¬ (8 ≤ i ∧ i < 13) := by omega
  simp [h0, h1, h2, h3, h4, this]

/-! ### Mode switching -/

/-- Every mode accepted by `GetRegisterBankByMode` is valid, and conversely. -/
theorem GetRegisterBankByMode_isSome (m : Nat) :
    (∃ b, GetRegisterBankByMode m = some b) ↔ IsValidMode m := by
  unfold GetRegisterBankByMode IsValidMode
  simp only [Mode.User, Mode.System, Mode.FIQ, Mode.IRQ, Mode.Supervisor, Mode.Abort,
    Mode.Undefined]
  constructor
  · rintro ⟨b, h⟩
    split_ifs at h <;> omega
  · intro h
    split_ifs <;> first | exact ⟨_, rfl⟩ | omega

/-- The function `SwitchMode` does not panic when the old and the new mode are
valid. -/
theorem SwitchMode_eq (a : ARM) (m : Nat) (b1 b2 : Bank)
    (h1 : GetRegisterBankByMode (sr_mode a.cpsr) = some b1)
    (h2 : GetRegisterBankByMode m = some b2) :
    SwitchMode a m = some (SwitchMode.banked a m b1 b2) := by
  unfold SwitchMode SwitchMode.banked
  rw [h1, h2]
  simp only
  split_ifs <;> rfl

/-- Fields that a bank switch leaves alone or sets directly. -/
theorem banked_fields (a : ARM) (m : Nat) (b1 b2 : Bank) :
    (SwitchMode.banked a m b1 b2).spsr = a.spsr ∧
    (SwitchMode.banked a m b1 b2).p_spsr = b2 ∧
    (SwitchMode.banked a m b1 b2).cpsr = sr_set_mode a.cpsr m ∧
    (SwitchMode.banked a m b1 b2).memory = a.memory ∧
    (SwitchMode.banked a m b1 b2).model = a.model ∧
    (SwitchMode.banked a m b1 b2).exception_base = a.exception_base := by
  cases b1 <;> cases b2 <;> simp [SwitchMode.banked]

/-- Switching to another bank and back restores every general register. -/
theorem banked_roundtrip_reg (a : ARM) (m1 m2 : Nat) (b1 b2 : Bank) (i : Nat) :
    (SwitchMode.banked (SwitchMode.banked a m2 b1 b2) m1 b2 b1).reg i = a.reg i := by
  cases b1 <;> cases b2 <;>
    simp [SwitchMode.banked, loadHigh_reg, saveHigh_bank] <;>
    split_ifs <;> first | rfl | omega | simp_all

/-- A bank switch leaves r0..r7 and r15 alone. -/
theorem banked_reg_other (a : ARM) (m : Nat) (b1 b2 : Bank) (i : Nat) (h : i < 8 ∨ 14 < i) :
    (SwitchMode.banked a m b1 b2).reg i = a.reg i := by
  cases b1 <;> cases b2 <;>
    simp [SwitchMode.banked, loadHigh_reg] <;>
    split_ifs <;> first | rfl | omega

/-- A bank switch leaves the pipeline and the flags of the core alone. -/
theorem banked_rest (a : ARM) (m : Nat) (b1 b2 : Bank) :
    (SwitchMode.banked a m b1 b2).opcode0 = a.opcode0 ∧
    (SwitchMode.banked a m b1 b2).opcode1 = a.opcode1 ∧
    (SwitchMode.banked a m b1 b2).wait_for_irq = a.wait_for_irq := by
  cases b1 <;> cases b2 <;> simp [SwitchMode.banked] <;> (repeat' constructor)

/-- Memory is addressed modulo `2^32`. -/
theorem ReadWord_u32_add (m : Memory) (x k : Nat) :
    ReadWord m (u32 x + k) = ReadWord m (x + k) := by
  have e : ∀ j, m.get (u32 x + k + j) = m.get (x + k + j) := by
    intro j
    unfold Memory.get u32
    congr 2
    omega
  have e0 := e 0
  simp only [Nat.add_zero] at e0
  unfold ReadWord
  rw [e0, e 1, e 2, e 3]

/-- What `ReloadPipeline32` fetches and where it leaves r15. -/
theorem ReloadPipeline32_fields (a : ARM) :
    (ReloadPipeline32 a).opcode0 = ReadWord a.memory (a.reg 15) ∧
    (ReloadPipeline32 a).opcode1 = ReadWord a.memory (a.reg 15 + 4) ∧
    (ReloadPipeline32 a).reg 15 = u32 (a.reg 15 + 8) ∧
    (∀ i, i ≠ 15 → (ReloadPipeline32 a).reg i = a.reg i) ∧
    (ReloadPipeline32 a).cpsr = a.cpsr ∧
    (ReloadPipeline32 a).spsr = a.spsr ∧
    (ReloadPipeline32 a).p_spsr = a.p_spsr ∧
    (ReloadPipeline32 a).bank = a.bank ∧
    (ReloadPipeline32 a).memory = a.memory := by
  refine ⟨rfl, rfl, ?_, ?_, rfl, rfl, rfl, rfl, rfl⟩
  · simp [ReloadPipeline32]
  · intro i hi
    simp [ReloadPipeline32, hi]

/-- The mode field after `sr_set_mode`. -/
theorem sr_mode_set_mode (w m : Nat) : sr_mode (sr_set_mode w m) = m % 32 := by
  unfold sr_mode sr_set_mode; omega



/-- After `SwitchMode` the selected SPSR slot is the one of the mode in the CPSR. -/
theorem SwitchMode_p_spsr (a a' : ARM) (m : Nat) (h : SwitchMode a m = some a') :
    some a'.p_spsr = GetRegisterBankByMode (sr_mode a'.cpsr) := by
  unfold SwitchMode at h
  cases h1 : GetRegisterBankByMode (sr_mode a.cpsr) with
  | none => simp [h1] at h
  | some b1 =>
    cases h2 : GetRegisterBankByMode m with
    | none => simp [h1, h2] at h
    | some b2 =>
      have hs := SwitchMode_eq a m b1 b2 h1 h2
      unfold SwitchMode at hs
      rw [hs] at h
      have e := Option.some.inj h
      subst e
      have hf := banked_fields a m b1 b2
      have hlt : m < 32 := by
        have := (GetRegisterBankByMode_isSome m).1 ⟨b2, h2⟩
        unfold IsValidMode at this; omega
      rw [hf.2.1, hf.2.2.1, sr_mode_set_mode, Nat.mod_eq_of_lt hlt, h2]

/-! ### C1: condition table and dispatch -/

/-- The table built by `BuildConditionTable` is the ARM condition truth table. -/
theorem condition_table_spec :
    ∀ c < 16, ∀ f < 16, condition_table c f =
      ConditionHolds c (decide (f / 8 % 2 = 1)) (decide (f / 4 % 2 = 1))
        (decide (f / 2 % 2 = 1)) (decide (f % 2 = 1)) := by
  decide

/-- The table lookup of `EvaluateCondition` in terms of the CPSR flag bits. -/
theorem EvaluateCondition_eq (a : ARM) (c : Nat) (hc : c < 16) :
    EvaluateCondition a c =
      ConditionHolds c (decide (sr_n a.cpsr = 1)) (decide (sr_z a.cpsr = 1))
        (decide (sr_c a.cpsr = 1)) (decide (sr_v a.cpsr = 1)) := by
  unfold EvaluateCondition
  rw [condition_table_spec c hc _ (Nat.mod_lt _ (by decide))]
  have h1 : (a.cpsr / 268435456 % 16 / 8 % 2 = 1) = (sr_n a.cpsr = 1) := by
    unfold sr_n; apply propext; constructor <;> intro h <;> omega
  have h2 : (a.cpsr / 268435456 % 16 / 4 % 2 = 1) = (sr_z a.cpsr = 1) := by
    unfold sr_z; apply propext; constructor <;> intro h <;> omega
  have h3 : (a.cpsr / 268435456 % 16 / 2 % 2 = 1) = (sr_c a.cpsr = 1) := by
    unfold sr_c; apply propext; constructor <;> intro h <;> omega
  have h4 : (a.cpsr / 268435456 % 16 % 2 = 1) = (sr_v a.cpsr = 1) := by
    unfold sr_v; apply propext; constructor <;> intro h <;> omega
  simp only [h1, h2, h3, h4]

/-- One iteration of `Run` on a CPU that is not waiting, with no IRQ pending and the
horizon not reached: the dispatch step followed by one device cycle. -/
theorem Run_one (h : Handlers) (a : ARM) (hw : a.wait_for_irq = false)
    (hi : a.irq_flag = false) (ht : a.cycle_counter < a.timestamp_target) :
    Run h 1 a = (Run.dispatch h a).map (fun a' => AddDeviceCycles a' 1) := by
  unfold Run
  simp only [hw, Bool.false_eq_true, if_false, Run.loop, ht, if_true, hi]
  cases hd : Run.dispatch h a with
  | none => rfl
  | some a' =>
    simp only [Option.map_some']
    split_ifs <;> rfl

/-- C1: for every condition code and flag state the table built by
`BuildConditionTable` holds the ARM predicate of that condition; in ARM state the
dispatch step of `Run` calls the handler selected by the opcode exactly when that
predicate holds at the CPSR flags N, Z, C, V, and otherwise its only effect after
the pipeline advance is `r15 += 4`; and one iteration of `Run` is that dispatch
step followed by one device cycle. -/
theorem C1_condition_table_dispatch :
    (∀ c < 16, ∀ f < 16, condition_table c f =
      ConditionHolds c (decide (f / 8 % 2 = 1)) (decide (f / 4 % 2 = 1))
        (decide (f / 2 % 2 = 1)) (decide (f % 2 = 1))) ∧
    (∀ (h : Handlers) (a : ARM), sr_thumb a.cpsr = 0 → a.opcode0 < 4294967296 →
      Run.dispatch h a =
        if ConditionHolds (a.opcode0 >>> 28) (decide (sr_n a.cpsr = 1))
            (decide (sr_z a.cpsr = 1)) (decide (sr_c a.cpsr = 1)) (decide (sr_v a.cpsr = 1))
        then h.lut32 (hash32 a.opcode0) a.opcode0 (fetched32 a)
        else some ((fetched32 a).setReg 15 (u32 ((fetched32 a).reg 15 + 4)))) ∧
    (∀ (h : Handlers) (a : ARM), a.wait_for_irq = false → a.irq_flag = false →
      a.cycle_counter < a.timestamp_target →
      Run h 1 a = (Run.dispatch h a).map (fun a' => AddDeviceCycles a' 1)) := by
  refine ⟨condition_table_spec, ?_, Run_one⟩
  intro h a ht hop
  have hc : a.opcode0 >>> 28 < 16 := by
    rw [Nat.shiftRight_eq_div_pow]
    exact Nat.div_lt_of_lt_mul (by simpa using hop)
  have hE := EvaluateCondition_eq (fetched32 a) (a.opcode0 >>> 28) hc
  have hcpsr : (fetched32 a).cpsr = a.cpsr := rfl
  rw [hcpsr] at hE
  unfold Run.dispatch
  simp only [ht, ne_eq, not_true_eq_false, if_false]
  change (if EvaluateCondition (fetched32 a) (a.opcode0 >>> 28) = true then
      h.lut32 (hash32 a.opcode0) a.opcode0 (fetched32 a)
    else some ((fetched32 a).setReg 15 (u32 ((fetched32 a).reg 15 + 4)))) = _
  rw [hE]

/-- Witness of C1 on a CPU in ARM state. -/
theorem C1_witness :
    (3 < 16 ∧ 5 < 16 ∧ condition_table 3 5 = true) ∧
    (sr_thumb (sampleARM Model.ARM9).cpsr = 0 ∧ (sampleARM Model.ARM9).opcode0 < 4294967296 ∧
      Run.dispatch sampleHandlers (sampleARM Model.ARM9) =
        some (fetched32 (sampleARM Model.ARM9))) ∧
    ((sampleARM Model.ARM9).wait_for_irq = false ∧ (sampleARM Model.ARM9).irq_flag = false ∧
      (sampleARM Model.ARM9).cycle_counter < (sampleARM Model.ARM9).timestamp_target ∧
      Run sampleHandlers 1 (sampleARM Model.ARM9) =
        some (AddDeviceCycles (fetched32 (sampleARM Model.ARM9)) 1)) :=
  ⟨⟨by decide, by decide,
      (C1_condition_table_dispatch.1 3 (by decide) 5 (by decide)).trans (by decide)⟩,
    ⟨by decide, by decide,
      (C1_condition_table_dispatch.2.1 sampleHandlers (sampleARM Model.ARM9) (by decide)
        (by decide)).trans rfl⟩,
    ⟨rfl, rfl, by decide,
      (C1_condition_table_dispatch.2.2 sampleHandlers (sampleARM Model.ARM9) rfl rfl
        (by decide)).trans rfl⟩⟩

/-! ### C2: mode switch round trip -/

/-- C2: from a state whose CPSR mode is a valid mode M1 and whose selected SPSR
slot is the one of M1, `SwitchMode(M2)` followed by `SwitchMode(M1)` returns for
every valid M2 and leaves r8..r14, the CPSR mode field, the selected SPSR slot and
every saved SPSR as they were. -/
theorem C2_switch_mode_roundtrip (a : ARM) (m1 m2 : Nat)
    (hm1 : sr_mode a.cpsr = m1) (hv1 : IsValidMode m1) (hv2 : IsValidMode m2)
    (hp : some a.p_spsr = GetRegisterBankByMode (sr_mode a.cpsr)) :
    ∃ a1 a2, SwitchMode a m2 = some a1 ∧ SwitchMode a1 m1 = some a2 ∧
      (∀ i, 8 ≤ i → i ≤ 14 → a2.reg i = a.reg i) ∧
      sr_mode a2.cpsr = sr_mode a.cpsr ∧
      a2.p_spsr = a.p_spsr ∧
      (∀ b, a2.spsr b = a.spsr b) := by
  obtain ⟨b1, hb1⟩ := (GetRegisterBankByMode_isSome m1).2 hv1
  obtain ⟨b2, hb2⟩ := (GetRegisterBankByMode_isSome m2).2 hv2
  have hlt2 : m2 < 32 := by unfold IsValidMode at hv2; omega
  have hlt1 : m1 < 32 := by unfold IsValidMode at hv1; omega
  have h1 : GetRegisterBankByMode (sr_mode a.cpsr) = some b1 := by rw [hm1]; exact hb1
  have hs1 := SwitchMode_eq a m2 b1 b2 h1 hb2
  have hf1 := banked_fields a m2 b1 b2
  have hmode : sr_mode (SwitchMode.banked a m2 b1 b2).cpsr = m2 := by
    rw [hf1.2.2.1, sr_mode_set_mode]; exact Nat.mod_eq_of_lt hlt2
  have hs2 := SwitchMode_eq (SwitchMode.banked a m2 b1 b2) m1 b2 b1 (by rw [hmode]; exact hb2) hb1
  have hf2 := banked_fields (SwitchMode.banked a m2 b1 b2) m1 b2 b1
  refine ⟨_, _, hs1, hs2, ?_, ?_, ?_, ?_⟩
  · intro i _ _
    exact banked_roundtrip_reg a m1 m2 b1 b2 i
  · rw [hf2.2.2.1, sr_mode_set_mode, hm1]; exact Nat.mod_eq_of_lt hlt1
  · rw [hf2.2.1]
    rw [h1] at hp
    exact (Option.some.inj hp).symm
  · intro b
    rw [hf2.1, hf1.1]


/-- Witness of C2: System to FIQ and back. -/
theorem C2_witness :
    sr_mode (sampleARM Model.ARM9).cpsr = 0x1F ∧ IsValidMode 0x1F ∧ IsValidMode 0x11 ∧
    some (sampleARM Model.ARM9).p_spsr =
      GetRegisterBankByMode (sr_mode (sampleARM Model.ARM9).cpsr) ∧
    ∃ a1 a2, SwitchMode (sampleARM Model.ARM9) 0x11 = some a1 ∧ SwitchMode a1 0x1F = some a2 ∧
      (∀ i, 8 ≤ i → i ≤ 14 → a2.reg i = (sampleARM Model.ARM9).reg i) ∧
      sr_mode a2.cpsr = sr_mode (sampleARM Model.ARM9).cpsr ∧
      a2.p_spsr = (sampleARM Model.ARM9).p_spsr ∧
      (∀ b, a2.spsr b = (sampleARM Model.ARM9).spsr b) :=
  ⟨by decide, by decide, by decide, by decide,
    C2_switch_mode_roundtrip (sampleARM Model.ARM9) 0x1F 0x11 (by decide) (by decide)
      (by decide) (by decide)⟩

/-! ### C3: data-processing and r15 -/

@[simp]
theorem SetZeroAndSignFlag_reg (a : ARM) (v : Nat) : (SetZeroAndSignFlag a v).reg = a.reg := rfl
@[simp]
theorem logicalFlags_reg (a : ARM) (v c : Nat) : (logicalFlags a v c).reg = a.reg := rfl
@[simp]
theorem ADD_reg (a : ARM) (x y : Nat) (f : Bool) : (ADD a x y f).2.reg = a.reg := by
  unfold ADD; split_ifs <;> rfl
@[simp]
theorem ADC_reg (a : ARM) (x y : Nat) (f : Bool) : (ADC a x y f).2.reg = a.reg := by
  unfold ADC; split_ifs <;> rfl
@[simp]
theorem SUB_reg (a : ARM) (x y : Nat) (f : Bool) : (SUB a x y f).2.reg = a.reg := by
  unfold SUB; split_ifs <;> rfl
@[simp]
theorem SBC_reg (a : ARM) (x y : Nat) (f : Bool) : (SBC a x y f).2.reg = a.reg := by
  unfold SBC; split_ifs <;> rfl

/-- The `switch` of `ARM_DataProcessing` writes no register other than `Rd`. -/
theorem execute_reg_other (opcode : Nat) (set_flags : Bool) (reg_dst op1 op2 carry : Nat)
    (a : ARM) (j : Nat) (h : j ≠ reg_dst) :
    (ARM_DataProcessing.execute opcode set_flags reg_dst op1 op2 carry a).reg j = a.reg j := by
  unfold ARM_DataProcessing.execute
  split <;> (try split_ifs) <;> simp [h]

/-- The compare opcodes TST, TEQ, CMP and CMN write no register at all. -/
theorem execute_reg_compare (opcode : Nat) (set_flags : Bool) (reg_dst op1 op2 carry : Nat)
    (a : ARM) (h : opcode = 8 ∨ opcode = 9 ∨ opcode = 10 ∨ opcode = 11) :
    (ARM_DataProcessing.execute opcode set_flags reg_dst op1 op2 carry a).reg = a.reg := by
  rcases h with h | h | h | h <;> subst h <;> simp [ARM_DataProcessing.execute]

/-- A data-processing instruction whose `Rd` is not r15 advances r15 by 4. -/
theorem ARM_DataProcessing_advances (immediate : Bool) (opcode : Nat) (set_flags : Bool)
    (field4 instruction : Nat) (a : ARM) (h : (instruction >>> 12) &&& 0xF ≠ 15) :
    ∃ a', ARM_DataProcessing immediate opcode set_flags field4 instruction a = some a' ∧
      a'.reg 15 = u32 (a.reg 15 + 4) := by
  unfold ARM_DataProcessing
  simp only [h, if_false]
  refine ⟨_, rfl, ?_⟩
  rw [setReg_reg, if_pos rfl, execute_reg_other _ _ _ _ _ _ _ _ (Ne.symm h)]

/-- A compare instruction without the S bit whose `Rd` field is 15 leaves r15 as it was. -/
theorem ARM_DataProcessing_compare_rd15 (immediate : Bool) (opcode field4 instruction : Nat)
    (a : ARM) (h : (instruction >>> 12) &&& 0xF = 15)
    (hop : opcode = 8 ∨ opcode = 9 ∨ opcode = 10 ∨ opcode = 11) :
    ∃ a', ARM_DataProcessing immediate opcode false field4 instruction a = some a' ∧
      a'.reg 15 = a.reg 15 := by
  unfold ARM_DataProcessing
  have hn : ¬ (opcode ≠ 8 ∧ opcode ≠ 9 ∧ opcode ≠ 10 ∧ opcode ≠ 11) := by omega
  simp only [h, if_true, hn, if_false, Bool.false_eq_true]
  exact ⟨_, rfl, by rw [execute_reg_compare _ _ _ _ _ _ _ hop]⟩

/-- C3: CMP with `Rd = 15` and the S bit (opcode word 0xE150F001) returns with
r15 unchanged instead of advanced by 4. -/
theorem C3_compare_rd15_keeps_r15 :
    ∃ a', ARM_DataProcessing false 10 true 0 0xE150F001 (sampleARM Model.ARM9) = some a' ∧
      a'.reg 15 = (sampleARM Model.ARM9).reg 15 ∧
      a'.reg 15 ≠ u32 ((sampleARM Model.ARM9).reg 15 + 4) :=
  ⟨_, rfl, by decide, by decide⟩


/-! ### C4, C5: status transfer -/

/-- Bits below position 8 do not reach an AND with a word whose low byte is zero. -/
theorem land_of_div_256_eq (x y n : Nat) (h : x / 256 = y / 256) (hn : n % 256 = 0) :
    x &&& n = y &&& n := by
  apply Nat.eq_of_testBit_eq
  intro i
  rw [Nat.testBit_and, Nat.testBit_and]
  by_cases hi : i < 8
  · have : n.testBit i = false := by
      have h1 := Nat.testBit_mod_two_pow n 8 i
      simp only [hi, decide_True, Bool.true_and] at h1
      rw [← h1]
      have : n % 2 ^ 8 = 0 := by simpa using hn
      rw [this]; simp
    simp [this]
  · have hx : x.testBit i = y.testBit i := by
      have e1 := Nat.testBit_shiftRight (i := 8) (j := i - 8) x
      have e2 := Nat.testBit_shiftRight (i := 8) (j := i - 8) y
      have e3 : 8 + (i - 8) = i := by omega
      rw [e3] at e1 e2
      rw [← e1, ← e2, Nat.shiftRight_eq_div_pow, Nat.shiftRight_eq_div_pow]
      have : (2:Nat) ^ 8 = 256 := by norm_num
      rw [this, h]
    rw [hx]

theorem fsxcMask_eq_laneMask : ∀ fsxc < 16, fsxcMask fsxc = laneMask fsxc := by decide

theorem fsxcMask_low : ∀ fsxc < 16, fsxc % 2 = 1 →
    fsxcMask fsxc &&& 0xFF ≠ 0 ∧ (0xFFFFFFFF ^^^ fsxcMask fsxc) % 256 = 0 ∧
      fsxcMask fsxc &&& 0x1F = 0x1F := by decide

theorem fsxcMask_low_clear : ∀ fsxc < 16, fsxc % 2 = 0 → fsxcMask fsxc &&& 0xFF = 0 := by decide

theorem and_mask_low (x m : Nat) (h : m &&& 0x1F = 0x1F) : (x &&& m) &&& 0x1F = x % 32 := by
  rw [Nat.and_assoc, h]
  exact Nat.and_pow_two_sub_one_eq_mod x 5

theorem sr_set_mode_div (w m : Nat) : sr_set_mode w m / 256 = w / 256 := by
  unfold sr_set_mode; omega

/-- An MSR to the CPSR replaces exactly the byte lanes selected by the field mask. -/
theorem MSR_cpsr (immediate : Bool) (instruction : Nat) (a : ARM)
    (hv : IsValidMode (sr_mode a.cpsr))
    (hf : (instruction >>> 16) &&& 0xF ≠ 0)
    (hx : ((instruction >>> 16) &&& 0xF) % 2 = 1 →
      IsValidMode (ARM_StatusTransfer.operand immediate instruction a % 32)) :
    ∃ a1, ARM_StatusTransfer immediate false true instruction a = some a1 ∧
      a1.cpsr = (a.cpsr &&& (0xFFFFFFFF ^^^ fsxcMask ((instruction >>> 16) &&& 0xF))) |||
        (ARM_StatusTransfer.operand immediate instruction a &&&
          fsxcMask ((instruction >>> 16) &&& 0xF)) := by
  have hlt : (instruction >>> 16) &&& 0xF < 16 := by
    have := Nat.and_pow_two_sub_one_eq_mod (instruction >>> 16) 4
    have e : (instruction >>> 16) &&& 0xF = (instruction >>> 16) % 16 := by simpa using this
    rw [e]; omega
  generalize hfs : (instruction >>> 16) &&& 0xF = fsxc at hf hx hlt
  generalize hop : ARM_StatusTransfer.operand immediate instruction a = x at hx
  unfold ARM_StatusTransfer
  simp only [hfs, hop, hf, and_false, if_false, if_true, Bool.not_false]
  by_cases hb : fsxc % 2 = 1
  · obtain ⟨h1, h2, h3⟩ := fsxcMask_low fsxc hlt hb
    obtain ⟨b1, hb1⟩ := (GetRegisterBankByMode_isSome _).2 hv
    have hm : (x &&& fsxcMask fsxc) &&& 0x1F = x % 32 := and_mask_low x _ h3
    obtain ⟨b2, hb2⟩ := (GetRegisterBankByMode_isSome _).2 (hx hb)
    have hs := SwitchMode_eq a (x % 32) b1 b2 hb1 hb2
    simp only [h1, ne_eq, not_false_eq_true, if_true, hm, hs]
    refine ⟨_, rfl, ?_⟩
    simp only [setReg_cpsr, (banked_fields a (x % 32) b1 b2).2.2.1]
    rw [land_of_div_256_eq _ a.cpsr _ (sr_set_mode_div _ _) h2]
  · have h1 := fsxcMask_low_clear fsxc hlt (by omega)
    simp only [h1, ne_eq, not_true_eq_false, if_false]
    exact ⟨_, rfl, rfl⟩


/-- The destination register of an MRS holds the CPSR; r15 is then advanced. -/
theorem MRS_cpsr (immediate : Bool) (instruction : Nat) (a : ARM) :
    ∃ a2, ARM_StatusTransfer immediate false false instruction a = some a2 ∧
      (∀ j, j ≠ 15 → a2.reg j = if j = (instruction >>> 12) &&& 0xF then a.cpsr else a.reg j) ∧
      a2.reg 15 = u32 ((if (instruction >>> 12) &&& 0xF = 15 then a.cpsr else a.reg 15) + 4) := by
  unfold ARM_StatusTransfer
  simp only [Bool.false_eq_true, if_false]
  refine ⟨_, rfl, ?_, ?_⟩
  · intro j hj
    simp only [setReg_reg, hj, if_false]
  · simp only [setReg_reg, if_true]
    by_cases hd : (instruction >>> 12) &&& 0xF = 15
    · rw [if_pos hd.symm, if_pos hd]
    · rw [if_neg (fun e => hd e.symm), if_neg hd]

/-- C4 (as amended): from a state in a valid mode, `MSR CPSR_fsxc, x` with a
non-zero field mask (the low five bits of `x` naming a valid mode when bit 0 of the
mask is set) followed by `MRS r, CPSR` with `r` other than r15 leaves
`r = (x AND mask) OR (old CPSR AND NOT mask)`, where byte lane `i` of `mask` is
`0xFF` iff bit `i` of the field mask is set. -/
theorem C4_msr_mrs_roundtrip (immediate immediate2 : Bool) (instruction mrs : Nat) (a : ARM)
    (hv : IsValidMode (sr_mode a.cpsr))
    (hf : (instruction >>> 16) &&& 0xF ≠ 0)
    (hx : ((instruction >>> 16) &&& 0xF).testBit 0 = true →
      IsValidMode (ARM_StatusTransfer.operand immediate instruction a % 32))
    (hd : (mrs >>> 12) &&& 0xF ≠ 15) :
    ∃ a1 a2, ARM_StatusTransfer immediate false true instruction a = some a1 ∧
      ARM_StatusTransfer immediate2 false false mrs a1 = some a2 ∧
      a2.reg ((mrs >>> 12) &&& 0xF) =
        (ARM_StatusTransfer.operand immediate instruction a &&&
            laneMask ((instruction >>> 16) &&& 0xF)) |||
          (a.cpsr &&& (0xFFFFFFFF ^^^ laneMask ((instruction >>> 16) &&& 0xF))) := by
  have hlt : (instruction >>> 16) &&& 0xF < 16 := by
    have := Nat.and_pow_two_sub_one_eq_mod (instruction >>> 16) 4
    have e : (instruction >>> 16) &&& 0xF = (instruction >>> 16) % 16 := by simpa using this
    rw [e]; omega
  have hx' : ((instruction >>> 16) &&& 0xF) % 2 = 1 →
      IsValidMode (ARM_StatusTransfer.operand immediate instruction a % 32) := by
    intro h
    apply hx
    rw [Nat.testBit_zero]
    simp [h]
  obtain ⟨a1, h1, hc⟩ := MSR_cpsr immediate instruction a hv hf hx'
  obtain ⟨a2, h2, hr, _⟩ := MRS_cpsr immediate2 mrs a1
  refine ⟨a1, a2, h1, h2, ?_⟩
  rw [hr _ hd, if_pos rfl, hc, fsxcMask_eq_laneMask _ hlt, Nat.or_comm]

/-- Witness of C4 (as amended): MSR CPSR_fc, #0x13 then MRS r1, CPSR. -/
theorem C4_witness :
    IsValidMode (sr_mode (sampleARM Model.ARM9).cpsr) ∧
    ((0xE329F013 >>> 16) &&& 0xF ≠ 0) ∧
    IsValidMode (ARM_StatusTransfer.operand true 0xE329F013 (sampleARM Model.ARM9) % 32) ∧
    ((0xE10F1000 >>> 12) &&& 0xF ≠ 15) ∧
    ∃ a1 a2, ARM_StatusTransfer true false true 0xE329F013 (sampleARM Model.ARM9) = some a1 ∧
      ARM_StatusTransfer false false false 0xE10F1000 a1 = some a2 ∧
      a2.reg ((0xE10F1000 >>> 12) &&& 0xF) =
        (ARM_StatusTransfer.operand true 0xE329F013 (sampleARM Model.ARM9) &&&
            laneMask ((0xE329F013 >>> 16) &&& 0xF)) |||
          ((sampleARM Model.ARM9).cpsr &&&
            (0xFFFFFFFF ^^^ laneMask ((0xE329F013 >>> 16) &&& 0xF))) :=
  ⟨by decide, by decide, by decide, by decide,
    C4_msr_mrs_roundtrip true false 0xE329F013 0xE10F1000 (sampleARM Model.ARM9)
      (by decide) (by decide) (fun _ => by decide) (by decide)⟩

/-- Counterexample to C4 as stated: after MSR CPSR_f, r0 the instruction
MRS r15, CPSR leaves r15 four above the CPSR value. -/
theorem C4_mrs_r15_counterexample :
    ∃ a1 a2, ARM_StatusTransfer false false true 0xE128F000 (sampleARM Model.ARM9) = some a1 ∧
      ARM_StatusTransfer false false false 0xE10FF000 a1 = some a2 ∧
      a2.reg ((0xE10FF000 >>> 12) &&& 0xF) ≠
        (ARM_StatusTransfer.operand false 0xE128F000 (sampleARM Model.ARM9) &&&
            laneMask ((0xE128F000 >>> 16) &&& 0xF)) |||
          ((sampleARM Model.ARM9).cpsr &&&
            (0xFFFFFFFF ^^^ laneMask ((0xE128F000 >>> 16) &&& 0xF))) :=
  ⟨_, _, rfl, rfl, by decide⟩

theorem lane3_low (w x : Nat) :
    ((w &&& 0x00FFFFFF) ||| (x &&& 0xFF000000)) % 16777216 = w % 16777216 := by
  have e : (16777216 : Nat) = 2 ^ 24 := by norm_num
  rw [e]
  apply Nat.eq_of_testBit_eq
  intro i
  simp only [Nat.testBit_mod_two_pow, Nat.testBit_or, Nat.testBit_and]
  by_cases hi : i < 24
  · have h1 : Nat.testBit 0x00FFFFFF i = true := by interval_cases i <;> rfl
    have h2 : Nat.testBit 0xFF000000 i = false := by interval_cases i <;> rfl
    simp [hi, h1, h2]
  · simp [hi]

/-- C5 (as amended): an MSR to the CPSR whose field mask selects no lane below the
flag byte leaves CPSR bits 0..23, every register other than r15, the banked
registers and the selected SPSR slot unchanged, in User mode as in any other. -/
theorem C5_user_msr_flags_only (immediate : Bool) (instruction : Nat) (a : ARM)
    (hf : ((instruction >>> 16) &&& 0xF) % 8 = 0)
    (hh : ¬ (immediate = true ∧ (instruction >>> 16) &&& 0xF = 0)) :
    ∃ a', ARM_StatusTransfer immediate false true instruction a = some a' ∧
      a'.cpsr % 16777216 = a.cpsr % 16777216 ∧
      (∀ i, i ≠ 15 → a'.reg i = a.reg i) ∧
      (∀ b j, a'.bank b j = a.bank b j) ∧
      a'.p_spsr = a.p_spsr := by
  have hlt : (instruction >>> 16) &&& 0xF < 16 := by
    have := Nat.and_pow_two_sub_one_eq_mod (instruction >>> 16) 4
    have e : (instruction >>> 16) &&& 0xF = (instruction >>> 16) % 16 := by simpa using this
    rw [e]; omega
  generalize hfs : (instruction >>> 16) &&& 0xF = fsxc at hf hh hlt
  unfold ARM_StatusTransfer
  simp only [hfs, hh, if_false, if_true, Bool.not_false]
  have h8 : fsxc = 0 ∨ fsxc = 8 := by omega
  rcases h8 with h | h
  · subst h
    refine ⟨_, rfl, ?_, ?_, ?_, rfl⟩
    · have := Nat.and_pow_two_sub_one_eq_mod a.cpsr 32
      simp [fsxcMask] at this ⊢
      rw [this]; omega
    · intro i hi; simp [hi, fsxcMask]
    · intro b j; rfl
  · subst h
    refine ⟨_, rfl, ?_, ?_, ?_, rfl⟩
    · simpa [fsxcMask] using lane3_low a.cpsr _
    · intro i hi; simp [hi, fsxcMask]
    · intro b j; rfl

/-- Counterexample to C5 as stated: in User mode MSR CPSR_c, #0x12 enters IRQ mode,
changes CPSR bits below 24 and switches the register bank. -/
theorem C5_user_msr_counterexample :
    sr_mode sampleUser.cpsr = 0x10 ∧
    ∃ a', ARM_StatusTransfer true false true 0xE321F012 sampleUser = some a' ∧
      sr_mode a'.cpsr = 0x12 ∧
      a'.cpsr % 16777216 ≠ sampleUser.cpsr % 16777216 ∧
      a'.reg 13 ≠ sampleUser.reg 13 :=
  ⟨by decide, _, rfl, by decide, by decide, by decide⟩


/-- Witness of C5 (as amended): MSR CPSR_f, #0xF0000000 in User mode. -/
theorem C5_witness :
    (((0xE328F20F >>> 16) &&& 0xF) % 8 = 0) ∧
    ¬ (true = true ∧ (0xE328F20F >>> 16) &&& 0xF = 0) ∧
    ∃ a', ARM_StatusTransfer true false true 0xE328F20F sampleUser = some a' ∧
      a'.cpsr % 16777216 = sampleUser.cpsr % 16777216 ∧
      (∀ i, i ≠ 15 → a'.reg i = sampleUser.reg i) ∧
      (∀ b j, a'.bank b j = sampleUser.bank b j) ∧
      a'.p_spsr = sampleUser.p_spsr :=
  ⟨by decide, by decide,
    C5_user_msr_flags_only true 0xE328F20F sampleUser (by decide) (by decide)⟩

/-! ### C6, C7: exception entry -/

/-- C6: with CPSR.I clear, `SignalIRQ` saves the CPSR in SPSR_irq, enters IRQ mode
with I set and T clear, stores in r14 of the IRQ bank the old r15 (old T set) or
the old r15 minus 4 (old T clear), refetches both pipeline slots as words from
`exception_base + 0x18` and `exception_base + 0x1C` and leaves r15 two words past
the vector; with CPSR.I set it changes nothing. -/
theorem C6_signal_irq (a : ARM) (hv : IsValidMode (sr_mode a.cpsr)) :
    (sr_mask_irq a.cpsr = 0 →
      ∃ a', SignalIRQ a = some a' ∧
        a'.spsr Bank.IRQ = a.cpsr ∧
        sr_mode a'.cpsr = 0x12 ∧ sr_mask_irq a'.cpsr = 1 ∧ sr_thumb a'.cpsr = 0 ∧
        a'.p_spsr = Bank.IRQ ∧
        a'.reg 14 = (if sr_thumb a.cpsr = 1 then a.reg 15 else u32 (a.reg 15 + 4294967296 - 4)) ∧
        a'.opcode0 = ReadWord a.memory (a.exception_base + 0x18) ∧
        a'.opcode1 = ReadWord a.memory (a.exception_base + 0x1C) ∧
        a'.reg 15 = u32 (a.exception_base + 0x18 + 8)) ∧
    (sr_mask_irq a.cpsr = 1 → SignalIRQ a = some a) := by
  constructor
  · intro hI
    obtain ⟨b1, hb1⟩ := (GetRegisterBankByMode_isSome _).2 hv
    have hs := SwitchMode_eq (a.setSpsr Bank.IRQ a.cpsr) Mode.IRQ b1 Bank.IRQ hb1 rfl
    have hf := banked_fields (a.setSpsr Bank.IRQ a.cpsr) Mode.IRQ b1 Bank.IRQ
    have h15 := banked_reg_other (a.setSpsr Bank.IRQ a.cpsr) Mode.IRQ b1 Bank.IRQ 15 (by omega)
    obtain ⟨hspsr, hp, hc, hmem, _, heb⟩ := hf
    simp only [setSpsr_cpsr, setSpsr_memory, setSpsr_exception_base, setSpsr_reg] at hc hmem heb h15
    unfold SignalIRQ
    simp only [hI, ne_eq, not_true_eq_false, if_false, hs]
    have hth : sr_thumb (sr_set_mask_irq (sr_set_mode a.cpsr Mode.IRQ) 1) = sr_thumb a.cpsr := by
      unfold sr_thumb sr_set_mask_irq sr_set_mode Mode.IRQ; omega
    have hr : ∀ x, ReadWord a.memory (u32 x) = ReadWord a.memory x := by
      intro x
      have := ReadWord_u32_add a.memory x 0
      simpa using this
    have h1c : ReadWord a.memory (a.exception_base + 28) =
        ReadWord a.memory (u32 (a.exception_base + 24) + 4) := by
      rw [ReadWord_u32_add]
    have hpc : u32 (u32 (a.exception_base + 24) + 8) = u32 (a.exception_base + 24 + 8) := by
      unfold u32; omega
    by_cases ht : sr_thumb a.cpsr = 0
    · simp only [hc, hth, ht, not_true_eq_false, if_false]
      refine ⟨_, rfl, ?_, ?_, ?_, ?_, ?_, ?_, ?_, ?_, ?_⟩
      · simp [ReloadPipeline32, hspsr]
      · simp only [ReloadPipeline32, setReg_cpsr]
        unfold sr_mode sr_set_mask_irq sr_set_mode Mode.IRQ; omega
      · simp only [ReloadPipeline32, setReg_cpsr]
        unfold sr_mask_irq sr_set_mask_irq sr_set_mode Mode.IRQ; omega
      · simp only [ReloadPipeline32, setReg_cpsr]
        exact hth.trans ht
      · simp [ReloadPipeline32, hp]
      · simp [ReloadPipeline32, ht, h15]
      · simp [ReloadPipeline32, ReadWordCode, ARM.setReg, hmem, heb, hr]
      · simp [ReloadPipeline32, ReadWordCode, ARM.setReg, hmem, heb, h1c]
      · simp [ReloadPipeline32, heb, hpc]
    · have ht1 : sr_thumb a.cpsr = 1 := by unfold sr_thumb at ht ⊢; omega
      simp only [hc, hth, ht, not_false_eq_true, if_true]
      refine ⟨_, rfl, ?_, ?_, ?_, ?_, ?_, ?_, ?_, ?_, ?_⟩
      · simp [ReloadPipeline32, hspsr]
      · simp only [ReloadPipeline32, setReg_cpsr]
        unfold sr_mode sr_set_thumb sr_set_mask_irq sr_set_mode Mode.IRQ; omega
      · simp only [ReloadPipeline32, setReg_cpsr]
        unfold sr_mask_irq sr_set_thumb sr_set_mask_irq sr_set_mode Mode.IRQ; omega
      · simp only [ReloadPipeline32, setReg_cpsr]
        unfold sr_thumb sr_set_thumb sr_set_mask_irq sr_set_mode Mode.IRQ; omega
      · simp [ReloadPipeline32, hp]
      · simp [ReloadPipeline32, ht1, h15]
      · simp [ReloadPipeline32, ReadWordCode, ARM.setReg, hmem, heb, hr]
      · simp [ReloadPipeline32, ReadWordCode, ARM.setReg, hmem, heb, h1c]
      · simp [ReloadPipeline32, heb, hpc]
  · intro hI
    unfold SignalIRQ
    simp [hI]


/-- Witness of C6 on a CPU with interrupts enabled. -/
theorem C6_witness :
    IsValidMode (sr_mode (sampleARM Model.ARM9).cpsr) ∧
    sr_mask_irq (sampleARM Model.ARM9).cpsr = 0 ∧
    ∃ a', SignalIRQ (sampleARM Model.ARM9) = some a' ∧
        a'.spsr Bank.IRQ = (sampleARM Model.ARM9).cpsr ∧
        sr_mode a'.cpsr = 0x12 ∧ sr_mask_irq a'.cpsr = 1 ∧ sr_thumb a'.cpsr = 0 ∧
        a'.p_spsr = Bank.IRQ ∧
        a'.reg 14 = (if sr_thumb (sampleARM Model.ARM9).cpsr = 1 then (sampleARM Model.ARM9).reg 15
          else u32 ((sampleARM Model.ARM9).reg 15 + 4294967296 - 4)) ∧
        a'.opcode0 = ReadWord (sampleARM Model.ARM9).memory
          ((sampleARM Model.ARM9).exception_base + 0x18) ∧
        a'.opcode1 = ReadWord (sampleARM Model.ARM9).memory
          ((sampleARM Model.ARM9).exception_base + 0x1C) ∧
        a'.reg 15 = u32 ((sampleARM Model.ARM9).exception_base + 0x18 + 8) :=
  ⟨by decide, by decide, (C6_signal_irq (sampleARM Model.ARM9) (by decide)).1 (by decide)⟩

/-- C7: `ARM_SWI` saves the CPSR in SPSR_svc, enters Supervisor mode with I set,
stores the old r15 minus 4 in r14 of the Supervisor bank, refetches both pipeline
slots as words from `exception_base + 0x08` and `exception_base + 0x0C`, leaves
r15 two words past the vector and changes no other CPSR bit. -/
theorem C7_swi (instruction : Nat) (a : ARM) (hv : IsValidMode (sr_mode a.cpsr)) :
    ∃ a', ARM_SWI instruction a = some a' ∧
      a'.spsr Bank.Supervisor = a.cpsr ∧
      sr_mode a'.cpsr = 0x13 ∧ sr_mask_irq a'.cpsr = 1 ∧
      a'.p_spsr = Bank.Supervisor ∧
      a'.reg 14 = u32 (a.reg 15 + 4294967296 - 4) ∧
      a'.opcode0 = ReadWord a.memory (a.exception_base + 0x08) ∧
      a'.opcode1 = ReadWord a.memory (a.exception_base + 0x0C) ∧
      a'.reg 15 = u32 (a.exception_base + 0x08 + 8) ∧
      a'.cpsr / 256 = a.cpsr / 256 ∧
      sr_thumb a'.cpsr = sr_thumb a.cpsr ∧ sr_mask_fiq a'.cpsr = sr_mask_fiq a.cpsr := by
  obtain ⟨b1, hb1⟩ := (GetRegisterBankByMode_isSome _).2 hv
  have hs := SwitchMode_eq (a.setSpsr Bank.Supervisor a.cpsr) Mode.Supervisor b1
    Bank.Supervisor hb1 rfl
  have hf := banked_fields (a.setSpsr Bank.Supervisor a.cpsr) Mode.Supervisor b1 Bank.Supervisor
  have h15 := banked_reg_other (a.setSpsr Bank.Supervisor a.cpsr) Mode.Supervisor b1
    Bank.Supervisor 15 (by omega)
  obtain ⟨hspsr, hp, hc, hmem, _, heb⟩ := hf
  simp only [setSpsr_cpsr, setSpsr_memory, setSpsr_exception_base, setSpsr_reg] at hc hmem heb h15
  have hr : ∀ x, ReadWord a.memory (u32 x) = ReadWord a.memory x := by
    intro x
    have := ReadWord_u32_add a.memory x 0
    simpa using this
  have h1c : ReadWord a.memory (a.exception_base + 12) =
      ReadWord a.memory (u32 (a.exception_base + 8) + 4) := by
    rw [ReadWord_u32_add]
  have hpc : u32 (u32 (a.exception_base + 8) + 8) = u32 (a.exception_base + 8 + 8) := by
    unfold u32; omega
  unfold ARM_SWI
  simp only [hs, hc]
  refine ⟨_, rfl, ?_, ?_, ?_, ?_, ?_, ?_, ?_, ?_, ?_, ?_, ?_⟩
  · simp [ReloadPipeline32, hspsr]
  · simp only [ReloadPipeline32, setReg_cpsr]
    unfold sr_mode sr_set_mask_irq sr_set_mode Mode.Supervisor; omega
  · simp only [ReloadPipeline32, setReg_cpsr]
    unfold sr_mask_irq sr_set_mask_irq sr_set_mode Mode.Supervisor; omega
  · simp [ReloadPipeline32, hp]
  · simp [ReloadPipeline32, h15]
  · simp [ReloadPipeline32, ReadWordCode, ARM.setReg, hmem, heb, hr]
  · simp [ReloadPipeline32, ReadWordCode, ARM.setReg, hmem, heb, h1c]
  · simp [ReloadPipeline32, heb, hpc]
  · simp only [ReloadPipeline32, setReg_cpsr]
    unfold sr_set_mask_irq sr_set_mode Mode.Supervisor; omega
  · simp only [ReloadPipeline32, setReg_cpsr]
    unfold sr_thumb sr_set_mask_irq sr_set_mode Mode.Supervisor; omega
  · simp only [ReloadPipeline32, setReg_cpsr]
    unfold sr_mask_fiq sr_set_mask_irq sr_set_mode Mode.Supervisor; omega

/-- Witness of C7. -/
theorem C7_witness :
    IsValidMode (sr_mode (sampleARM Model.ARM9).cpsr) ∧
    ∃ a', ARM_SWI 0xEF000005 (sampleARM Model.ARM9) = some a' ∧
      a'.spsr Bank.Supervisor = (sampleARM Model.ARM9).cpsr ∧
      sr_mode a'.cpsr = 0x13 ∧ sr_mask_irq a'.cpsr = 1 ∧
      a'.p_spsr = Bank.Supervisor ∧
      a'.reg 14 = u32 ((sampleARM Model.ARM9).reg 15 + 4294967296 - 4) ∧
      a'.opcode0 = ReadWord (sampleARM Model.ARM9).memory
        ((sampleARM Model.ARM9).exception_base + 0x08) ∧
      a'.opcode1 = ReadWord (sampleARM Model.ARM9).memory
        ((sampleARM Model.ARM9).exception_base + 0x0C) ∧
      a'.reg 15 = u32 ((sampleARM Model.ARM9).exception_base + 0x08 + 8) ∧
      a'.cpsr / 256 = (sampleARM Model.ARM9).cpsr / 256 ∧
      sr_thumb a'.cpsr = sr_thumb (sampleARM Model.ARM9).cpsr ∧
      sr_mask_fiq a'.cpsr = sr_mask_fiq (sampleARM Model.ARM9).cpsr :=
  ⟨by decide, C7_swi 0xEF000005 (sampleARM Model.ARM9) (by decide)⟩


/-! ### C8, C9, C10: block data transfer -/

/-! ### Bit-level facts used by the block transfer -/

theorem ctzAux_eq : ∀ (j fuel r : Nat), j < fuel → (∀ i, i < j → r.testBit i = false) →
    r.testBit j = true → ctzAux fuel r = j := by
  intro j
  induction j with
  | zero =>
    intro fuel r hf _ hj
    obtain ⟨f, rfl⟩ : ∃ f, fuel = f + 1 := ⟨fuel - 1, by omega⟩
    have h1 : r % 2 = 1 := by
      rw [Nat.testBit_zero] at hj
      simpa using hj
    simp [ctzAux, h1]
  | succ j ih =>
    intro fuel r hf hlow hj
    obtain ⟨f, rfl⟩ : ∃ f, fuel = f + 1 := ⟨fuel - 1, by omega⟩
    have h0 : r % 2 ≠ 1 := by
      have := hlow 0 (by omega)
      rw [Nat.testBit_zero] at this
      simpa using this
    have hrec : ctzAux f (r / 2) = j := by
      apply ih f (r / 2) (by omega)
      · intro i hi
        have := hlow (i + 1) (by omega)
        rwa [Nat.testBit_succ] at this
      · rwa [Nat.testBit_succ] at hj
    simp only [ctzAux, h0, if_false, hrec]
    omega

theorem ctz_eq (j r : Nat) (hj : j < 32) (hlow : ∀ i, i < j → r.testBit i = false)
    (hb : r.testBit j = true) : ctz r = j :=
  ctzAux_eq j 32 r hj hlow hb

theorem testBit_clear (r j i : Nat) (hr : r < 2 ^ 32) (hj : j < 32) :
    (r &&& (0xFFFFFFFF ^^^ (1 <<< j))).testBit i = (r.testBit i && decide (i ≠ j)) := by
  rw [Nat.testBit_and, Nat.testBit_xor]
  have hm : (0xFFFFFFFF : Nat) = 2 ^ 32 - 1 := by norm_num
  rw [hm, Nat.testBit_two_pow_sub_one, Nat.one_shiftLeft, Nat.testBit_two_pow]
  by_cases hi : i < 32
  · by_cases hij : i = j
    · subst hij; simp [hi]
    · have : ¬ j = i := fun e => hij e.symm
      simp [hi, hij, this]
  · have : r.testBit i = false := by
      apply Nat.testBit_lt_two_pow
      calc r < 2 ^ 32 := hr
        _ ≤ 2 ^ i := Nat.pow_le_pow_right (by norm_num) (by omega)
    simp [this]

theorem eq_zero_of_testBit (r : Nat) (h : ∀ i, r.testBit i = false) : r = 0 := by
  apply Nat.eq_of_testBit_eq
  intro i
  simp [h i]

/-- The `while` loop visits the registers of the list in ascending order. -/
theorem loop_eq_transferFrom (pre add load : Bool) (list : Nat)
    (hlist : ∀ i, 16 ≤ i → list.testBit i = false) :
    ∀ (k j fuel r address : Nat) (a : ARM), j + k = 16 → k ≤ fuel →
      (∀ i, r.testBit i = (list.testBit i && decide (j ≤ i))) →
      ARM_BlockDataTransfer.loop pre add load fuel r address a =
        some (transferFrom pre add load list k j address a) := by
  intro k
  induction k with
  | zero =>
    intro j fuel r address a hj _ hr
    have h0 : r = 0 := by
      apply eq_zero_of_testBit
      intro i
      rw [hr i]
      by_cases hi : j ≤ i
      · rw [hlist i (by omega)]; rfl
      · simp [hi]
    subst h0
    cases fuel <;> simp [ARM_BlockDataTransfer.loop, transferFrom]
  | succ k ih =>
    intro j fuel r address a hj hf hr
    by_cases hb : list.testBit j = true
    · obtain ⟨f, rfl⟩ : ∃ f, fuel = f + 1 := ⟨fuel - 1, by omega⟩
      have hrj : r.testBit j = true := by rw [hr j, hb]; simp
      have hne : r ≠ 0 := by
        intro e; rw [e] at hrj; simp at hrj
      have hlow : ∀ i, i < j → r.testBit i = false := by
        intro i hi
        rw [hr i]
        have : ¬ j ≤ i := by omega
        simp [this]
      have hc : ctz r = j := ctz_eq j r (by omega) hlow hrj
      have hlt : r < 2 ^ 32 := by
        apply Nat.lt_pow_two_of_testBit
        intro i hi
        rw [hr i, hlist i (by omega)]; rfl
      have hr' : ∀ i, (r &&& (0xFFFFFFFF ^^^ (1 <<< j))).testBit i =
          (list.testBit i && decide (j + 1 ≤ i)) := by
        intro i
        rw [testBit_clear r j i hlt (by omega), hr i]
        by_cases h1 : j + 1 ≤ i
        · have h2 : j ≤ i := by omega
          have h3 : i ≠ j := by omega
          simp [h1, h2, h3]
        · by_cases h2 : j ≤ i
          · have h3 : i = j := by omega
            simp [h1, h3]
          · simp [h1, h2]
      simp only [ARM_BlockDataTransfer.loop, hne, if_false, hc, transferFrom, hb, if_true]
      exact ih (j + 1) f _ _ _ (by omega) (by omega) hr'
    · have hb' : list.testBit j = false := by simpa using hb
      have hr' : ∀ i, r.testBit i = (list.testBit i && decide (j + 1 ≤ i)) := by
        intro i
        rw [hr i]
        by_cases h1 : j + 1 ≤ i
        · have h2 : j ≤ i := by omega
          simp [h1, h2]
        · by_cases h2 : j ≤ i
          · have h3 : i = j := by omega
            simp [h1, h3, hb']
          · simp [h1, h2]
      simp only [transferFrom, hb', Bool.false_eq_true, if_false]
      exact ih (j + 1) fuel r address a (by omega) (by omega) hr'

/-! ### Memory -/

theorem get_congr (m : Memory) (x y : Nat) (h : u32 x = u32 y) : m.get x = m.get y := by
  unfold Memory.get; rw [h]

theorem ReadWord_congr (m : Memory) (x y : Nat) (h : u32 x = u32 y) :
    ReadWord m x = ReadWord m y := by
  unfold ReadWord
  rw [get_congr m x y h, get_congr m (x + 1) (y + 1) (by unfold u32 at *; omega),
    get_congr m (x + 2) (y + 2) (by unfold u32 at *; omega),
    get_congr m (x + 3) (y + 3) (by unfold u32 at *; omega)]

theorem set_congr (m : Memory) (x y v : Nat) (h : u32 x = u32 y) : m.set x v = m.set y v := by
  unfold Memory.set; rw [h]

theorem WriteWord_congr (m : Memory) (x y v : Nat) (h : u32 x = u32 y) :
    WriteWord m x v = WriteWord m y v := by
  unfold WriteWord
  rw [set_congr m x y _ h, set_congr _ (x + 1) (y + 1) _ (by unfold u32 at *; omega),
    set_congr _ (x + 2) (y + 2) _ (by unfold u32 at *; omega),
    set_congr _ (x + 3) (y + 3) _ (by unfold u32 at *; omega)]

theorem set_byte (m : Memory) (x v z : Nat) :
    (m.set x v).byte z = if z = u32 x then v % 256 else m.byte z := rfl

/-- A word write changes only the four bytes of the word. -/
theorem WriteWord_byte_other (m : Memory) (x v z : Nat)
    (h : ∀ t, t < 4 → z ≠ u32 (x + t)) : (WriteWord m x v).byte z = m.byte z := by
  have h0 := h 0 (by omega)
  have h1 := h 1 (by omega)
  have h2 := h 2 (by omega)
  have h3 := h 3 (by omega)
  simp only [Nat.add_zero] at h0
  simp only [WriteWord, set_byte, h0, h1, h2, h3, if_false]

/-- A just-written word reads back as written. -/
theorem ReadWord_WriteWord (m : Memory) (x v : Nat) :
    ReadWord (WriteWord m x v) x = u32 v := by
  have d01 : u32 x ≠ u32 (x + 1) := by unfold u32; omega
  have d02 : u32 x ≠ u32 (x + 2) := by unfold u32; omega
  have d03 : u32 x ≠ u32 (x + 3) := by unfold u32; omega
  have d12 : u32 (x + 1) ≠ u32 (x + 2) := by unfold u32; omega
  have d13 : u32 (x + 1) ≠ u32 (x + 3) := by unfold u32; omega
  have d23 : u32 (x + 2) ≠ u32 (x + 3) := by unfold u32; omega
  simp only [ReadWord, Memory.get, WriteWord, set_byte, d01, d02, d03, d12, d13, d23, if_true,
    if_false]
  unfold u32
  omega

/-- A read sees only the four bytes of the word. -/
theorem ReadWord_of_byte_eq (m m' : Memory) (x : Nat)
    (h : ∀ t, t < 4 → m'.byte (u32 (x + t)) = m.byte (u32 (x + t))) :
    ReadWord m' x = ReadWord m x := by
  have h0 := h 0 (by omega)
  simp only [Nat.add_zero] at h0
  simp only [ReadWord, Memory.get, h0, h 1 (by omega), h 2 (by omega), h 3 (by omega)]

/-! ### Counting registers -/

theorem countBits_le (list : Nat) : ∀ n j, countBits list j n ≤ n := by
  intro n
  induction n with
  | zero => intro j; simp [countBits]
  | succ n ih =>
    intro j
    have := ih (j + 1)
    simp only [countBits]
    split_ifs <;> omega

theorem countBits_succ_left (list j i : Nat) (h : j < i) :
    countBits list j (i - j) =
      (if list.testBit j then 1 else 0) + countBits list (j + 1) (i - (j + 1)) := by
  have e : i - j = (i - (j + 1)) + 1 := by omega
  rw [e, countBits]

/-- The address handed to the next iteration by the loop body. -/
theorem transfer_fst (pre add load : Bool) (i A : Nat) (a : ARM) :
    (ARM_BlockDataTransfer.transfer pre add load i A a).1 = u32 (A + 4) := by
  unfold ARM_BlockDataTransfer.transfer
  by_cases h : pre = add
  · simp [h]
  · simp [h]

/-- The loop body of a load. -/
theorem transfer_load (pre add : Bool) (i A : Nat) (a : ARM) :
    (ARM_BlockDataTransfer.transfer pre add true i A a).2 =
      a.setReg i (ReadWord a.memory (A + (if pre = add then 4 else 0))) := by
  unfold ARM_BlockDataTransfer.transfer
  by_cases h : pre = add
  · simp only [h, if_true]
    rw [ReadWord_congr a.memory (u32 (A + 4)) (A + 4) (by unfold u32; omega)]
  · simp only [h, if_false, if_true, Nat.add_zero]

/-- The loop body of a store. -/
theorem transfer_store (pre add : Bool) (i A : Nat) (a : ARM) :
    (ARM_BlockDataTransfer.transfer pre add false i A a).2 =
      { a with memory := WriteWord a.memory (A + (if pre = add then 4 else 0)) (a.reg i) } := by
  unfold ARM_BlockDataTransfer.transfer
  by_cases h : pre = add
  · simp only [h, if_true, Bool.false_eq_true, if_false]
    rw [WriteWord_congr a.memory (u32 (A + 4)) (A + 4) _ (by unfold u32; omega)]
  · simp only [h, if_false, Bool.false_eq_true, Nat.add_zero]

/-- The registers after the loads of the registers `j .. j + k - 1` of the list. -/
theorem transferFrom_load (pre add : Bool) (list : Nat) :
    ∀ (k j A : Nat) (a : ARM),
      transferFrom pre add true list k j A a =
        { a with reg := fun i =>
            if j ≤ i ∧ i < j + k ∧ list.testBit i = true then
              ReadWord a.memory (A + 4 * countBits list j (i - j) + (if pre = add then 4 else 0))
            else a.reg i } := by
  intro k
  induction k with
  | zero =>
    intro j A a
    have : ∀ i, ¬ (j ≤ i ∧ i < j + 0 ∧ list.testBit i = true) := by intro i; omega
    simp only [transferFrom, this, if_false]
  | succ k ih =>
    intro j A a
    by_cases hb : list.testBit j = true
    · simp only [transferFrom, hb, if_true, transfer_fst, transfer_load, ih]
      simp only [ARM.setReg]
      congr 1
      funext i
      by_cases h1 : j + 1 ≤ i
      · by_cases h2 : i < j + 1 + k ∧ list.testBit i = true
        · have h3 : j ≤ i ∧ i < j + (k + 1) ∧ list.testBit i = true := ⟨by omega, by omega, h2.2⟩
          have hc := countBits_succ_left list j i (by omega)
          simp only [hb, if_true] at hc
          simp only [h1, h2, h3, and_self, if_true, hc]
          apply ReadWord_congr
          unfold u32; omega
        · have h3 : ¬ (j ≤ i ∧ i < j + (k + 1) ∧ list.testBit i = true) := by
            intro h; exact h2 ⟨by omega, h.2.2⟩
          have h4 : ¬ i = j := by omega
          simp only [h1, h2, h3, true_and, if_false, h4]
      · have h2 : ¬ (j + 1 ≤ i ∧ i < j + 1 + k ∧ list.testBit i = true) := fun h => h1 h.1
        by_cases h3 : i = j
        · subst h3
          have h4 : i ≤ i ∧ i < i + (k + 1) ∧ list.testBit i = true := ⟨le_refl _, by omega, hb⟩
          simp only [if_true, h4, and_self, Nat.sub_self, countBits, Nat.mul_zero, Nat.add_zero]
          exact if_neg (fun h => h1 h.1)
        · have h4 : ¬ (j ≤ i ∧ i < j + (k + 1) ∧ list.testBit i = true) := by omega
          simp only [h2, h3, h4, if_false]
    · have hb' : list.testBit j = false := by simpa using hb
      simp only [transferFrom, hb', Bool.false_eq_true, if_false, ih]
      congr 1
      funext i
      by_cases h1 : j + 1 ≤ i
      · by_cases h2 : i < j + 1 + k ∧ list.testBit i = true
        · have h3 : j ≤ i ∧ i < j + (k + 1) ∧ list.testBit i = true := ⟨by omega, by omega, h2.2⟩
          have hc := countBits_succ_left list j i (by omega)
          simp only [hb', Bool.false_eq_true, if_false, Nat.zero_add] at hc
          simp only [h1, h2, h3, and_self, if_true, hc]
        · have h3 : ¬ (j ≤ i ∧ i < j + (k + 1) ∧ list.testBit i = true) := by
            intro h; exact h2 ⟨by omega, h.2.2⟩
          simp only [h1, h2, h3, true_and, if_false]
      · have h2 : ¬ (j + 1 ≤ i ∧ i < j + 1 + k ∧ list.testBit i = true) := fun h => h1 h.1
        have h4 : ¬ (j ≤ i ∧ i < j + (k + 1) ∧ list.testBit i = true) := by
          intro h
          have : i = j := by omega
          rw [this, hb'] at h
          exact absurd h.2.2 (by simp)
        simp only [h2, h4, if_false]


/-- The memory after the stores of the registers `j .. j + k - 1` of the list: only
the bytes of the transferred words change, and every listed register reads back
from its slot. -/
theorem transferFrom_store (pre add : Bool) (list : Nat) :
    ∀ (k j A : Nat) (a : ARM), j + k ≤ 16 →
      ∃ M, transferFrom pre add false list k j A a = { a with memory := M } ∧
        (∀ z, (∀ d, d < 4 * countBits list j k →
            z ≠ u32 (A + (if pre = add then 4 else 0) + d)) → M.byte z = a.memory.byte z) ∧
        (∀ i, j ≤ i → i < j + k → list.testBit i = true →
          ReadWord M (A + 4 * countBits list j (i - j) + (if pre = add then 4 else 0)) =
            u32 (a.reg i)) := by
  intro k
  induction k with
  | zero =>
    intro j A a _
    refine ⟨a.memory, rfl, fun _ _ => rfl, ?_⟩
    intro i h1 h2
    omega
  | succ k ih =>
    intro j A a hjk
    generalize hadj : (if pre = add then 4 else 0) = adj
    have hadj4 : adj ≤ 4 := by subst hadj; split_ifs <;> omega
    by_cases hb : list.testBit j = true
    · obtain ⟨M, hM, hframe, hread⟩ := ih (j + 1) (u32 (A + 4))
        { a with memory := WriteWord a.memory (A + adj) (a.reg j) } (by omega)
      rw [hadj] at hframe hread
      have hcnt := countBits_le list k (j + 1)
      refine ⟨M, ?_, ?_, ?_⟩
      · simp only [transferFrom, hb, if_true, transfer_fst, transfer_store, hadj]
        exact hM
      · intro z hz
        simp only [countBits, hb, if_true] at hz
        have h1 : M.byte z =
            (WriteWord a.memory (A + adj) (a.reg j)).byte z := by
          apply hframe
          intro d hd
          have := hz (4 + d) (by omega)
          intro e
          apply this
          rw [e]
          unfold u32; omega
        rw [h1]
        apply WriteWord_byte_other
        intro t ht
        have := hz t (by omega)
        exact this
      · intro i hi1 hi2 hbi
        by_cases hij : i = j
        · subst hij
          simp only [Nat.sub_self, countBits, Nat.mul_zero, Nat.add_zero]
          have h1 : ReadWord M (A + adj) =
              ReadWord (WriteWord a.memory (A + adj) (a.reg i)) (A + adj) := by
            apply ReadWord_of_byte_eq
            intro t ht
            apply hframe
            intro d hd
            unfold u32; omega
          rw [h1, ReadWord_WriteWord]
        · have hc := countBits_succ_left list j i (by omega)
          simp only [hb, if_true] at hc
          have := hread i (by omega) (by omega) hbi
          rw [hc]
          rw [← this]
          apply ReadWord_congr
          unfold u32; omega
    · have hb' : list.testBit j = false := by simpa using hb
      obtain ⟨M, hM, hframe, hread⟩ := ih (j + 1) A a (by omega)
      rw [hadj] at hframe hread
      refine ⟨M, ?_, ?_, ?_⟩
      · simp only [transferFrom, hb', Bool.false_eq_true, if_false]
        exact hM
      · intro z hz
        simp only [countBits, hb', Bool.false_eq_true, if_false, Nat.zero_add] at hz
        exact hframe z hz
      · intro i hi1 hi2 hbi
        have hij : i ≠ j := by
          intro e; rw [e, hb'] at hbi; exact absurd hbi (by simp)
        have hc := countBits_succ_left list j i (by omega)
        simp only [hb', Bool.false_eq_true, if_false, Nat.zero_add] at hc
        rw [hc]
        exact hread i (by omega) (by omega) hbi

theorem and_shift_eq_zero_iff (list j : Nat) :
    list &&& (1 <<< j) = 0 ↔ list.testBit j = false := by
  rw [Nat.one_shiftLeft]
  constructor
  · intro h
    have := congrArg (fun x => Nat.testBit x j) h
    simpa [Nat.testBit_and, Nat.testBit_two_pow_self] using this
  · intro h
    apply Nat.eq_of_testBit_eq
    intro i
    rw [Nat.testBit_and, Nat.testBit_two_pow]
    by_cases e : j = i
    · subst e; simp [h]
    · simp [e]

theorem eq_shift_iff (list j : Nat) :
    list = 1 <<< j ↔ (list.testBit j = true ∧ ∀ i, i ≠ j → list.testBit i = false) := by
  rw [Nat.one_shiftLeft]
  constructor
  · intro h
    subst h
    refine ⟨Nat.testBit_two_pow_self, ?_⟩
    intro i hi
    rw [Nat.testBit_two_pow]
    simp [Ne.symm hi]
  · rintro ⟨h1, h2⟩
    apply Nat.eq_of_testBit_eq
    intro i
    rw [Nat.testBit_two_pow]
    by_cases e : j = i
    · subst e; simp [h1]
    · simp [e, h2 i (Ne.symm e)]

theorem log2_eq_iff_highest (list j : Nat) (h0 : list ≠ 0) :
    Nat.log2 list = j ↔ (list.testBit j = true ∧ ∀ i, j < i → list.testBit i = false) := by
  constructor
  · intro h
    subst h
    have hlo := Nat.log2_self_le h0
    have hhi := @Nat.lt_log2_self list
    constructor
    · rw [Nat.testBit_to_div_mod]
      have : list / 2 ^ list.log2 = 1 := by
        apply Nat.div_eq_of_lt_le
        · simpa using hlo
        · rw [Nat.pow_succ] at hhi; omega
      simp [this]
    · intro i hi
      apply Nat.testBit_lt_two_pow
      calc list < 2 ^ (list.log2 + 1) := hhi
        _ ≤ 2 ^ i := Nat.pow_le_pow_right (by norm_num) hi
  · rintro ⟨h1, h2⟩
    have hge := Nat.testBit_implies_ge h1
    have hlt : list < 2 ^ (j + 1) := Nat.lt_pow_two_of_testBit list (fun i hi => h2 i hi)
    have a1 : j ≤ list.log2 := (Nat.le_log2 h0).2 hge
    have a2 : list.log2 < j + 1 := (Nat.log2_lt h0).2 hlt
    omega

/-- The leading zeros counted below position `n` when `j` is the highest set bit. -/
theorem clzAux_eq (x : Nat) : ∀ (n j : Nat), j < n → x.testBit j = true →
    (∀ i, j < i → i < n → x.testBit i = false) → clzAux n x = n - 1 - j := by
  intro n
  induction n with
  | zero => intro j hj; omega
  | succ m ih =>
    intro j hj hbit hhigh
    by_cases hm : x.testBit m = true
    · have : j = m := by
        by_contra hne
        have := hhigh m (by omega) (by omega)
        rw [this] at hm
        exact absurd hm (by simp)
      subst this
      simp [clzAux, hm]
    · have hm' : x.testBit m = false := by simpa using hm
      have hjm : j < m := by
        have : j ≠ m := by
          intro e; rw [e, hm'] at hbit; exact absurd hbit (by simp)
        omega
      have := ih j hjm hbit (fun i h1 h2 => hhigh i h1 (by omega))
      simp only [clzAux, hm', Bool.false_eq_true, if_false, this]
      omega

/-- The builtin expression `31 - clz(list)` is the index of the highest set bit. -/
theorem clz_eq_log2 (x : Nat) (h0 : x ≠ 0) (hlt : x < 2 ^ 32) : 31 - clz x = Nat.log2 x := by
  obtain ⟨hbit, hhigh⟩ := (log2_eq_iff_highest x (Nat.log2 x) h0).1 rfl
  have hl : Nat.log2 x < 32 := (Nat.log2_lt h0).2 hlt
  have := clzAux_eq x 32 (Nat.log2 x) hl hbit (fun i h1 _ => hhigh i h1)
  unfold clz
  omega

theorem list_bits_high (instruction i : Nat) (hi : 16 ≤ i) :
    (instruction &&& 0xFFFF).testBit i = false := by
  have hm : (0xFFFF : Nat) = 2 ^ 16 - 1 := by norm_num
  rw [Nat.testBit_and, hm, Nat.testBit_two_pow_sub_one]
  have : ¬ i < 16 := by omega
  simp [this]

theorem base_lt (instruction : Nat) : (instruction >>> 16) &&& 0xF < 16 := by
  have := Nat.and_pow_two_sub_one_eq_mod (instruction >>> 16) 4
  have e : (instruction >>> 16) &&& 0xF = (instruction >>> 16) % 16 := by simpa using this
  rw [e]; omega

/-- An LDM without the S bit whose list is non-empty and does not hold r15, on a
model other than ARM11 with writeback: the loads in ascending order, then the
writeback decision. -/
theorem LDM_eq (pre add : Bool) (instruction : Nat) (a : ARM)
    (hm : a.model ≠ Model.ARM11) (hl : instruction &&& 0xFFFF ≠ 0)
    (h15 : (instruction &&& 0xFFFF).testBit 15 = false) :
    ARM_BlockDataTransfer pre add false true true instruction a =
      some (ARM_BlockDataTransfer.writeback true (instruction &&& 0xFFFF)
        ((instruction >>> 16) &&& 0xF)
        (writebackValue add (a.reg ((instruction >>> 16) &&& 0xF))
          (popcount (instruction &&& 0xFFFF)))
        (decide (instruction &&& 0xFFFF ≠ 0 ∧
          31 - clz (instruction &&& 0xFFFF) = (instruction >>> 16) &&& 0xF))
        (transferFrom pre add true (instruction &&& 0xFFFF) 16 0
          (if add then a.reg ((instruction >>> 16) &&& 0xF)
            else u32 (a.reg ((instruction >>> 16) &&& 0xF) + 4294967296
              - popcount (instruction &&& 0xFFFF) * 4))
          (a.setReg 15 (u32 (a.reg 15 + 4))))) := by
  have hpc : (instruction &&& 0xFFFF) &&& (1 <<< 15) = 0 := (and_shift_eq_zero_iff _ _).2 h15
  have hloop := fun A a1 => loop_eq_transferFrom pre add true (instruction &&& 0xFFFF)
    (list_bits_high instruction) 16 0 16 (instruction &&& 0xFFFF) A a1 (by omega) (by omega)
    (by intro i; simp)
  unfold ARM_BlockDataTransfer
  simp only [hm, false_and, if_false, hl, ne_eq, not_false_eq_true, if_true, hpc,
    not_true_eq_false, Bool.false_eq_true, and_false, Bool.not_true, hloop, decide_False,
    decide_True, Bool.true_and, Bool.and_true, true_and, and_true]
  have hw : (if add = true then
        u32 ((if add = true then a.reg ((instruction >>> 16) &&& 0xF)
            else u32 (a.reg ((instruction >>> 16) &&& 0xF) + 4294967296
              - popcount (instruction &&& 0xFFFF) * 4)) + popcount (instruction &&& 0xFFFF) * 4)
      else
        if add = true then a.reg ((instruction >>> 16) &&& 0xF)
        else u32 (a.reg ((instruction >>> 16) &&& 0xF) + 4294967296
          - popcount (instruction &&& 0xFFFF) * 4)) =
      writebackValue add (a.reg ((instruction >>> 16) &&& 0xF))
        (popcount (instruction &&& 0xFFFF)) := by
    unfold writebackValue
    cases add <;> simp [Nat.mul_comm]
  rw [hw]


theorem popcount_le (x : Nat) : popcount x ≤ 32 := by
  unfold popcount
  calc ((List.range 32).filter (fun i => x.testBit i)).length
      ≤ (List.range 32).length := List.length_filter_le _ _
    _ = 32 := List.length_range 32

/-- The address of the slot of register `i` as the loop computes it agrees with
`transferAddress` modulo `2^32`. -/
theorem slot_address_eq (pre add : Bool) (list b i : Nat) :
    u32 ((if add then b else u32 (b + 4294967296 - popcount list * 4))
        + 4 * countBits list 0 (i - 0) + (if pre = add then 4 else 0)) =
      u32 (transferAddress pre add list b i) := by
  have hn := popcount_le list
  unfold transferAddress transferStart rank
  cases add <;> cases pre <;> simp [u32] <;> omega

/-- The register `base` after the loads of an LDM: the loaded word when the base is
in the list, else what the register held (r15 already advanced). -/
theorem loaded_base (pre add : Bool) (list base : Nat) (a : ARM) (hb : base < 16) :
    (transferFrom pre add true list 16 0
        (if add then a.reg base else u32 (a.reg base + 4294967296 - popcount list * 4))
        (a.setReg 15 (u32 (a.reg 15 + 4)))).reg base =
      if list.testBit base = true then
        ReadWord a.memory (transferAddress pre add list (a.reg base) base)
      else if base = 15 then u32 (a.reg 15 + 4) else a.reg base := by
  rw [transferFrom_load]
  dsimp only
  have hslot := slot_address_eq pre add list (a.reg base) base
  by_cases hbit : list.testBit base = true
  · have h1 : 0 ≤ base ∧ base < 0 + 16 ∧ list.testBit base = true := ⟨by omega, by omega, hbit⟩
    rw [if_pos h1, if_pos hbit]
    simp only [setReg_memory]
    apply ReadWord_congr
    rw [hslot]
  · have h1 : ¬ (0 ≤ base ∧ base < 0 + 16 ∧ list.testBit base = true) := fun h => hbit h.2.2
    rw [if_neg h1, if_neg hbit]
    simp only [setReg_reg]

/-- The base register after an LDM with writeback and without the S bit whose list
is non-empty and does not hold r15, on ARM7 and on ARM9. -/
theorem ldm_base_register (pre add : Bool) (instruction : Nat) (a : ARM)
    (hl : instruction &&& 0xFFFF ≠ 0)
    (h15 : (instruction &&& 0xFFFF).testBit 15 = false) :
    (a.model = Model.ARM7 →
      ∃ a', ARM_BlockDataTransfer pre add false true true instruction a = some a' ∧
        a'.reg ((instruction >>> 16) &&& 0xF) =
          if (instruction &&& 0xFFFF).testBit ((instruction >>> 16) &&& 0xF) = true then
            ReadWord a.memory (transferAddress pre add (instruction &&& 0xFFFF)
              (a.reg ((instruction >>> 16) &&& 0xF)) ((instruction >>> 16) &&& 0xF))
          else
            writebackValue add (a.reg ((instruction >>> 16) &&& 0xF))
              (popcount (instruction &&& 0xFFFF))) ∧
    (a.model = Model.ARM9 →
      ∃ a', ARM_BlockDataTransfer pre add false true true instruction a = some a' ∧
        (((instruction &&& 0xFFFF).testBit ((instruction >>> 16) &&& 0xF) = true ∧
            (∀ i, (instruction >>> 16) &&& 0xF < i → (instruction &&& 0xFFFF).testBit i = false) ∧
            (∃ i, i ≠ (instruction >>> 16) &&& 0xF ∧ (instruction &&& 0xFFFF).testBit i = true)) →
          a'.reg ((instruction >>> 16) &&& 0xF) =
            ReadWord a.memory (transferAddress pre add (instruction &&& 0xFFFF)
              (a.reg ((instruction >>> 16) &&& 0xF)) ((instruction >>> 16) &&& 0xF))) ∧
        (¬ ((instruction &&& 0xFFFF).testBit ((instruction >>> 16) &&& 0xF) = true ∧
            (∀ i, (instruction >>> 16) &&& 0xF < i → (instruction &&& 0xFFFF).testBit i = false) ∧
            (∃ i, i ≠ (instruction >>> 16) &&& 0xF ∧ (instruction &&& 0xFFFF).testBit i = true)) →
          a'.reg ((instruction >>> 16) &&& 0xF) =
            writebackValue add (a.reg ((instruction >>> 16) &&& 0xF))
              (popcount (instruction &&& 0xFFFF)))) := by
  have hb := base_lt instruction
  have hlt : ∀ i, 16 ≤ i → (instruction &&& 0xFFFF).testBit i = false := list_bits_high instruction
  constructor
  · intro hmod
    have hm : a.model ≠ Model.ARM11 := by rw [hmod]; decide
    refine ⟨_, LDM_eq pre add instruction a hm hl h15, ?_⟩
    generalize (instruction >>> 16) &&& 0xF = base at hb ⊢
    generalize instruction &&& 0xFFFF = list at hl h15 hlt ⊢
    have hmod' : (transferFrom pre add true list 16 0
        (if add then a.reg base else u32 (a.reg base + 4294967296 - popcount list * 4))
        (a.setReg 15 (u32 (a.reg 15 + 4)))).model = Model.ARM7 := by
      rw [transferFrom_load]; exact hmod
    unfold ARM_BlockDataTransfer.writeback
    simp only [if_true, hmod']
    by_cases hbit : list.testBit base = true
    · have hne : ¬ list &&& (1 <<< base) = 0 := by
        rw [and_shift_eq_zero_iff]; simp [hbit]
      rw [if_neg hne, loaded_base pre add list base a hb, if_pos hbit, if_pos hbit]
    · have he : list &&& (1 <<< base) = 0 := by
        rw [and_shift_eq_zero_iff]; simpa using hbit
      rw [if_pos he, if_neg hbit]
      simp only [setReg_reg, if_true]
  · intro hmod
    have hm : a.model ≠ Model.ARM11 := by rw [hmod]; decide
    refine ⟨_, LDM_eq pre add instruction a hm hl h15, ?_, ?_⟩
    all_goals
      generalize (instruction >>> 16) &&& 0xF = base at hb ⊢
      generalize instruction &&& 0xFFFF = list at hl h15 hlt ⊢
      have hmod' : (transferFrom pre add true list 16 0
          (if add then a.reg base else u32 (a.reg base + 4294967296 - popcount list * 4))
          (a.setReg 15 (u32 (a.reg 15 + 4)))).model = Model.ARM9 := by
        rw [transferFrom_load]; exact hmod
      have hlog : 31 - clz list = Nat.log2 list := by
        have h16 : list < 2 ^ 16 := Nat.lt_pow_two_of_testBit list (fun i hi => hlt i hi)
        exact clz_eq_log2 list hl (lt_trans h16 (by norm_num))
      unfold ARM_BlockDataTransfer.writeback
      simp only [if_true, hmod', hl, ne_eq, not_false_eq_true, true_and, hlog]
    · rintro ⟨hbit, hhigh, j, hj, hjbit⟩
      have hlast : Nat.log2 list = base := (log2_eq_iff_highest list base hl).2 ⟨hbit, hhigh⟩
      have hne : ¬ list = 1 <<< base := by
        intro e
        have := ((eq_shift_iff list base).1 e).2 j hj
        rw [this] at hjbit
        exact absurd hjbit (by simp)
      simp only [hlast, decide_True, Bool.not_true, Bool.false_eq_true, hne, or_self, if_false]
      rw [loaded_base pre add list base a hb, if_pos hbit]
    · intro hn
      have hw : (!decide (Nat.log2 list = base)) = true ∨ list = 1 <<< base := by
        by_cases hlast : Nat.log2 list = base
        · right
          obtain ⟨hbit, hhigh⟩ := (log2_eq_iff_highest list base hl).1 hlast
          rw [eq_shift_iff]
          refine ⟨hbit, ?_⟩
          intro i hi
          by_contra hc
          exact hn ⟨hbit, hhigh, i, hi, by simpa using hc⟩
        · left; simp [hlast]
      rw [if_pos hw]
      simp only [setReg_reg, if_true]

theorem ctz_eq_iff (list base : Nat) (h0 : list ≠ 0) (hlt : list < 2 ^ 32) :
    ctz list = base ↔ (list.testBit base = true ∧ ∀ i, i < base → list.testBit i = false) := by
  have hex : ∃ i, list.testBit i = true := Nat.ne_zero_implies_bit_true h0
  classical
  have hj := Nat.find_spec hex
  have hmin : ∀ i, i < Nat.find hex → list.testBit i = false := by
    intro i hi
    have := Nat.find_min hex hi
    simpa using this
  have hj32 : Nat.find hex < 32 := by
    by_contra hc
    have : list.testBit (Nat.find hex) = false := by
      apply Nat.testBit_lt_two_pow
      calc list < 2 ^ 32 := hlt
        _ ≤ 2 ^ Nat.find hex := Nat.pow_le_pow_right (by norm_num) (by omega)
    rw [this] at hj
    exact absurd hj (by simp)
  have hc := ctz_eq (Nat.find hex) list hj32 hmin hj
  constructor
  · intro h
    rw [← h, hc]
    exact ⟨hj, hmin⟩
  · rintro ⟨h1, h2⟩
    have hb32 : base < 32 := by
      by_contra hc'
      have : list.testBit base = false := by
        apply Nat.testBit_lt_two_pow
        calc list < 2 ^ 32 := hlt
          _ ≤ 2 ^ base := Nat.pow_le_pow_right (by norm_num) (by omega)
      rw [this] at h1
      exact absurd h1 (by simp)
    exact ctz_eq base list hb32 h2 h1

/-- An STM with writeback and without the S bit whose list is non-empty, on a model
other than ARM11: the early writeback of ARM7, the stores in ascending order, then
the final writeback. -/
theorem STM_eq (pre add : Bool) (instruction : Nat) (a : ARM)
    (hm : a.model ≠ Model.ARM11) (hl : instruction &&& 0xFFFF ≠ 0) :
    ARM_BlockDataTransfer pre add false true false instruction a =
      some ((transferFrom pre add false (instruction &&& 0xFFFF) 16 0
          (if add then a.reg ((instruction >>> 16) &&& 0xF)
            else u32 (a.reg ((instruction >>> 16) &&& 0xF) + 4294967296
              - popcount (instruction &&& 0xFFFF) * 4))
          (if a.model = Model.ARM7 ∧ ¬ ctz (instruction &&& 0xFFFF) = (instruction >>> 16) &&& 0xF
            then (a.setReg 15 (u32 (a.reg 15 + 4))).setReg ((instruction >>> 16) &&& 0xF)
              (writebackValue add (a.reg ((instruction >>> 16) &&& 0xF))
                (popcount (instruction &&& 0xFFFF)))
            else a.setReg 15 (u32 (a.reg 15 + 4)))).setReg ((instruction >>> 16) &&& 0xF)
        (writebackValue add (a.reg ((instruction >>> 16) &&& 0xF))
          (popcount (instruction &&& 0xFFFF)))) := by
  have hloop := fun A a1 => loop_eq_transferFrom pre add false (instruction &&& 0xFFFF)
    (list_bits_high instruction) 16 0 16 (instruction &&& 0xFFFF) A a1 (by omega) (by omega)
    (by intro i; simp)
  have hw : (if add = true then
        u32 ((if add = true then a.reg ((instruction >>> 16) &&& 0xF)
            else u32 (a.reg ((instruction >>> 16) &&& 0xF) + 4294967296
              - popcount (instruction &&& 0xFFFF) * 4)) + popcount (instruction &&& 0xFFFF) * 4)
      else
        if add = true then a.reg ((instruction >>> 16) &&& 0xF)
        else u32 (a.reg ((instruction >>> 16) &&& 0xF) + 4294967296
          - popcount (instruction &&& 0xFFFF) * 4)) =
      writebackValue add (a.reg ((instruction >>> 16) &&& 0xF))
        (popcount (instruction &&& 0xFFFF)) := by
    unfold writebackValue
    cases add <;> simp [Nat.mul_comm]
  unfold ARM_BlockDataTransfer
  simp only [hm, false_and, if_false, hl, ne_eq, not_false_eq_true, if_true,
    not_true_eq_false, Bool.false_eq_true, and_false, Bool.not_true, hloop, decide_False,
    decide_True, Bool.true_and, Bool.and_true, true_and, and_true, Bool.not_false, hw,
    ARM_BlockDataTransfer.writeback, setReg_model, Bool.not_eq_true', decide_eq_false_iff_not]


/-- The result of an STM with writeback and without the S bit whose list is
non-empty, on a model other than ARM11: the base register ends as the written-back
value, and every listed register reads back from its slot with the value it held
when the loop ran. -/
theorem STM_result (pre add : Bool) (instruction : Nat) (a : ARM)
    (hm : a.model ≠ Model.ARM11) (hl : instruction &&& 0xFFFF ≠ 0) :
    ∃ a', ARM_BlockDataTransfer pre add false true false instruction a = some a' ∧
      a'.reg ((instruction >>> 16) &&& 0xF) =
        writebackValue add (a.reg ((instruction >>> 16) &&& 0xF))
          (popcount (instruction &&& 0xFFFF)) ∧
      ∀ i, i < 16 → (instruction &&& 0xFFFF).testBit i = true →
        ReadWord a'.memory (transferAddress pre add (instruction &&& 0xFFFF)
            (a.reg ((instruction >>> 16) &&& 0xF)) i) =
          u32 (if i = (instruction >>> 16) &&& 0xF ∧ a.model = Model.ARM7 ∧
                ¬ ctz (instruction &&& 0xFFFF) = (instruction >>> 16) &&& 0xF then
              writebackValue add (a.reg ((instruction >>> 16) &&& 0xF))
                (popcount (instruction &&& 0xFFFF))
            else if i = 15 then u32 (a.reg 15 + 4) else a.reg i) := by
  refine ⟨_, STM_eq pre add instruction a hm hl, ?_, ?_⟩
  · simp only [setReg_reg, if_true]
  · generalize (instruction >>> 16) &&& 0xF = base
    generalize instruction &&& 0xFFFF = list
    intro i hi hbit
    obtain ⟨M, hM, _, hread⟩ := transferFrom_store pre add list 16 0
      (if add then a.reg base else u32 (a.reg base + 4294967296 - popcount list * 4))
      (if a.model = Model.ARM7 ∧ ¬ ctz list = base
        then (a.setReg 15 (u32 (a.reg 15 + 4))).setReg base
          (writebackValue add (a.reg base) (popcount list))
        else a.setReg 15 (u32 (a.reg 15 + 4))) (by omega)
    rw [hM]
    have h1 := hread i (by omega) (by omega) hbit
    have hslot := slot_address_eq pre add list (a.reg base) i
    have e : ReadWord M (transferAddress pre add list (a.reg base) i) =
        ReadWord M ((if add then a.reg base else u32 (a.reg base + 4294967296 - popcount list * 4))
          + 4 * countBits list 0 (i - 0) + (if pre = add then 4 else 0)) := by
      apply ReadWord_congr
      rw [hslot]
    show ReadWord M (transferAddress pre add list (a.reg base) i) = _
    rw [e, h1]
    congr 1
    by_cases hc : a.model = Model.ARM7 ∧ ¬ ctz list = base
    · rw [if_pos hc]
      by_cases hib : i = base
      · rw [if_pos ⟨hib, hc⟩]
        simp only [setReg_reg, hib, if_true]
      · rw [if_neg (fun h => hib h.1)]
        simp only [setReg_reg, hib, if_false]
    · rw [if_neg hc, if_neg (fun h => hc h.2)]
      simp only [setReg_reg]

/-- C8: an LDM with writeback and the S bit clear whose list is non-empty and does
not hold r15 returns.  On ARM7 the base register ends as the word loaded for it when
the base is in the list and as base plus or minus 4n otherwise.  On ARM9 it ends as the
loaded word when the base is the highest register of the list and the list holds
another register, and as base plus or minus 4n in every other case. -/
theorem C8_ldm_writeback (pre add : Bool) (instruction : Nat) (a : ARM)
    (hl : instruction &&& 0xFFFF ≠ 0)
    (h15 : (instruction &&& 0xFFFF).testBit 15 = false) :
    (a.model = Model.ARM7 →
      ∃ a', ARM_BlockDataTransfer pre add false true true instruction a = some a' ∧
        a'.reg ((instruction >>> 16) &&& 0xF) =
          if (instruction &&& 0xFFFF).testBit ((instruction >>> 16) &&& 0xF) = true then
            ReadWord a.memory (transferAddress pre add (instruction &&& 0xFFFF)
              (a.reg ((instruction >>> 16) &&& 0xF)) ((instruction >>> 16) &&& 0xF))
          else
            writebackValue add (a.reg ((instruction >>> 16) &&& 0xF))
              (popcount (instruction &&& 0xFFFF))) ∧
    (a.model = Model.ARM9 →
      ∃ a', ARM_BlockDataTransfer pre add false true true instruction a = some a' ∧
        (((instruction &&& 0xFFFF).testBit ((instruction >>> 16) &&& 0xF) = true ∧
            (∀ i, (instruction >>> 16) &&& 0xF < i → (instruction &&& 0xFFFF).testBit i = false) ∧
            (∃ i, i ≠ (instruction >>> 16) &&& 0xF ∧ (instruction &&& 0xFFFF).testBit i = true)) →
          a'.reg ((instruction >>> 16) &&& 0xF) =
            ReadWord a.memory (transferAddress pre add (instruction &&& 0xFFFF)
              (a.reg ((instruction >>> 16) &&& 0xF)) ((instruction >>> 16) &&& 0xF))) ∧
        (¬ ((instruction &&& 0xFFFF).testBit ((instruction >>> 16) &&& 0xF) = true ∧
            (∀ i, (instruction >>> 16) &&& 0xF < i → (instruction &&& 0xFFFF).testBit i = false) ∧
            (∃ i, i ≠ (instruction >>> 16) &&& 0xF ∧ (instruction &&& 0xFFFF).testBit i = true)) →
          a'.reg ((instruction >>> 16) &&& 0xF) =
            writebackValue add (a.reg ((instruction >>> 16) &&& 0xF))
              (popcount (instruction &&& 0xFFFF)))) :=
  ldm_base_register pre add instruction a hl h15

/-- Witness of C8: LDMIA r0!, {r0, r1} on ARM9 writes the base back. -/
theorem C8_witness :
    (0xE8B00003 &&& 0xFFFF ≠ 0) ∧ ((0xE8B00003 &&& 0xFFFF).testBit 15 = false) ∧
    (sampleARM Model.ARM9).model = Model.ARM9 ∧
    ∃ a', ARM_BlockDataTransfer false true false true true 0xE8B00003 (sampleARM Model.ARM9)
        = some a' ∧ a'.reg 0 = 0x02000008 :=
  ⟨by decide, by decide, rfl,
    match (C8_ldm_writeback false true 0xE8B00003 (sampleARM Model.ARM9) (by decide)
      (by decide)).2 rfl with
    | ⟨a', h, _, h2⟩ =>
      ⟨a', h, (h2 (fun c => absurd (c.2.1 1 (by decide)) (by decide))).trans (by decide)⟩⟩

/-- Counterexample to C9 as stated: for LDMIA r0!, {r0} the ARM7 leaves the loaded
word in r0 (no writeback) and the ARM9 leaves old r0 + 4 (writeback). -/
theorem C9_counterexample :
    (∃ a', ARM_BlockDataTransfer false true false true true 0xE8B00001 (sampleARM Model.ARM7)
        = some a' ∧
      a'.reg 0 = ReadWord (sampleARM Model.ARM7).memory ((sampleARM Model.ARM7).reg 0) ∧
      a'.reg 0 ≠ u32 ((sampleARM Model.ARM7).reg 0 + 4)) ∧
    (∃ a', ARM_BlockDataTransfer false true false true true 0xE8B00001 (sampleARM Model.ARM9)
        = some a' ∧
      a'.reg 0 = u32 ((sampleARM Model.ARM9).reg 0 + 4) ∧
      a'.reg 0 ≠ ReadWord (sampleARM Model.ARM9).memory ((sampleARM Model.ARM9).reg 0)) :=
  ⟨⟨_, rfl, by decide, by decide⟩, ⟨_, rfl, by decide, by decide⟩⟩

/-- C9 (as amended): for LDMIA r0!, {r0} with any base value and memory, on ARM7
the writeback is suppressed (r0 ends as the loaded word) and on ARM9 the writeback
takes place (r0 ends as old r0 + 4). -/
theorem C9_ldmia_single_base (a : ARM) :
    (a.model = Model.ARM7 →
      ∃ a', ARM_BlockDataTransfer false true false true true 0xE8B00001 a = some a' ∧
        a'.reg 0 = ReadWord a.memory (a.reg 0)) ∧
    (a.model = Model.ARM9 →
      ∃ a', ARM_BlockDataTransfer false true false true true 0xE8B00001 a = some a' ∧
        a'.reg 0 = u32 (a.reg 0 + 4)) := by
  have e1 : (0xE8B00001 : Nat) &&& 0xFFFF = 1 := by decide
  have e2 : ((0xE8B00001 : Nat) >>> 16) &&& 0xF = 0 := by decide
  have h := ldm_base_register false true 0xE8B00001 a (by decide) (by decide)
  rw [e1, e2] at h
  constructor
  · intro hm
    obtain ⟨a', h1, h2⟩ := h.1 hm
    refine ⟨a', h1, ?_⟩
    rw [h2, if_pos (by decide)]
    apply ReadWord_congr
    have : popcount 1 = 1 := by decide
    simp [transferAddress, transferStart, rank, countBits, u32]
  · intro hm
    obtain ⟨a', h1, _, h3⟩ := h.2 hm
    refine ⟨a', h1, ?_⟩
    rw [h3]
    · have : popcount 1 = 1 := by decide
      simp [writebackValue, this]
    · rintro ⟨_, _, i, hi, hbit⟩
      have := ((eq_shift_iff 1 0).1 (by decide)).2 i hi
      rw [this] at hbit
      exact absurd hbit (by simp)

/-- Witness of C9 (as amended) on ARM7. -/
theorem C9_witness :
    (sampleARM Model.ARM7).model = Model.ARM7 ∧
    ∃ a', ARM_BlockDataTransfer false true false true true 0xE8B00001 (sampleARM Model.ARM7)
        = some a' ∧
      a'.reg 0 = ReadWord (sampleARM Model.ARM7).memory ((sampleARM Model.ARM7).reg 0) :=
  ⟨rfl, (C9_ldmia_single_base (sampleARM Model.ARM7)).1 rfl⟩

theorem banked_with_memory (a : ARM) (M : Memory) (m : Nat) (b1 b2 : Bank) :
    SwitchMode.banked { a with memory := M } m b1 b2 =
      { SwitchMode.banked a m b1 b2 with memory := M } := by
  cases b1 <;> cases b2 <;> rfl

theorem loop_zero (pre add load : Bool) (address : Nat) (a : ARM) :
    ARM_BlockDataTransfer.loop pre add load 16 0 address a = some a := by
  simp [ARM_BlockDataTransfer.loop]

/-- Entering User mode, changing memory only, and returning to the old mode. -/
theorem user_roundtrip (x : ARM) (M : Memory) (hv : IsValidMode (sr_mode x.cpsr)) :
    ∃ x1 x2, SwitchMode x Mode.User = some x1 ∧
      SwitchMode { x1 with memory := M } (sr_mode x.cpsr) = some x2 ∧
      x1.reg 15 = x.reg 15 ∧ x1.memory = x.memory ∧
      (∀ i, x2.reg i = x.reg i) ∧ x2.memory = M ∧ x2.model = x.model ∧ x2.cpsr = x.cpsr := by
  obtain ⟨b1, hb1⟩ := (GetRegisterBankByMode_isSome (sr_mode x.cpsr)).2 hv
  have hb2 : GetRegisterBankByMode Mode.User = some Bank.None := by decide
  have hs1 := SwitchMode_eq x Mode.User b1 Bank.None hb1 hb2
  have hf1 := banked_fields x Mode.User b1 Bank.None
  have hmode : sr_mode ({ SwitchMode.banked x Mode.User b1 Bank.None with memory := M }).cpsr
      = Mode.User := by
    show sr_mode (SwitchMode.banked x Mode.User b1 Bank.None).cpsr = Mode.User
    rw [hf1.2.2.1, sr_mode_set_mode]; decide
  have hs2 := SwitchMode_eq { SwitchMode.banked x Mode.User b1 Bank.None with memory := M }
    (sr_mode x.cpsr) Bank.None b1 (by rw [hmode]; exact hb2) hb1
  have hs2 := hs2.trans (congrArg some
    (banked_with_memory (SwitchMode.banked x Mode.User b1 Bank.None) M (sr_mode x.cpsr)
      Bank.None b1))
  have hf2 := banked_fields (SwitchMode.banked x Mode.User b1 Bank.None) (sr_mode x.cpsr)
    Bank.None b1
  refine ⟨_, _, hs1, hs2, ?_, hf1.2.2.2.1, ?_, rfl, ?_, ?_⟩
  · exact banked_reg_other x Mode.User b1 Bank.None 15 (by omega)
  · intro i
    exact banked_roundtrip_reg x (sr_mode x.cpsr) Mode.User b1 Bank.None i
  · show (SwitchMode.banked (SwitchMode.banked x Mode.User b1 Bank.None) (sr_mode x.cpsr)
      Bank.None b1).model = x.model
    rw [hf2.2.2.2.2.1, hf1.2.2.2.2.1]
  · show (SwitchMode.banked (SwitchMode.banked x Mode.User b1 Bank.None) (sr_mode x.cpsr)
      Bank.None b1).cpsr = x.cpsr
    rw [hf2.2.2.1, hf1.2.2.1]
    unfold sr_set_mode sr_mode Mode.User
    omega

theorem ARM_BlockDataTransfer_body (pre add user_mode writeback load : Bool) (instruction : Nat)
    (a : ARM) :
    ARM_BlockDataTransfer pre add user_mode writeback load instruction a =
      if a.model = Model.ARM11 ∧ (instruction &&& 0xFFFF = 0 ∨
          (writeback = true ∧ (instruction &&& 0xFFFF) &&& (1 <<< ((instruction >>> 16) &&& 0xF)) ≠ 0))
      then none
      else
        ARM_BlockDataTransfer.body pre add user_mode writeback load
          (if instruction &&& 0xFFFF = 0 ∧ a.model = Model.ARM7 then 1 <<< 15
            else instruction &&& 0xFFFF)
          ((instruction >>> 16) &&& 0xF)
          (if add then a.reg ((instruction >>> 16) &&& 0xF)
            else u32 (a.reg ((instruction >>> 16) &&& 0xF) + 4294967296
              - (if instruction &&& 0xFFFF ≠ 0 then popcount (instruction &&& 0xFFFF) * 4
                  else 16 * 4)))
          (if add then
            u32 ((if add then a.reg ((instruction >>> 16) &&& 0xF)
                else u32 (a.reg ((instruction >>> 16) &&& 0xF) + 4294967296
                  - (if instruction &&& 0xFFFF ≠ 0 then popcount (instruction &&& 0xFFFF) * 4
                      else 16 * 4)))
              + (if instruction &&& 0xFFFF ≠ 0 then popcount (instruction &&& 0xFFFF) * 4
                  else 16 * 4))
           else
            (if add then a.reg ((instruction >>> 16) &&& 0xF)
              else u32 (a.reg ((instruction >>> 16) &&& 0xF) + 4294967296
                - (if instruction &&& 0xFFFF ≠ 0 then popcount (instruction &&& 0xFFFF) * 4
                    else 16 * 4))))
          (decide (instruction &&& 0xFFFF ≠ 0 ∧
            ctz (instruction &&& 0xFFFF) = (instruction >>> 16) &&& 0xF))
          (decide (instruction &&& 0xFFFF ≠ 0 ∧
            31 - clz (instruction &&& 0xFFFF) = (instruction >>> 16) &&& 0xF))
          a := by
  rfl

theorem writebackValue_eq (add : Bool) (b n : Nat) :
    (if add = true then
        u32 ((if add = true then b else u32 (b + 4294967296 - n * 4)) + n * 4)
      else
        if add = true then b else u32 (b + 4294967296 - n * 4)) =
      writebackValue add b n := by
  unfold writebackValue
  cases add <;> simp [Nat.mul_comm]

/-- A block transfer with an empty register list on a model other than ARM11. -/
theorem ARM_BlockDataTransfer_empty (pre add user_mode writeback load : Bool)
    (instruction : Nat) (a : ARM) (hl : instruction &&& 0xFFFF = 0)
    (hm : a.model ≠ Model.ARM11) :
    ARM_BlockDataTransfer pre add user_mode writeback load instruction a =
      ARM_BlockDataTransfer.body pre add user_mode writeback load
        (if a.model = Model.ARM7 then 1 <<< 15 else 0)
        ((instruction >>> 16) &&& 0xF)
        (if add then a.reg ((instruction >>> 16) &&& 0xF)
          else u32 (a.reg ((instruction >>> 16) &&& 0xF) + 4294967296 - 16 * 4))
        (writebackValue add (a.reg ((instruction >>> 16) &&& 0xF)) 16)
        false false a := by
  rw [ARM_BlockDataTransfer_body]
  simp only [hl, hm, false_and, if_false, ne_eq, not_true_eq_false, true_and, decide_False,
    writebackValue_eq]

/-- A block transfer with a non-empty register list that does not meet the ARM11
guard. -/
theorem ARM_BlockDataTransfer_nonempty (pre add user_mode writeback load : Bool)
    (instruction : Nat) (a : ARM) (hl : instruction &&& 0xFFFF ≠ 0)
    (hm : ¬ (a.model = Model.ARM11 ∧ writeback = true ∧
      (instruction &&& 0xFFFF) &&& (1 <<< ((instruction >>> 16) &&& 0xF)) ≠ 0)) :
    ARM_BlockDataTransfer pre add user_mode writeback load instruction a =
      ARM_BlockDataTransfer.body pre add user_mode writeback load
        (instruction &&& 0xFFFF)
        ((instruction >>> 16) &&& 0xF)
        (if add then a.reg ((instruction >>> 16) &&& 0xF)
          else u32 (a.reg ((instruction >>> 16) &&& 0xF) + 4294967296
            - popcount (instruction &&& 0xFFFF) * 4))
        (writebackValue add (a.reg ((instruction >>> 16) &&& 0xF))
          (popcount (instruction &&& 0xFFFF)))
        (decide (ctz (instruction &&& 0xFFFF) = (instruction >>> 16) &&& 0xF))
        (decide (31 - clz (instruction &&& 0xFFFF) = (instruction >>> 16) &&& 0xF)) a := by
  rw [ARM_BlockDataTransfer_body]
  have hm2 : ¬ (a.model = Model.ARM11 ∧ (instruction &&& 0xFFFF = 0 ∨ (writeback = true ∧
      (instruction &&& 0xFFFF) &&& (1 <<< ((instruction >>> 16) &&& 0xF)) ≠ 0))) := by
    rintro ⟨h1, h2 | h2⟩
    · exact hl h2
    · exact hm ⟨h1, h2⟩
  rw [if_neg hm2]
  simp only [hl, false_and, if_false, ne_eq, not_false_eq_true, if_true, true_and,
    writebackValue_eq]

theorem writeback_zero (load : Bool) (base base_new : Nat) (a : ARM) :
    ARM_BlockDataTransfer.writeback load 0 base base_new false a = a.setReg base base_new := by
  unfold ARM_BlockDataTransfer.writeback
  cases load <;> simp
  split <;> rfl

/-- The body on an empty list of registers, on a model other than ARM7: nothing is
transferred. -/
theorem body_zero (pre add user_mode writeback load : Bool) (base address base_new : Nat)
    (a : ARM) (hm : a.model ≠ Model.ARM7)
    (hv : user_mode = true → IsValidMode (sr_mode a.cpsr)) :
    ∃ a', ARM_BlockDataTransfer.body pre add user_mode writeback load 0 base address base_new
        false false a = some a' ∧
      a'.memory = a.memory ∧
      ∀ i, a'.reg i =
        if writeback = true ∧ i = base then base_new
        else if i = 15 then u32 (a.reg 15 + 4) else a.reg i := by
  have h0 : (0 : Nat) &&& (1 <<< 15) = 0 := by decide
  unfold ARM_BlockDataTransfer.body
  simp only [h0, ne_eq, not_true_eq_false, decide_False, Bool.false_eq_true, and_false,
    if_false, setReg_model, hm, false_and, Bool.not_false, or_true, and_true,
    loop_zero, setReg_cpsr, writeback_zero]
  cases user_mode
  · simp only [Bool.false_eq_true, if_false]
    cases writeback
    · refine ⟨_, rfl, ?_, ?_⟩
      · simp
      · intro i; simp [ARM.setReg]
    · refine ⟨_, rfl, ?_, ?_⟩
      · simp
      · intro i
        simp [ARM.setReg]
  · obtain ⟨x1, x2, h1, h2, _, hx1, hreg, hmem, _, _⟩ :=
      user_roundtrip (a.setReg 15 (u32 (a.reg 15 + 4))) (a.setReg 15 (u32 (a.reg 15 + 4))).memory
        (hv rfl)
    have e : ({ x1 with memory := (a.setReg 15 (u32 (a.reg 15 + 4))).memory } : ARM) = x1 := by
      rw [← hx1]
    rw [e] at h2
    simp only [if_true, h1]
    simp only [setReg_cpsr] at h2
    simp only [h2]
    cases writeback
    · refine ⟨_, rfl, ?_, ?_⟩
      · simp [hmem]
      · intro i; simp [hreg, ARM.setReg]
    · refine ⟨_, rfl, ?_, ?_⟩
      · simp [hmem]
      · intro i
        simp [hreg, ARM.setReg]

theorem loop_r15 (pre add load : Bool) (address : Nat) (a : ARM) :
    ARM_BlockDataTransfer.loop pre add load 16 (1 <<< 15) address a =
      some (ARM_BlockDataTransfer.transfer pre add load 15 address a).2 := by
  have h1 : ctz (1 <<< 15) = 15 := by decide
  have h2 : (1 <<< 15) &&& (0xFFFFFFFF ^^^ (1 <<< 15)) = 0 := by decide
  have h3 : (1 <<< 15 : Nat) ≠ 0 := by decide
  rw [ARM_BlockDataTransfer.loop]
  simp only [h3, if_false, h1, h2]
  simp [ARM_BlockDataTransfer.loop]

/-- The body of a store on the list that holds r15 alone, on ARM7 with the base
not reported first: one word, the value of r15, is written. -/
theorem body_r15_store (pre add user_mode writeback : Bool) (base address base_new : Nat)
    (a : ARM) (hm : a.model = Model.ARM7)
    (hv : user_mode = true → IsValidMode (sr_mode a.cpsr)) :
    ∃ a', ARM_BlockDataTransfer.body pre add user_mode writeback false (1 <<< 15) base address
        base_new false false a = some a' ∧
      a'.memory = WriteWord a.memory (if pre = add then u32 (address + 4) else address)
        (if writeback = true ∧ base = 15 then base_new else u32 (a.reg 15 + 4)) ∧
      ∀ i, a'.reg i =
        if writeback = true ∧ i = base then base_new
        else if i = 15 then u32 (a.reg 15 + 4) else a.reg i := by
  have h0 : ((1 : Nat) <<< 15) &&& (1 <<< 15) ≠ 0 := by decide
  unfold ARM_BlockDataTransfer.body
  simp only [h0, ne_eq, not_false_eq_true, decide_True, Bool.false_eq_true, false_and,
    if_false, setReg_model, hm, Bool.not_false, true_or, and_true, true_and,
    loop_r15, setReg_cpsr, Bool.not_true, ARM_BlockDataTransfer.writeback,
    ARM_BlockDataTransfer.transfer]
  cases user_mode
  · simp only [Bool.false_eq_true, if_false]
    cases writeback
    · refine ⟨_, rfl, ?_, ?_⟩
      · simp [ARM.setReg]
      · intro i; simp [ARM.setReg]
    · refine ⟨_, rfl, ?_, ?_⟩
      · simp only [if_true, true_and, setReg_memory, setReg_reg]
        by_cases hb : base = 15
        · simp [hb]
        · have : ¬ (15 = base) := fun h => hb h.symm
          simp [hb, this]
      · intro i
        by_cases hi : i = base <;> simp [ARM.setReg, hi]
  · simp only [if_true]
    cases writeback
    · simp only [Bool.false_eq_true, if_false, false_and]
      obtain ⟨x1, x2, h1, h2, h15, hx1, hreg, hmem, _, _⟩ :=
        user_roundtrip (a.setReg 15 (u32 (a.reg 15 + 4)))
          (WriteWord a.memory (if pre = add then u32 (address + 4) else address)
            (u32 (a.reg 15 + 4))) (hv rfl)
      simp only [setReg_cpsr, setReg_reg, setReg_memory, if_true] at h1 h2 h15 hx1
      simp only [h1, hx1, h15, setReg_cpsr, h2]
      refine ⟨_, rfl, hmem, ?_⟩
      intro i; simp [hreg, ARM.setReg]
    · simp only [if_true, true_and]
      obtain ⟨x1, x2, h1, h2, h15, hx1, hreg, hmem, _, _⟩ :=
        user_roundtrip ((a.setReg 15 (u32 (a.reg 15 + 4))).setReg base base_new)
          (WriteWord a.memory (if pre = add then u32 (address + 4) else address)
            (if base = 15 then base_new else u32 (a.reg 15 + 4))) (hv rfl)
      have e15 : ((a.setReg 15 (u32 (a.reg 15 + 4))).setReg base base_new).reg 15 =
          if base = 15 then base_new else u32 (a.reg 15 + 4) := by
        by_cases hb : base = 15
        · simp [hb]
        · have : ¬ (15 = base) := fun h => hb h.symm
          simp [hb, this]
      rw [e15] at h15
      simp only [setReg_cpsr, setReg_memory] at h1 h2 hx1
      simp only [h1, hx1, h15, setReg_cpsr, h2]
      refine ⟨_, rfl, ?_, ?_⟩
      · simp [hmem]
      · intro i
        by_cases hi : i = base <;> simp [hreg, ARM.setReg, hi]

theorem r15_bit (base : Nat) : ((1 : Nat) <<< 15) &&& (1 <<< base) = 0 ↔ base ≠ 15 := by
  rw [and_shift_eq_zero_iff, Nat.one_shiftLeft, Nat.testBit_two_pow]
  simp
  omega

/-- The body of a load without the S bit on the list that holds r15 alone, on ARM7:
one word is read, into r15, and the pipeline is refilled from it. -/
theorem body_r15_load (pre add writeback : Bool) (base address base_new : Nat)
    (a : ARM) (hm : a.model = Model.ARM7) :
    ∃ a', ARM_BlockDataTransfer.body pre add false writeback true (1 <<< 15) base address
        base_new false false a = some a' ∧
      a'.memory = a.memory ∧ a'.cpsr = a.cpsr ∧
      (∀ i, i ≠ 15 → a'.reg i = if writeback = true ∧ i = base then base_new else a.reg i) ∧
      a'.reg 15 = u32 (ReadWord a.memory (if pre = add then u32 (address + 4) else address)
        + (if sr_thumb a.cpsr ≠ 0 then 4 else 8)) := by
  have h0 : ((1 : Nat) <<< 15) &&& (1 <<< 15) ≠ 0 := by decide
  unfold ARM_BlockDataTransfer.body
  cases writeback <;> by_cases hb : base = 15 <;> by_cases ht : sr_thumb a.cpsr = 0 <;>
    simp only [h0, ne_eq, not_false_eq_true, decide_True, Bool.false_eq_true, false_and,
      if_false, setReg_model, hm, Bool.not_false, true_or, and_true, true_and, and_false,
      loop_r15, setReg_cpsr, Bool.not_true, ARM_BlockDataTransfer.writeback,
      ARM_BlockDataTransfer.transfer, or_self, not_true_eq_false, if_true, r15_bit, hb, ht,
      setReg_memory] <;>
    refine ⟨_, rfl, ?_, ?_, ?_, ?_⟩ <;>
    first
      | rfl
      | (intro i hi; simp [ReloadPipeline32, ReloadPipeline16, ARM.setReg, hi])
      | (simp [ReloadPipeline32, ReloadPipeline16, ARM.setReg, hb]; done)
      | (have hb2 : ¬ (15 = base) := fun h => hb h.symm
         simp [ReloadPipeline32, ReloadPipeline16, ARM.setReg, hb, hb2])

/-- The body of a load with the S bit on the list that holds r15 alone, on ARM7:
one word is read, into r15, the saved status is restored and the pipeline is
refilled. -/
theorem body_r15_load_user (pre add writeback : Bool) (base address base_new : Nat)
    (a : ARM) (hm : a.model = Model.ARM7) (hv : IsValidMode (sr_mode a.cpsr))
    (hs : IsValidMode (sr_mode (a.spsr a.p_spsr))) :
    ∃ a', ARM_BlockDataTransfer.body pre add true writeback true (1 <<< 15) base address
        base_new false false a = some a' ∧
      a'.memory = a.memory ∧ a'.cpsr = a.spsr a.p_spsr ∧
      (∀ i, i < 8 → a'.reg i = if writeback = true ∧ i = base then base_new else a.reg i) ∧
      a'.reg 15 = u32 (ReadWord a.memory (if pre = add then u32 (address + 4) else address)
        + (if sr_thumb (a.spsr a.p_spsr) ≠ 0 then 4 else 8)) := by
  have h0 : ((1 : Nat) <<< 15) &&& (1 <<< 15) ≠ 0 := by decide
  obtain ⟨b1, hb1⟩ := (GetRegisterBankByMode_isSome (sr_mode a.cpsr)).2 hv
  obtain ⟨b2, hb2⟩ := (GetRegisterBankByMode_isSome (sr_mode (a.spsr a.p_spsr))).2 hs
  have hsw := SwitchMode_eq ((a.setReg 15 (u32 (a.reg 15 + 4))).setReg 15
      (ReadWord a.memory (if pre = add then u32 (address + 4) else address)))
    (sr_mode (a.spsr a.p_spsr)) b1 b2 hb1 hb2
  have hf := banked_fields ((a.setReg 15 (u32 (a.reg 15 + 4))).setReg 15
      (ReadWord a.memory (if pre = add then u32 (address + 4) else address)))
    (sr_mode (a.spsr a.p_spsr)) b1 b2
  have hr := banked_reg_other ((a.setReg 15 (u32 (a.reg 15 + 4))).setReg 15
      (ReadWord a.memory (if pre = add then u32 (address + 4) else address)))
    (sr_mode (a.spsr a.p_spsr)) b1 b2
  simp only [setReg_cpsr, setReg_spsr, setReg_p_spsr] at hsw
  unfold ARM_BlockDataTransfer.body
  cases writeback <;> by_cases hb : base = 15 <;>
      by_cases ht : sr_thumb (a.spsr a.p_spsr) = 0 <;>
    simp only [h0, ne_eq, not_false_eq_true, decide_True, Bool.false_eq_true, false_and,
      if_false, setReg_model, hm, Bool.not_false, true_or, and_true, true_and, and_false,
      loop_r15, setReg_cpsr, Bool.not_true, ARM_BlockDataTransfer.writeback,
      ARM_BlockDataTransfer.transfer, or_self, not_true_eq_false, if_true, r15_bit, hb, ht,
      setReg_memory, restoreSpsr, setReg_spsr, setReg_p_spsr, hsw, hf.2.2.2.2.1]
  all_goals
    generalize SwitchMode.banked ((a.setReg 15 (u32 (a.reg 15 + 4))).setReg 15
      (ReadWord a.memory (if pre = add then u32 (address + 4) else address)))
      (sr_mode (a.spsr a.p_spsr)) b1 b2 = X at hf hr ⊢
    have hm1 := hf.2.2.2.1
    simp only [setReg_memory] at hm1
    have hr15 := hr 15 (by omega)
    simp only [setReg_reg, if_true] at hr15
    refine ⟨_, rfl, ?_, ?_, ?_, ?_⟩
  all_goals
    first
      | rfl
      | exact hm1
      | (intro i hi
         have hri := hr i (Or.inl hi)
         have h15 : i ≠ 15 := by omega
         simp only [setReg_reg, h15, if_false] at hri
         simp [ReloadPipeline32, ReloadPipeline16, ARM.setReg, h15, hri])
      | (simp [ReloadPipeline32, ReloadPipeline16, ARM.setReg, hb, hr15]; done)
      | (have hb2 : ¬ (15 = base) := fun h => hb h.symm
         simp [ReloadPipeline32, ReloadPipeline16, ARM.setReg, hb, hb2, hr15])

/-- The address of the only slot of an empty-list transfer: the start address of a
transfer of sixteen registers. -/
theorem empty_slot (pre add : Bool) (b : Nat) :
    u32 (if pre = add then u32 ((if add then b else u32 (b + 4294967296 - 16 * 4)) + 4)
      else (if add then b else u32 (b + 4294967296 - 16 * 4))) =
    u32 (transferStart pre add b 16) := by
  unfold transferStart
  cases add <;> cases pre <;> simp [u32]

theorem transferAt_congr (load : Bool) (i x y : Nat) (a : ARM) (h : u32 x = u32 y) :
    transferAt load i x a = transferAt load i y a := by
  unfold transferAt
  rw [ReadWord_congr a.memory x y h, WriteWord_congr a.memory x y _ h]

/-- The loop body is one transfer at the address the loop has reached. -/
theorem transfer_snd (pre add load : Bool) (i A : Nat) (a : ARM) :
    (ARM_BlockDataTransfer.transfer pre add load i A a).2 =
      transferAt load i (A + (if pre = add then 4 else 0)) a := by
  cases load
  · rw [transfer_store]; rfl
  · rw [transfer_load]; rfl

/-- The positional walk over the registers `j .. j + k - 1` is the sequence of the
transfers of the listed ones, four bytes apart. -/
theorem transferFrom_eq_transferSeq (pre add load : Bool) (list start : Nat) :
    ∀ (k j c A : Nat) (a : ARM),
      u32 (A + (if pre = add then 4 else 0)) = u32 (start + 4 * c) →
      transferFrom pre add load list k j A a =
        transferSeq load start ((List.range' j k).filter (fun i => list.testBit i)) c a := by
  intro k
  induction k with
  | zero => intro j c A a _; rfl
  | succ k ih =>
    intro j c A a h
    rw [List.range'_succ, transferFrom]
    by_cases hb : list.testBit j = true
    · rw [if_pos hb, List.filter_cons_of_pos (by simpa using hb)]
      simp only [transfer_fst, transfer_snd, transferSeq]
      rw [transferAt_congr load j _ (u32 (start + 4 * c)) a (by rw [h]; unfold u32; omega)]
      apply ih
      unfold u32 at *
      split_ifs at * <;> omega
    · rw [if_neg hb, List.filter_cons_of_neg (by simpa using hb)]
      exact ih (j + 1) c A a h

theorem registersOf_length (list : Nat) (hlist : ∀ i, 16 ≤ i → list.testBit i = false) :
    (registersOf list).length = popcount list := by
  unfold registersOf popcount
  have e : List.range 32 = List.range 16 ++ List.range' 16 16 := by decide
  rw [e, List.filter_append, List.length_append]
  have : (List.range' 16 16).filter (fun i => list.testBit i) = [] := by
    rw [List.filter_eq_nil_iff]
    intro i hi
    rw [List.mem_range'_1] at hi
    simp [hlist i hi.1]
  rw [this]; rfl

theorem registersOf_sorted (list : Nat) : List.Sorted (· < ·) (registersOf list) :=
  List.Sorted.filter _ (List.sorted_lt_range 16)

theorem mem_registersOf (list i : Nat) :
    i ∈ registersOf list ↔ i < 16 ∧ list.testBit i = true := by
  unfold registersOf
  simp [List.mem_filter]

/-- A word load into r15 through `ARM_SingleDataTransfer`, base other than r15, not
the translation encoding: the state before the pipeline reload has r15 equal to the
loaded value and the memory, the status and the model untouched. -/
theorem LDR_pc (immediate pre add writeback : Bool) (instruction : Nat) (a : ARM)
    (hd : (instruction >>> 12) &&& 0xF = 15) (hb : (instruction >>> 16) &&& 0xF ≠ 15)
    (ht : ¬ (pre = false ∧ writeback = true)) :
    ∃ x : ARM, x.reg 15 = ReadWordRotate a.memory
        (ARM_SingleDataTransfer.address immediate pre add instruction a) ∧
      x.memory = a.memory ∧ x.cpsr = a.cpsr ∧ x.model = a.model ∧
      ARM_SingleDataTransfer immediate pre add false writeback true instruction a =
        if x.reg 15 % 2 = 1 ∧ x.model ≠ Model.ARM7 then
          some (ReloadPipeline16
            (({ x with cpsr := sr_set_thumb x.cpsr 1 } : ARM).setReg 15
              (x.reg 15 &&& 0xFFFFFFFE)))
        else some (ReloadPipeline32 x) := by
  have hb2 : ¬ (15 = (instruction >>> 16) &&& 0xF) := fun h => hb h.symm
  have key : ∀ pre writeback : Bool, ¬ (pre = false ∧ writeback = true) →
      ∃ x : ARM, x.reg 15 = ReadWordRotate a.memory
        (ARM_SingleDataTransfer.address immediate pre add instruction a) ∧
      x.memory = a.memory ∧ x.cpsr = a.cpsr ∧ x.model = a.model ∧
      ARM_SingleDataTransfer immediate pre add false writeback true instruction a =
        if x.reg 15 % 2 = 1 ∧ x.model ≠ Model.ARM7 then
          some (ReloadPipeline16
            (({ x with cpsr := sr_set_thumb x.cpsr 1 } : ARM).setReg 15
              (x.reg 15 &&& 0xFFFFFFFE)))
        else some (ReloadPipeline32 x) := by
    intro pre writeback ht
    unfold ARM_SingleDataTransfer ARM_Unimplemented
    cases pre <;> cases writeback <;>
      simp only [hd, hb, ne_eq, not_false_eq_true, or_true, Bool.not_false, Bool.not_true,
        Bool.and_true, Bool.and_false, Bool.false_eq_true, if_false, if_true, and_self,
        Bool.true_and, Bool.false_and, or_false, false_or, not_true_eq_false]
    · refine ⟨_, ?_, ?_, ?_, ?_, rfl⟩ <;> simp [ARM.setReg, hb2, hb]
    · exact absurd ⟨rfl, rfl⟩ ht
    · refine ⟨_, ?_, ?_, ?_, ?_, rfl⟩ <;> simp [ARM.setReg, hb2, hb]
    · refine ⟨_, ?_, ?_, ?_, ?_, rfl⟩ <;> simp [ARM.setReg, hb2, hb]
  exact key pre writeback ht

theorem sr_thumb_set (w : Nat) : sr_thumb (sr_set_thumb w 1) = 1 := by
  unfold sr_thumb sr_set_thumb
  omega

/-- C13: a word LDR with Rd = r15 and a base other than r15 (not the translation
encoding), executed in ARM state, loading the value v.  On ARM9 with bit 0 of v set
it returns with CPSR.T = 1 and the pipeline holding the halfwords at v AND NOT 1
and at (v AND NOT 1) + 2, r15 two slots ahead, so execution continues at
v AND NOT 1.  With bit 0 of v clear, or on ARM7, CPSR.T stays 0 and the pipeline
holds the 32-bit words at v and v + 4. -/
theorem C13_ldr_pc_interworking (immediate pre add writeback : Bool) (instruction : Nat)
    (a : ARM) (hd : (instruction >>> 12) &&& 0xF = 15) (hb : (instruction >>> 16) &&& 0xF ≠ 15)
    (ht : ¬ (pre = false ∧ writeback = true)) (hT : sr_thumb a.cpsr = 0) :
    (a.model = Model.ARM9 →
      ReadWordRotate a.memory
        (ARM_SingleDataTransfer.address immediate pre add instruction a) % 2 = 1 →
      ∃ a', ARM_SingleDataTransfer immediate pre add false writeback true instruction a
          = some a' ∧
        sr_thumb a'.cpsr = 1 ∧
        a'.opcode0 = ReadHalf a.memory (ReadWordRotate a.memory
          (ARM_SingleDataTransfer.address immediate pre add instruction a) &&& 0xFFFFFFFE) ∧
        a'.opcode1 = ReadHalf a.memory ((ReadWordRotate a.memory
          (ARM_SingleDataTransfer.address immediate pre add instruction a) &&& 0xFFFFFFFE)
            + 2) ∧
        a'.reg 15 = u32 ((ReadWordRotate a.memory
          (ARM_SingleDataTransfer.address immediate pre add instruction a) &&& 0xFFFFFFFE)
            + 4)) ∧
    (ReadWordRotate a.memory
        (ARM_SingleDataTransfer.address immediate pre add instruction a) % 2 = 0 ∨
      a.model = Model.ARM7 →
      ∃ a', ARM_SingleDataTransfer immediate pre add false writeback true instruction a
          = some a' ∧
        sr_thumb a'.cpsr = 0 ∧
        a'.opcode0 = ReadWord a.memory (ReadWordRotate a.memory
          (ARM_SingleDataTransfer.address immediate pre add instruction a)) ∧
        a'.opcode1 = ReadWord a.memory (ReadWordRotate a.memory
          (ARM_SingleDataTransfer.address immediate pre add instruction a) + 4) ∧
        a'.reg 15 = u32 (ReadWordRotate a.memory
          (ARM_SingleDataTransfer.address immediate pre add instruction a) + 8)) := by
  obtain ⟨x, h15, hmem, hcpsr, hmodel, hx⟩ :=
    LDR_pc immediate pre add writeback instruction a hd hb ht
  rw [hx, h15, hmodel]
  constructor
  · intro hm hv
    rw [if_pos ⟨hv, by rw [hm]; decide⟩]
    refine ⟨_, rfl, ?_, ?_, ?_, ?_⟩
    · show sr_thumb (sr_set_thumb x.cpsr 1) = 1
      exact sr_thumb_set _
    · simp [ReloadPipeline16, ReadHalfCode, ARM.setReg, hmem]
    · simp [ReloadPipeline16, ReadHalfCode, ARM.setReg, hmem]
    · simp [ReloadPipeline16, ARM.setReg]
  · intro hv
    have hc : ¬ (ReadWordRotate a.memory
        (ARM_SingleDataTransfer.address immediate pre add instruction a) % 2 = 1 ∧
        a.model ≠ Model.ARM7) := by
      rintro ⟨h1, h2⟩
      rcases hv with hv | hv
      · omega
      · exact h2 hv
    rw [if_neg hc]
    refine ⟨_, rfl, ?_, ?_, ?_, ?_⟩
    · show sr_thumb x.cpsr = 0
      rw [hcpsr]; exact hT
    · simp [ReloadPipeline32, ReadWordCode, h15, hmem, ARM.setReg]
    · simp [ReloadPipeline32, ReadWordCode, h15, hmem, ARM.setReg]
    · simp [ReloadPipeline32, ARM.setReg, h15]

/-- Witness of C13, the example of the specification: LDR r15, [r0] on ARM9 with
the word 0x02000001 at [r0] ends with T = 1 and the pipeline refilled from
0x02000000. -/
theorem C13_witness :
    (0xE590F000 >>> 12) &&& 0xF = 15 ∧ (0xE590F000 >>> 16) &&& 0xF ≠ 15 ∧
    ¬ (true = false ∧ false = true) ∧ sr_thumb (sampleInterwork Model.ARM9).cpsr = 0 ∧
    (sampleInterwork Model.ARM9).model = Model.ARM9 ∧
    ReadWordRotate (sampleInterwork Model.ARM9).memory
      (ARM_SingleDataTransfer.address true true true 0xE590F000 (sampleInterwork Model.ARM9))
      = 0x02000001 ∧
    ∃ a', ARM_SingleDataTransfer true true true false false true 0xE590F000
        (sampleInterwork Model.ARM9) = some a' ∧
      sr_thumb a'.cpsr = 1 ∧
      a'.opcode0 = ReadHalf (sampleInterwork Model.ARM9).memory 0x02000000 ∧
      a'.opcode1 = ReadHalf (sampleInterwork Model.ARM9).memory 0x02000002 ∧
      a'.reg 15 = 0x02000004 := by
  have hv : ReadWordRotate (sampleInterwork Model.ARM9).memory
      (ARM_SingleDataTransfer.address true true true 0xE590F000 (sampleInterwork Model.ARM9))
      = 0x02000001 := by decide
  have h := (C13_ldr_pc_interworking true true true false 0xE590F000
    (sampleInterwork Model.ARM9) (by decide) (by decide) (by decide) (by decide)).1 rfl
    (by rw [hv])
  rw [hv] at h
  exact ⟨by decide, by decide, by decide, by decide, rfl, hv, h⟩

/-! ### C14: count leading zeros -/

/-- A value below `2^32` has no bit under the mask of the top `32 - k` bits iff it
is below `2^k`. -/
theorem and_high_mask (v k : Nat) (hv : v < 2 ^ 32) (hk : k ≤ 32) :
    v &&& (2 ^ 32 - 2 ^ k) = 0 ↔ v < 2 ^ k := by
  have hmask : ∀ i, (2 ^ 32 - 2 ^ k).testBit i = (decide (k ≤ i) && decide (i < 32)) := by
    intro i
    have e : 2 ^ 32 - 2 ^ k = 2 ^ k * (2 ^ (32 - k) - 1) := by
      rw [Nat.mul_sub, ← pow_add, Nat.mul_one]
      congr 2
      omega
    rw [e, Nat.testBit_mul_pow_two, Nat.testBit_two_pow_sub_one]
    by_cases h1 : k ≤ i <;> by_cases h2 : i < 32 <;> simp [h1, h2] <;> omega
  constructor
  · intro h
    apply Nat.lt_pow_two_of_testBit
    intro i hi
    by_cases h32 : i < 32
    · have := congrArg (fun x => Nat.testBit x i) h
      simp only [Nat.testBit_and, hmask, Nat.zero_testBit] at this
      simpa [hi, h32] using this
    · exact Nat.testBit_lt_two_pow (lt_of_lt_of_le hv (Nat.pow_le_pow_right (by omega) (by omega)))
  · intro h
    apply Nat.eq_of_testBit_eq
    intro i
    rw [Nat.testBit_and, hmask, Nat.zero_testBit]
    by_cases h1 : k ≤ i
    · rw [Nat.testBit_lt_two_pow (lt_of_lt_of_le h (Nat.pow_le_pow_right (by omega) h1))]
      rfl
    · simp [h1]

theorem or_shift (s : Nat) (hs : s = 16 ∨ s = 8 ∨ s = 4 ∨ s = 2 ∨ s = 1) :
    ∀ r, r < 32 → r % (2 * s) = 0 → r ||| s = r + s := by
  rcases hs with h | h | h | h | h <;> subst h <;> decide

/-- One round of the portable loop keeps `value = x * 2^result` below `2^32` and
halves the bound on the leading zeros left in `value`. -/
theorem portable_step (s mask x : Nat) (p : Nat × Nat)
    (hs : s = 16 ∨ s = 8 ∨ s = 4 ∨ s = 2 ∨ s = 1)
    (hmask : mask = 2 ^ 32 - 2 ^ (32 - s))
    (h1 : p.2 = x * 2 ^ p.1) (h2 : p.2 < 2 ^ 32) (h3 : 2 ^ (32 - 2 * s) ≤ p.2)
    (h4 : p.1 % (2 * s) = 0) (h5 : p.1 + 2 * s ≤ 32) :
    (ARM_CountLeadingZeros.step p (mask, s)).2 =
        x * 2 ^ (ARM_CountLeadingZeros.step p (mask, s)).1 ∧
      (ARM_CountLeadingZeros.step p (mask, s)).2 < 2 ^ 32 ∧
      2 ^ (32 - s) ≤ (ARM_CountLeadingZeros.step p (mask, s)).2 ∧
      (ARM_CountLeadingZeros.step p (mask, s)).1 % s = 0 ∧
      (ARM_CountLeadingZeros.step p (mask, s)).1 + s ≤ 32 := by
  obtain ⟨r, v⟩ := p
  simp only at h1 h2 h3 h4 h5
  have hs32 : s ≤ 16 ∧ 0 < s := by omega
  have hor := or_shift s hs r (by omega) h4
  have hand := and_high_mask v (32 - s) h2 (by omega)
  unfold ARM_CountLeadingZeros.step
  simp only [hmask, hand]
  by_cases hlt : v < 2 ^ (32 - s)
  · rw [if_pos hlt]
    simp only [hor]
    have hmul : v * 2 ^ s < 2 ^ 32 := by
      calc v * 2 ^ s < 2 ^ (32 - s) * 2 ^ s := Nat.mul_lt_mul_of_pos_right hlt (by positivity)
        _ = 2 ^ 32 := by rw [← pow_add]; congr 1; omega
    have hsh : u32 (v <<< s) = v * 2 ^ s := by
      rw [Nat.shiftLeft_eq]
      unfold u32
      exact Nat.mod_eq_of_lt hmul
    rw [hsh]
    refine ⟨?_, hmul, ?_, ?_, by omega⟩
    · rw [h1, pow_add, Nat.mul_assoc]
    · calc 2 ^ (32 - s) = 2 ^ (32 - 2 * s) * 2 ^ s := by rw [← pow_add]; congr 1; omega
        _ ≤ v * 2 ^ s := Nat.mul_le_mul_right _ h3
    · have : (r + s) % s = 0 := by
        obtain ⟨q, hq⟩ : 2 * s ∣ r := Nat.dvd_of_mod_eq_zero h4
        rw [hq]
        have : 2 * s * q + s = s * (2 * q + 1) := by ring
        rw [this]; exact Nat.mul_mod_right _ _
      exact this
  · rw [if_neg hlt]
    refine ⟨h1, h2, by omega, ?_, by omega⟩
    obtain ⟨q, hq⟩ : 2 * s ∣ r := Nat.dvd_of_mod_eq_zero h4
    show r % s = 0
    rw [hq]
    have : 2 * s * q = s * (2 * q) := by ring
    rw [this]; exact Nat.mul_mod_right _ _

/-- The builtin count for a non-zero 32-bit value, from the position of its highest
set bit. -/
theorem clz_eq (x : Nat) (h0 : x ≠ 0) (hlt : x < 2 ^ 32) : clz x = 31 - Nat.log2 x := by
  obtain ⟨hbit, hhigh⟩ := (log2_eq_iff_highest x (Nat.log2 x) h0).1 rfl
  have hl : Nat.log2 x < 32 := (Nat.log2_lt h0).2 hlt
  have := clzAux_eq x 32 (Nat.log2 x) hl hbit (fun i h1 _ => hhigh i h1)
  unfold clz
  omega

/-- A count `r` that shifts the value into the top bit is the builtin count. -/
theorem clz_of_normalised (x r : Nat) (hr : r ≤ 31) (h1 : 2 ^ 31 ≤ x * 2 ^ r)
    (h2 : x * 2 ^ r < 2 ^ 32) : clz x = r := by
  have h0 : x ≠ 0 := by
    rintro rfl
    simp at h1
  have hx1 : 2 ^ (31 - r) ≤ x := by
    have e : (2 : Nat) ^ 31 = 2 ^ (31 - r) * 2 ^ r := by rw [← pow_add]; congr 1; omega
    rw [e] at h1
    exact Nat.le_of_mul_le_mul_right h1 (by positivity)
  have hx2 : x < 2 ^ (32 - r) := by
    have e : (2 : Nat) ^ 32 = 2 ^ (32 - r) * 2 ^ r := by rw [← pow_add]; congr 1; omega
    rw [e] at h2
    exact Nat.lt_of_mul_lt_mul_right h2
  have hlt : x < 2 ^ 32 := lt_of_lt_of_le hx2 (Nat.pow_le_pow_right (by omega) (by omega))
  have l1 : 31 - r ≤ Nat.log2 x := (Nat.le_log2 h0).2 hx1
  have l2 : Nat.log2 x < 32 - r := (Nat.log2_lt h0).2 hx2
  rw [clz_eq x h0 hlt]
  omega

/-- The portable loop computes the builtin count on every non-zero 32-bit value. -/
theorem portable_eq_clz (x : Nat) (h0 : x ≠ 0) (hlt : x < 2 ^ 32) :
    ARM_CountLeadingZeros.portable x = clz x := by
  have s1 := portable_step 16 0xFFFF0000 x (0, x) (by decide) (by decide) (by simp) hlt
    (by simpa using Nat.pos_of_ne_zero h0) (by simp) (by simp)
  obtain ⟨a1, a2, a3, a4, a5⟩ := s1
  obtain ⟨b1, b2, b3, b4, b5⟩ :=
    portable_step 8 0xFF000000 x _ (by decide) (by decide) a1 a2 a3 a4 a5
  obtain ⟨c1, c2, c3, c4, c5⟩ :=
    portable_step 4 0xF0000000 x _ (by decide) (by decide) b1 b2 b3 b4 b5
  obtain ⟨d1, d2, d3, d4, d5⟩ :=
    portable_step 2 0xC0000000 x _ (by decide) (by decide) c1 c2 c3 c4 c5
  obtain ⟨e1, e2, e3, _, e5⟩ :=
    portable_step 1 0x80000000 x _ (by decide) (by decide) d1 d2 d3 d4 d5
  rw [e1] at e2 e3
  exact (clz_of_normalised x _ (by omega) e3 e2).symm

/-- The builtin count is the number of leading zero bits of a non-zero 32-bit
value. -/
theorem clz_eq_leadingZeroBits (x : Nat) (h0 : x ≠ 0) (hlt : x < 2 ^ 32) :
    clz x = leadingZeroBits x := by
  have hl : Nat.log2 x < 32 := (Nat.log2_lt h0).2 hlt
  have hc := clz_eq x h0 hlt
  have h1 : 2 ^ Nat.log2 x ≤ x := (Nat.le_log2 h0).1 (le_refl _)
  have h2 : x < 2 ^ (Nat.log2 x + 1) := (Nat.log2_lt h0).1 (Nat.lt_succ_self _)
  unfold leadingZeroBits
  symm
  rw [Nat.findGreatest_eq_iff]
  refine ⟨by omega, ?_, ?_⟩
  · intro _
    have e : 32 - clz x = Nat.log2 x + 1 := by omega
    rw [e]; exact h2
  · intro n hn hn32
    have : 2 ^ (32 - n) ≤ 2 ^ Nat.log2 x := Nat.pow_le_pow_right (by omega) (by omega)
    omega

/-- C14: on ARM9, with Rd other than r15 and a 32-bit value x in Rm,
`ARM_CountLeadingZeros` returns with Rd = the number of leading zero bits of x and
r15 advanced by 4, whether it is built with the compiler builtin or with the
portable loop; that number is 32 for 0, 31 for 1 and 0 for 0x80000000; and the
portable mask-and-shift loop computes the builtin count for every non-zero x. -/
theorem C14_count_leading_zeros (has_builtin : Bool) (instruction : Nat) (a : ARM)
    (hm : a.model = Model.ARM9) (hd : (instruction >>> 12) &&& 0xF ≠ 15)
    (hx : a.reg (instruction &&& 0xF) < 2 ^ 32) :
    (∃ a', ARM_CountLeadingZeros has_builtin instruction a = some a' ∧
      a'.reg ((instruction >>> 12) &&& 0xF) = leadingZeroBits (a.reg (instruction &&& 0xF)) ∧
      a'.reg 15 = u32 (a.reg 15 + 4)) ∧
    leadingZeroBits 0 = 32 ∧ leadingZeroBits 1 = 31 ∧ leadingZeroBits 0x80000000 = 0 ∧
    ∀ x, x ≠ 0 → x < 2 ^ 32 → ARM_CountLeadingZeros.portable x = clz x := by
  refine ⟨?_, by decide, by decide, by decide, portable_eq_clz⟩
  have hd2 : ¬ (15 = (instruction >>> 12) &&& 0xF) := fun h => hd h.symm
  have hu : u32 (a.reg (instruction &&& 0xF)) = a.reg (instruction &&& 0xF) :=
    Nat.mod_eq_of_lt hx
  unfold ARM_CountLeadingZeros
  simp only [hm, reduceCtorEq, if_false, hu]
  by_cases h0 : a.reg (instruction &&& 0xF) = 0
  · rw [if_pos h0]
    refine ⟨_, rfl, ?_, ?_⟩
    · simp [ARM.setReg, hd, h0]
      decide
    · simp [ARM.setReg, hd2]
  · rw [if_neg h0]
    refine ⟨_, rfl, ?_, ?_⟩
    · cases has_builtin
      · simp [ARM.setReg, hd, portable_eq_clz _ h0 hx, clz_eq_leadingZeroBits _ h0 hx]
      · simp [ARM.setReg, hd, clz_eq_leadingZeroBits _ h0 hx]
    · cases has_builtin <;> simp [ARM.setReg, hd2]

/-- Witness of C14: CLZ r0, r1 on ARM9 built with the portable loop. -/
theorem C14_witness :
    (sampleARM Model.ARM9).model = Model.ARM9 ∧ (0xE16F0F11 >>> 12) &&& 0xF ≠ 15 ∧
    (sampleARM Model.ARM9).reg (0xE16F0F11 &&& 0xF) < 2 ^ 32 ∧
    ∃ a', ARM_CountLeadingZeros false 0xE16F0F11 (sampleARM Model.ARM9) = some a' ∧
      a'.reg ((0xE16F0F11 >>> 12) &&& 0xF) =
        leadingZeroBits ((sampleARM Model.ARM9).reg (0xE16F0F11 &&& 0xF)) ∧
      a'.reg 15 = u32 ((sampleARM Model.ARM9).reg 15 + 4) :=
  ⟨rfl, by decide, by decide,
    (C14_count_leading_zeros false 0xE16F0F11 (sampleARM Model.ARM9) rfl (by decide)
      (by decide)).1⟩

/-! ### C15: ARMv5 encodings on ARM7 -/

/-- The double-word encodings of `ARM_HalfDoubleAndSignedTransfer` on ARM7: no
transfer and no panic; r15 advances by 4 and the base register then receives the
write-back of the addressing mode, which for a post-indexed access is computed from
the value the base holds after the advance of r15. -/
theorem doubleword_ARM7_state (pre add immediate writeback : Bool) (opcode instruction : Nat)
    (a : ARM) (hm : a.model = Model.ARM7) (ho : opcode = 2 ∨ opcode = 3) :
    ARM_HalfDoubleAndSignedTransfer pre add immediate writeback false opcode instruction a =
      some
        (if pre = false then
          (a.setReg 15 (u32 (a.reg 15 + 4))).setReg ((instruction >>> 16) &&& 0xF)
            (indexedAddress add
              ((a.setReg 15 (u32 (a.reg 15 + 4))).reg ((instruction >>> 16) &&& 0xF))
              (transferOffset immediate instruction a))
        else if writeback = true then
          (a.setReg 15 (u32 (a.reg 15 + 4))).setReg ((instruction >>> 16) &&& 0xF)
            (indexedAddress add (a.reg ((instruction >>> 16) &&& 0xF))
              (transferOffset immediate instruction a))
        else a.setReg 15 (u32 (a.reg 15 + 4))) := by
  have hidx : ∀ b o, indexedAddress add b o =
      (if add then u32 (b + o) else u32 (b + (4294967296 - u32 o))) := by
    intro b o
    unfold indexedAddress u32
    split_ifs
    · rfl
    · congr 1
      omega
  have key : ∀ (dst base offset address : Nat),
      ARM_HalfDoubleAndSignedTransfer.finish pre add writeback false dst base offset
          address true (a.setReg 15 (u32 (a.reg 15 + 4))) =
        some
          (if pre = false then
            (a.setReg 15 (u32 (a.reg 15 + 4))).setReg base
              (indexedAddress add ((a.setReg 15 (u32 (a.reg 15 + 4))).reg base) offset)
          else if writeback = true then (a.setReg 15 (u32 (a.reg 15 + 4))).setReg base address
          else a.setReg 15 (u32 (a.reg 15 + 4))) := by
    intro dst base offset address
    unfold ARM_HalfDoubleAndSignedTransfer.finish
    simp only [Bool.false_eq_true, false_and, if_false, if_true, hidx]
    cases pre <;> cases writeback <;> simp
  unfold ARM_HalfDoubleAndSignedTransfer transferOffset
  rcases ho with ho | ho <;> subst ho <;>
    simp only [Bool.false_eq_true, if_false, setReg_model, hm, ne_eq, not_true_eq_false,
      Bool.not_false, Bool.true_or, key, hidx] <;>
    cases pre <;> simp

/-- C15 (as amended): on ARM7 the handlers of CLZ, of QADD/QSUB/QDADD/QDSUB, of the
signed halfword and word-halfword multiplies and of BLX-register panic for every
opcode word, whatever the state holds; no state is produced.  The LDRD and STRD
encodings do not panic on ARM7: they return without a transfer, with the memory,
the status registers, the banks and the pipeline unchanged; r15 is advanced by 4,
every other register but the base is unchanged, and the base register receives the
write-back of the addressing mode: the base moved by the offset for a post-indexed
access, the indexed address for a pre-indexed access with W = 1, and nothing for a
pre-indexed access with W = 0.  With r15 as the base the post-indexed write-back
starts from the advanced r15 and the pre-indexed one from the r15 before it. -/
theorem C15_armv5_encodings_on_arm7 (instruction : Nat) (a : ARM)
    (hm : a.model = Model.ARM7) :
    (∀ has_builtin, ARM_CountLeadingZeros has_builtin instruction a = none) ∧
    (∀ opcode, ARM_SaturatingAddSubtract opcode instruction a = none) ∧
    (∀ accumulate x y, ARM_SignedHalfwordMultiply accumulate x y instruction a = none) ∧
    (∀ accumulate y, ARM_SignedWordHalfwordMultiply accumulate y instruction a = none) ∧
    (∀ x y, ARM_SignedHalfwordMultiplyLongAccumulate x y instruction a = none) ∧
    ARM_BranchAndExchangeMaybeLink true instruction a = none ∧
    (∀ pre add immediate writeback opcode, opcode = 2 ∨ opcode = 3 →
      ∃ a', ARM_HalfDoubleAndSignedTransfer pre add immediate writeback false opcode
          instruction a = some a' ∧
        a'.memory = a.memory ∧ a'.cpsr = a.cpsr ∧ a'.spsr = a.spsr ∧ a'.bank = a.bank ∧
        a'.opcode0 = a.opcode0 ∧ a'.opcode1 = a.opcode1 ∧
        (∀ i, i ≠ (instruction >>> 16) &&& 0xF →
          a'.reg i = if i = 15 then u32 (a.reg 15 + 4) else a.reg i) ∧
        a'.reg ((instruction >>> 16) &&& 0xF) =
          (if pre = false then
            indexedAddress add
              (if (instruction >>> 16) &&& 0xF = 15 then u32 (a.reg 15 + 4)
                else a.reg ((instruction >>> 16) &&& 0xF))
              (transferOffset immediate instruction a)
          else if writeback = true then
            indexedAddress add (a.reg ((instruction >>> 16) &&& 0xF))
              (transferOffset immediate instruction a)
          else if (instruction >>> 16) &&& 0xF = 15 then u32 (a.reg 15 + 4)
          else a.reg ((instruction >>> 16) &&& 0xF))) := by
  refine ⟨?_, ?_, ?_, ?_, ?_, ?_, ?_⟩
  · intro _; simp [ARM_CountLeadingZeros, hm, ARM_Undefined]
  · intro _; simp [ARM_SaturatingAddSubtract, hm, ARM_Undefined]
  · intro _ _ _; simp [ARM_SignedHalfwordMultiply, hm, ARM_Undefined]
  · intro _ _; simp [ARM_SignedWordHalfwordMultiply, hm, ARM_Undefined]
  · intro _ _; simp [ARM_SignedHalfwordMultiplyLongAccumulate, hm, ARM_Undefined]
  · simp [ARM_BranchAndExchangeMaybeLink, hm, ARM_Undefined]
  · intro pre add immediate writeback opcode ho
    refine ⟨_, doubleword_ARM7_state pre add immediate writeback opcode instruction a hm ho,
      ?_, ?_, ?_, ?_, ?_, ?_, ?_, ?_⟩
    · cases pre <;> cases writeback <;> rfl
    · cases pre <;> cases writeback <;> rfl
    · cases pre <;> cases writeback <;> rfl
    · cases pre <;> cases writeback <;> rfl
    · cases pre <;> cases writeback <;> rfl
    · cases pre <;> cases writeback <;> rfl
    · intro i hi
      cases pre <;> cases writeback <;> simp [setReg_reg, hi]
    · generalize (instruction >>> 16) &&& 0xF = base
      by_cases hb : base = 15
      · subst hb
        cases pre <;> cases writeback <;> simp [setReg_reg]
      · have hb' : ¬ (15 = base) := fun e => hb e.symm
        cases pre <;> cases writeback <;> simp [setReg_reg, hb, hb']

/-- Counterexample to C15 as stated: LDRD r0, [r2], #8 on ARM7 does not panic; it
returns with r2 moved up by 8 and r15 advanced by 4, r0 and r1 not loaded. -/
theorem C15_counterexample :
    ∃ a', ARM_HalfDoubleAndSignedTransfer false true true false false 2 0xE0C200D8
        (sampleARM Model.ARM7) = some a' ∧
      a'.reg 2 = (sampleARM Model.ARM7).reg 2 + 8 ∧
      a'.reg 15 = (sampleARM Model.ARM7).reg 15 + 4 ∧
      a'.reg 0 = (sampleARM Model.ARM7).reg 0 ∧ a'.reg 1 = (sampleARM Model.ARM7).reg 1 :=
  ⟨_, rfl, by decide, by decide, by decide, by decide⟩

/-- Witness of C15 (as amended): CLZ r0, r1 panics on ARM7, and the pre-indexed
`STRD r0, [r2, #-8]!` (0xE16200F8) returns with r2 moved down by 8, r15 advanced by
4 and the memory unchanged. -/
theorem C15_witness :
    (sampleARM Model.ARM7).model = Model.ARM7 ∧
    (∀ has_builtin, ARM_CountLeadingZeros has_builtin 0xE16F0F11 (sampleARM Model.ARM7) = none) ∧
    ((3 : Nat) = 2 ∨ (3 : Nat) = 3) ∧
    ∃ a', ARM_HalfDoubleAndSignedTransfer true false true true false 3 0xE16200F8
        (sampleARM Model.ARM7) = some a' ∧
      a'.memory = (sampleARM Model.ARM7).memory ∧
      a'.reg 2 = 0x020001F8 ∧ a'.reg 15 = 0x02000F04 ∧ a'.reg 0 = 0x02000000 :=
  ⟨rfl, (C15_armv5_encodings_on_arm7 0xE16F0F11 (sampleARM Model.ARM7) rfl).1, by decide,
    (fun ⟨a', h1, h2, _, _, _, _, _, h8, h9⟩ =>
      ⟨a', h1, h2, h9.trans (by decide), (h8 15 (by decide)).trans (by decide),
        (h8 0 (by decide)).trans (by decide)⟩)
      ((C15_armv5_encodings_on_arm7 0xE16200F8 (sampleARM Model.ARM7) rfl).2.2.2.2.2.2
        true false true true 3 (by decide))⟩

/-! ### C21: `Run` on a CPU that waits for an IRQ -/

/-- The loop of `Run` with a positive budget, in terms of `Run.pass`. -/
theorem loop_succ (h : Handlers) (c : Nat) (a : ARM) :
    Run.loop h (c + 1) a =
      if a.cycle_counter < a.timestamp_target then
        match Run.pass h a with
        | none => none
        | some a' => if a'.wait_for_irq then some (AddDeviceCycles a' c) else Run.loop h c a'
      else some a := by
  rw [Run.loop]
  unfold Run.pass
  by_cases ht : a.cycle_counter < a.timestamp_target
  · simp only [ht, if_true]
    cases (if a.irq_flag then SignalIRQ a else some a) with
    | none => rfl
    | some b =>
      simp only
      cases Run.dispatch h b with
      | none => rfl
      | some d => rfl
  · simp only [ht, if_false]

/-- After `k` passes that leave the CPU running, a pass that leaves it waiting ends
the loop: the rest of the budget is added to the cycle counter and nothing else
happens. -/
theorem loop_passes (h : Handlers) (m : Nat) (w : ARM) :
    ∀ (k : Nat) (a s : ARM), Run.passes h k a = some s →
      s.cycle_counter < s.timestamp_target → Run.pass h s = some w →
      w.wait_for_irq = true → Run.loop h (k + 1 + m) a = some (AddDeviceCycles w m) := by
  intro k
  induction k with
  | zero =>
    intro a s hs ht hp hw
    simp only [Run.passes, Option.some.injEq] at hs
    subst hs
    rw [show 0 + 1 + m = m + 1 by omega, loop_succ]
    simp only [ht, if_true, hp, hw]
  | succ k ih =>
    intro a s hs ht hp hw
    rw [Run.passes] at hs
    by_cases hta : a.cycle_counter < a.timestamp_target
    · simp only [hta, if_true] at hs
      cases hpa : Run.pass h a with
      | none => simp [hpa] at hs
      | some b =>
        simp only [hpa] at hs
        by_cases hb : b.wait_for_irq = true
        · simp [hb] at hs
        · simp only [hb, Bool.false_eq_true, if_false] at hs
          rw [show k + 1 + 1 + m = (k + 1 + m) + 1 by omega, loop_succ]
          simp only [hta, if_true, hpa, hb, Bool.false_eq_true, if_false]
          exact ih b s hs ht hp hw
    · simp [hta] at hs

/-- The function `SwitchMode` leaves the cycle counter alone. -/
theorem SwitchMode_cycle_counter (a a' : ARM) (m : Nat) (h : SwitchMode a m = some a') :
    a'.cycle_counter = a.cycle_counter := by
  unfold SwitchMode at h
  cases h1 : GetRegisterBankByMode (sr_mode a.cpsr) with
  | none => simp [h1] at h
  | some b1 =>
    cases h2 : GetRegisterBankByMode m with
    | none => simp [h1, h2] at h
    | some b2 =>
      simp only [h1, h2] at h
      split_ifs at h <;> (simp only [Option.some.injEq] at h; subst h; rfl)

/-- The function `SignalIRQ` leaves the cycle counter alone. -/
theorem SignalIRQ_cycle_counter (a a' : ARM) (h : SignalIRQ a = some a') :
    a'.cycle_counter = a.cycle_counter := by
  unfold SignalIRQ at h
  split_ifs at h with hm
  · simp only [Option.some.injEq] at h; subst h; rfl
  · cases hs : SwitchMode (a.setSpsr Bank.IRQ a.cpsr) Mode.IRQ with
    | none => simp [hs] at h
    | some b =>
      have hb := SwitchMode_cycle_counter _ _ _ hs
      simp only [hs] at h
      split_ifs at h <;>
        (simp only [Option.some.injEq] at h; subst h; exact hb)

/-- The dispatch step of `Run` leaves the cycle counter alone when the handlers do. -/
theorem dispatch_cycle_counter (h : Handlers) (hk : KeepsCycleCounter h) (a a' : ARM)
    (hd : Run.dispatch h a = some a') : a'.cycle_counter = a.cycle_counter := by
  unfold Run.dispatch at hd
  simp only at hd
  split_ifs at hd
  · exact (hk.1 _ _ _ _ hd).trans rfl
  · exact (hk.2 _ _ _ _ hd).trans rfl
  · exact (hk.2 _ _ _ _ hd).trans rfl
  · simp only [Option.some.injEq] at hd; subst hd; rfl

/-- One pass of the loop advances the cycle counter by one. -/
theorem pass_cycle_counter (h : Handlers) (hk : KeepsCycleCounter h) (a a' : ARM)
    (hp : Run.pass h a = some a') : a'.cycle_counter = a.cycle_counter + 1 := by
  unfold Run.pass at hp
  cases hi : (if a.irq_flag then SignalIRQ a else some a) with
  | none => simp [hi] at hp
  | some b =>
    have hb : b.cycle_counter = a.cycle_counter := by
      split_ifs at hi
      · exact SignalIRQ_cycle_counter _ _ hi
      · simp only [Option.some.injEq] at hi; subst hi; rfl
    simp only [hi] at hp
    cases hd : Run.dispatch h b with
    | none => simp [hd] at hp
    | some d =>
      have := dispatch_cycle_counter h hk b d hd
      simp only [hd, Option.some.injEq] at hp
      subst hp
      simp only [AddDeviceCycles]
      omega

/-- The passes counted by `Run.passes` advance the cycle counter by one each. -/
theorem passes_cycle_counter (h : Handlers) (hk : KeepsCycleCounter h) :
    ∀ (k : Nat) (a s : ARM), Run.passes h k a = some s →
      s.cycle_counter = a.cycle_counter + k := by
  intro k
  induction k with
  | zero =>
    intro a s hs
    simp only [Run.passes, Option.some.injEq] at hs
    subst hs; rfl
  | succ k ih =>
    intro a s hs
    rw [Run.passes] at hs
    split_ifs at hs with hta
    cases hpa : Run.pass h a with
    | none => simp [hpa] at hs
    | some b =>
      simp only [hpa] at hs
      split_ifs at hs with hb
      have h1 := pass_cycle_counter h hk a b hpa
      have h2 := ih b s hs
      omega

/-- C21: when the CPU is waiting for an IRQ as `Run(n)` is called, `Run` returns
with the cycle counter advanced by exactly `n` and every register, status
register, pipeline slot and the memory as they were; and when, after `k < n`
passes of the loop that leave the CPU running, a pass entered before the horizon
leaves it waiting (as the WFI hint does: `ARM_Hint` on a word whose low byte is 3
sets the flag and keeps the counter), `Run(n)` returns the state of that pass with
the remaining `n - 1 - k` cycles added, nothing else changed, so that with handlers
that leave the counter alone the total advance is exactly `n`. -/
theorem C21_run_waiting_for_irq (h : Handlers) (n : Nat) (a : ARM) :
    (a.wait_for_irq = true →
      ∃ a', Run h n a = some a' ∧ a'.cycle_counter = a.cycle_counter + n ∧
        a'.reg = a.reg ∧ a'.bank = a.bank ∧ a'.cpsr = a.cpsr ∧ a'.spsr = a.spsr ∧
        a'.opcode0 = a.opcode0 ∧ a'.opcode1 = a.opcode1 ∧ a'.memory = a.memory ∧
        a'.wait_for_irq = true) ∧
    (∀ (k : Nat) (s w : ARM), a.wait_for_irq = false → k < n →
      Run.passes h k a = some s → s.cycle_counter < s.timestamp_target →
      Run.pass h s = some w → w.wait_for_irq = true →
      Run h n a = some (AddDeviceCycles w (n - 1 - k)) ∧
      (KeepsCycleCounter h →
        (AddDeviceCycles w (n - 1 - k)).cycle_counter = a.cycle_counter + n)) ∧
    (∀ instruction, instruction &&& 0xFF = 3 →
      ∃ a', ARM_Hint instruction a = some a' ∧ a'.wait_for_irq = true ∧
        a'.cycle_counter = a.cycle_counter) := by
  refine ⟨?_, ?_, ?_⟩
  · intro hw
    refine ⟨AddDeviceCycles a n, ?_, rfl, rfl, rfl, rfl, rfl, rfl, rfl, rfl, hw⟩
    unfold Run
    simp only [hw, if_true]
  · intro k s w hw hk hs ht hp hww
    have hn : n = k + 1 + (n - 1 - k) := by omega
    refine ⟨?_, ?_⟩
    · unfold Run
      simp only [hw, Bool.false_eq_true, if_false]
      rw [hn, loop_passes h (n - 1 - k) w k a s hs ht hp hww]
      congr 2
      omega
    · intro hkeep
      have h1 := passes_cycle_counter h hkeep k a s hs
      have h2 := pass_cycle_counter h hkeep s w hp
      simp only [AddDeviceCycles]
      omega
  · intro instruction hi
    refine ⟨({ a with wait_for_irq := true } : ARM).setReg 15 (u32 (a.reg 15 + 4)), ?_, rfl, rfl⟩
    unfold ARM_Hint
    simp only [hi]
    rfl

/-- Witness of C21: a waiting CPU given five cycles, and a CPU that executes one
instruction and then the WFI hint within a budget of five cycles. -/
theorem C21_witness :
    (({ sampleWFI with wait_for_irq := true } : ARM).wait_for_irq = true ∧
      ∃ a', Run hintHandlers 5 { sampleWFI with wait_for_irq := true } = some a' ∧
        a'.cycle_counter = 0 + 5 ∧ a'.opcode1 = 0xE320F003) ∧
    (sampleWFI.wait_for_irq = false ∧ 1 < 5 ∧
      Run.passes hintHandlers 1 sampleWFI = some sampleWFI1 ∧
      sampleWFI1.cycle_counter < sampleWFI1.timestamp_target ∧
      Run.pass hintHandlers sampleWFI1 = some sampleWFI2 ∧
      sampleWFI2.wait_for_irq = true ∧
      Run hintHandlers 5 sampleWFI = some (AddDeviceCycles sampleWFI2 3) ∧
      (AddDeviceCycles sampleWFI2 3).cycle_counter = 0 + 5) ∧
    (0xE320F003 &&& 0xFF = 3 ∧
      ∃ a', ARM_Hint 0xE320F003 sampleWFI = some a' ∧ a'.wait_for_irq = true) :=
  have hkeep : KeepsCycleCounter hintHandlers := by
    refine ⟨?_, ?_⟩
    · intro i op x y hxy
      simp only [hintHandlers, Option.some.injEq] at hxy
      subst hxy; rfl
    · intro i op x y hxy
      simp only [hintHandlers, ARM_Hint] at hxy
      split_ifs at hxy <;> (simp only [Option.some.injEq] at hxy; subst hxy; rfl)
  ⟨⟨rfl,
      (fun ⟨a', h1, h2, _, _, _, _, _, h3, _⟩ => ⟨a', h1, h2, h3⟩)
        ((C21_run_waiting_for_irq hintHandlers 5 { sampleWFI with wait_for_irq := true }).1
          rfl)⟩,
    ⟨rfl, by decide, rfl, by decide, rfl, rfl,
      ((C21_run_waiting_for_irq hintHandlers 5 sampleWFI).2.1 1 sampleWFI1 sampleWFI2 rfl
        (by decide) rfl (by decide) rfl rfl).1,
      ((C21_run_waiting_for_irq hintHandlers 5 sampleWFI).2.1 1 sampleWFI1 sampleWFI2 rfl
        (by decide) rfl (by decide) rfl rfl).2 hkeep⟩,
    ⟨by decide,
      (fun ⟨a', h1, h2, _⟩ => ⟨a', h1, h2⟩)
        ((C21_run_waiting_for_irq hintHandlers 5 sampleWFI).2.2 0xE320F003 (by decide))⟩⟩

/-! ### C22: index into the Thumb handler table -/

/-- C22 (amended): in Thumb state the dispatch step of `Run` calls the entry of the
Thumb table at index `opcode >> 5`, and for every 16-bit opcode in pipeline slot 0
this index is smaller than 2048; it is an eleven-bit index, opcode bits 15..5. -/
theorem C22_thumb_table_index (h : Handlers) (a : ARM) (ht : sr_thumb a.cpsr ≠ 0)
    (hop : a.opcode0 < 65536) :
    Run.dispatch h a = h.lut16 (a.opcode0 >>> 5) a.opcode0 (fetched16 a) ∧
    a.opcode0 >>> 5 < 2048 := by
  refine ⟨?_, ?_⟩
  · unfold Run.dispatch
    simp only [ne_eq, ht, not_false_eq_true, if_true]
    rfl
  · rw [Nat.shiftRight_eq_div_pow]
    exact Nat.div_lt_of_lt_mul (by simpa using hop)

/-- Witness of C22: the Thumb opcode 0xFFFF is looked up at index 2047. -/
theorem C22_witness :
    sr_thumb sampleThumb.cpsr ≠ 0 ∧ sampleThumb.opcode0 < 65536 ∧
    Run.dispatch hintHandlers sampleThumb =
      hintHandlers.lut16 2047 0xFFFF (fetched16 sampleThumb) ∧
    sampleThumb.opcode0 >>> 5 < 2048 :=
  ⟨by decide, by decide,
    (C22_thumb_table_index hintHandlers sampleThumb (by decide) (by decide)).1,
    (C22_thumb_table_index hintHandlers sampleThumb (by decide) (by decide)).2⟩

/-- Counterexample to C22 as stated: with the Thumb opcode 0xFFFF in pipeline slot
0 the table entry that `Run` calls receives an index that is not below 1024 (the
entries of `hintHandlers` record their index in r0). -/
theorem C22_counterexample :
    sr_thumb sampleThumb.cpsr ≠ 0 ∧ sampleThumb.opcode0 < 65536 ∧
    ∃ a', Run.dispatch hintHandlers sampleThumb = some a' ∧ a'.reg 0 = 2047 ∧
      ¬ a'.reg 0 < 1024 :=
  ⟨by decide, by decide, (fetched16 sampleThumb).setReg 0 2047, rfl, rfl, by decide⟩

/-! ### C23: data-processing with `Rd = r15` -/

/-- Writing one of the flags N, Z, C, V keeps the mode field. -/
theorem sr_mode_flags (w b : Nat) :
    sr_mode (sr_set_n w b) = sr_mode w ∧ sr_mode (sr_set_z w b) = sr_mode w ∧
    sr_mode (sr_set_c w b) = sr_mode w ∧ sr_mode (sr_set_v w b) = sr_mode w := by
  unfold sr_mode sr_set_n sr_set_z sr_set_c sr_set_v
  refine ⟨?_, ?_, ?_, ?_⟩ <;> omega

theorem logicalFlags_mode (a : ARM) (v c : Nat) :
    sr_mode (logicalFlags a v c).cpsr = sr_mode a.cpsr := by
  simp only [logicalFlags, SetZeroAndSignFlag, (sr_mode_flags _ _).1, (sr_mode_flags _ _).2.1,
    (sr_mode_flags _ _).2.2.1]

theorem ADD_mode (a : ARM) (x y : Nat) (f : Bool) :
    sr_mode (ADD a x y f).2.cpsr = sr_mode a.cpsr := by
  cases f <;>
    simp only [ADD, SetZeroAndSignFlag, Bool.false_eq_true, if_false, if_true,
      (sr_mode_flags _ _).1, (sr_mode_flags _ _).2.1, (sr_mode_flags _ _).2.2.1,
      (sr_mode_flags _ _).2.2.2]

theorem ADC_mode (a : ARM) (x y : Nat) (f : Bool) :
    sr_mode (ADC a x y f).2.cpsr = sr_mode a.cpsr := by
  cases f <;>
    simp only [ADC, SetZeroAndSignFlag, Bool.false_eq_true, if_false, if_true,
      (sr_mode_flags _ _).1, (sr_mode_flags _ _).2.1, (sr_mode_flags _ _).2.2.1,
      (sr_mode_flags _ _).2.2.2]

theorem SUB_mode (a : ARM) (x y : Nat) (f : Bool) :
    sr_mode (SUB a x y f).2.cpsr = sr_mode a.cpsr := by
  cases f <;>
    simp only [SUB, SetZeroAndSignFlag, Bool.false_eq_true, if_false, if_true,
      (sr_mode_flags _ _).1, (sr_mode_flags _ _).2.1, (sr_mode_flags _ _).2.2.1,
      (sr_mode_flags _ _).2.2.2]

theorem SBC_mode (a : ARM) (x y : Nat) (f : Bool) :
    sr_mode (SBC a x y f).2.cpsr = sr_mode a.cpsr := by
  cases f <;>
    simp only [SBC, SetZeroAndSignFlag, Bool.false_eq_true, if_false, if_true,
      (sr_mode_flags _ _).1, (sr_mode_flags _ _).2.1, (sr_mode_flags _ _).2.2.1,
      (sr_mode_flags _ _).2.2.2]

/-- The `switch` of `ARM_DataProcessing` keeps the mode field of the CPSR. -/
theorem execute_mode (opcode : Nat) (set_flags : Bool) (reg_dst op1 op2 carry : Nat)
    (a : ARM) :
    sr_mode (ARM_DataProcessing.execute opcode set_flags reg_dst op1 op2 carry a).cpsr =
      sr_mode a.cpsr := by
  unfold ARM_DataProcessing.execute
  split <;> (try split_ifs) <;>
    simp only [setReg_cpsr, logicalFlags_mode, ADD_mode, ADC_mode, SUB_mode, SBC_mode]

/-- The arithmetic helpers touch the CPSR only. -/
theorem arith_rest (a : ARM) (x y : Nat) (f : Bool) :
    ((ADD a x y f).2.spsr = a.spsr ∧ (ADD a x y f).2.p_spsr = a.p_spsr ∧
      (ADD a x y f).2.memory = a.memory ∧ (ADD a x y f).2.bank = a.bank) ∧
    ((ADC a x y f).2.spsr = a.spsr ∧ (ADC a x y f).2.p_spsr = a.p_spsr ∧
      (ADC a x y f).2.memory = a.memory ∧ (ADC a x y f).2.bank = a.bank) ∧
    ((SUB a x y f).2.spsr = a.spsr ∧ (SUB a x y f).2.p_spsr = a.p_spsr ∧
      (SUB a x y f).2.memory = a.memory ∧ (SUB a x y f).2.bank = a.bank) ∧
    ((SBC a x y f).2.spsr = a.spsr ∧ (SBC a x y f).2.p_spsr = a.p_spsr ∧
      (SBC a x y f).2.memory = a.memory ∧ (SBC a x y f).2.bank = a.bank) := by
  cases f <;> simp [ADD, ADC, SUB, SBC, SetZeroAndSignFlag]

/-- The `switch` of `ARM_DataProcessing` leaves the saved status registers, the
selected SPSR slot, the register banks and the memory alone. -/
theorem execute_rest (opcode : Nat) (set_flags : Bool) (reg_dst op1 op2 carry : Nat)
    (a : ARM) :
    (ARM_DataProcessing.execute opcode set_flags reg_dst op1 op2 carry a).spsr = a.spsr ∧
    (ARM_DataProcessing.execute opcode set_flags reg_dst op1 op2 carry a).p_spsr = a.p_spsr ∧
    (ARM_DataProcessing.execute opcode set_flags reg_dst op1 op2 carry a).memory = a.memory ∧
    (ARM_DataProcessing.execute opcode set_flags reg_dst op1 op2 carry a).bank = a.bank := by
  unfold ARM_DataProcessing.execute
  split <;> (try split_ifs) <;>
    simp [logicalFlags, SetZeroAndSignFlag, (arith_rest _ _ _ _).1, (arith_rest _ _ _ _).2.1,
      (arith_rest _ _ _ _).2.2.1, (arith_rest _ _ _ _).2.2.2]

/-- Without the S bit an opcode that writes a result leaves the CPSR alone. -/
theorem execute_cpsr (opcode : Nat) (reg_dst op1 op2 carry : Nat) (a : ARM)
    (hop : opcode ≠ 8 ∧ opcode ≠ 9 ∧ opcode ≠ 10 ∧ opcode ≠ 11) :
    (ARM_DataProcessing.execute opcode false reg_dst op1 op2 carry a).cpsr = a.cpsr := by
  unfold ARM_DataProcessing.execute
  split <;> first
    | omega
    | simp [ADD, ADC, SUB, SBC]

/-- The value the `switch` of `ARM_DataProcessing` leaves in `Rd`. -/
theorem execute_result (opcode : Nat) (set_flags : Bool) (reg_dst op1 op2 carry : Nat)
    (a : ARM) (hop : opcode ≠ 8 ∧ opcode ≠ 9 ∧ opcode ≠ 10 ∧ opcode ≠ 11) :
    (ARM_DataProcessing.execute opcode set_flags reg_dst op1 op2 carry a).reg reg_dst =
      aluResult opcode op1 op2 (sr_c a.cpsr) := by
  unfold ARM_DataProcessing.execute aluResult
  split <;> first
    | omega
    | (cases set_flags <;> simp [ADD, ADC, SUB, SBC])

/-- What `ReloadPipeline16` fetches and where it leaves r15. -/
theorem ReloadPipeline16_fields (a : ARM) :
    (ReloadPipeline16 a).opcode0 = ReadHalf a.memory (a.reg 15) ∧
    (ReloadPipeline16 a).opcode1 = ReadHalf a.memory (a.reg 15 + 2) ∧
    (ReloadPipeline16 a).reg 15 = u32 (a.reg 15 + 4) ∧
    (∀ i, i ≠ 15 → (ReloadPipeline16 a).reg i = a.reg i) ∧
    (ReloadPipeline16 a).cpsr = a.cpsr ∧
    (ReloadPipeline16 a).spsr = a.spsr ∧
    (ReloadPipeline16 a).p_spsr = a.p_spsr ∧
    (ReloadPipeline16 a).bank = a.bank ∧
    (ReloadPipeline16 a).memory = a.memory := by
  refine ⟨rfl, rfl, ?_, ?_, rfl, rfl, rfl, rfl, rfl⟩
  · simp [ReloadPipeline16]
  · intro i hi
    simp [ReloadPipeline16, hi]

set_option maxRecDepth 100000 in
/-- The expression `(value >> shift) | (value << (32 - shift))` on an 8-bit value
is the rotation of the value, and bit `shift - 1` of the value becomes bit 31;
checked on every 8-bit value and every non-zero rotate field. -/
theorem imm_rotate : ∀ rot < 16, ∀ value < 256, rot ≠ 0 →
    (u32 ((value >>> (rot * 2)) ||| (value <<< (32 - rot * 2))) = ror32 value (rot * 2) ∧
    (value >>> (rot * 2 - 1)) &&& 1 = ror32 value (rot * 2) / 2147483648 % 2) := by
  decide

/-- The flag C after `logicalFlags` is the carry that was passed in. -/
theorem logicalFlags_c (a : ARM) (v c : Nat) (hc : c < 2) :
    sr_c (logicalFlags a v c).cpsr = c := by
  simp only [logicalFlags]
  unfold sr_c sr_set_c
  omega

/-- The operand stage of an immediate data-processing instruction. -/
theorem operands_immediate (field4 instruction : Nat) (a : ARM) :
    (ARM_DataProcessing.operands true field4 instruction a).2.1 =
      ror32 (instruction &&& 0xFF) (2 * ((instruction >>> 8) &&& 0xF)) ∧
    (ARM_DataProcessing.operands true field4 instruction a).2.2 =
      (if (instruction >>> 8) &&& 0xF ≠ 0 then
        (ARM_DataProcessing.operands true field4 instruction a).2.1 / 2147483648 % 2
      else sr_c a.cpsr) ∧
    (ARM_DataProcessing.operands true field4 instruction a).2.2 < 2 := by
  have hv : instruction &&& 0xFF < 256 := Nat.and_lt_two_pow _ (by decide : 255 < 2 ^ 8)
  have hr : (instruction >>> 8) &&& 0xF < 16 := Nat.and_lt_two_pow _ (by decide : 15 < 2 ^ 4)
  simp only [ARM_DataProcessing.operands, if_true]
  generalize instruction &&& 0xFF = value at hv ⊢
  generalize (instruction >>> 8) &&& 0xF = rot at hr ⊢
  by_cases h0 : rot = 0
  · subst h0
    simp only [Nat.zero_mul, ne_eq, not_true_eq_false, if_false, Nat.mul_zero]
    refine ⟨?_, trivial, ?_⟩
    · unfold ror32 u32; omega
    · unfold sr_c; omega
  · have hs : rot * 2 ≠ 0 := by omega
    obtain ⟨h1, h2⟩ := imm_rotate rot hr value hv h0
    simp only [ne_eq, hs, h0, not_false_eq_true, if_true]
    rw [Nat.mul_comm 2 rot, h1, h2]
    refine ⟨rfl, rfl, ?_⟩
    omega

/-- C24: in an immediate data-processing instruction with 8-bit immediate `imm`
(bits 7..0) and rotate field `rot` (bits 11..8), operand 2 is `imm` rotated right by
`2 * rot` within 32 bits; the shifter carry-out is bit 31 of operand 2 when
`rot ≠ 0` and the current CPSR.C when `rot = 0`; and the logical opcodes AND, EOR,
TST, TEQ, ORR, MOV, BIC and MVN with S = 1 leave exactly this carry-out in CPSR.C,
after the `switch` for every `Rd` and after the whole handler when `Rd` is not r15. -/
theorem C24_immediate_operand_carry (opcode field4 instruction : Nat) (a : ARM) :
    (ARM_DataProcessing.operands true field4 instruction a).2.1 =
      ror32 (instruction &&& 0xFF) (2 * ((instruction >>> 8) &&& 0xF)) ∧
    (ARM_DataProcessing.operands true field4 instruction a).2.2 =
      (if (instruction >>> 8) &&& 0xF ≠ 0 then
        ror32 (instruction &&& 0xFF) (2 * ((instruction >>> 8) &&& 0xF)) / 2147483648 % 2
      else sr_c a.cpsr) ∧
    (opcode = 0 ∨ opcode = 1 ∨ opcode = 8 ∨ opcode = 9 ∨ opcode = 12 ∨ opcode = 13 ∨
        opcode = 14 ∨ opcode = 15 →
      (∀ reg_dst, sr_c (ARM_DataProcessing.execute opcode true reg_dst
          (ARM_DataProcessing.operands true field4 instruction a).1
          (ARM_DataProcessing.operands true field4 instruction a).2.1
          (ARM_DataProcessing.operands true field4 instruction a).2.2 a).cpsr =
        (ARM_DataProcessing.operands true field4 instruction a).2.2) ∧
      ((instruction >>> 12) &&& 0xF ≠ 15 →
        ∃ a', ARM_DataProcessing true opcode true field4 instruction a = some a' ∧
          sr_c a'.cpsr = (ARM_DataProcessing.operands true field4 instruction a).2.2)) := by
  obtain ⟨h1, h2, h3⟩ := operands_immediate field4 instruction a
  refine ⟨h1, ?_, ?_⟩
  · rw [h2, h1]
  · intro hop
    have hex : ∀ reg_dst, sr_c (ARM_DataProcessing.execute opcode true reg_dst
          (ARM_DataProcessing.operands true field4 instruction a).1
          (ARM_DataProcessing.operands true field4 instruction a).2.1
          (ARM_DataProcessing.operands true field4 instruction a).2.2 a).cpsr =
        (ARM_DataProcessing.operands true field4 instruction a).2.2 := by
      intro reg_dst
      rcases hop with h | h | h | h | h | h | h | h <;> subst h <;>
        simp only [ARM_DataProcessing.execute, if_true] <;>
        exact logicalFlags_c _ _ _ h3
    refine ⟨hex, ?_⟩
    intro hd
    unfold ARM_DataProcessing
    simp only [hd, if_false]
    exact ⟨_, rfl, hex _⟩

/-- Witness of C24: `MOVS r0, #0x0F000000` (0xE3B0040F, immediate 0x0F rotated right
by 8) clears CPSR.C, which was set, to bit 31 of the operand. -/
theorem C24_witness :
    (ARM_DataProcessing.operands true 0 0xE3B0040F sampleUser).2.1 = 0x0F000000 ∧
    (ARM_DataProcessing.operands true 0 0xE3B0040F sampleUser).2.2 = 0 ∧
    (13 = 0 ∨ 13 = 1 ∨ 13 = 8 ∨ 13 = 9 ∨ 13 = 12 ∨ 13 = 13 ∨ 13 = 14 ∨ 13 = 15) ∧
    (0xE3B0040F >>> 12) &&& 0xF ≠ 15 ∧
    ∃ a', ARM_DataProcessing true 13 true 0 0xE3B0040F sampleUser = some a' ∧
      sr_c a'.cpsr = (ARM_DataProcessing.operands true 0 0xE3B0040F sampleUser).2.2 :=
  ⟨(C24_immediate_operand_carry 13 0 0xE3B0040F sampleUser).1.trans (by decide),
    (C24_immediate_operand_carry 13 0 0xE3B0040F sampleUser).2.1.trans (by decide),
    by decide, by decide,
    ((C24_immediate_operand_carry 13 0 0xE3B0040F sampleUser).2.2 (by decide)).2 (by decide)⟩

/-! ### C25: long multiplies -/

/-- Bit 31 of a word under the mask `0x80000000`. -/
theorem and_bit31 (x : Nat) : x &&& 0x80000000 ≠ 0 ↔ x / 2147483648 % 2 = 1 := by
  have h := and_shift_eq_zero_iff x 31
  rw [show (1 : Nat) <<< 31 = 0x80000000 by decide, Nat.testBit_to_div_mod] at h
  rw [Ne, h]
  simp

/-- The mask `0xFFFFFFFF` keeps the low 32 bits. -/
theorem and_mask32 (x : Nat) : x &&& 0xFFFFFFFF = x % 4294967296 :=
  Nat.and_pow_two_sub_one_eq_mod x 32

/-- The sign extension `if(a & 0x80000000) a |= 0xFFFFFFFF00000000` of a 32-bit
value is the 64-bit pattern of the value read as a signed integer. -/
theorem signExtend_pattern (x : Nat) (hx : x < 4294967296) :
    (if x &&& 0x80000000 ≠ 0 then x ||| 0xFFFFFFFF00000000 else x) = u64OfInt (s32 x) := by
  have hor : x ||| 0xFFFFFFFF00000000 = 2 ^ 32 * 4294967295 + x := by
    rw [Nat.lor_comm]
    exact (Nat.mul_add_lt_is_or (show x < 2 ^ 32 by simpa using hx) 4294967295).symm
  rw [hor]
  simp only [and_bit31]
  unfold u64OfInt s32
  split_ifs <;> omega

/-- Multiplication of 64-bit patterns is multiplication modulo `2^64`. -/
theorem u64_mul (i j : Int) :
    (u64OfInt i * u64OfInt j) % 18446744073709551616 = u64OfInt (i * j) := by
  apply Int.ofNat.inj
  simp only [u64OfInt, Int.ofNat_eq_coe]
  push_cast
  rw [Int.toNat_of_nonneg (Int.emod_nonneg _ (by norm_num)),
    Int.toNat_of_nonneg (Int.emod_nonneg _ (by norm_num)),
    Int.toNat_of_nonneg (Int.emod_nonneg _ (by norm_num))]
  exact (Int.mul_emod i j 18446744073709551616).symm

/-- Addition of a 64-bit pattern and a natural number, modulo `2^64`. -/
theorem u64_add (i : Int) (v : Nat) :
    (u64OfInt i + v) % 18446744073709551616 = u64OfInt (i + v) := by
  apply Int.ofNat.inj
  simp only [u64OfInt, Int.ofNat_eq_coe]
  push_cast
  rw [Int.toNat_of_nonneg (Int.emod_nonneg _ (by norm_num)),
    Int.toNat_of_nonneg (Int.emod_nonneg _ (by norm_num))]
  exact Int.emod_add_emod i 18446744073709551616 v

/-- The 64-bit pattern of a natural number. -/
theorem u64_natCast (n : Nat) : u64OfInt (n : Int) = n % 18446744073709551616 := by
  unfold u64OfInt
  omega

/-- The two shifts by 16 and the `|=` that assemble `RdHi:RdLo`. -/
theorem accumulate_value (hi lo : Nat) (hh : hi < 4294967296) (hl : lo < 4294967296) :
    (((hi <<< 16) % 18446744073709551616) <<< 16) % 18446744073709551616 ||| lo =
      hi * 4294967296 + lo := by
  have e : (((hi <<< 16) % 18446744073709551616) <<< 16) % 18446744073709551616 =
      2 ^ 32 * hi := by
    simp only [Nat.shiftLeft_eq]
    omega
  rw [e]
  have := Nat.mul_add_lt_is_or (show lo < 2 ^ 32 by simpa using hl) hi
  omega

/-- The accumulator of `ARM_MultiplyLong` holds the product, plus the previous
`RdHi:RdLo` in the accumulating forms, modulo `2^64`. -/
theorem MultiplyLong_result (sign_extend accumulate : Bool) (rm rs hi lo : Nat) :
    ARM_MultiplyLong.result sign_extend accumulate rm rs hi lo =
      longProduct sign_extend accumulate rm rs hi lo := by
  have hrm : u32 rm < 4294967296 := Nat.mod_lt _ (by decide)
  have hrs : u32 rs < 4294967296 := Nat.mod_lt _ (by decide)
  have hhi : u32 hi < 4294967296 := Nat.mod_lt _ (by decide)
  have hlo : u32 lo < 4294967296 := Nat.mod_lt _ (by decide)
  have hs1 : s32 (u32 rm) = s32 rm := by unfold s32 u32; simp
  have hs2 : s32 (u32 rs) = s32 rs := by unfold s32 u32; simp
  unfold ARM_MultiplyLong.result longProduct
  simp only [signExtend_pattern _ hrm, signExtend_pattern _ hrs, u64_mul, hs1, hs2,
    accumulate_value _ _ hhi hlo]
  cases sign_extend <;> cases accumulate <;>
    simp only [Bool.false_eq_true, if_false, if_true, Int.add_zero, u64_add, Nat.mod_add_mod]
  · exact (u64_natCast _).symm
  · rw [← Nat.cast_add, u64_natCast]

/-- The 64-bit value of the long multiplies is below `2^64`. -/
theorem longProduct_lt (sign_extend accumulate : Bool) (rm rs hi lo : Nat) :
    longProduct sign_extend accumulate rm rs hi lo < 18446744073709551616 := by
  unfold longProduct u64OfInt
  omega

/-- C25: for every operand values in Rm and Rs and distinct destination registers
RdHi, RdLo other than r15, the handler of UMULL, SMULL, UMLAL and SMLAL returns with
`RdHi:RdLo` equal to the unsigned (`sign_extend = false`) or signed product of Rm
and Rs, plus the previous `RdHi:RdLo` in the accumulating forms, modulo `2^64`; with
S = 1, N is bit 63 of that value and Z is set iff the value is zero, with S = 0 the
CPSR is unchanged; and r15 advances by 4. -/
theorem C25_multiply_long (sign_extend accumulate set_flags : Bool) (instruction : Nat)
    (a : ARM)
    (hne : (instruction >>> 16) &&& 0xF ≠ (instruction >>> 12) &&& 0xF)
    (hhi : (instruction >>> 16) &&& 0xF ≠ 15) (hlo : (instruction >>> 12) &&& 0xF ≠ 15) :
    ∃ a', ARM_MultiplyLong sign_extend accumulate set_flags instruction a = some a' ∧
      a'.reg ((instruction >>> 16) &&& 0xF) * 4294967296 + a'.reg ((instruction >>> 12) &&& 0xF) =
        longProduct sign_extend accumulate (a.reg ((instruction >>> 0) &&& 0xF))
          (a.reg ((instruction >>> 8) &&& 0xF)) (a.reg ((instruction >>> 16) &&& 0xF))
          (a.reg ((instruction >>> 12) &&& 0xF)) ∧
      a'.reg ((instruction >>> 12) &&& 0xF) < 4294967296 ∧
      (set_flags = true →
        sr_n a'.cpsr = longProduct sign_extend accumulate (a.reg ((instruction >>> 0) &&& 0xF))
          (a.reg ((instruction >>> 8) &&& 0xF)) (a.reg ((instruction >>> 16) &&& 0xF))
          (a.reg ((instruction >>> 12) &&& 0xF)) / 9223372036854775808 ∧
        (sr_z a'.cpsr = 1 ↔
          longProduct sign_extend accumulate (a.reg ((instruction >>> 0) &&& 0xF))
            (a.reg ((instruction >>> 8) &&& 0xF)) (a.reg ((instruction >>> 16) &&& 0xF))
            (a.reg ((instruction >>> 12) &&& 0xF)) = 0)) ∧
      (set_flags = false → a'.cpsr = a.cpsr) ∧
      a'.reg 15 = u32 (a.reg 15 + 4) := by
  have hR := longProduct_lt sign_extend accumulate (a.reg ((instruction >>> 0) &&& 0xF))
    (a.reg ((instruction >>> 8) &&& 0xF)) (a.reg ((instruction >>> 16) &&& 0xF))
    (a.reg ((instruction >>> 12) &&& 0xF))
  unfold ARM_MultiplyLong
  simp only [MultiplyLong_result]
  generalize longProduct sign_extend accumulate (a.reg ((instruction >>> 0) &&& 0xF))
    (a.reg ((instruction >>> 8) &&& 0xF)) (a.reg ((instruction >>> 16) &&& 0xF))
    (a.reg ((instruction >>> 12) &&& 0xF)) = R at hR ⊢
  generalize (instruction >>> 16) &&& 0xF = dst_hi at hne hhi ⊢
  generalize (instruction >>> 12) &&& 0xF = dst_lo at hne hlo ⊢
  simp only [and_mask32, Nat.shiftRight_eq_div_pow]
  refine ⟨_, rfl, ?_, ?_, ?_, ?_, ?_⟩
  · cases set_flags <;>
      simp [hne, Ne.symm hne, hhi, hlo, Ne.symm hhi, Ne.symm hlo, u32] <;> omega
  · cases set_flags <;>
      simp [hne, Ne.symm hne, hhi, hlo, Ne.symm hhi, Ne.symm hlo, u32] <;> omega
  · intro hf
    subst hf
    simp only [if_true, setReg_cpsr]
    refine ⟨?_, ?_⟩
    · unfold sr_n sr_set_z sr_set_n u32; omega
    · unfold sr_z sr_set_z sr_set_n
      split_ifs <;> omega
  · intro hf
    subst hf
    rfl
  · cases set_flags <;> simp [hhi, hlo, Ne.symm hhi, Ne.symm hlo]

/-- Witness of C25: `SMLALS r2, r3, r0, r1` (0xE0F32190) with r0 = -1, r1 = 2 and
r3:r2 = 2 leaves zero in r3:r2 and sets Z. -/
theorem C25_witness :
    (0xE0F32190 >>> 16) &&& 0xF ≠ (0xE0F32190 >>> 12) &&& 0xF ∧
    (0xE0F32190 >>> 16) &&& 0xF ≠ 15 ∧ (0xE0F32190 >>> 12) &&& 0xF ≠ 15 ∧
    ∃ a', ARM_MultiplyLong true true true 0xE0F32190 sampleMultiply = some a' ∧
      a'.reg 3 * 4294967296 + a'.reg 2 = 0 ∧ sr_n a'.cpsr = 0 ∧ sr_z a'.cpsr = 1 ∧
      a'.reg 15 = u32 (sampleMultiply.reg 15 + 4) :=
  ⟨by decide, by decide, by decide,
    (fun ⟨a', h1, h2, _, h4, _, h6⟩ =>
      ⟨a', h1, h2.trans (by decide), (h4 rfl).1.trans (by decide),
        (h4 rfl).2.2 (by decide), h6⟩)
      (C25_multiply_long true true true 0xE0F32190 sampleMultiply (by decide) (by decide)
        (by decide))⟩

/-! ### C26: word-halfword multiply -/

/-- A signed integer within the 32-bit range survives the round trip through its
32-bit pattern. -/
theorem s32_u32OfInt (p : Int) (h1 : -2147483648 ≤ p) (h2 : p < 2147483648) :
    s32 (u32OfInt p) = p := by
  unfold s32 u32OfInt
  split_ifs <;> omega

/-- C26 (divergence): on an ARM9 the non-accumulating word-halfword multiply with
`Rd` other than r15 returns with `Rd` holding the 32-bit wrapped product shifted
right by 16, which is bits 47..16 of the exact product whenever that product fits
in 32 bits; for Rm = 0x00020000 and the bottom half 0x4000 of Rs (`SMULWB r3, r0,
r1`, 0xE12301A0) the product is `2^31`, and `Rd` becomes 0xFFFF8000 where bits
47..16 of the exact product are 0x00008000. -/
theorem C26_smulw_product_wraps :
    (∀ (y : Bool) (instruction : Nat) (a : ARM), a.model ≠ Model.ARM7 →
      (instruction >>> 16) &&& 0xF ≠ 15 →
      ∃ a', ARM_SignedWordHalfwordMultiply false y instruction a = some a' ∧
        a'.reg ((instruction >>> 16) &&& 0xF) =
          u32OfInt (s32 (u32OfInt (s32 (a.reg ((instruction >>> 0) &&& 0xF)) *
            s16 (if y then u32 (a.reg ((instruction >>> 8) &&& 0xF)) >>> 16
              else a.reg ((instruction >>> 8) &&& 0xF) &&& 0xFFFF))) / 65536) ∧
        (-2147483648 ≤ s32 (a.reg ((instruction >>> 0) &&& 0xF)) *
            s16 (if y then u32 (a.reg ((instruction >>> 8) &&& 0xF)) >>> 16
              else a.reg ((instruction >>> 8) &&& 0xF) &&& 0xFFFF) →
          s32 (a.reg ((instruction >>> 0) &&& 0xF)) *
            s16 (if y then u32 (a.reg ((instruction >>> 8) &&& 0xF)) >>> 16
              else a.reg ((instruction >>> 8) &&& 0xF) &&& 0xFFFF) < 2147483648 →
          a'.reg ((instruction >>> 16) &&& 0xF) =
            smulwExact (a.reg ((instruction >>> 0) &&& 0xF))
              (if y then u32 (a.reg ((instruction >>> 8) &&& 0xF)) >>> 16
                else a.reg ((instruction >>> 8) &&& 0xF) &&& 0xFFFF))) ∧
    (sampleWordHalf.model = Model.ARM9 ∧
      ∃ a', ARM_SignedWordHalfwordMultiply false false 0xE12301A0 sampleWordHalf = some a' ∧
        a'.reg 3 = 0xFFFF8000 ∧
        smulwExact (sampleWordHalf.reg 0) (sampleWordHalf.reg 1 &&& 0xFFFF) = 0x00008000 ∧
        a'.reg 3 ≠ smulwExact (sampleWordHalf.reg 0) (sampleWordHalf.reg 1 &&& 0xFFFF)) := by
  refine ⟨?_, rfl, _, rfl, by decide, by decide, by decide⟩
  intro y instruction a hm hd
  unfold ARM_SignedWordHalfwordMultiply
  simp only [hm, if_false, Bool.false_eq_true]
  generalize (instruction >>> 16) &&& 0xF = dst at hd ⊢
  refine ⟨_, rfl, ?_, ?_⟩
  · cases y <;> simp [hd, Ne.symm hd]
  · intro h1 h2
    unfold smulwExact
    cases y <;> simp only [Bool.false_eq_true, if_false, if_true] at h1 h2 ⊢ <;>
      simp only [setReg_reg, if_true, hd, Ne.symm hd, if_false, s32_u32OfInt _ h1 h2]

/-- Witness of C26: `SMULWB r3, r0, r1` with r0 = -1 and r1 = 2, a product that fits
in 32 bits. -/
theorem C26_witness :
    sampleMultiply.model ≠ Model.ARM7 ∧ (0xE12301A0 >>> 16) &&& 0xF ≠ 15 ∧
    ∃ a', ARM_SignedWordHalfwordMultiply false false 0xE12301A0 sampleMultiply = some a' ∧
      a'.reg 3 = 0xFFFFFFFF ∧
      a'.reg 3 = smulwExact (sampleMultiply.reg 0) (sampleMultiply.reg 1 &&& 0xFFFF) :=
  ⟨by decide, by decide,
    (fun ⟨a', h1, h2, h3⟩ => ⟨a', h1, h2.trans (by decide), h3 (by decide) (by decide)⟩)
      (C26_smulw_product_wraps.1 false 0xE12301A0 sampleMultiply (by decide) (by decide))⟩

/-! ### C27: the doubling step of QDADD and QDSUB -/

/-- Bit 31 of the exclusive or of two 32-bit words is set iff their bits 31
differ. -/
theorem xor_bit31 (x y : Nat) (hx : x < 4294967296) (hy : y < 4294967296) :
    (x ^^^ y) >>> 31 ≠ 0 ↔ x / 2147483648 ≠ y / 2147483648 := by
  have hlt : x ^^^ y < 2 ^ 32 := Nat.xor_lt_two_pow (by simpa using hx) (by simpa using hy)
  have hb : (x ^^^ y).testBit 31 = xor (x.testBit 31) (y.testBit 31) := Nat.testBit_xor x y 31
  simp only [Nat.testBit_to_div_mod] at hb
  rw [Nat.shiftRight_eq_div_pow]
  have h1 : (x ^^^ y) / 2 ^ 31 < 2 := Nat.div_lt_of_lt_mul (by simpa using hlt)
  have hx1 : x / 2147483648 < 2 := by omega
  have hy1 : y / 2147483648 < 2 := by omega
  norm_num at hb h1 ⊢
  by_cases e1 : x / 2147483648 % 2 = 1 <;> by_cases e2 : y / 2147483648 % 2 = 1 <;>
    simp [e1, e2] at hb <;> omega

/-- The doubling step of `ARM_SaturatingAddSubtract` clamps `2 * op2` to the signed
32-bit range and sets Q exactly when it had to clamp. -/
theorem double_spec (op2 : Nat) (a : ARM) (h : op2 < 4294967296) :
    (ARM_SaturatingAddSubtract.double op2 a).1 = u32OfInt (saturate32 ((2 : Int) * s32 op2)) ∧
    (ARM_SaturatingAddSubtract.double op2 a).2 =
      (if InSigned32 ((2 : Int) * s32 op2) then a else { a with cpsr := sr_set_q a.cpsr 1 }) := by
  have hr : u32 (op2 + op2) < 4294967296 := Nat.mod_lt _ (by decide)
  have hx := xor_bit31 op2 (u32 (op2 + op2)) h hr
  unfold ARM_SaturatingAddSubtract.double
  simp only [hx, Nat.shiftRight_eq_div_pow]
  unfold u32 at hr hx ⊢
  unfold saturate32 s32 u32OfInt InSigned32
  norm_num
  split_ifs <;> first
    | omega
    | (refine ⟨?_, ?_⟩ <;> first | rfl | omega)

/-- C27: in QDADD and QDSUB on an ARM9 the operand doubled before the saturating
add or subtract is the value of Rn (opcode bits 19..16); the doubled operand equals
`2 * Rn`, read as a signed integer, clamped to `[-2^31, 2^31 - 1]`; after the
doubling step Q is 1 when `2 * Rn` lies outside that range and is otherwise what it
was, and nothing else of the CPU has changed; and the handler passes exactly this
operand and CPU on to `QADD` (opcode 4) or `QSUB` (opcode 6). -/
theorem C27_doubling_saturates (instruction : Nat) (a : ARM) :
    (ARM_SaturatingAddSubtract.double (u32 (a.reg ((instruction >>> 16) &&& 0xF))) a).1 =
      u32OfInt (saturate32 ((2 : Int) * s32 (a.reg ((instruction >>> 16) &&& 0xF)))) ∧
    sr_q (ARM_SaturatingAddSubtract.double (u32 (a.reg ((instruction >>> 16) &&& 0xF))) a).2.cpsr =
      (if InSigned32 ((2 : Int) * s32 (a.reg ((instruction >>> 16) &&& 0xF))) then sr_q a.cpsr
        else 1) ∧
    (ARM_SaturatingAddSubtract.double (u32 (a.reg ((instruction >>> 16) &&& 0xF))) a).2 =
      { a with cpsr :=
        (ARM_SaturatingAddSubtract.double (u32 (a.reg ((instruction >>> 16) &&& 0xF))) a).2.cpsr } ∧
    (∀ opcode, opcode = 4 ∨ opcode = 6 → a.model ≠ Model.ARM7 →
      ARM_SaturatingAddSubtract opcode instruction a =
        some
          ((let r := ARM_SaturatingAddSubtract.double (u32 (a.reg ((instruction >>> 16) &&& 0xF))) a
            let q := if opcode = 6 then QSUB (r.2.reg (instruction &&& 0xF)) r.1 r.2
              else QADD (r.2.reg (instruction &&& 0xF)) r.1 true r.2
            let a' := q.2.setReg ((instruction >>> 12) &&& 0xF) q.1
            a'.setReg 15 (u32 (a'.reg 15 + 4))))) := by
  have hlt : u32 (a.reg ((instruction >>> 16) &&& 0xF)) < 4294967296 := Nat.mod_lt _ (by decide)
  have hs : s32 (u32 (a.reg ((instruction >>> 16) &&& 0xF))) =
      s32 (a.reg ((instruction >>> 16) &&& 0xF)) := by unfold s32 u32; simp
  obtain ⟨h1, h2⟩ := double_spec (u32 (a.reg ((instruction >>> 16) &&& 0xF))) a hlt
  rw [hs] at h1 h2
  refine ⟨h1, ?_, ?_, ?_⟩
  · rw [h2]
    split_ifs
    · rfl
    · show sr_q (sr_set_q a.cpsr 1) = 1
      unfold sr_q sr_set_q; omega
  · rw [h2]
    split_ifs <;> rfl
  · intro opcode hop hm
    rcases hop with h | h <;> subst h <;>
      simp only [ARM_SaturatingAddSubtract, hm, if_false] <;> rfl

/-- Witness of C27: QDADD (opcode 4) on an ARM9 whose Rn holds 0x02000300. -/
theorem C27_witness :
    (4 = 4 ∨ 4 = 6) ∧ sampleUser.model ≠ Model.ARM7 ∧
    (ARM_SaturatingAddSubtract.double (u32 (sampleUser.reg ((0xE1432051 >>> 16) &&& 0xF)))
      sampleUser).1 = 0x04000600 ∧
    (ARM_SaturatingAddSubtract 4 0xE1432051 sampleUser).isSome = true :=
  ⟨by decide, by decide,
    (C27_doubling_saturates 0xE1432051 sampleUser).1.trans (by decide),
    (congrArg Option.isSome
      ((C27_doubling_saturates 0xE1432051 sampleUser).2.2.2 4 (by decide) (by decide))).trans
      rfl⟩

/-! ### C28: LDRD and the base write-back -/

/-- The handler of LDRD on an ARM9 with an even `Rd` other than r14: both words are
loaded, then the base is written back unless it is `Rd + 1`; a post-indexed
write-back adds the offset to the value the base register holds at that point. -/
theorem LDRD_eq (pre add immediate writeback : Bool) (instruction : Nat) (a : ARM)
    (hm : a.model ≠ Model.ARM7) (he : ((instruction >>> 12) &&& 0xF) % 2 = 0)
    (h14 : (instruction >>> 12) &&& 0xF ≠ 14) :
    ARM_HalfDoubleAndSignedTransfer pre add immediate writeback false 2 instruction a =
      ARM_HalfDoubleAndSignedTransfer.finish pre add writeback false
        ((instruction >>> 12) &&& 0xF) ((instruction >>> 16) &&& 0xF)
        (transferOffset immediate instruction a)
        (if pre then
          (if add then u32 (a.reg ((instruction >>> 16) &&& 0xF) +
              transferOffset immediate instruction a)
            else u32 (a.reg ((instruction >>> 16) &&& 0xF) +
              (4294967296 - u32 (transferOffset immediate instruction a))))
          else a.reg ((instruction >>> 16) &&& 0xF))
        ((instruction >>> 16) &&& 0xF != ((instruction >>> 12) &&& 0xF) + 1)
        (((a.setReg 15 (u32 (a.reg 15 + 4))).setReg ((instruction >>> 12) &&& 0xF)
          (ReadWord a.memory
            (if pre then
              (if add then u32 (a.reg ((instruction >>> 16) &&& 0xF) +
                  transferOffset immediate instruction a)
                else u32 (a.reg ((instruction >>> 16) &&& 0xF) +
                  (4294967296 - u32 (transferOffset immediate instruction a))))
              else a.reg ((instruction >>> 16) &&& 0xF)))).setReg
          (((instruction >>> 12) &&& 0xF) + 1)
          (ReadWord a.memory
            ((if pre then
              (if add then u32 (a.reg ((instruction >>> 16) &&& 0xF) +
                  transferOffset immediate instruction a)
                else u32 (a.reg ((instruction >>> 16) &&& 0xF) +
                  (4294967296 - u32 (transferOffset immediate instruction a))))
              else a.reg ((instruction >>> 16) &&& 0xF)) + 4))) := by
  have ho : ((instruction >>> 12) &&& 0xF) % 2 ≠ 1 := by omega
  unfold ARM_HalfDoubleAndSignedTransfer transferOffset
  simp only [Bool.false_eq_true, if_false, hm, ne_eq, not_false_eq_true, if_true, ho, h14,
    Nat.add_zero, setReg_memory, setReg_model]

/-- C28 (divergence): on an ARM9, for an even `Rd` other than r14, a base other
than r15 and a write-back that is pre-indexed with W = 1 or post-indexed with a
base other than `Rd`, LDRD leaves r0..r14 as the sequence `Rd := word[address];
base := write-back address; Rd+1 := word[address + 4]` does and advances r15 by 4.
For the post-indexed `LDRD r0, [r0], #8` (0xE0C000D8), where the base is `Rd`, the
base ends as the first loaded word plus 8 and not as the old base plus 8. -/
theorem C28_ldrd_base_writeback :
    (∀ (pre add immediate writeback : Bool) (instruction : Nat) (a : ARM),
      a.model ≠ Model.ARM7 → ((instruction >>> 12) &&& 0xF) % 2 = 0 →
      (instruction >>> 12) &&& 0xF ≠ 14 → (instruction >>> 16) &&& 0xF ≠ 15 →
      (pre = false ∨ writeback = true) →
      (pre = true ∨ (instruction >>> 16) &&& 0xF ≠ (instruction >>> 12) &&& 0xF) →
      ∃ a', ARM_HalfDoubleAndSignedTransfer pre add immediate writeback false 2 instruction a =
          some a' ∧
        (∀ i, i ≠ 15 → a'.reg i =
          (ldrdSequence pre add ((instruction >>> 12) &&& 0xF) ((instruction >>> 16) &&& 0xF)
            (transferOffset immediate instruction a) a).reg i) ∧
        a'.reg 15 = u32 (a.reg 15 + 4)) ∧
    (sampleUser.model = Model.ARM9 ∧
      ∃ a', ARM_HalfDoubleAndSignedTransfer false true true false false 2 0xE0C000D8
          sampleUser = some a' ∧
        a'.reg 0 = u32 (ReadWord sampleUser.memory (sampleUser.reg 0) + 8) ∧
        (ldrdSequence false true 0 0 8 sampleUser).reg 0 = u32 (sampleUser.reg 0 + 8) ∧
        a'.reg 0 ≠ (ldrdSequence false true 0 0 8 sampleUser).reg 0) := by
  refine ⟨?_, rfl, _, rfl, rfl, rfl, by decide⟩
  intro pre add immediate writeback instruction a hm he h14 h15 hw hb
  rw [LDRD_eq pre add immediate writeback instruction a hm he h14]
  unfold ARM_HalfDoubleAndSignedTransfer.finish ldrdSequence
  generalize transferOffset immediate instruction a = offset
  generalize (instruction >>> 12) &&& 0xF = dst at he h14 hb ⊢
  generalize (instruction >>> 16) &&& 0xF = base at h15 hb ⊢
  simp only [Bool.false_eq_true, false_and, if_false]
  have hd : dst + 1 ≠ 15 := by omega
  have hd0 : dst ≠ 15 := by omega
  have hdd : dst + 1 ≠ dst := by omega
  refine ⟨_, rfl, ?_, ?_⟩
  · intro i hi
    by_cases hb1 : base = dst + 1
    · subst hb1
      cases pre <;>
        simp [setReg_reg, hi, hd, Ne.symm hd, hd0, Ne.symm hd0, hdd, Ne.symm hdd] <;>
        split_ifs <;> rfl
    · cases pre
      · have hbd : base ≠ dst := by
          rcases hb with h | h
          · exact absurd h (by decide)
          · exact h
        simp [setReg_reg, hi, hb1, Ne.symm hb1, hbd, Ne.symm hbd, h15, Ne.symm h15, hd,
          Ne.symm hd, hd0, Ne.symm hd0, hdd, Ne.symm hdd]
        split_ifs <;> first | rfl | omega
      · have hwb : writeback = true := by
          rcases hw with h | h
          · exact absurd h (by decide)
          · exact h
        subst hwb
        simp [setReg_reg, hi, hb1, Ne.symm hb1, h15, Ne.symm h15, hd,
          Ne.symm hd, hd0, Ne.symm hd0, hdd, Ne.symm hdd]
        split_ifs <;> first | rfl | omega
  · by_cases hb1 : base = dst + 1
    · subst hb1
      cases pre <;>
        simp [setReg_reg, hd, Ne.symm hd, hd0, Ne.symm hd0, hdd, Ne.symm hdd, h14]
    · cases pre <;> cases writeback <;>
        simp [setReg_reg, hb1, Ne.symm hb1, h15, Ne.symm h15, hd, Ne.symm hd, hd0,
          Ne.symm hd0, h14]

/-- Witness of C28: the post-indexed `LDRD r2, [r0], #8` (0xE0C020D8), whose base is
neither `Rd` nor `Rd + 1`. -/
theorem C28_witness :
    sampleUser.model ≠ Model.ARM7 ∧ ((0xE0C020D8 >>> 12) &&& 0xF) % 2 = 0 ∧
    (0xE0C020D8 >>> 12) &&& 0xF ≠ 14 ∧ (0xE0C020D8 >>> 16) &&& 0xF ≠ 15 ∧
    (0xE0C020D8 >>> 16) &&& 0xF ≠ (0xE0C020D8 >>> 12) &&& 0xF ∧
    ∃ a', ARM_HalfDoubleAndSignedTransfer false true true false false 2 0xE0C020D8
        sampleUser = some a' ∧
      a'.reg 0 = 0x02000008 ∧ a'.reg 2 = ReadWord sampleUser.memory 0x02000000 ∧
      a'.reg 3 = ReadWord sampleUser.memory 0x02000004 ∧
      a'.reg 15 = u32 (sampleUser.reg 15 + 4) :=
  ⟨by decide, by decide, by decide, by decide, by decide,
    (fun ⟨a', h1, h2, h3⟩ =>
      ⟨a', h1, (h2 0 (by decide)).trans rfl, (h2 2 (by decide)).trans rfl,
        (h2 3 (by decide)).trans rfl, h3⟩)
      (C28_ldrd_base_writeback.1 false true true false 0xE0C020D8 sampleUser (by decide)
        (by decide) (by decide) (by decide) (Or.inl rfl) (Or.inr (by decide)))⟩

/-! ### C32: the portable branches of `ARM_BlockDataTransfer` -/

/-- The counting loop adds four for every listed register. -/
theorem bytes_foldl (list : Nat) : ∀ (l : List Nat) (acc : Nat),
    l.foldl (fun bytes i => if list &&& (1 <<< i) ≠ 0 then bytes + 4 else bytes) acc =
      acc + (l.filter (fun i => list.testBit i)).length * 4 := by
  intro l
  induction l with
  | nil => intro acc; simp
  | cons x xs ih =>
    intro acc
    rw [List.foldl_cons, ih, List.filter_cons]
    by_cases hb : list.testBit x = true
    · have hne : list &&& (1 <<< x) ≠ 0 := by
        rw [Ne, and_shift_eq_zero_iff, hb]; simp
      simp only [hne, ne_eq, not_false_eq_true, if_true, hb, List.length_cons]
      omega
    · have he : list &&& (1 <<< x) = 0 := by
        rw [and_shift_eq_zero_iff]; simpa using hb
      simp only [he, ne_eq, not_true_eq_false, if_false, hb, Bool.false_eq_true]

/-- A 16-bit value has its one bits among the positions 0 to 15. -/
theorem popcount_16 (list : Nat) (hlt : list < 65536) :
    popcount list = ((List.range 16).filter (fun i => list.testBit i)).length := by
  unfold popcount
  have hr : List.range 32 = List.range 16 ++ (List.range 16).map (fun i => 16 + i) := by
    decide
  rw [hr, List.filter_append, List.length_append]
  have hnil : ((List.range 16).map (fun i => 16 + i)).filter (fun i => list.testBit i) = [] := by
    rw [List.filter_eq_nil_iff]
    intro i hi
    rw [List.mem_map] at hi
    obtain ⟨j, _, rfl⟩ := hi
    have : list.testBit (16 + j) = false := by
      apply Nat.testBit_lt_two_pow
      calc list < 2 ^ 16 := by simpa using hlt
        _ ≤ 2 ^ (16 + j) := Nat.pow_le_pow_right (by norm_num) (by omega)
    simp [this]
  rw [hnil]
  rfl

/-- The low `base` bits of a value are clear iff no bit below `base` is set. -/
theorem low_bits_clear (list base : Nat) :
    list &&& ((1 <<< base) - 1) = 0 ↔ ∀ i, i < base → list.testBit i = false := by
  rw [Nat.one_shiftLeft, Nat.and_pow_two_sub_one_eq_mod]
  constructor
  · intro h i hi
    have := Nat.testBit_mod_two_pow list base i
    rw [h] at this
    simpa [hi] using this.symm
  · intro h
    apply Nat.eq_of_testBit_eq
    intro i
    rw [Nat.testBit_mod_two_pow]
    by_cases hi : i < base
    · simp [hi, h i hi]
    · simp [hi]

/-- The portable `base_is_first` holds iff no register below the base is listed,
that is, iff the lowest listed register is not below the base. -/
theorem base_is_first_portable_iff (list base : Nat) (h0 : list ≠ 0) (hlt : list < 2 ^ 32) :
    ARM_BlockDataTransfer.base_is_first_portable list base = true ↔ base ≤ ctz list := by
  obtain ⟨hbit, hlow⟩ := (ctz_eq_iff list (ctz list) h0 hlt).1 rfl
  unfold ARM_BlockDataTransfer.base_is_first_portable
  rw [decide_eq_true_iff, low_bits_clear]
  constructor
  · intro h
    by_contra hc
    have := h (ctz list) (by omega)
    rw [hbit] at this
    exact absurd this (by simp)
  · intro h i hi
    exact hlow i (by omega)

/-- The portable `base_is_last` is the builtin one: the highest listed register is
the base. -/
theorem base_is_last_portable_eq (list base : Nat) (h0 : list ≠ 0) (hlt : list < 2 ^ 32) :
    ARM_BlockDataTransfer.base_is_last_portable list base = decide (31 - clz list = base) := by
  unfold ARM_BlockDataTransfer.base_is_last_portable
  rw [clz_eq_log2 list h0 hlt, Nat.shiftRight_eq_div_pow]
  have hlo := Nat.log2_self_le h0
  have hhi := @Nat.lt_log2_self list
  have hp : 0 < 2 ^ base := by positivity
  have hiff : list / 2 ^ base = 1 ↔ Nat.log2 list = base := by
    constructor
    · intro h
      have h1 := Nat.div_add_mod list (2 ^ base)
      have h2 := Nat.mod_lt list hp
      rw [h] at h1
      have hb1 : 2 ^ base ≤ list := by omega
      have hb2 : list < 2 ^ (base + 1) := by rw [pow_succ]; omega
      have e1 : Nat.log2 list < base + 1 :=
        (Nat.pow_lt_pow_iff_right (by norm_num : 1 < 2)).1 (lt_of_le_of_lt hlo hb2)
      have e2 : base < Nat.log2 list + 1 :=
        (Nat.pow_lt_pow_iff_right (by norm_num : 1 < 2)).1 (lt_of_le_of_lt hb1 hhi)
      omega
    · intro h
      subst h
      rw [pow_succ] at hhi
      apply Nat.div_eq_of_lt_le <;> omega
  by_cases h : Nat.log2 list = base
  · simp [h, hiff.2 h]
  · have : ¬ list / 2 ^ base = 1 := fun e => h (hiff.1 e)
    simp [h, this]


/-- The stores of a block transfer commute with an assignment to a register that
is not in the list. -/
theorem transferFrom_store_setReg (pre add : Bool) (list base v : Nat)
    (hbit : list.testBit base = false) :
    ∀ (k j A : Nat) (a : ARM),
      transferFrom pre add false list k j A (a.setReg base v) =
        (transferFrom pre add false list k j A a).setReg base v := by
  intro k
  induction k with
  | zero => intro j A a; rfl
  | succ k ih =>
    intro j A a
    by_cases hb : list.testBit j = true
    · have hne : j ≠ base := by
        intro e; rw [e, hbit] at hb; exact absurd hb (by simp)
      simp only [transferFrom, hb, if_true, transfer_fst, transfer_store]
      rw [← ih]
      congr 1
      simp [ARM.setReg, hne]
    · simp only [transferFrom, hb, Bool.false_eq_true, if_false]
      exact ih _ _ _

/-- A second assignment to the same register overrides the first. -/
theorem setReg_setReg (a : ARM) (i v w : Nat) : (a.setReg i v).setReg i w = a.setReg i w := by
  unfold ARM.setReg
  congr 1
  funext j
  by_cases h : j = i <;> simp [h]

/-- For a store without the S bit whose base register is not in the list, the
result of `ARM_BlockDataTransfer` does not depend on the flag `base_is_first`: the
flag only decides whether the ARM7 writes the new base before the stores, and the
final write-back assigns the same value. -/
theorem body_base_is_first (pre add writeback : Bool) (list base address base_new : Nat)
    (f1 f2 last : Bool) (a : ARM) (hbit : list.testBit base = false)
    (hlist : ∀ i, 16 ≤ i → list.testBit i = false) :
    ARM_BlockDataTransfer.body pre add false writeback false list base address base_new f1 last a =
      ARM_BlockDataTransfer.body pre add false writeback false list base address base_new f2
        last a := by
  have hloop := fun a1 => loop_eq_transferFrom pre add false list hlist 16 0 16 list address
    a1 (by omega) (by omega) (by intro i; simp)
  unfold ARM_BlockDataTransfer.body
  simp only [Bool.false_eq_true, false_and, if_false, hloop, and_false]
  cases writeback
  · simp
  · have hw : ∀ x : ARM, ARM_BlockDataTransfer.writeback false list base base_new last x =
        x.setReg base base_new := by
      intro x
      simp [ARM_BlockDataTransfer.writeback]
    have key : ∀ f : Bool,
        ARM_BlockDataTransfer.writeback false list base base_new last
          (transferFrom pre add false list 16 0 address
            (if true = true ∧ (!false) = true ∧
                (a.setReg 15 (u32 (a.reg 15 + 4))).model = Model.ARM7 ∧ (!f) = true then
              (a.setReg 15 (u32 (a.reg 15 + 4))).setReg base base_new
            else a.setReg 15 (u32 (a.reg 15 + 4)))) =
          (transferFrom pre add false list 16 0 address
            (a.setReg 15 (u32 (a.reg 15 + 4)))).setReg base base_new := by
      intro f
      rw [hw]
      split_ifs
      · rw [transferFrom_store_setReg pre add list base base_new hbit, setReg_setReg]
      · rfl
    rw [if_pos rfl, if_pos rfl, key f1, key f2]

/-- A load never reads the flag `base_is_first`. -/
theorem body_base_is_first_load (pre add user_mode writeback : Bool)
    (list base address base_new : Nat) (f1 f2 last : Bool) (a : ARM) :
    ARM_BlockDataTransfer.body pre add user_mode writeback true list base address base_new f1
        last a =
      ARM_BlockDataTransfer.body pre add user_mode writeback true list base address base_new f2
        last a := by
  unfold ARM_BlockDataTransfer.body
  simp only [Bool.not_true, Bool.false_eq_true, false_and, and_false, if_false]

/-- C32 (amended): for every non-zero 16-bit register list and every base register
number, the counting loop gives `4 * popcount(list)` and the portable
`base_is_last`, `(list >> base) == 1`, equals `31 - clz(list) == base`; the portable
`base_is_first`, `(list & ((1 << base) - 1)) == 0`, holds iff the base is not above
the lowest listed register, so it equals `ctz(list) == base` exactly when a register
at or below the base is listed, in particular whenever the base is in the list; and
for every load and for every store without the S bit the body of the handler
returns the same with the portable flag as with the builtin one. -/
theorem C32_portable_expressions (list base : Nat) (h0 : list ≠ 0) (hlt : list < 65536) :
    ARM_BlockDataTransfer.bytes_portable list = popcount list * 4 ∧
    ARM_BlockDataTransfer.base_is_last_portable list base = decide (31 - clz list = base) ∧
    (ARM_BlockDataTransfer.base_is_first_portable list base = true ↔ base ≤ ctz list) ∧
    (ARM_BlockDataTransfer.base_is_first_portable list base = decide (ctz list = base) ↔
      ctz list ≤ base) ∧
    (list.testBit base = true →
      ARM_BlockDataTransfer.base_is_first_portable list base = decide (ctz list = base)) ∧
    (∀ (pre add user_mode writeback load : Bool) (address base_new : Nat) (last : Bool) (a : ARM),
      load = true ∨ user_mode = false →
      ARM_BlockDataTransfer.body pre add user_mode writeback load list base address base_new
          (ARM_BlockDataTransfer.base_is_first_portable list base) last a =
        ARM_BlockDataTransfer.body pre add user_mode writeback load list base address base_new
          (decide (ctz list = base)) last a) := by
  have hlt32 : list < 2 ^ 32 := by omega
  have hf := base_is_first_portable_iff list base h0 hlt32
  have heq : ARM_BlockDataTransfer.base_is_first_portable list base = decide (ctz list = base) ↔
      ctz list ≤ base := by
    cases hp : ARM_BlockDataTransfer.base_is_first_portable list base
    · have : ¬ base ≤ ctz list := by rw [← hf, hp]; simp
      simp only [false_eq_decide_iff]
      constructor <;> intro <;> omega
    · have : base ≤ ctz list := hf.1 hp
      simp only [true_eq_decide_iff]
      constructor <;> intro <;> omega
  have hin : list.testBit base = true →
      ARM_BlockDataTransfer.base_is_first_portable list base = decide (ctz list = base) := by
    intro hbit
    rw [heq]
    obtain ⟨_, hlow⟩ := (ctz_eq_iff list (ctz list) h0 hlt32).1 rfl
    by_contra hc
    have := hlow base (by omega)
    rw [hbit] at this
    exact absurd this (by simp)
  refine ⟨?_, base_is_last_portable_eq list base h0 hlt32, hf, heq, hin, ?_⟩
  · unfold ARM_BlockDataTransfer.bytes_portable
    rw [bytes_foldl, popcount_16 list hlt, Nat.zero_add]
  · intro pre add user_mode writeback load address base_new last a hcase
    cases load
    · have hu : user_mode = false := by
        rcases hcase with h | h
        · exact absurd h (by decide)
        · exact h
      subst hu
      by_cases hbit : list.testBit base = true
      · rw [hin hbit]
      · have hlist : ∀ i, 16 ≤ i → list.testBit i = false := by
          intro i hi
          apply Nat.testBit_lt_two_pow
          calc list < 2 ^ 16 := by simpa using hlt
            _ ≤ 2 ^ i := Nat.pow_le_pow_right (by norm_num) hi
        exact body_base_is_first pre add writeback list base address base_new _ _ last a
          (by simpa using hbit) hlist
    · exact body_base_is_first_load pre add user_mode writeback list base address base_new _ _
        last a

/-- Witness of C32: the list {r1, r2} with the base r1, and a store multiple of
that list on a CPU in User mode. -/
theorem C32_witness :
    (6 : Nat) ≠ 0 ∧ (6 : Nat) < 65536 ∧
    ARM_BlockDataTransfer.bytes_portable 6 = popcount 6 * 4 ∧
    ARM_BlockDataTransfer.base_is_last_portable 6 1 = decide (31 - clz 6 = 1) ∧
    Nat.testBit 6 1 = true ∧
    ARM_BlockDataTransfer.base_is_first_portable 6 1 = decide (ctz 6 = 1) ∧
    ARM_BlockDataTransfer.body false true false true false 6 1 0x02000100 0x02000108
        (ARM_BlockDataTransfer.base_is_first_portable 6 1) false sampleUser =
      ARM_BlockDataTransfer.body false true false true false 6 1 0x02000100 0x02000108
        (decide (ctz 6 = 1)) false sampleUser :=
  ⟨by decide, by decide,
    (C32_portable_expressions 6 1 (by decide) (by decide)).1,
    (C32_portable_expressions 6 1 (by decide) (by decide)).2.1,
    by decide,
    (C32_portable_expressions 6 1 (by decide) (by decide)).2.2.2.2.1 (by decide),
    (C32_portable_expressions 6 1 (by decide) (by decide)).2.2.2.2.2 false true false true false
      0x02000100 0x02000108 false sampleUser (Or.inr rfl)⟩

/-- Counterexample to C32 as stated: for the list {r2} and the base r1 the portable
`base_is_first` is true and `ctz(list) == base` is false. -/
theorem C32_counterexample :
    (4 : Nat) ≠ 0 ∧ (4 : Nat) < 65536 ∧ (1 : Nat) < 16 ∧
    ARM_BlockDataTransfer.base_is_first_portable 4 1 = true ∧
    decide (ctz 4 = 1) = false ∧
    ARM_BlockDataTransfer.base_is_first_portable 4 1 ≠ decide (ctz 4 = 1) := by
  decide

end dual.arm

namespace dual.nds.gpu

/-! ### The command processor: queues, GXSTAT and the interrupt -/

/-- The entry `(u64)command << 32 | param` holds the command above bit 32 and the
parameter below it. -/
theorem entry_eq (command param : Nat) (hq : param < 2 ^ 32) :
    (command <<< 32) ||| param = 2 ^ 32 * command + param := by
  rw [Nat.shiftLeft_eq, Nat.mul_comm]
  exact (Nat.mul_add_lt_is_or hq command).symm

theorem entry_command (command param : Nat) (hc : command < 256) (hq : param < 2 ^ 32) :
    (((command <<< 32) ||| param) >>> 32) % 256 = command := by
  rw [entry_eq command param hq, Nat.shiftRight_eq_div_pow]
  have : (2 ^ 32 * command + param) / 2 ^ 32 = command := by
    rw [Nat.mul_add_div (by positivity), Nat.div_eq_of_lt hq, Nat.add_zero]
  rw [this]
  exact Nat.mod_eq_of_lt hc

/-- What `ProcessCommands` leaves alone. -/
theorem ProcessCommands_fields (s : CommandProcessor) :
    (ProcessCommands s).cmd_pipe = s.cmd_pipe ∧ (ProcessCommands s).cmd_fifo = s.cmd_fifo ∧
    (ProcessCommands s).arm9_irq = s.arm9_irq ∧ (ProcessCommands s).unpack = s.unpack ∧
    (ProcessCommands s).gxstat.cmd_fifo_size = s.gxstat.cmd_fifo_size ∧
    (ProcessCommands s).gxstat.cmd_fifo_empty = s.gxstat.cmd_fifo_empty ∧
    (ProcessCommands s).gxstat.cmd_fifo_less_than_half_full =
      s.gxstat.cmd_fifo_less_than_half_full ∧
    (ProcessCommands s).gxstat.cmd_fifo_irq = s.gxstat.cmd_fifo_irq := by
  unfold ProcessCommands
  by_cases h1 : s.cmd_pipe.IsEmpty = true
  · simp [h1]
  · by_cases h2 : s.cmd_pipe.Count + s.cmd_fifo.Count <
        k_cmd_num_params ((s.cmd_pipe.Peek >>> 32) % 256)
    · simp [h1, h2]
    · simp [h1, h2]

theorem EvaluateFIFOIRQCondition_congr (s t : CommandProcessor)
    (h1 : t.gxstat.cmd_fifo_irq = s.gxstat.cmd_fifo_irq) (h2 : t.cmd_fifo = s.cmd_fifo) :
    EvaluateFIFOIRQCondition t = EvaluateFIFOIRQCondition s := by
  unfold EvaluateFIFOIRQCondition
  rw [h1, h2]

/-- What `UpdateFifoState` leaves alone. -/
theorem UpdateFifoState_fields (s : CommandProcessor) :
    (UpdateFifoState s).cmd_pipe = s.cmd_pipe ∧ (UpdateFifoState s).cmd_fifo = s.cmd_fifo ∧
    (UpdateFifoState s).unpack = s.unpack ∧ (UpdateFifoState s).scheduler = s.scheduler ∧
    (UpdateFifoState s).gxstat.busy = s.gxstat.busy ∧
    (UpdateFifoState s).gxstat.cmd_fifo_irq = s.gxstat.cmd_fifo_irq := by
  unfold UpdateFifoState
  simp only
  split_ifs <;> simp

theorem EvaluateFIFOIRQCondition_iff (s : CommandProcessor) :
    EvaluateFIFOIRQCondition s = true ↔ IrqCondition s.gxstat.cmd_fifo_irq s.cmd_fifo.Count := by
  unfold EvaluateFIFOIRQCondition IrqCondition FIFO.IsEmpty
  cases s.gxstat.cmd_fifo_irq <;> simp

/-- What `UpdateFifoState` writes. -/
theorem UpdateFifoState_writes (s : CommandProcessor) :
    (UpdateFifoState s).gxstat.cmd_fifo_size = s.cmd_fifo.Count ∧
    (UpdateFifoState s).gxstat.cmd_fifo_empty = decide (s.cmd_fifo.Count = 0) ∧
    (UpdateFifoState s).gxstat.cmd_fifo_less_than_half_full = decide (s.cmd_fifo.Count < 128) ∧
    (UpdateFifoState s).arm9_irq.gxfifo = s.arm9_irq.gxfifo +
      (if IrqCondition s.gxstat.cmd_fifo_irq s.cmd_fifo.Count then 1 else 0) := by
  have h := EvaluateFIFOIRQCondition_iff s
  unfold UpdateFifoState
  simp only
  rw [EvaluateFIFOIRQCondition_congr s
    { s with gxstat := { busy := s.gxstat.busy, cmd_fifo_size := s.cmd_fifo.Count,
                         cmd_fifo_empty := s.cmd_fifo.IsEmpty,
                         cmd_fifo_less_than_half_full := decide (s.cmd_fifo.Count < 128),
                         cmd_fifo_irq := s.gxstat.cmd_fifo_irq } } rfl rfl]
  by_cases hc : IrqCondition s.gxstat.cmd_fifo_irq s.cmd_fifo.Count
  · rw [if_pos (h.2 hc), if_pos hc]
    simp [FIFO.IsEmpty, IRQ.Raise]
  · have : ¬ EvaluateFIFOIRQCondition s = true := fun x => hc (h.1 x)
    rw [if_neg this, if_neg hc]
    simp [FIFO.IsEmpty]

/-- The function `EnqueueFIFO` by the three cases of its queue test. -/
theorem EnqueueFIFO_cases (s : CommandProcessor) (command param : Nat)
    (hc : command < 256) (hq : param < 2 ^ 32)
    (hp : s.cmd_pipe.Count ≤ 4) (hf : s.cmd_fifo.Count ≤ 256) :
    (s.cmd_fifo.Count = 0 ∧ s.cmd_pipe.Count < 4 →
      ∃ s', EnqueueFIFO s command param = some s' ∧
        s'.cmd_pipe.data = s.cmd_pipe.data ++ [(command <<< 32) ||| param] ∧
        s'.cmd_fifo = s.cmd_fifo ∧ s'.arm9_irq = s.arm9_irq ∧ s'.unpack = s.unpack) ∧
    (¬ (s.cmd_fifo.Count = 0 ∧ s.cmd_pipe.Count < 4) → s.cmd_fifo.Count < 256 →
      ∃ s', EnqueueFIFO s command param = some s' ∧
        s'.cmd_pipe = s.cmd_pipe ∧
        s'.cmd_fifo.data = s.cmd_fifo.data ++ [(command <<< 32) ||| param] ∧
        s'.unpack = s.unpack ∧
        s'.gxstat.cmd_fifo_size = s'.cmd_fifo.Count ∧
        s'.gxstat.cmd_fifo_empty = decide (s'.cmd_fifo.Count = 0) ∧
        s'.gxstat.cmd_fifo_less_than_half_full = decide (s'.cmd_fifo.Count < 128) ∧
        s'.arm9_irq.gxfifo = s.arm9_irq.gxfifo +
          (if IrqCondition s.gxstat.cmd_fifo_irq s'.cmd_fifo.Count then 1 else 0)) ∧
    (¬ (s.cmd_fifo.Count = 0 ∧ s.cmd_pipe.Count < 4) → s.cmd_fifo.Count = 256 →
      EnqueueFIFO s command param = none) := by
  have e1 : command % 256 = command := Nat.mod_eq_of_lt hc
  have e2 : param % 4294967296 = param := Nat.mod_eq_of_lt hq
  unfold FIFO.Count at hp hf
  refine ⟨?_, ?_, ?_⟩
  · rintro ⟨h1, h2⟩
    unfold FIFO.Count at h1 h2
    have h3 : s.cmd_pipe.data.length ≠ 4 := by omega
    unfold EnqueueFIFO
    simp only [e1, e2, FIFO.IsEmpty, FIFO.IsFull, FIFO.Count, h1, h3, decide_True, decide_False,
      Bool.not_false, and_self, if_true, FIFO.Write, Bool.false_eq_true, if_false]
    have hpc := ProcessCommands_fields
      { s with cmd_pipe := { data := s.cmd_pipe.data ++ [(command <<< 32) ||| param] } }
    by_cases hb : s.gxstat.busy = true
    · simp [hb]
    · simp only [hb, Bool.not_eq_true] at hb ⊢
      simp only [hb, Bool.not_false, if_true]
      exact ⟨_, rfl, by rw [hpc.1], by rw [hpc.2.1], by rw [hpc.2.2.1], by rw [hpc.2.2.2.1]⟩
  · intro h1 h2
    unfold FIFO.Count at h1 h2
    have hcond : ¬ (s.cmd_fifo.IsEmpty = true ∧ (!s.cmd_pipe.IsFull) = true) := by
      unfold FIFO.IsEmpty FIFO.IsFull FIFO.Count
      simp only [decide_eq_true_eq, Bool.not_eq_true', decide_eq_false_iff_not]
      omega
    have hfull : ¬ (s.cmd_fifo.IsFull = true) := by
      unfold FIFO.IsFull FIFO.Count
      simp only [decide_eq_true_eq]
      omega
    have hw : s.cmd_fifo.Write ((command <<< 32) ||| param) =
        { data := s.cmd_fifo.data ++ [(command <<< 32) ||| param] } := rfl
    unfold EnqueueFIFO
    simp only [e1, e2, hcond, hfull, if_false, hw, Bool.false_eq_true]
    have hu := UpdateFifoState_fields
      { s with cmd_fifo := { data := s.cmd_fifo.data ++ [(command <<< 32) ||| param] } }
    have hwr := UpdateFifoState_writes
      { s with cmd_fifo := { data := s.cmd_fifo.data ++ [(command <<< 32) ||| param] } }
    generalize UpdateFifoState
      { s with cmd_fifo := { data := s.cmd_fifo.data ++ [(command <<< 32) ||| param] } } = u
      at hu hwr ⊢
    have hpc := ProcessCommands_fields u
    by_cases hb : u.gxstat.busy = true
    · simp only [hb, Bool.not_true, Bool.false_eq_true, if_false]
      refine ⟨_, rfl, hu.1, ?_, hu.2.2.1, ?_, ?_, ?_, ?_⟩
      · rw [hu.2.1]
      · rw [hwr.1, hu.2.1]
      · rw [hwr.2.1, hu.2.1]
      · rw [hwr.2.2.1, hu.2.1]
      · rw [hwr.2.2.2, hu.2.1]
    · have hb2 : u.gxstat.busy = false := by simpa using hb
      simp only [hb2, Bool.not_false, if_true]
      refine ⟨_, rfl, ?_, ?_, ?_, ?_, ?_, ?_, ?_⟩
      · rw [hpc.1, hu.1]
      · rw [hpc.2.1, hu.2.1]
      · rw [hpc.2.2.2.1, hu.2.2.1]
      · rw [hpc.2.2.2.2.1, hpc.2.1, hwr.1, hu.2.1]
      · rw [hpc.2.2.2.2.2.1, hpc.2.1, hwr.2.1, hu.2.1]
      · rw [hpc.2.2.2.2.2.2.1, hpc.2.1, hwr.2.2.1, hu.2.1]
      · rw [hpc.2.2.1, hpc.2.1, hwr.2.2.2, hu.2.1]
  · intro h1 h2
    unfold FIFO.Count at h1 h2
    have hcond : ¬ (s.cmd_fifo.IsEmpty = true ∧ (!s.cmd_pipe.IsFull) = true) := by
      unfold FIFO.IsEmpty FIFO.IsFull FIFO.Count
      simp only [decide_eq_true_eq, Bool.not_eq_true', decide_eq_false_iff_not]
      omega
    have hfull : s.cmd_fifo.IsFull = true := by
      unfold FIFO.IsFull FIFO.Count
      simp only [decide_eq_true_eq]
      exact h2
    unfold EnqueueFIFO
    simp only [hcond, hfull, if_false, if_true]

/-- The refill loop of `DequeueFIFO` moves the first `n` entries of the fifo, or all
of them when there are fewer, to the back of the pipe; stated for a pipe with room
for `n` entries, the only case in which the loop runs. -/
theorem refill_spec : ∀ (n : Nat) (s : CommandProcessor), s.cmd_pipe.Count + n ≤ 4 →
    ( DequeueFIFO.refill n s).cmd_pipe.data = s.cmd_pipe.data ++ s.cmd_fifo.data.take n ∧
    ( DequeueFIFO.refill n s).cmd_fifo.data = s.cmd_fifo.data.drop n ∧
    ( DequeueFIFO.refill n s).gxstat = s.gxstat ∧
    ( DequeueFIFO.refill n s).arm9_irq = s.arm9_irq ∧
    ( DequeueFIFO.refill n s).unpack = s.unpack ∧
    ( DequeueFIFO.refill n s).scheduler = s.scheduler := by
  intro n
  induction n with
  | zero => intro s _; simp [DequeueFIFO.refill]
  | succ n ih =>
    intro s h
    unfold FIFO.Count at h
    rw [DequeueFIFO.refill]
    cases hd : s.cmd_fifo.data with
    | nil =>
      have : s.cmd_fifo.IsEmpty = true := by simp [FIFO.IsEmpty, FIFO.Count, hd]
      simp [this, hd]
    | cons x xs =>
      have h1 : ¬ (s.cmd_fifo.IsEmpty = true) := by simp [FIFO.IsEmpty, FIFO.Count, hd]
      rw [if_neg h1]
      simp only [FIFO.Read, FIFO.Write, hd, List.headD_cons, List.tail_cons]
      obtain ⟨i1, i2, i3, i4, i5, i6⟩ := ih
        { s with cmd_pipe := { data := s.cmd_pipe.data ++ [x] }, cmd_fifo := { data := xs } }
        (by simp [FIFO.Count]; omega)
      refine ⟨?_, ?_, i3, i4, i5, i6⟩
      · rw [i1]; simp
      · rw [i2]; simp

/-- The function `DequeueFIFO` by the cases of its tests, for a pipe within its
capacity. -/
theorem DequeueFIFO_cases (s : CommandProcessor) (hp : s.cmd_pipe.Count ≤ 4) :
    (s.cmd_pipe.Count = 0 → DequeueFIFO s = none) ∧
    (0 < s.cmd_pipe.Count → s.cmd_pipe.Count - 1 ≤ 2 →
      ∃ s', DequeueFIFO s = some (s.cmd_pipe.data.headD 0, s') ∧
        s'.cmd_pipe.data = s.cmd_pipe.data.tail ++ s.cmd_fifo.data.take 2 ∧
        s'.cmd_fifo.data = s.cmd_fifo.data.drop 2 ∧
        s'.unpack = s.unpack ∧ s'.scheduler = s.scheduler ∧ s'.gxstat.busy = s.gxstat.busy ∧
        s'.gxstat.cmd_fifo_irq = s.gxstat.cmd_fifo_irq ∧
        s'.gxstat.cmd_fifo_size = s'.cmd_fifo.Count ∧
        s'.gxstat.cmd_fifo_empty = decide (s'.cmd_fifo.Count = 0) ∧
        s'.gxstat.cmd_fifo_less_than_half_full = decide (s'.cmd_fifo.Count < 128) ∧
        s'.arm9_irq.gxfifo = s.arm9_irq.gxfifo +
          (if IrqCondition s.gxstat.cmd_fifo_irq s'.cmd_fifo.Count then 1 else 0)) ∧
    (2 < s.cmd_pipe.Count - 1 →
      DequeueFIFO s = some (s.cmd_pipe.data.headD 0,
        { s with cmd_pipe := { data := s.cmd_pipe.data.tail } })) := by
  unfold FIFO.Count at hp
  refine ⟨?_, ?_, ?_⟩
  · intro h
    have : s.cmd_pipe.IsEmpty = true := by simp [FIFO.IsEmpty, h]
    simp [DequeueFIFO, this]
  · intro h1 h2
    unfold FIFO.Count at h1 h2
    have he : ¬ (s.cmd_pipe.IsEmpty = true) := by
      simp only [FIFO.IsEmpty, FIFO.Count, decide_eq_true_eq]; omega
    have hr := refill_spec 2 { s with cmd_pipe := { data := s.cmd_pipe.data.tail } }
      (by simp [FIFO.Count]; omega)
    have hc : ({ data := s.cmd_pipe.data.tail } : FIFO 4).Count ≤ 2 := by
      simp [FIFO.Count]; omega
    unfold DequeueFIFO
    simp only [he, if_false, FIFO.Read, hc, if_true, Bool.false_eq_true]
    generalize DequeueFIFO.refill 2 { s with cmd_pipe := { data := s.cmd_pipe.data.tail } } = r
      at hr ⊢
    obtain ⟨r1, r2, r3, r4, r5, r6⟩ := hr
    simp only at r1 r2 r3 r4 r5 r6
    have hu := UpdateFifoState_fields r
    have hw := UpdateFifoState_writes r
    refine ⟨_, rfl, ?_, ?_, ?_, ?_, ?_, ?_, ?_, ?_, ?_, ?_⟩
    · rw [hu.1, r1]
    · rw [hu.2.1, r2]
    · rw [hu.2.2.1, r5]
    · rw [hu.2.2.2.1, r6]
    · rw [hu.2.2.2.2.1, r3]
    · rw [hu.2.2.2.2.2, r3]
    · rw [hw.1, hu.2.1]
    · rw [hw.2.1, hu.2.1]
    · rw [hw.2.2.1, hu.2.1]
    · rw [hw.2.2.2, hu.2.1, r4, r3]
  · intro h
    unfold FIFO.Count at h
    have he : ¬ (s.cmd_pipe.IsEmpty = true) := by
      simp only [FIFO.IsEmpty, FIFO.Count, decide_eq_true_eq]; omega
    have hc : ¬ (({ data := s.cmd_pipe.data.tail } : FIFO 4).Count ≤ 2) := by
      simp [FIFO.Count]; omega
    unfold DequeueFIFO
    simp only [he, if_false, FIFO.Read, hc, Bool.false_eq_true]

/-! ### C16: queue bounds -/

theorem EnqueueFIFO_mod (s : CommandProcessor) (command param : Nat) :
    EnqueueFIFO s command param = EnqueueFIFO s (command % 256) (param % 4294967296) := by
  unfold EnqueueFIFO
  simp only [Nat.mod_mod]

theorem EnqueueFIFO_within (s s' : CommandProcessor) (command param : Nat)
    (h : EnqueueFIFO s command param = some s') (hb : WithinCapacity s) :
    WithinCapacity s' := by
  rw [EnqueueFIFO_mod] at h
  obtain ⟨c1, c2, c3⟩ := EnqueueFIFO_cases s (command % 256) (param % 4294967296)
    (Nat.mod_lt _ (by norm_num)) (Nat.mod_lt _ (by norm_num)) hb.1 hb.2
  unfold WithinCapacity FIFO.Count at *
  by_cases hc : s.cmd_fifo.data.length = 0 ∧ s.cmd_pipe.data.length < 4
  · obtain ⟨t, ht, h1, h2, _⟩ := c1 hc
    rw [ht] at h
    cases h
    rw [h1, h2]
    simp only [List.length_append, List.length_singleton]
    omega
  · by_cases hf : s.cmd_fifo.data.length < 256
    · obtain ⟨t, ht, h1, h2, _⟩ := c2 hc hf
      rw [ht] at h
      cases h
      rw [h1, h2]
      simp only [List.length_append, List.length_singleton]
      omega
    · rw [c3 hc (by omega)] at h
      cases h

theorem DequeueFIFO_within (s s' : CommandProcessor) (entry : Nat)
    (h : DequeueFIFO s = some (entry, s')) (hb : WithinCapacity s) :
    WithinCapacity s' := by
  obtain ⟨c1, c2, c3⟩ := DequeueFIFO_cases s hb.1
  unfold WithinCapacity FIFO.Count at *
  by_cases h0 : s.cmd_pipe.data.length = 0
  · rw [c1 h0] at h
    cases h
  · by_cases h2 : s.cmd_pipe.data.length - 1 ≤ 2
    · obtain ⟨t, ht, h3, h4, _⟩ := c2 (by omega) h2
      rw [ht] at h
      cases h
      rw [h3, h4]
      simp only [List.length_append, List.length_tail, List.length_take, List.length_drop]
      omega
    · rw [c3 (by omega)] at h
      cases h
      simp only [List.length_tail]
      omega

theorem ProcessCommands_within (s : CommandProcessor) (hb : WithinCapacity s) :
    WithinCapacity (ProcessCommands s) := by
  have h := ProcessCommands_fields s
  unfold WithinCapacity at *
  rw [h.1, h.2.1]
  exact hb

theorem ExecuteCommand_loop_within : ∀ (n : Nat) (s s' : CommandProcessor),
    ExecuteCommand.loop n s = some s' → WithinCapacity s → WithinCapacity s' := by
  intro n
  induction n with
  | zero =>
    intro s s' h hb
    simp only [ExecuteCommand.loop, Option.some.injEq] at h
    rw [← h]; exact hb
  | succ n ih =>
    intro s s' h hb
    rw [ExecuteCommand.loop] at h
    cases hd : DequeueFIFO s with
    | none => rw [hd] at h; cases h
    | some r =>
      rw [hd] at h
      exact ih r.2 s' h (DequeueFIFO_within s r.2 r.1 hd hb)

theorem ExecuteCommand_within (s s' : CommandProcessor) (command : Nat)
    (h : ExecuteCommand s command = some s') (hb : WithinCapacity s) : WithinCapacity s' := by
  unfold ExecuteCommand at h
  by_cases hk : k_cmd_num_params command = 0
  · simp only [hk, if_true] at h
    cases hd : DequeueFIFO s with
    | none => rw [hd] at h; cases h
    | some r =>
      rw [hd] at h
      exact ExecuteCommand_loop_within 0 r.2 s' h (DequeueFIFO_within s r.2 r.1 hd hb)
  · simp only [hk, if_false] at h
    exact ExecuteCommand_loop_within _ s s' h hb

theorem FireEvent_within (s s' : CommandProcessor) (h : FireEvent s = some s')
    (hb : WithinCapacity s) : WithinCapacity s' := by
  unfold FireEvent at h
  cases he : s.scheduler.events with
  | nil =>
    rw [he] at h
    cases h
    exact hb
  | cons e rest =>
    rw [he] at h
    simp only at h
    cases hx : ExecuteCommand { s with scheduler := { timestamp_now := e.1, events := rest } } e.2 with
    | none => rw [hx] at h; cases h
    | some t =>
      rw [hx] at h
      cases h
      exact ProcessCommands_within t (ExecuteCommand_within _ t e.2 hx hb)

theorem Write_GXFIFO_loop_within : ∀ (n : Nat) (s s' : CommandProcessor),
    Write_GXFIFO.loop n s = some s' → WithinCapacity s → WithinCapacity s' := by
  intro n
  induction n with
  | zero =>
    intro s s' h hb
    simp only [Write_GXFIFO.loop, Option.some.injEq] at h
    rw [← h]; exact hb
  | succ n ih =>
    intro s s' h hb
    rw [Write_GXFIFO.loop] at h
    simp only at h
    split_ifs at h with h1
    · cases h; exact hb
    · cases hq : EnqueueFIFO
          { s with unpack := { s.unpack with
              params_left := k_cmd_num_params (s.unpack.word % 256) } }
          (s.unpack.word % 256) 0 with
      | none => rw [hq] at h; cases h
      | some t =>
        rw [hq] at h
        have ht : WithinCapacity t := EnqueueFIFO_within _ t _ _ hq hb
        simp only at h
        split_ifs at h with h2
        · cases h; exact ht
        · exact ih _ s' h ht

theorem Write_GXFIFO_within (s s' : CommandProcessor) (word : Nat)
    (h : Write_GXFIFO s word = some s') (hb : WithinCapacity s) : WithinCapacity s' := by
  unfold Write_GXFIFO at h
  simp only at h
  split_ifs at h with h1 h2
  · cases hq : EnqueueFIFO s (s.unpack.word % 256) (word % 4294967296) with
    | none => rw [hq] at h; cases h
    | some t =>
      rw [hq] at h
      have ht : WithinCapacity t := EnqueueFIFO_within _ t _ _ hq hb
      simp only at h
      split_ifs at h <;> (cases h; exact ht)
  · exact Write_GXFIFO_loop_within 4 _ s' h hb
  · exact Write_GXFIFO_loop_within 4 _ s' h hb

theorem Reachable_within (s : CommandProcessor) (h : Reachable s) : WithinCapacity s := by
  induction h with
  | reset s => simp [WithinCapacity, Reset, FIFO.Reset, FIFO.Count]
  | step s s' _ hs ih =>
    cases hs with
    | gxfifo word hw => exact Write_GXFIFO_within s s' word hw ih
    | cmdport address param hw => exact EnqueueFIFO_within s s' _ _ hw ih
    | fire hf => exact FireEvent_within s s' hf ih

/-! ### C17: a command with one parameter -/

/-- The first write of a one-parameter command to a reset processor: the command
is latched and nothing is enqueued. -/
theorem write_command (s : CommandProcessor) (c : Nat) (hc : c < 256)
    (hk : k_cmd_num_params c = 1) :
    Write_GXFIFO (Reset s) c =
      some { Reset s with unpack := { word := c, cmds_left := 4, params_left := 1 } } := by
  have e1 : c % 4294967296 = c := Nat.mod_eq_of_lt (by omega)
  have e2 : c % 256 = c := Nat.mod_eq_of_lt hc
  unfold Write_GXFIFO
  simp [Reset, e1, Write_GXFIFO.loop, e2, hk]

/-- The write of the parameter: the entry goes to the pipe and one event is
scheduled one cycle ahead. -/
theorem write_parameter (s : CommandProcessor) (c p : Nat) (hc : c < 256)
    (hk : k_cmd_num_params c = 1) (hp : p < 2 ^ 32) (hb : s.gxstat.busy = false)
    (he : s.scheduler.events = []) :
    ∃ s2, Write_GXFIFO
        { Reset s with unpack := { word := c, cmds_left := 4, params_left := 1 } } p = some s2 ∧
      s2.cmd_pipe.data = [(c <<< 32) ||| p] ∧ s2.cmd_fifo.data = [] ∧
      s2.gxstat.busy = true ∧
      s2.scheduler = { timestamp_now := s.scheduler.timestamp_now,
                       events := [(s.scheduler.timestamp_now + 1, c)] } := by
  have e1 : p % 4294967296 = p := Nat.mod_eq_of_lt hp
  have e2 : c % 256 = c := Nat.mod_eq_of_lt hc
  have e3 := entry_command c p hc hp
  unfold Write_GXFIFO
  simp only [Reset, gt_iff_lt, zero_lt_one, if_true, e1, e2]
  unfold EnqueueFIFO
  simp only [e1, e2, FIFO.Reset, FIFO.IsEmpty, FIFO.IsFull, FIFO.Count, List.length_nil,
    decide_True, OfNat.zero_ne_ofNat, decide_False, Bool.not_false, and_self, if_true,
    FIFO.Write, Bool.false_eq_true, if_false, List.nil_append, hb]
  unfold ProcessCommands
  simp only [FIFO.IsEmpty, FIFO.Count, List.length_singleton, one_ne_zero, decide_False,
    Bool.false_eq_true, if_false, FIFO.Peek, List.headD_cons, e3, hk, List.length_nil,
    Nat.add_zero, lt_self_iff_false, Scheduler.Add, he, Scheduler.insert]
  refine ⟨_, rfl, ?_, ?_, ?_, ?_⟩ <;> simp

/-- The event of a one-parameter command firing on a pipe that holds its single
entry: the entry is dequeued and the processor goes idle. -/
theorem fire_single (s : CommandProcessor) (c e t : Nat) (hk : k_cmd_num_params c = 1)
    (h1 : s.cmd_pipe.data = [e]) (h2 : s.cmd_fifo.data = [])
    (h3 : s.scheduler.events = [(t, c)]) :
    ∃ s3, FireEvent s = some s3 ∧ s3.cmd_pipe.data = [] ∧ s3.cmd_fifo.data = [] ∧
      s3.gxstat.busy = false ∧ s3.scheduler.events = [] := by
  obtain ⟨_, d2, _⟩ := DequeueFIFO_cases
    { s with scheduler := { timestamp_now := t, events := [] } }
    (by simp [FIFO.Count, h1])
  obtain ⟨u, hu, u1, u2, _, u4, _⟩ := d2 (by simp [FIFO.Count, h1]) (by simp [FIFO.Count, h1])
  simp only [h1, h2, List.tail_cons, List.take_nil, List.append_nil, List.drop_nil] at u1 u2
  have hempty : u.cmd_pipe.IsEmpty = true := by simp [FIFO.IsEmpty, FIFO.Count, u1]
  unfold FireEvent
  rw [h3]
  simp only
  unfold ExecuteCommand
  simp only [hk, one_ne_zero, if_false, ExecuteCommand.loop, hu]
  unfold ProcessCommands
  simp only [hempty, if_true]
  refine ⟨_, rfl, u1, u2, rfl, ?_⟩
  show u.scheduler.events = []
  rw [u4]

/-- C17: for every command byte c that takes exactly one parameter and every 32-bit
p, on a processor that is not busy and has nothing scheduled: after `Reset`,
`Write_GXFIFO(c)` returns with both queues still empty, not busy and nothing
scheduled; the following `Write_GXFIFO(p)` returns with the pipe holding exactly
the entry (c, p), the fifo empty, busy set and exactly one event scheduled, one
device cycle ahead; and the firing of that event returns with both queues empty,
busy clear and nothing scheduled. -/
theorem C17_single_parameter_command (s : CommandProcessor) (c p : Nat) (hc : c < 256)
    (hk : k_cmd_num_params c = 1) (hp : p < 2 ^ 32) (hb : s.gxstat.busy = false)
    (he : s.scheduler.events = []) :
    ∃ s1 s2 s3,
      Write_GXFIFO (Reset s) c = some s1 ∧
      s1.cmd_pipe.data = [] ∧ s1.cmd_fifo.data = [] ∧ s1.gxstat.busy = false ∧
      s1.scheduler.events = [] ∧
      Write_GXFIFO s1 p = some s2 ∧
      s2.cmd_pipe.data = [(c <<< 32) ||| p] ∧ s2.cmd_fifo.data = [] ∧
      s2.gxstat.busy = true ∧
      s2.scheduler.events = [(s.scheduler.timestamp_now + 1, c)] ∧
      FireEvent s2 = some s3 ∧
      s3.cmd_pipe.data = [] ∧ s3.cmd_fifo.data = [] ∧ s3.gxstat.busy = false ∧
      s3.scheduler.events = [] := by
  obtain ⟨s2, w2, p1, p2, p3, p4⟩ := write_parameter s c p hc hk hp hb he
  obtain ⟨s3, f1, f2, f3, f4, f5⟩ := fire_single s2 c ((c <<< 32) ||| p)
    (s.scheduler.timestamp_now + 1) hk p1 p2 (by rw [p4])
  exact ⟨_, s2, s3, write_command s c hc hk, rfl, rfl, hb, he, w2, p1, p2, p3, by rw [p4],
    f1, f2, f3, f4, f5⟩

/-- Witness of C17: the command 0x10 with the parameter 2, the example of the
specification. -/
theorem C17_witness :
    (0x10 : Nat) < 256 ∧ k_cmd_num_params 0x10 = 1 ∧ (2 : Nat) < 2 ^ 32 ∧
    sampleProcessor.gxstat.busy = false ∧ sampleProcessor.scheduler.events = [] ∧
    ∃ s1 s2 s3,
      Write_GXFIFO (Reset sampleProcessor) 0x10 = some s1 ∧
      s1.cmd_pipe.data = [] ∧ s1.cmd_fifo.data = [] ∧ s1.gxstat.busy = false ∧
      s1.scheduler.events = [] ∧
      Write_GXFIFO s1 2 = some s2 ∧
      s2.cmd_pipe.data = [(0x10 <<< 32) ||| 2] ∧ s2.cmd_fifo.data = [] ∧
      s2.gxstat.busy = true ∧
      s2.scheduler.events = [(sampleProcessor.scheduler.timestamp_now + 1, 0x10)] ∧
      FireEvent s2 = some s3 ∧
      s3.cmd_pipe.data = [] ∧ s3.cmd_fifo.data = [] ∧ s3.gxstat.busy = false ∧
      s3.scheduler.events = [] :=
  ⟨by decide, by decide, by decide, rfl, rfl,
    C17_single_parameter_command sampleProcessor 0x10 2 (by decide) (by decide) (by decide)
      rfl rfl⟩

/-! ### C16, C18, C19, C20 -/

theorem take_min_length (l : List Nat) (n : Nat) : l.take (min n l.length) = l.take n := by
  by_cases h : n ≤ l.length
  · rw [Nat.min_eq_left h]
  · have h2 : l.length ≤ n := by omega
    rw [Nat.min_eq_right h2, List.take_length, List.take_of_length_le h2]

theorem drop_min_length (l : List Nat) (n : Nat) : l.drop (min n l.length) = l.drop n := by
  by_cases h : n ≤ l.length
  · rw [Nat.min_eq_left h]
  · have h2 : l.length ≤ n := by omega
    rw [Nat.min_eq_right h2, List.drop_length, List.drop_of_length_le h2]

/-- C16: in every state reachable from `Reset` by writes to GXFIFO, writes to a
command port and firings of scheduled events that do not panic, the pipe holds at
most 4 entries and the fifo at most 256.  From every state within these bounds a
`DequeueFIFO` that returns keeps the bounds, and when it leaves at most 2 entries
in the pipe it has moved the first min(2, count(fifo)) entries of the fifo, in
order, to the back of the pipe. -/
theorem C16_queue_bounds :
    (∀ s, Reachable s → s.cmd_pipe.Count ≤ 4 ∧ s.cmd_fifo.Count ≤ 256) ∧
    (∀ s entry s', s.cmd_pipe.Count ≤ 4 → s.cmd_fifo.Count ≤ 256 →
      DequeueFIFO s = some (entry, s') →
      (s'.cmd_pipe.Count ≤ 4 ∧ s'.cmd_fifo.Count ≤ 256) ∧
      (s.cmd_pipe.Count - 1 ≤ 2 →
        s'.cmd_pipe.data =
          s.cmd_pipe.data.tail ++ s.cmd_fifo.data.take (min 2 s.cmd_fifo.Count) ∧
        s'.cmd_fifo.data = s.cmd_fifo.data.drop (min 2 s.cmd_fifo.Count))) := by
  refine ⟨fun s h => Reachable_within s h, ?_⟩
  intro s entry s' hp hf hd
  refine ⟨DequeueFIFO_within s s' entry hd ⟨hp, hf⟩, ?_⟩
  intro h2
  obtain ⟨c1, c2, _⟩ := DequeueFIFO_cases s hp
  by_cases h0 : s.cmd_pipe.Count = 0
  · rw [c1 h0] at hd
    cases hd
  · obtain ⟨t, ht, t1, t2, _⟩ := c2 (by omega) h2
    rw [ht] at hd
    cases hd
    rw [t1, t2]
    unfold FIFO.Count
    rw [take_min_length, drop_min_length]
    exact ⟨rfl, rfl⟩

/-- Witness of C16: a dequeue from a pipe of three entries in front of a fifo of
three moves two entries of the fifo to the pipe. -/
theorem C16_witness :
    (Reachable (Reset sampleProcessor) ∧
      (Reset sampleProcessor).cmd_pipe.Count ≤ 4 ∧ (Reset sampleProcessor).cmd_fifo.Count ≤ 256) ∧
    sampleQueued.cmd_pipe.Count ≤ 4 ∧ sampleQueued.cmd_fifo.Count ≤ 256 ∧
    DequeueFIFO sampleQueued = some (0x1000000001, (UpdateFifoState
      { sampleQueued with
        cmd_pipe := { data := [0x1000000002, 0x1000000003, 0x1000000004, 0x1000000005] }
        cmd_fifo := { data := [0x1000000006] } })) ∧
    sampleQueued.cmd_pipe.Count - 1 ≤ 2 ∧
    (UpdateFifoState
      { sampleQueued with
        cmd_pipe := { data := [0x1000000002, 0x1000000003, 0x1000000004, 0x1000000005] }
        cmd_fifo := { data := [0x1000000006] } }).cmd_pipe.data =
      sampleQueued.cmd_pipe.data.tail ++
        sampleQueued.cmd_fifo.data.take (min 2 sampleQueued.cmd_fifo.Count) :=
  ⟨⟨Reachable.reset _, C16_queue_bounds.1 _ (Reachable.reset _)⟩,
    by decide, by decide, rfl, by decide,
    ((C16_queue_bounds.2 sampleQueued _ _ (by decide) (by decide) rfl).2 (by decide)).1⟩

/-- C19: for every queue state within the capacities, every command byte and every
32-bit parameter, `EnqueueFIFO` returns with the entry (command << 32 | param)
appended to the pipe iff the fifo is empty and the pipe holds fewer than 4 entries
(the fifo is then unchanged); otherwise, when the fifo holds fewer than 256
entries, it returns with the entry appended to the fifo and the pipe unchanged; and
it panics iff the entry must go to the fifo and the fifo holds 256 entries. -/
theorem C19_enqueue_fifo (s : CommandProcessor) (command param : Nat)
    (hc : command < 256) (hq : param < 2 ^ 32)
    (hp : s.cmd_pipe.Count ≤ 4) (hf : s.cmd_fifo.Count ≤ 256) :
    ((∃ s', EnqueueFIFO s command param = some s' ∧
        s'.cmd_pipe.data = s.cmd_pipe.data ++ [(command <<< 32) ||| param]) ↔
      (s.cmd_fifo.Count = 0 ∧ s.cmd_pipe.Count < 4)) ∧
    (s.cmd_fifo.Count = 0 ∧ s.cmd_pipe.Count < 4 →
      ∃ s', EnqueueFIFO s command param = some s' ∧
        s'.cmd_pipe.data = s.cmd_pipe.data ++ [(command <<< 32) ||| param] ∧
        s'.cmd_fifo.data = s.cmd_fifo.data) ∧
    (¬ (s.cmd_fifo.Count = 0 ∧ s.cmd_pipe.Count < 4) → s.cmd_fifo.Count < 256 →
      ∃ s', EnqueueFIFO s command param = some s' ∧
        s'.cmd_fifo.data = s.cmd_fifo.data ++ [(command <<< 32) ||| param] ∧
        s'.cmd_pipe.data = s.cmd_pipe.data) ∧
    (EnqueueFIFO s command param = none ↔
      ¬ (s.cmd_fifo.Count = 0 ∧ s.cmd_pipe.Count < 4) ∧ s.cmd_fifo.Count = 256) := by
  obtain ⟨c1, c2, c3⟩ := EnqueueFIFO_cases s command param hc hq hp hf
  have k1 : s.cmd_fifo.Count = 0 ∧ s.cmd_pipe.Count < 4 →
      ∃ s', EnqueueFIFO s command param = some s' ∧
        s'.cmd_pipe.data = s.cmd_pipe.data ++ [(command <<< 32) ||| param] ∧
        s'.cmd_fifo.data = s.cmd_fifo.data := by
    intro h
    obtain ⟨t, ht, t1, t2, _⟩ := c1 h
    exact ⟨t, ht, t1, by rw [t2]⟩
  have k2 : ¬ (s.cmd_fifo.Count = 0 ∧ s.cmd_pipe.Count < 4) → s.cmd_fifo.Count < 256 →
      ∃ s', EnqueueFIFO s command param = some s' ∧
        s'.cmd_fifo.data = s.cmd_fifo.data ++ [(command <<< 32) ||| param] ∧
        s'.cmd_pipe.data = s.cmd_pipe.data := by
    intro h1 h2
    obtain ⟨t, ht, t1, t2, _⟩ := c2 h1 h2
    exact ⟨t, ht, t2, by rw [t1]⟩
  refine ⟨⟨?_, fun h => ?_⟩, k1, k2, ⟨?_, fun h => c3 h.1 h.2⟩⟩
  · rintro ⟨t, ht, t1⟩
    by_contra hcond
    by_cases h256 : s.cmd_fifo.Count < 256
    · obtain ⟨u, hu, _, u2⟩ := k2 hcond h256
      rw [hu] at ht
      cases ht
      rw [u2] at t1
      have := congrArg List.length t1
      simp at this
    · rw [c3 hcond (by omega)] at ht
      cases ht
  · obtain ⟨t, ht, t1, _⟩ := k1 h
    exact ⟨t, ht, t1⟩
  · intro hn
    by_cases hcond : s.cmd_fifo.Count = 0 ∧ s.cmd_pipe.Count < 4
    · obtain ⟨t, ht, _⟩ := k1 hcond
      rw [ht] at hn
      cases hn
    · refine ⟨hcond, ?_⟩
      by_contra h256
      obtain ⟨t, ht, _⟩ := k2 hcond (by omega)
      rw [ht] at hn
      cases hn

/-- Witness of C19: an entry enqueued behind a non-empty fifo goes to the fifo. -/
theorem C19_witness :
    (0x10 : Nat) < 256 ∧ (7 : Nat) < 2 ^ 32 ∧
    sampleQueued.cmd_pipe.Count ≤ 4 ∧ sampleQueued.cmd_fifo.Count ≤ 256 ∧
    ¬ (sampleQueued.cmd_fifo.Count = 0 ∧ sampleQueued.cmd_pipe.Count < 4) ∧
    sampleQueued.cmd_fifo.Count < 256 ∧
    ∃ s', EnqueueFIFO sampleQueued 0x10 7 = some s' ∧
      s'.cmd_fifo.data = sampleQueued.cmd_fifo.data ++ [(0x10 <<< 32) ||| 7] ∧
      s'.cmd_pipe.data = sampleQueued.cmd_pipe.data :=
  ⟨by decide, by decide, by decide, by decide, by decide, by decide,
    (C19_enqueue_fifo sampleQueued 0x10 7 (by decide) (by decide) (by decide)
      (by decide)).2.2.1 (by decide) (by decide)⟩

/-- C20: `UpdateFifoState` sets the size, empty and less-than-half-full fields of
GXSTAT from the fifo and raises the GXFIFO interrupt exactly when the condition of
the IRQ mode holds for the fifo (mode Empty and no entry, or mode LessThanHalfFull
and fewer than 128 entries); the fifo itself is unchanged.  Every `EnqueueFIFO`
that writes to the fifo and every `DequeueFIFO` that reads from it returns in a
state updated in this way for the fifo as it is after the mutation.  For every
other mode value the condition never holds. -/
theorem C20_update_fifo_state (s : CommandProcessor) :
    (FifoStateUpdated s (UpdateFifoState s) ∧ (UpdateFifoState s).cmd_fifo = s.cmd_fifo) ∧
    (∀ command param s', WithinCapacity s → EnqueueFIFO s command param = some s' →
      s'.cmd_fifo ≠ s.cmd_fifo → FifoStateUpdated s s') ∧
    (∀ entry s', WithinCapacity s → DequeueFIFO s = some (entry, s') →
      s'.cmd_fifo ≠ s.cmd_fifo → FifoStateUpdated s s') ∧
    (∀ mode count, mode ≠ GXSTAT.IRQ.Empty → mode ≠ GXSTAT.IRQ.LessThanHalfFull →
      ¬ IrqCondition mode count) := by
  refine ⟨⟨?_, (UpdateFifoState_fields s).2.1⟩, ?_, ?_, ?_⟩
  · have hw := UpdateFifoState_writes s
    have hu := UpdateFifoState_fields s
    unfold FifoStateUpdated
    rw [hu.2.1]
    exact hw
  · intro command param s' hb he hne
    rw [EnqueueFIFO_mod] at he
    obtain ⟨c1, c2, c3⟩ := EnqueueFIFO_cases s (command % 256) (param % 4294967296)
      (Nat.mod_lt _ (by norm_num)) (Nat.mod_lt _ (by norm_num)) hb.1 hb.2
    by_cases hcond : s.cmd_fifo.Count = 0 ∧ s.cmd_pipe.Count < 4
    · obtain ⟨t, ht, _, t2, _⟩ := c1 hcond
      rw [ht] at he
      cases he
      exact absurd t2 hne
    · by_cases h256 : s.cmd_fifo.Count < 256
      · obtain ⟨t, ht, _, _, _, t4, t5, t6, t7⟩ := c2 hcond h256
        rw [ht] at he
        cases he
        exact ⟨t4, t5, t6, t7⟩
      · have := hb.2
        rw [c3 hcond (by omega)] at he
        cases he
  · intro entry s' hb hd hne
    obtain ⟨c1, c2, c3⟩ := DequeueFIFO_cases s hb.1
    by_cases h0 : s.cmd_pipe.Count = 0
    · rw [c1 h0] at hd
      cases hd
    · by_cases h2 : s.cmd_pipe.Count - 1 ≤ 2
      · obtain ⟨t, ht, _, _, _, _, _, _, t4, t5, t6, t7⟩ := c2 (by omega) h2
        rw [ht] at hd
        cases hd
        exact ⟨t4, t5, t6, t7⟩
      · rw [c3 (by omega)] at hd
        cases hd
        exact absurd rfl hne
  · intro mode count h1 h2 h
    rcases h with h | h
    · exact h1 h.1
    · exact h2 h.1

/-- Witness of C20: a dequeue that reads two entries from a fifo of three in mode
LessThanHalfFull raises the interrupt once. -/
theorem C20_witness :
    WithinCapacity sampleQueued ∧
    ∃ s', DequeueFIFO sampleQueued = some (0x1000000001, s') ∧
      s'.cmd_fifo ≠ sampleQueued.cmd_fifo ∧ FifoStateUpdated sampleQueued s' ∧
      s'.arm9_irq.gxfifo = sampleQueued.arm9_irq.gxfifo + 1 := by
  have hw : WithinCapacity sampleQueued := by
    unfold WithinCapacity; decide
  have hne : (UpdateFifoState
      { sampleQueued with
        cmd_pipe := { data := [0x1000000002, 0x1000000003, 0x1000000004, 0x1000000005] }
        cmd_fifo := { data := [0x1000000006] } }).cmd_fifo ≠ sampleQueued.cmd_fifo := by
    intro h
    have := congrArg (fun q => q.data.length) h
    revert this
    decide
  exact ⟨hw, _, rfl, hne,
    (C20_update_fifo_state sampleQueued).2.2.1 _ _ hw rfl hne, by decide⟩

/-- C18 fails on the code: after `Reset`, the packed word 0x00000010 and its
parameter 2 leave the unpack state with no parameter outstanding, yet the next
word written, 0x11, is not unpacked.  The processor emits the command 0x00 taken
from the remainder of the old packed word and the word 0x11 is lost: the pipe ends
as (0x10, 2) followed by (0x00, 0), and no entry of command 0x11 is in a queue. -/
theorem C18_written_word_dropped :
    ∃ s1 s2 s3,
      Write_GXFIFO (Reset sampleProcessor) 0x10 = some s1 ∧
      Write_GXFIFO s1 2 = some s2 ∧ s2.unpack.params_left = 0 ∧
      Write_GXFIFO s2 0x11 = some s3 ∧
      k_cmd_num_params 0x11 = 0 ∧
      s3.cmd_pipe.data = [(0x10 <<< 32) ||| 2, (0x00 <<< 32) ||| 0] ∧
      s3.cmd_fifo.data = [] ∧
      (0x11 <<< 32) ||| 0 ∉ s3.cmd_pipe.data ∧ s3.unpack.params_left = 0 :=
  ⟨_, _, _, rfl, rfl, by decide, rfl, by decide, by decide, by decide, by decide, by decide⟩

/-! ### C29: bounds on the unpack state -/

/-- No command takes more than 32 parameters. -/
theorem k_cmd_num_params_le (c : Nat) : k_cmd_num_params c ≤ 32 := by
  unfold k_cmd_num_params
  by_cases h : c < 115
  · have hall : ∀ i < 115, k_cmd_num_params_table.getD i 0 ≤ 32 := by decide
    exact hall c h
  · rw [List.getD_eq_default _ _ (by simpa [k_cmd_num_params_table] using h)]
    omega

/-- The function `EnqueueFIFO` leaves the unpack state alone. -/
theorem EnqueueFIFO_unpack (s s' : CommandProcessor) (command param : Nat)
    (h : EnqueueFIFO s command param = some s') : s'.unpack = s.unpack := by
  have key : ∀ (r : Option CommandProcessor), (∀ t, r = some t → t.unpack = s.unpack) →
      (match r with
        | none => none
        | some t => if !t.gxstat.busy then some (ProcessCommands t) else some t) = some s' →
      s'.unpack = s.unpack := by
    intro r hr hm
    cases r with
    | none => cases hm
    | some t =>
      simp only at hm
      split_ifs at hm
      · simp only [Option.some.injEq] at hm; subst hm
        exact ((ProcessCommands_fields t).2.2.2.1).trans (hr t rfl)
      · simp only [Option.some.injEq] at hm; subst hm
        exact hr t rfl
  unfold EnqueueFIFO at h
  refine key _ ?_ h
  intro t ht
  split_ifs at ht
  · simp only [Option.some.injEq] at ht; subst ht; rfl
  · simp only [Option.some.injEq] at ht; subst ht
    exact (UpdateFifoState_fields _).2.2.1

/-- The refill loop of `DequeueFIFO` leaves the unpack state alone. -/
theorem refill_unpack : ∀ (n : Nat) (s : CommandProcessor),
    ( DequeueFIFO.refill n s).unpack = s.unpack := by
  intro n
  induction n with
  | zero => intro s; rfl
  | succ n ih =>
    intro s
    rw [DequeueFIFO.refill]
    split_ifs
    · rfl
    · exact ih _

/-- The function `DequeueFIFO` leaves the unpack state alone. -/
theorem DequeueFIFO_unpack (s : CommandProcessor) (r : Nat × CommandProcessor)
    (h : DequeueFIFO s = some r) : r.2.unpack = s.unpack := by
  unfold DequeueFIFO at h
  simp only at h
  split_ifs at h
  · simp only [Option.some.injEq] at h; subst h
    exact ((UpdateFifoState_fields _).2.2.1).trans (refill_unpack 2 _)
  · simp only [Option.some.injEq] at h; subst h
    rfl

theorem ExecuteCommand_loop_unpack : ∀ (n : Nat) (s s' : CommandProcessor),
    ExecuteCommand.loop n s = some s' → s'.unpack = s.unpack := by
  intro n
  induction n with
  | zero =>
    intro s s' h
    simp only [ExecuteCommand.loop, Option.some.injEq] at h
    rw [← h]
  | succ n ih =>
    intro s s' h
    rw [ExecuteCommand.loop] at h
    cases hd : DequeueFIFO s with
    | none => rw [hd] at h; cases h
    | some r =>
      rw [hd] at h
      exact (ih r.2 s' h).trans (DequeueFIFO_unpack s r hd)

/-- Firing a scheduled event leaves the unpack state alone. -/
theorem FireEvent_unpack (s s' : CommandProcessor) (h : FireEvent s = some s') :
    s'.unpack = s.unpack := by
  unfold FireEvent at h
  cases he : s.scheduler.events with
  | nil => rw [he] at h; cases h; rfl
  | cons e rest =>
    rw [he] at h
    simp only at h
    generalize hs0 : ({ s with scheduler := { timestamp_now := e.1, events := rest } } :
      CommandProcessor) = s0 at h
    have h0 : s0.unpack = s.unpack := by rw [← hs0]
    cases hx : ExecuteCommand s0 e.2 with
    | none => rw [hx] at h; cases h
    | some t =>
      rw [hx] at h
      cases h
      refine ((ProcessCommands_fields t).2.2.2.1).trans (Eq.trans ?_ h0)
      unfold ExecuteCommand at hx
      by_cases hk : k_cmd_num_params e.2 = 0
      · simp only [hk, if_true] at hx
        cases hd : DequeueFIFO s0 with
        | none => rw [hd] at hx; cases hx
        | some r =>
          rw [hd] at hx
          exact (ExecuteCommand_loop_unpack _ _ t hx).trans (DequeueFIFO_unpack s0 r hd)
      · simp only [hk, if_false] at hx
        exact ExecuteCommand_loop_unpack _ _ t hx

/-- The loop of `Write_GXFIFO`, entered with one to four commands left, ends within
the bounds. -/
theorem Write_GXFIFO_loop_bounds : ∀ (n : Nat) (s s' : CommandProcessor),
    Write_GXFIFO.loop n s = some s' → 1 ≤ s.unpack.cmds_left → s.unpack.cmds_left ≤ 4 →
    0 ≤ s.unpack.params_left → s.unpack.params_left ≤ 32 → UnpackBounds s'.unpack := by
  intro n
  induction n with
  | zero =>
    intro s s' h c1 c2 p1 p2
    simp only [Write_GXFIFO.loop, Option.some.injEq] at h
    subst h
    exact ⟨by omega, c2, p1, p2, fun _ => c1⟩
  | succ n ih =>
    intro s s' h c1 c2 p1 p2
    have hk := k_cmd_num_params_le (s.unpack.word % 256)
    rw [Write_GXFIFO.loop] at h
    simp only at h
    split_ifs at h with h1
    · simp only [Option.some.injEq] at h
      subst h
      refine ⟨?_, c2, ?_, ?_, fun _ => c1⟩ <;> simp only <;> omega
    · cases hq : EnqueueFIFO
          { s with unpack := { s.unpack with
              params_left := k_cmd_num_params (s.unpack.word % 256) } }
          (s.unpack.word % 256) 0 with
      | none => rw [hq] at h; cases h
      | some t =>
        rw [hq] at h
        have ht := EnqueueFIFO_unpack _ t _ _ hq
        have ht1 : t.unpack.cmds_left = s.unpack.cmds_left := by rw [ht]
        have ht2 : t.unpack.params_left = k_cmd_num_params (s.unpack.word % 256) := by rw [ht]
        have hz : t.unpack.params_left = 0 := by
          rw [ht2]
          simpa using h1
        simp only at h
        split_ifs at h with h2
        · simp only [Option.some.injEq] at h
          subst h
          refine ⟨?_, ?_, ?_, ?_, ?_⟩ <;> simp only <;> omega
        · simp only [not_or] at h2
          exact ih _ s' h (by simp only; omega) (by simp only; omega) (by simp only; omega)
            (by simp only; omega)

/-- A call of `Write_GXFIFO` that returns keeps the unpack state within the
bounds. -/
theorem Write_GXFIFO_bounds (s s' : CommandProcessor) (word : Nat)
    (h : Write_GXFIFO s word = some s') (hb : UnpackBounds s.unpack) :
    UnpackBounds s'.unpack := by
  obtain ⟨c1, c2, p1, p2, hpc⟩ := hb
  unfold Write_GXFIFO at h
  simp only at h
  split_ifs at h with h1 h2
  · cases hq : EnqueueFIFO s (s.unpack.word % 256) (word % 4294967296) with
    | none => rw [hq] at h; cases h
    | some t =>
      rw [hq] at h
      have ht := EnqueueFIFO_unpack s t _ _ hq
      have ht1 : t.unpack.cmds_left = s.unpack.cmds_left := by rw [ht]
      have ht2 : t.unpack.params_left = s.unpack.params_left := by rw [ht]
      have hc := hpc (by omega)
      simp only at h
      split_ifs at h with h3
      · simp only [Option.some.injEq] at h
        subst h
        refine ⟨?_, ?_, ?_, ?_, ?_⟩ <;> simp only <;> omega
      · simp only [Option.some.injEq] at h
        subst h
        refine ⟨?_, ?_, ?_, ?_, ?_⟩ <;> simp only <;> omega
  · exact Write_GXFIFO_loop_bounds 4 _ s' h (by simp) (by simp) (by simp only; omega)
      (by simp only; omega)
  · exact Write_GXFIFO_loop_bounds 4 _ s' h (by omega) c2 (by omega) (by omega)

/-- Every state reachable from `Reset` by writes to GXFIFO, writes to a command
port and fired events keeps the unpack state within the bounds. -/
theorem Reachable_bounds (s : CommandProcessor) (h : Reachable s) : UnpackBounds s.unpack := by
  induction h with
  | reset s => simp [UnpackBounds, Reset]
  | step s s' _ hs ih =>
    cases hs with
    | gxfifo word hw => exact Write_GXFIFO_bounds s s' word hw ih
    | cmdport address param hw =>
      rw [EnqueueFIFO_unpack s s' _ _ hw]; exact ih
    | fire hf => rw [FireEvent_unpack s s' hf]; exact ih

/-- A state reached by writes to GXFIFO alone is reachable. -/
theorem ReachableByWrites_reachable (s : CommandProcessor) (h : ReachableByWrites s) :
    Reachable s := by
  induction h with
  | reset s => exact Reachable.reset s
  | write s s' word _ hw ih => exact Reachable.step s s' ih (Step.gxfifo s s' word hw)

/-- C29: in every state reachable from `Reset` through calls of `Write_GXFIFO`
with arbitrary words (and also when writes to command ports and fired events are
interleaved), `0 ≤ cmds_left ≤ 4`, `0 ≤ params_left ≤ 32`, and
`params_left > 0` implies `cmds_left ≥ 1`. -/
theorem C29_unpack_bounds (s : CommandProcessor) :
    (ReachableByWrites s → UnpackBounds s.unpack) ∧ (Reachable s → UnpackBounds s.unpack) :=
  ⟨fun h => Reachable_bounds s (ReachableByWrites_reachable s h), Reachable_bounds s⟩

/-- Witness of C29: the processor after `Reset` and the write of the one-parameter
command 0x10, with four commands and one parameter pending. -/
theorem C29_witness :
    ReachableByWrites
      { Reset sampleProcessor with unpack := { word := 0x10, cmds_left := 4, params_left := 1 } } ∧
    UnpackBounds ({ Reset sampleProcessor with
      unpack := { word := 0x10, cmds_left := 4, params_left := 1 } } : CommandProcessor).unpack :=
  ⟨ReachableByWrites.write _ _ 0x10 (ReachableByWrites.reset sampleProcessor)
      (write_command sampleProcessor 0x10 (by decide) (by decide)),
    (C29_unpack_bounds _).1
      (ReachableByWrites.write _ _ 0x10 (ReachableByWrites.reset sampleProcessor)
        (write_command sampleProcessor 0x10 (by decide) (by decide)))⟩

/-! ### C30: the pipe followed by the fifo is one queue -/

/-- The function `EnqueueFIFO` appends its entry to the pipe followed by the fifo. -/
theorem EnqueueFIFO_queued (s s' : CommandProcessor) (command param : Nat)
    (hb : WithinCapacity s) (h : EnqueueFIFO s command param = some s') :
    queued s' = queued s ++ [queueEntry command param] := by
  rw [EnqueueFIFO_mod] at h
  have hq : param % 4294967296 < 2 ^ 32 := Nat.mod_lt _ (by norm_num)
  obtain ⟨c1, c2, c3⟩ := EnqueueFIFO_cases s (command % 256) (param % 4294967296)
    (Nat.mod_lt _ (by norm_num)) hq hb.1 hb.2
  have he : ((command % 256) <<< 32) ||| (param % 4294967296) = queueEntry command param :=
    entry_eq _ _ hq
  rw [he] at c1 c2
  unfold queued
  by_cases hc : s.cmd_fifo.Count = 0 ∧ s.cmd_pipe.Count < 4
  · obtain ⟨t, ht, h1, h2, _⟩ := c1 hc
    rw [ht] at h
    cases h
    have hnil : s.cmd_fifo.data = [] := List.length_eq_zero.mp hc.1
    rw [h1, h2, hnil]
    simp
  · by_cases hf : s.cmd_fifo.Count < 256
    · obtain ⟨t, ht, h1, h2, _⟩ := c2 hc hf
      rw [ht] at h
      cases h
      rw [h1, h2, List.append_assoc]
    · have hfull : s.cmd_fifo.Count = 256 := by have := hb.2; omega
      rw [c3 hc hfull] at h
      cases h

/-- The function `DequeueFIFO` returns the oldest entry of the pipe followed by the
fifo and leaves the others in their order. -/
theorem DequeueFIFO_queued (s : CommandProcessor) (r : Nat × CommandProcessor)
    (hb : WithinCapacity s) (h : DequeueFIFO s = some r) :
    queued s = r.1 :: queued r.2 := by
  obtain ⟨c1, c2, c3⟩ := DequeueFIFO_cases s hb.1
  unfold queued
  unfold FIFO.Count at c1 c2 c3
  cases hp : s.cmd_pipe.data with
  | nil =>
    rw [c1 (by rw [hp]; rfl)] at h
    cases h
  | cons x xs =>
    rw [hp] at c2 c3
    simp only [List.length_cons, List.headD_cons, List.tail_cons] at c2 c3
    by_cases h2 : xs.length + 1 - 1 ≤ 2
    · obtain ⟨t, ht, h3, h4, _⟩ := c2 (by omega) h2
      rw [ht] at h
      cases h
      simp only [h3, h4, List.append_assoc, List.take_append_drop, List.cons_append]
    · rw [c3 (by omega)] at h
      cases h
      simp only [List.cons_append]

/-- A run of queue operations that does not panic keeps both queues within their
capacity and returns the oldest entries first: what was held before followed by
what was enqueued is what was returned followed by what is still held. -/
theorem runQueueOps_queued : ∀ (ops : List QueueOp) (s : CommandProcessor)
    (r : List Nat × CommandProcessor), WithinCapacity s → runQueueOps ops s = some r →
    queued s ++ enqueuedEntries ops = r.1 ++ queued r.2 := by
  intro ops
  induction ops with
  | nil =>
    intro s r _ h
    simp only [runQueueOps, Option.some.injEq] at h
    subst h
    simp [enqueuedEntries]
  | cons op ops ih =>
    intro s r hb h
    cases op with
    | enqueue command param =>
      rw [runQueueOps] at h
      cases he : EnqueueFIFO s command param with
      | none => rw [he] at h; cases h
      | some t =>
        rw [he] at h
        have h1 := EnqueueFIFO_queued s t command param hb he
        have h2 := ih t r (EnqueueFIFO_within s t command param he hb) h
        rw [enqueuedEntries, ← h2, h1, List.append_assoc, List.singleton_append]
    | dequeue =>
      rw [runQueueOps] at h
      cases hd : DequeueFIFO s with
      | none => rw [hd] at h; cases h
      | some d =>
        rw [hd] at h
        simp only at h
        cases hq : runQueueOps ops d.2 with
        | none => rw [hq] at h; cases h
        | some q =>
          rw [hq] at h
          simp only [Option.some.injEq] at h
          subst h
          have h1 := DequeueFIFO_queued s d hb hd
          have h2 := ih d.2 q (DequeueFIFO_within s d.2 d.1 hd hb) hq
          rw [enqueuedEntries, h1, List.cons_append, h2, List.cons_append]

/-- The command and the parameter are recovered from an entry as its bits 39..32
and 31..0. -/
theorem queueEntry_decode (command param : Nat) :
    (queueEntry command param >>> 32) % 256 = command % 256 ∧
    queueEntry command param % 4294967296 = param % 4294967296 := by
  unfold queueEntry
  rw [Nat.shiftRight_eq_div_pow]
  omega

/-- C30: a sequence of `EnqueueFIFO` and `DequeueFIFO` calls that starts from
`Reset` and does not panic returns the enqueued entries in the order in which they
were enqueued, and the entries not yet returned are the pipe followed by the fifo;
each call of `EnqueueFIFO` appends its entry behind the pipe and the fifo, each
call of `DequeueFIFO` returns the oldest entry of the two; and the command and the
parameter passed to `EnqueueFIFO` are bits 39..32 and bits 31..0 of the entry. -/
theorem C30_queue_order :
    (∀ (ops : List QueueOp) (s : CommandProcessor) (r : List Nat × CommandProcessor),
      runQueueOps ops (Reset s) = some r → enqueuedEntries ops = r.1 ++ queued r.2) ∧
    (∀ (s s' : CommandProcessor) (command param : Nat), WithinCapacity s →
      EnqueueFIFO s command param = some s' →
      queued s' = queued s ++ [queueEntry command param]) ∧
    (∀ (s : CommandProcessor) (r : Nat × CommandProcessor), WithinCapacity s →
      DequeueFIFO s = some r → queued s = r.1 :: queued r.2) ∧
    (∀ command param, command < 256 → param < 4294967296 →
      (queueEntry command param >>> 32) % 256 = command ∧
      queueEntry command param % 4294967296 = param) := by
  refine ⟨?_, fun s s' c p hb h => EnqueueFIFO_queued s s' c p hb h,
    fun s r hb h => DequeueFIFO_queued s r hb h, ?_⟩
  · intro ops s r h
    have hb : WithinCapacity (Reset s) := by
      simp [WithinCapacity, Reset, FIFO.Reset, FIFO.Count]
    have := runQueueOps_queued ops (Reset s) r hb h
    simpa [queued, Reset, FIFO.Reset] using this
  · intro command param hc hp
    have := queueEntry_decode command param
    rw [Nat.mod_eq_of_lt hc, Nat.mod_eq_of_lt hp] at this
    exact this

/-- Witness of C30: after `Reset`, two entries are enqueued and one is dequeued;
the entry returned is the first one enqueued and the second one is still held. -/
theorem C30_witness :
    (∃ r, runQueueOps [QueueOp.enqueue 0x10 1, QueueOp.enqueue 0x11 2, QueueOp.dequeue]
        (Reset sampleProcessor) = some r ∧
      r.1 = [0x1000000001] ∧
      enqueuedEntries [QueueOp.enqueue 0x10 1, QueueOp.enqueue 0x11 2, QueueOp.dequeue] =
        r.1 ++ queued r.2) ∧
    ((0x10 : Nat) < 256 ∧ (1 : Nat) < 4294967296 ∧
      (queueEntry 0x10 1 >>> 32) % 256 = 0x10 ∧ queueEntry 0x10 1 % 4294967296 = 1) :=
  ⟨⟨_, rfl, rfl, C30_queue_order.1
      [QueueOp.enqueue 0x10 1, QueueOp.enqueue 0x11 2, QueueOp.dequeue] sampleProcessor _ rfl⟩,
    ⟨by decide, by decide, C30_queue_order.2.2.2 0x10 1 (by decide) (by decide)⟩⟩

/-! ### C31: no dequeue from an empty pipe -/

/-- With no event pending, `ProcessCommands` schedules at most one event, for a
command whose entries are all in the queues, and sets the busy flag with it. -/
theorem ProcessCommands_schedules (m : CommandProcessor) (he : m.scheduler.events = []) :
    (ProcessCommands m).scheduler.events = [] ∨
    ∃ c, (ProcessCommands m).scheduler.events = [(m.scheduler.timestamp_now + 1, c)] ∧
      (ProcessCommands m).gxstat.busy = true ∧
      entriesNeeded c ≤ m.cmd_pipe.Count + m.cmd_fifo.Count := by
  unfold ProcessCommands
  by_cases h1 : m.cmd_pipe.IsEmpty = true
  · left
    simp [h1, he]
  · by_cases h2 : m.cmd_pipe.Count + m.cmd_fifo.Count <
        k_cmd_num_params ((m.cmd_pipe.Peek >>> 32) % 256)
    · left
      simp [h1, h2, he]
    · right
      have hp : m.cmd_pipe.Count ≠ 0 := by
        simpa [FIFO.IsEmpty] using h1
      refine ⟨(m.cmd_pipe.Peek >>> 32) % 256, ?_, ?_, ?_⟩
      · simp [h1, h2, he, Scheduler.Add, Scheduler.insert]
      · simp [h1, h2]
      · unfold entriesNeeded
        omega

/-- What `EnqueueFIFO` does to the scheduler and to the busy flag: nothing while the
processor is busy, and otherwise what `ProcessCommands` does on the processor
with the new entry in its queues. -/
theorem EnqueueFIFO_schedules (s s' : CommandProcessor) (command param : Nat)
    (h : EnqueueFIFO s command param = some s') :
    (s.gxstat.busy = true → s'.scheduler = s.scheduler ∧ s'.gxstat.busy = true) ∧
    (s.gxstat.busy = false →
      ∃ m, m.scheduler = s.scheduler ∧ m.cmd_pipe = s'.cmd_pipe ∧ m.cmd_fifo = s'.cmd_fifo ∧
        s' = ProcessCommands m) := by
  have key : ∀ (r : Option CommandProcessor),
      (∀ t, r = some t → t.scheduler = s.scheduler ∧ t.gxstat.busy = s.gxstat.busy) →
      (match r with
        | none => none
        | some t => if !t.gxstat.busy then some (ProcessCommands t) else some t) = some s' →
      (s.gxstat.busy = true → s'.scheduler = s.scheduler ∧ s'.gxstat.busy = true) ∧
      (s.gxstat.busy = false →
        ∃ m, m.scheduler = s.scheduler ∧ m.cmd_pipe = s'.cmd_pipe ∧
          m.cmd_fifo = s'.cmd_fifo ∧ s' = ProcessCommands m) := by
    intro r hr hm
    cases r with
    | none => cases hm
    | some t =>
      obtain ⟨ht1, ht2⟩ := hr t rfl
      simp only at hm
      by_cases hb : t.gxstat.busy = true
      · simp only [hb, Bool.not_true, Bool.false_eq_true, if_false, Option.some.injEq] at hm
        subst hm
        refine ⟨fun _ => ⟨ht1, hb⟩, ?_⟩
        intro hs
        rw [ht2, hs] at hb
        exact absurd hb (by decide)
      · have hb' : t.gxstat.busy = false := by simpa using hb
        simp only [hb', Bool.not_false, if_true, Option.some.injEq] at hm
        subst hm
        refine ⟨?_, fun _ => ⟨t, ht1, ?_, ?_, rfl⟩⟩
        · intro hs
          rw [ht2, hs] at hb'
          exact absurd hb' (by decide)
        · exact ((ProcessCommands_fields t).1).symm
        · exact ((ProcessCommands_fields t).2.1).symm
  unfold EnqueueFIFO at h
  refine key _ ?_ h
  intro t ht
  split_ifs at ht
  · simp only [Option.some.injEq] at ht; subst ht; exact ⟨rfl, rfl⟩
  · simp only [Option.some.injEq] at ht; subst ht
    exact ⟨(UpdateFifoState_fields _).2.2.2.1, (UpdateFifoState_fields _).2.2.2.2.1⟩

/-- The number of entries in the two queues. -/
theorem queued_length (s : CommandProcessor) :
    (queued s).length = s.cmd_pipe.Count + s.cmd_fifo.Count := by
  simp [queued, FIFO.Count]

/-- The invariant does not mention the unpack state. -/
theorem PipeInvariant_congr (s t : CommandProcessor) (h1 : t.scheduler = s.scheduler)
    (h2 : t.gxstat.busy = s.gxstat.busy) (h3 : t.cmd_pipe = s.cmd_pipe)
    (h4 : t.cmd_fifo = s.cmd_fifo) (h : PipeInvariant s) : PipeInvariant t := by
  unfold PipeInvariant WithinCapacity at *
  rw [h1, h2, h3, h4]
  exact h

/-- The function `EnqueueFIFO` keeps the invariant. -/
theorem EnqueueFIFO_invariant (s s' : CommandProcessor) (command param : Nat)
    (h : EnqueueFIFO s command param = some s') (hi : PipeInvariant s) : PipeInvariant s' := by
  obtain ⟨hw, h3, hev⟩ := hi
  have hw' := EnqueueFIFO_within s s' command param h hw
  have hq := congrArg List.length (EnqueueFIFO_queued s s' command param hw h)
  rw [List.length_append, List.length_singleton, queued_length, queued_length] at hq
  obtain ⟨sb, sf⟩ := EnqueueFIFO_schedules s s' command param h
  have hpipe : s.cmd_fifo.Count ≠ 0 ∨ s'.cmd_fifo.Count ≠ 0 → 3 ≤ s'.cmd_pipe.Count ∧
      (s'.cmd_fifo.Count ≠ 0 → 3 ≤ s'.cmd_pipe.Count) := by
    have h' := h
    rw [EnqueueFIFO_mod] at h'
    obtain ⟨c1, c2, c3⟩ := EnqueueFIFO_cases s (command % 256) (param % 4294967296)
      (Nat.mod_lt _ (by norm_num)) (Nat.mod_lt _ (by norm_num)) hw.1 hw.2
    intro hne
    by_cases hc : s.cmd_fifo.Count = 0 ∧ s.cmd_pipe.Count < 4
    · obtain ⟨t, ht, _, e2, _⟩ := c1 hc
      rw [ht] at h'
      cases h'
      rw [e2] at hne
      omega
    · by_cases hf : s.cmd_fifo.Count < 256
      · obtain ⟨t, ht, e1, _⟩ := c2 hc hf
        rw [ht] at h'
        cases h'
        rw [e1]
        have : 3 ≤ s.cmd_pipe.Count := by
          by_cases h0 : s.cmd_fifo.Count = 0
          · omega
          · exact h3 h0
        exact ⟨this, fun _ => this⟩
      · have hfull : s.cmd_fifo.Count = 256 := by have := hw.2; omega
        rw [c3 hc hfull] at h'
        cases h'
  have h3' : s'.cmd_fifo.Count ≠ 0 → 3 ≤ s'.cmd_pipe.Count :=
    fun hne => (hpipe (Or.inr hne)).1
  refine ⟨hw', h3', ?_⟩
  cases hb : s.gxstat.busy
  · obtain ⟨m, m1, m2, m3, rfl⟩ := sf hb
    have hem : m.scheduler.events = [] := by
      rcases hev with e | ⟨t, c, _, hbusy, _⟩
      · rw [m1]; exact e
      · rw [hb] at hbusy; exact absurd hbusy (by decide)
    rcases ProcessCommands_schedules m hem with e | ⟨c, e1, e2, e3⟩
    · exact Or.inl e
    · right
      refine ⟨_, c, e1, e2, ?_⟩
      rw [← m2, ← m3]
      exact e3
  · obtain ⟨e1, e2⟩ := sb hb
    rcases hev with e | ⟨t, c, e3, _, e5⟩
    · left; rw [e1]; exact e
    · right
      exact ⟨t, c, by rw [e1]; exact e3, e2, by omega⟩

/-- With an entry in the queues `DequeueFIFO` returns: the pipe is not empty, one
entry leaves the queues, and the invariant on the queues is kept. -/
theorem DequeueFIFO_returns (s : CommandProcessor) (hw : WithinCapacity s)
    (h3 : s.cmd_fifo.Count ≠ 0 → 3 ≤ s.cmd_pipe.Count)
    (h1 : 1 ≤ s.cmd_pipe.Count + s.cmd_fifo.Count) :
    ∃ r, DequeueFIFO s = some r ∧ WithinCapacity r.2 ∧
      (r.2.cmd_fifo.Count ≠ 0 → 3 ≤ r.2.cmd_pipe.Count) ∧
      r.2.cmd_pipe.Count + r.2.cmd_fifo.Count + 1 = s.cmd_pipe.Count + s.cmd_fifo.Count ∧
      r.2.scheduler = s.scheduler ∧ r.2.gxstat.busy = s.gxstat.busy := by
  have hp : 0 < s.cmd_pipe.Count := by
    by_contra hc
    have : s.cmd_fifo.Count ≠ 0 := by omega
    have := h3 this
    omega
  obtain ⟨_, c2, c3⟩ := DequeueFIFO_cases s hw.1
  have hret : ∃ r, DequeueFIFO s = some r ∧
      (r.2.cmd_fifo.Count ≠ 0 → 3 ≤ r.2.cmd_pipe.Count) ∧
      r.2.scheduler = s.scheduler ∧ r.2.gxstat.busy = s.gxstat.busy := by
    by_cases h2 : s.cmd_pipe.Count - 1 ≤ 2
    · obtain ⟨t, ht, e1, e2, _, e4, e5, _⟩ := c2 hp h2
      refine ⟨_, ht, ?_, e4, e5⟩
      unfold FIFO.Count at *
      simp only [e1, e2, List.length_append, List.length_tail, List.length_take,
        List.length_drop]
      intro hne
      have := h3 (by omega)
      omega
    · refine ⟨_, c3 (by omega), ?_, rfl, rfl⟩
      unfold FIFO.Count at *
      simp only [List.length_tail]
      intro _
      omega
  obtain ⟨r, hr, r3, r4, r5⟩ := hret
  have hq := congrArg List.length (DequeueFIFO_queued s r hw hr)
  rw [List.length_cons, queued_length, queued_length] at hq
  exact ⟨r, hr, DequeueFIFO_within s r.2 r.1 hr hw, r3, by omega, r4, r5⟩

/-- The loop of `ExecuteCommand` returns when the queues hold an entry for each of
its rounds. -/
theorem ExecuteCommand_loop_returns : ∀ (n : Nat) (s : CommandProcessor), WithinCapacity s →
    (s.cmd_fifo.Count ≠ 0 → 3 ≤ s.cmd_pipe.Count) →
    n ≤ s.cmd_pipe.Count + s.cmd_fifo.Count →
    ∃ s', ExecuteCommand.loop n s = some s' ∧ WithinCapacity s' ∧
      (s'.cmd_fifo.Count ≠ 0 → 3 ≤ s'.cmd_pipe.Count) ∧
      s'.scheduler = s.scheduler := by
  intro n
  induction n with
  | zero =>
    intro s hw h3 _
    exact ⟨s, rfl, hw, h3, rfl⟩
  | succ n ih =>
    intro s hw h3 hn
    obtain ⟨r, hr, r1, r2, r3, r4, _⟩ := DequeueFIFO_returns s hw h3 (by omega)
    obtain ⟨s', hs', t1, t2, t3⟩ := ih r.2 r1 r2 (by omega)
    refine ⟨s', ?_, t1, t2, t3.trans r4⟩
    rw [ExecuteCommand.loop, hr]
    exact hs'

/-- The function `ExecuteCommand` returns when the queues hold the entries the
command needs. -/
theorem ExecuteCommand_returns (s : CommandProcessor) (command : Nat) (hw : WithinCapacity s)
    (h3 : s.cmd_fifo.Count ≠ 0 → 3 ≤ s.cmd_pipe.Count)
    (hn : entriesNeeded command ≤ s.cmd_pipe.Count + s.cmd_fifo.Count) :
    ∃ s', ExecuteCommand s command = some s' ∧ WithinCapacity s' ∧
      (s'.cmd_fifo.Count ≠ 0 → 3 ≤ s'.cmd_pipe.Count) ∧
      s'.scheduler = s.scheduler := by
  unfold entriesNeeded at hn
  unfold ExecuteCommand
  by_cases hk : k_cmd_num_params command = 0
  · obtain ⟨r, hr, r1, r2, _, r4, _⟩ := DequeueFIFO_returns s hw h3 (by omega)
    simp only [hk, if_true, hr, ExecuteCommand.loop]
    exact ⟨r.2, rfl, r1, r2, r4⟩
  · simp only [hk, if_false]
    exact ExecuteCommand_loop_returns _ s hw h3 (by omega)

/-- Under the invariant the firing of the pending event returns and keeps the
invariant. -/
theorem FireEvent_invariant (s : CommandProcessor) (hi : PipeInvariant s) :
    ∃ s', FireEvent s = some s' ∧ PipeInvariant s' := by
  obtain ⟨hw, h3, hev⟩ := hi
  rcases hev with e | ⟨t, c, e1, _, e3⟩
  · refine ⟨s, ?_, hw, h3, Or.inl e⟩
    unfold FireEvent
    rw [e]
  · obtain ⟨s1, x1, x2, x3, x4⟩ := ExecuteCommand_returns
      { s with scheduler := { timestamp_now := t, events := [] } } c hw h3 e3
    have hf := ProcessCommands_fields s1
    refine ⟨ProcessCommands s1, ?_, ?_, ?_, ?_⟩
    · unfold FireEvent
      rw [e1]
      simp only [x1]
    · unfold WithinCapacity at *
      rw [hf.1, hf.2.1]
      exact x2
    · rw [hf.1, hf.2.1]
      exact x3
    · have he : s1.scheduler.events = [] := by rw [x4]
      rcases ProcessCommands_schedules s1 he with e | ⟨c', p1, p2, p3⟩
      · exact Or.inl e
      · right
        refine ⟨_, c', p1, p2, ?_⟩
        rw [hf.1, hf.2.1]
        exact p3

/-- The loop of `Write_GXFIFO` keeps the invariant. -/
theorem Write_GXFIFO_loop_invariant : ∀ (n : Nat) (s s' : CommandProcessor),
    Write_GXFIFO.loop n s = some s' → PipeInvariant s → PipeInvariant s' := by
  intro n
  induction n with
  | zero =>
    intro s s' h hb
    simp only [Write_GXFIFO.loop, Option.some.injEq] at h
    rw [← h]; exact hb
  | succ n ih =>
    intro s s' h hb
    rw [Write_GXFIFO.loop] at h
    simp only at h
    split_ifs at h with h1
    · cases h
      exact PipeInvariant_congr s _ rfl rfl rfl rfl hb
    · cases hq : EnqueueFIFO
          { s with unpack := { s.unpack with
              params_left := k_cmd_num_params (s.unpack.word % 256) } }
          (s.unpack.word % 256) 0 with
      | none => rw [hq] at h; cases h
      | some t =>
        rw [hq] at h
        have ht : PipeInvariant t :=
          EnqueueFIFO_invariant _ t _ _ hq (PipeInvariant_congr s _ rfl rfl rfl rfl hb)
        simp only at h
        split_ifs at h
        · cases h
          exact PipeInvariant_congr t _ rfl rfl rfl rfl ht
        · exact ih _ s' h (PipeInvariant_congr t _ rfl rfl rfl rfl ht)

/-- The function `Write_GXFIFO` keeps the invariant. -/
theorem Write_GXFIFO_invariant (s s' : CommandProcessor) (word : Nat)
    (h : Write_GXFIFO s word = some s') (hb : PipeInvariant s) : PipeInvariant s' := by
  unfold Write_GXFIFO at h
  simp only at h
  split_ifs at h with h1 h2
  · cases hq : EnqueueFIFO s (s.unpack.word % 256) (word % 4294967296) with
    | none => rw [hq] at h; cases h
    | some t =>
      rw [hq] at h
      have ht : PipeInvariant t := EnqueueFIFO_invariant _ t _ _ hq hb
      simp only at h
      split_ifs at h <;> (cases h; exact PipeInvariant_congr t _ rfl rfl rfl rfl ht)
  · exact Write_GXFIFO_loop_invariant 4 _ s' h (PipeInvariant_congr s _ rfl rfl rfl rfl hb)
  · exact Write_GXFIFO_loop_invariant 4 _ s' h hb

/-- Every state reachable from a `Reset` without a pending event satisfies the
invariant. -/
theorem ReachableFromIdle_invariant (s : CommandProcessor) (h : ReachableFromIdle s) :
    PipeInvariant s := by
  induction h with
  | reset s he =>
    refine ⟨?_, ?_, Or.inl he⟩
    · simp [WithinCapacity, Reset, FIFO.Reset, FIFO.Count]
    · intro hne
      exact absurd rfl hne
  | step s s' _ hs ih =>
    cases hs with
    | gxfifo word hw => exact Write_GXFIFO_invariant s s' word hw ih
    | cmdport address param hw => exact EnqueueFIFO_invariant s s' _ _ hw ih
    | fire hf =>
      obtain ⟨t, ht, hi⟩ := FireEvent_invariant s ih
      rw [ht] at hf
      cases hf
      exact hi

/-- The proviso on `Reset` is needed: a `Reset` performed while an event is pending
empties the queues under it, and the firing of that event then panics. -/
theorem FireEvent_after_reset_with_pending_event :
    FireEvent (Reset { sampleProcessor with
      scheduler := { timestamp_now := 100, events := [(101, 0x10)] } }) = none := rfl

/-- C31: in every state reached from a `Reset` performed while no event is pending,
by any sequence of `Write_GXFIFO` and `Write_GXCMDPORT` calls and firings of the
events the processor scheduled, a non-empty fifo goes with a pipe of at least three
entries; at most one event is pending, and when it is pending for a command with
`p` parameters the pipe and the fifo together hold at least `max(1, p)` entries, so
that `ExecuteCommand` on that command returns without reaching the panic of
`DequeueFIFO`; and the firing of the event returns. -/
theorem C31_no_dequeue_from_empty_pipe (s : CommandProcessor) (h : ReachableFromIdle s) :
    (s.cmd_fifo.Count ≠ 0 → 3 ≤ s.cmd_pipe.Count) ∧
    (∀ t c rest, s.scheduler.events = (t, c) :: rest →
      rest = [] ∧
      max 1 (k_cmd_num_params c) ≤ s.cmd_pipe.Count + s.cmd_fifo.Count ∧
      ∃ s1, ExecuteCommand { s with scheduler := { timestamp_now := t, events := rest } } c =
        some s1) ∧
    (∃ s', FireEvent s = some s') := by
  obtain ⟨hw, h3, hev⟩ := ReachableFromIdle_invariant s h
  refine ⟨h3, ?_, ?_⟩
  · intro t c rest he
    rcases hev with e | ⟨t', c', e1, _, e3⟩
    · rw [e] at he; cases he
    · rw [e1] at he
      cases he
      obtain ⟨s1, x1, _⟩ := ExecuteCommand_returns
        { s with scheduler := { timestamp_now := t, events := [] } } c hw h3 e3
      exact ⟨rfl, e3, s1, x1⟩
  · obtain ⟨s', hs', _⟩ := FireEvent_invariant s ⟨hw, h3, hev⟩
    exact ⟨s', hs'⟩

/-- Witness of C31: after `Reset` the command 0x10 is written with its parameter
through its command port (address 0x440); its event is pending and fires. -/
theorem C31_witness :
    ∃ s', Write_GXCMDPORT (Reset sampleProcessor) 0x440 5 = some s' ∧
      ReachableFromIdle s' ∧ s'.scheduler.events = [(101, 0x10)] ∧
      max 1 (k_cmd_num_params 0x10) ≤ s'.cmd_pipe.Count + s'.cmd_fifo.Count ∧
      ∃ s'', FireEvent s' = some s'' :=
  ⟨_, rfl,
    ReachableFromIdle.step _ _ (ReachableFromIdle.reset sampleProcessor rfl)
      (Step.cmdport _ _ 0x440 5 rfl),
    rfl,
    ((C31_no_dequeue_from_empty_pipe _
      (ReachableFromIdle.step _ _ (ReachableFromIdle.reset sampleProcessor rfl)
        (Step.cmdport _ _ 0x440 5 rfl))).2.1 101 0x10 [] rfl).2.1,
    (C31_no_dequeue_from_empty_pipe _
      (ReachableFromIdle.step _ _ (ReachableFromIdle.reset sampleProcessor rfl)
        (Step.cmdport _ _ 0x440 5 rfl))).2.2⟩

end dual.nds.gpu
